import Mathlib

/-!
# Soar lexer, right-hand-side values and the `sp` command

A shallow embedding of `Core/SoarKernel/src/lexer.cpp`, `Core/SoarKernel/src/rhs.cpp`
and `Core/CLI/src/cli_sp.cpp`, followed by theorems about these definitions.

Conventions of the embedding

* A C `char` is an 8-bit signed value; `int` variables holding characters
  (`current_char`) are `Int`, with `EOF = -1`.  Bytes `0 .. 127` are ASCII.
* The input buffer `lexer_input_string` is `Option (List Int)`: `none` is the null
  pointer, `some l` points at the bytes `l`, which are followed by the terminating NUL.
* `lexeme.string` together with `lexeme.length` is the list of the first `length`
  characters of the buffer; `finish` (writing the terminating NUL) is the identity and
  reading position `i >= length` of the text yields NUL.  The list has no bound, whereas
  the buffer holds `MAX_LEXEME_LENGTH` characters and the NUL: a state whose text is
  longer than `MAX_LEXEME_LENGTH` stands for a run in which the code has written past the
  end of the buffer, and nothing is said there of what the code holds.  The theorems on
  the text or the kind of a lexeme read from a text of any length assume that it fits.
* Loops are run by the combinator `loop` from an explicit amount of fuel; every loop
  of the lexer is given the fuel `pending a + 1`, and the section on termination
  proves that this fuel is never exhausted.  The call of `get_lexeme` at the end of
  `lex_unknown` is a pass of the loop of `get_lexeme`; in the source it is a nested
  activation, and `get_lexeme_frames` counts the activations that are on the stack.
* The C locale is assumed for `isdigit`, `isalpha`, `isalnum`, `isspace`, `toupper`.
* The counter `parentheses_level`, an `int` in C, is an unbounded integer: a depth above
  `INT_MAX` stands for the overflow of the `int`, which C leaves undefined.
* An action is the record of all the fields of `struct action_struct` that `rhs.cpp`
  reads, whatever its `type`.  `rhs_value_to_symbol` gives `none` for a slot that does not
  point to an `rhs_symbol`; `actions_are_equal_with_bindings_read` is the function with
  these reads checked, where the read through such a slot has no result.
-/

namespace Soar

/-! ## Characters -/

/-- The value of `EOF` from `<stdio.h>`. -/
def EOF : Int := -1

/-- Conversion of an `int` to `char` (8-bit, signed): `char(x)`. -/
def to_char (x : Int) : Int := (x + 128) % 256 - 128

/-- Conversion to `unsigned char`, used to index the 256-entry tables:
`static_cast<unsigned char>(x)`. -/
def uchar (x : Int) : Int := x % 256

/-- The C library `isdigit` (C locale). -/
def isdigit (c : Int) : Bool := decide (48 ≤ c) && decide (c ≤ 57)

/-- The C library `isalpha` (C locale). -/
def isalpha (c : Int) : Bool :=
  (decide (65 ≤ c) && decide (c ≤ 90)) || (decide (97 ≤ c) && decide (c ≤ 122))

/-- The C library `isalnum` (C locale). -/
def isalnum (c : Int) : Bool := isalpha c || isdigit c

/-- The C library `isspace` (C locale): space, `\t`, `\n`, `\v`, `\f`, `\r`. -/
def isspace (c : Int) : Bool := decide (c = 32) || (decide (9 ≤ c) && decide (c ≤ 13))

/-- The C library `toupper` (C locale). -/
def toupper (c : Int) : Int := if decide (97 ≤ c) && decide (c ≤ 122) then c - 32 else c

/-- The string `extra_constituents` of `init_lexer`, as character codes: the characters
`$ % & * + - / : < = > ? _ @`. -/
def extra_constituents : List Int :=
  [36, 37, 38, 42, 43, 45, 47, 58, 60, 61, 62, 63, 95, 64]

/-- The table `constituent_char[i]` as filled by `init_lexer`, for an index `0 <= i < 256`:
`strchr(extra_constituents, i) != 0 && i != 0`, otherwise `isalnum(i)`. -/
def constituent_char (i : Int) : Bool :=
  if (decide (i ∈ extra_constituents) || decide (i = 0)) && decide (i ≠ 0) then true
  else isalnum i

/-- The table `whitespace[i]` as filled by `init_lexer`. -/
def whitespace (i : Int) : Bool := isspace i

/-- The table `number_starters[i]` as filled by `init_lexer`. -/
def number_starters (i : Int) : Bool :=
  if i = 43 then true else if i = 45 then true else if i = 46 then true else isdigit i

/-! ## Platform -/

/-- Modelled from the spec: what `lexer.cpp` takes from headers that are not among the
sources ("maximum lexeme length is a fixed bound", "the longest multi-byte special
token"), and from the C library: the constants `MAX_LEXEME_LENGTH` and `LENGTH_OF_LONGEST_SPECIAL_LEXEME` of
`lexer.h`, the range of `long`, the largest value `INT_MAX` of an `int`, the largest value
of the type of `lexeme.id_number`, and the library function `strtod`.  A finite `double` is a dyadic rational, hence a
finite decimal: `strtod s` is `((m, e), err)` for the value `m * 10 ^ e` and
`err = true` when the call leaves `errno` set. -/
structure Platform where
  MAX_LEXEME_LENGTH : Nat
  LENGTH_OF_LONGEST_SPECIAL_LEXEME : Nat
  LONG_MIN : Int
  LONG_MAX : Int
  INT_MAX : Int
  ID_NUMBER_MAX : Nat
  strtod : List Int → (Int × Int) × Bool

/-! ## Lexemes and the agent -/

/-- Modelled from the spec: `enum lexer_token_type` of `lexer.h`, which is not among the
sources; the kinds that `lexer.cpp` assigns, under the names it uses. -/
inductive lexeme_type
  | EOF_LEXEME
  | IDENTIFIER_LEXEME
  | VARIABLE_LEXEME
  | STR_CONSTANT_LEXEME
  | INT_CONSTANT_LEXEME
  | FLOAT_CONSTANT_LEXEME
  | L_PAREN_LEXEME
  | R_PAREN_LEXEME
  | L_BRACE_LEXEME
  | R_BRACE_LEXEME
  | PLUS_LEXEME
  | MINUS_LEXEME
  | RIGHT_ARROW_LEXEME
  | GREATER_LEXEME
  | LESS_LEXEME
  | EQUAL_LEXEME
  | LESS_EQUAL_LEXEME
  | GREATER_EQUAL_LEXEME
  | NOT_EQUAL_LEXEME
  | LESS_EQUAL_GREATER_LEXEME
  | LESS_LESS_LEXEME
  | GREATER_GREATER_LEXEME
  | AMPERSAND_LEXEME
  | AT_LEXEME
  | TILDE_LEXEME
  | UP_ARROW_LEXEME
  | EXCLAMATION_POINT_LEXEME
  | COMMA_LEXEME
  | PERIOD_LEXEME
  | QUOTED_STRING_LEXEME
  deriving DecidableEq, Repr

open lexeme_type

/-- The messages the lexer sends to `print` (and `xml_generate_warning`). -/
inductive diagnostic
  | bad_integer
  | bad_floating_point_number
  | bad_number_for_identifier
  | suspicious_string_constant (s : List Int)
  | xml_suspicious_string_constant
  | vbar_without_closing
  | quote_without_closing
  deriving DecidableEq, Repr

/-- Modelled from the spec: `struct lexeme_info` of `lexer.h`, which is not among the
sources; the fields that `lexer.cpp` uses.  `string` holds the first `length` characters
of the buffer. -/
structure lexeme_info where
  type : lexeme_type
  string : List Int
  int_val : Int
  float_val : Int × Int
  id_letter : Int
  id_number : Nat
  deriving DecidableEq, Repr

/-- The value of `lexeme.length`. -/
def lexeme_info.length (l : lexeme_info) : Nat := l.string.length

/-- Modelled from the spec: the part of `agent` (`agent.h`, not among the sources) that
the lexer reads or writes, the "lexer state".  `printed` collects the messages sent to
`print`, and `print_warnings` is `sysparams[PRINT_WARNINGS_SYSPARAM]`. -/
structure agent where
  lexer_input_string : Option (List Int)
  current_char : Int
  lexeme : lexeme_info
  parentheses_level : Int
  allow_ids : Bool
  print_warnings : Bool
  printed : List diagnostic
  deriving DecidableEq, Repr

/-- The effect of `print(thisAgent, ...)`. -/
def print (a : agent) (d : diagnostic) : agent := { a with printed := a.printed ++ [d] }

/-- The procedure `get_next_char`. -/
def get_next_char (a : agent) : agent :=
  if a.current_char = EOF then a
  else
    match a.lexer_input_string with
    | none => { a with current_char := EOF }
    | some [] => { a with lexer_input_string := none, current_char := EOF }
    | some (c :: rest) =>
      if to_char c = 0 then { a with lexer_input_string := none, current_char := EOF }
      else { a with lexer_input_string := some rest, current_char := to_char c }

/-! ## Loops -/

/-- The outcome of one pass through a loop body. -/
inductive loop_step (σ : Type)
  | next (s : σ)
  | done (s : σ)

/-- Run a loop whose body is `step`, for at most `fuel` passes; `none` when the fuel
runs out before the loop is left. -/
def loop {σ : Type} (step : σ → loop_step σ) : Nat → σ → Option σ
  | 0, _ => none
  | fuel + 1, s =>
    match step s with
    | loop_step.done r => some r
    | loop_step.next s1 => loop step fuel s1

/-- Run a loop with the fuel `μ s + 1`. -/
def run {σ : Type} (step : σ → loop_step σ) (μ : σ → Nat) (s : σ) : σ :=
  (loop step (μ s + 1) s).getD s

/-- The number of characters still to be delivered by `get_next_char`, the current
one included. -/
def pending (a : agent) : Nat :=
  if a.current_char = EOF then 0 else 1 + (a.lexer_input_string.getD []).length

/-! ## Lexer utility routines -/

/-- The assignment `lexeme.string[lexeme.length++] = char(current_char)`.  The source
makes it without comparing `lexeme.length` with the size of the buffer; a text that has
grown longer than `MAX_LEXEME_LENGTH` stands for a write past the end of the buffer. -/
def store (a : agent) : agent :=
  { a with lexeme := { a.lexeme with string := a.lexeme.string ++ [to_char a.current_char] } }

/-- The procedure `store_and_advance`. -/
def store_and_advance (a : agent) : agent := get_next_char (store a)

/-- The procedure `finish`: `lexeme.string[lexeme.length] = 0`. -/
def finish (a : agent) : agent := a

/-- One pass of the `while` loop of `read_constituent_string`. -/
def read_constituent_string_step (a : agent) : loop_step agent :=
  if decide (a.current_char ≠ EOF) && constituent_char (uchar a.current_char) then
    loop_step.next (store_and_advance a)
  else loop_step.done a

/-- The procedure `read_constituent_string`. -/
def read_constituent_string (a : agent) : agent :=
  finish (run read_constituent_string_step pending a)

/-- One pass of the loop `while (isdigit(current_char)) store_and_advance`. -/
def read_digits_step (a : agent) : loop_step agent :=
  if isdigit a.current_char then loop_step.next (store_and_advance a)
  else loop_step.done a

/-- The procedure `read_rest_of_floating_point_number`. -/
def read_rest_of_floating_point_number (a : agent) : agent :=
  let a := store_and_advance a
  let a := run read_digits_step pending a
  let a :=
    if decide (a.current_char = 101) || decide (a.current_char = 69) then
      let a := store_and_advance a
      let a :=
        if decide (a.current_char = 43) || decide (a.current_char = 45) then store_and_advance a
        else a
      run read_digits_step pending a
    else a
  finish a

/-! ## Possible symbol types of a string -/

/-- The character `s[i]` of a NUL-terminated string whose characters before the NUL
are `s`. -/
def char_at (s : List Int) (i : Nat) : Int := s.getD i 0

/-- The loop `while (isdigit(*ch)) ch++`, from the position `ch`: the position
reached. -/
def skip_digits (s : List Int) (ch : Nat) : Nat :=
  ch + ((s.drop ch).takeWhile isdigit).length

/-- The loop `for (ch = s; *ch != 0; ch++) if (!constituent_char[*ch]) return`:
`false` when the `return` is taken. -/
def all_constituent : List Int → Bool
  | [] => true
  | c :: cs =>
    if c = 0 then true
    else if !constituent_char (uchar c) then false
    else all_constituent cs

/-- The loop computing `all_alphanum`. -/
def all_alphanum : List Int → Bool
  | [] => true
  | c :: cs =>
    if c = 0 then true
    else if !isalnum c then false
    else all_alphanum cs

/-- The six results of `determine_possible_symbol_types_for_string`. -/
structure symbol_types where
  possible_id : Bool
  possible_var : Bool
  possible_sc : Bool
  possible_ic : Bool
  possible_fc : Bool
  rereadable : Bool
  deriving DecidableEq, Repr

/-- The first part of `determine_possible_symbol_types_for_string`, "check if it's an
integer or floating point number": the values given to `possible_ic` and `possible_fc`.
The read `*(ch - 1)` happens only after `*ch == 0` was found true, when `ch` is not the
start of the string. -/
def possible_number (s : List Int) : Bool × Bool :=
  if number_starters (uchar (char_at s 0)) then
    let ch := 0
    let ch := if decide (char_at s ch = 43) || decide (char_at s ch = 45) then ch + 1 else ch
    let ch := skip_digits s ch
    let possible_ic := decide (char_at s ch = 0) && isdigit (char_at s (ch - 1))
    let possible_fc :=
      if char_at s ch = 46 then
        let ch := ch + 1
        let ch := skip_digits s ch
        let ch :=
          if decide (char_at s ch = 101) || decide (char_at s ch = 69) then
            let ch := ch + 1
            let ch :=
              if decide (char_at s ch = 43) || decide (char_at s ch = 45) then ch + 1 else ch
            skip_digits s ch
          else ch
        decide (char_at s ch = 0)
      else false
    (possible_ic, possible_fc)
  else (false, false)

/-- The last part of `determine_possible_symbol_types_for_string`, "check if it's an
identifier". -/
def possible_identifier (s : List Int) : Bool :=
  let ch := if char_at s 0 = 64 then 1 else 0
  if isalpha (char_at s ch) && decide (char_at s (ch + 1) ≠ 0) then
    let ch := skip_digits s (ch + 1)
    decide (char_at s ch = 0)
  else false

/-- The procedure `determine_possible_symbol_types_for_string`. -/
def determine_possible_symbol_types_for_string (P : Platform) (s : List Int)
    (length_of_s : Nat) : symbol_types :=
  let num := possible_number s
  if !all_constituent s then
    { possible_id := false, possible_var := false, possible_sc := false,
      possible_ic := num.1, possible_fc := num.2, rereadable := false }
  else
    { possible_id := possible_identifier s,
      possible_var := decide (char_at s 0 = 60) && decide (char_at s (length_of_s - 1) = 62),
      possible_sc := true,
      possible_ic := num.1,
      possible_fc := num.2,
      rereadable := all_alphanum s
        || decide (length_of_s > P.LENGTH_OF_LONGEST_SPECIAL_LEXEME)
        || (decide (length_of_s = 1) && decide (char_at s 0 = 42)) }

/-! ## Number conversion -/

/-- The value of the leading decimal digits of `s`, continuing from `acc`. -/
def digits_value : List Int → Nat → Nat
  | [], acc => acc
  | c :: cs, acc => if isdigit c then digits_value cs (acc * 10 + (c - 48).toNat) else acc

/-- The C library `strtol(s, NULL, 10)`: the value returned and whether `errno` is set
(to `ERANGE`). -/
def strtol (P : Platform) (s : List Int) : Int × Bool :=
  let s1 := s.dropWhile isspace
  let neg := decide (s1.head? = some 45)
  let s2 := if decide (s1.head? = some 45) || decide (s1.head? = some 43) then s1.tail else s1
  let v : Int := if neg then -(digits_value s2 0 : Int) else (digits_value s2 0 : Int)
  if v < P.LONG_MIN then (P.LONG_MIN, true)
  else if P.LONG_MAX < v then (P.LONG_MAX, true)
  else (v, false)

/-- Modelled from the spec: `from_c_string` of `misc.h`, which is not among the sources,
at the type of `lexeme.id_number`.  "The digit suffix is parsed as the identifier's
number, with an unparseable suffix treated as a non-fatal error": `none` when the text is
not a non-empty string of digits or its value does not fit the type. -/
def from_c_string (P : Platform) (s : List Int) : Option Nat :=
  if decide (s ≠ []) && s.all isdigit && decide (digits_value s 0 ≤ P.ID_NUMBER_MAX) then
    some (digits_value s 0)
  else none

/-! ## Classification of a constituent string -/

/-- Set the type of the current lexeme. -/
def set_type (a : agent) (t : lexeme_type) : agent :=
  { a with lexeme := { a.lexeme with type := t } }

/-- The procedure `determine_type_of_constituent_string`: the agent afterwards and the
value returned. -/
def determine_type_of_constituent_string (P : Platform) (a : agent) : agent × Bool :=
  let t := determine_possible_symbol_types_for_string P a.lexeme.string a.lexeme.length
  if t.possible_var then (set_type a VARIABLE_LEXEME, true)
  else if t.possible_ic then
    let r := strtol P a.lexeme.string
    let a := { a with lexeme := { a.lexeme with type := INT_CONSTANT_LEXEME, int_val := r.1 } }
    if r.2 then
      let a := print a diagnostic.bad_integer
      ({ a with lexeme := { a.lexeme with int_val := 0 } }, false)
    else (a, true)
  else if t.possible_fc then
    let r := P.strtod a.lexeme.string
    let a := { a with lexeme := { a.lexeme with type := FLOAT_CONSTANT_LEXEME, float_val := r.1 } }
    if r.2 then
      let a := print a diagnostic.bad_floating_point_number
      ({ a with lexeme := { a.lexeme with float_val := (0, 0) } }, false)
    else (a, true)
  else if a.allow_ids && t.possible_id then
    let lti_index := 0
    let lti_index := if char_at a.lexeme.string lti_index = 64 then lti_index + 1 else lti_index
    let a := { a with lexeme :=
      { a.lexeme with id_letter := to_char (toupper (char_at a.lexeme.string lti_index)) } }
    let lti_index := lti_index + 1
    let a := set_type a IDENTIFIER_LEXEME
    match from_c_string P (a.lexeme.string.drop lti_index) with
    | some n => ({ a with lexeme := { a.lexeme with id_number := n } }, true)
    | none =>
      let a := print a diagnostic.bad_number_for_identifier
      ({ a with lexeme := { a.lexeme with id_number := 0 } }, false)
  else if t.possible_sc then
    let a := set_type a STR_CONSTANT_LEXEME
    let a :=
      if a.print_warnings then
        if decide (char_at a.lexeme.string 0 = 60)
            || decide (char_at a.lexeme.string (a.lexeme.length - 1) = 62) then
          print (print a (diagnostic.suspicious_string_constant a.lexeme.string))
            diagnostic.xml_suspicious_string_constant
        else a
      else a
    (a, true)
  else (set_type a QUOTED_STRING_LEXEME, true)

/-! ## The lex routines -/

/-- The body shared by the routines of the one-character lexemes:
`store_and_advance; finish; lexeme.type = t`. -/
def lex_single (t : lexeme_type) (a : agent) : agent :=
  set_type (finish (store_and_advance a)) t

/-- The routine `lex_eof`. -/
def lex_eof (a : agent) : agent := lex_single EOF_LEXEME a

/-- The routine `lex_at`. -/
def lex_at (a : agent) : agent := lex_single AT_LEXEME a

/-- The routine `lex_tilde`. -/
def lex_tilde (a : agent) : agent := lex_single TILDE_LEXEME a

/-- The routine `lex_up_arrow`. -/
def lex_up_arrow (a : agent) : agent := lex_single UP_ARROW_LEXEME a

/-- The routine `lex_lbrace`. -/
def lex_lbrace (a : agent) : agent := lex_single L_BRACE_LEXEME a

/-- The routine `lex_rbrace`. -/
def lex_rbrace (a : agent) : agent := lex_single R_BRACE_LEXEME a

/-- The routine `lex_exclamation_point`. -/
def lex_exclamation_point (a : agent) : agent := lex_single EXCLAMATION_POINT_LEXEME a

/-- The routine `lex_comma`. -/
def lex_comma (a : agent) : agent := lex_single COMMA_LEXEME a

/-- The routine `lex_equal`. -/
def lex_equal (P : Platform) (a : agent) : agent :=
  let a := read_constituent_string a
  if a.lexeme.length = 1 then set_type a EQUAL_LEXEME
  else (determine_type_of_constituent_string P a).1

/-- The routine `lex_ampersand`. -/
def lex_ampersand (P : Platform) (a : agent) : agent :=
  let a := read_constituent_string a
  if a.lexeme.length = 1 then set_type a AMPERSAND_LEXEME
  else (determine_type_of_constituent_string P a).1

/-- The routine `lex_lparen`.  The increment `parentheses_level++` is made on an `int`; a
depth above `INT_MAX` stands for its overflow. -/
def lex_lparen (a : agent) : agent :=
  let a := lex_single L_PAREN_LEXEME a
  { a with parentheses_level := a.parentheses_level + 1 }

/-- The routine `lex_rparen`. -/
def lex_rparen (a : agent) : agent :=
  let a := lex_single R_PAREN_LEXEME a
  if a.parentheses_level > 0 then { a with parentheses_level := a.parentheses_level - 1 }
  else a

/-- The routine `lex_greater`. -/
def lex_greater (P : Platform) (a : agent) : agent :=
  let a := read_constituent_string a
  if a.lexeme.length = 1 then set_type a GREATER_LEXEME
  else if decide (a.lexeme.length = 2) && decide (char_at a.lexeme.string 1 = 62) then
    set_type a GREATER_GREATER_LEXEME
  else if decide (a.lexeme.length = 2) && decide (char_at a.lexeme.string 1 = 61) then
    set_type a GREATER_EQUAL_LEXEME
  else (determine_type_of_constituent_string P a).1

/-- The routine `lex_less`. -/
def lex_less (P : Platform) (a : agent) : agent :=
  let a := read_constituent_string a
  if a.lexeme.length = 1 then set_type a LESS_LEXEME
  else if decide (a.lexeme.length = 2) && decide (char_at a.lexeme.string 1 = 62) then
    set_type a NOT_EQUAL_LEXEME
  else if decide (a.lexeme.length = 2) && decide (char_at a.lexeme.string 1 = 61) then
    set_type a LESS_EQUAL_LEXEME
  else if decide (a.lexeme.length = 2) && decide (char_at a.lexeme.string 1 = 60) then
    set_type a LESS_LESS_LEXEME
  else if decide (a.lexeme.length = 3) && decide (char_at a.lexeme.string 1 = 61)
      && decide (char_at a.lexeme.string 2 = 62) then
    set_type a LESS_EQUAL_GREATER_LEXEME
  else (determine_type_of_constituent_string P a).1

/-- The routine `lex_period`. -/
def lex_period (P : Platform) (a : agent) : agent :=
  let a := finish (store_and_advance a)
  let a := if isdigit a.current_char then read_rest_of_floating_point_number a else a
  if a.lexeme.length = 1 then set_type a PERIOD_LEXEME
  else (determine_type_of_constituent_string P a).1

/-- The value of `could_be_floating_point` after the loop
`for (i = 1; i < lexeme.length; i++) if (!isdigit(lexeme.string[i])) ...`. -/
def could_be_floating_point (s : List Int) : Bool := (s.drop 1).all isdigit

/-- The start shared by `lex_plus`, `lex_minus` and `lex_digit`: read the constituent
string and, when stopped at a `.` after digits, the rest of a floating-point number. -/
def read_possible_number (a : agent) : agent :=
  let a := read_constituent_string a
  if decide (a.current_char = 46) && could_be_floating_point a.lexeme.string then
    read_rest_of_floating_point_number a
  else a

/-- The routine `lex_plus`. -/
def lex_plus (P : Platform) (a : agent) : agent :=
  let a := read_possible_number a
  if a.lexeme.length = 1 then set_type a PLUS_LEXEME
  else (determine_type_of_constituent_string P a).1

/-- The routine `lex_minus`. -/
def lex_minus (P : Platform) (a : agent) : agent :=
  let a := read_possible_number a
  if a.lexeme.length = 1 then set_type a MINUS_LEXEME
  else if decide (a.lexeme.length = 3) && decide (char_at a.lexeme.string 1 = 45)
      && decide (char_at a.lexeme.string 2 = 62) then
    set_type a RIGHT_ARROW_LEXEME
  else (determine_type_of_constituent_string P a).1

/-- The routine `lex_digit`. -/
def lex_digit (P : Platform) (a : agent) : agent :=
  let a := read_possible_number a
  (determine_type_of_constituent_string P a).1

/-- The routine `lex_constituent_string`. -/
def lex_constituent_string (P : Platform) (a : agent) : agent :=
  let a := read_constituent_string a
  (determine_type_of_constituent_string P a).1

/-- The exit of `lex_vbar` and `lex_quote` on an unterminated literal: the diagnostic `d`
is printed, the lexeme becomes an `EOF_LEXEME` of length 1 whose first character is
`c`. -/
def unterminated (d : diagnostic) (c : Int) (a : agent) : agent :=
  let a := print a d
  { a with lexeme := { a.lexeme with type := EOF_LEXEME, string := [c] } }

/-- One pass of the `do ... while (true)` loop of `lex_vbar` (with `delim = '|'`) and of
`lex_quote` (with `delim = '"'`); `err` is the exit taken by the `return`. -/
def lex_literal_step (P : Platform) (delim : Int) (err : agent → agent) (a : agent) :
    loop_step agent :=
  if decide (a.current_char = EOF) || decide (a.lexeme.length = P.MAX_LEXEME_LENGTH) then
    loop_step.done (err a)
  else if a.current_char = 92 then
    loop_step.next (get_next_char (store (get_next_char a)))
  else if a.current_char = delim then
    loop_step.done (finish (get_next_char a))
  else loop_step.next (get_next_char (store a))

/-- The routine `lex_vbar`. -/
def lex_vbar (P : Platform) (a : agent) : agent :=
  let a := set_type a STR_CONSTANT_LEXEME
  let a := get_next_char a
  run (lex_literal_step P 124
    (unterminated diagnostic.vbar_without_closing (to_char EOF))) pending a

/-- The routine `lex_quote`. -/
def lex_quote (P : Platform) (a : agent) : agent :=
  let a := set_type a QUOTED_STRING_LEXEME
  let a := get_next_char a
  run (lex_literal_step P 34 (unterminated diagnostic.quote_without_closing 0)) pending a

/-! ## Whitespace, dispatch and `get_lexeme` -/

/-- One pass of the inner loop of `consume_whitespace_and_comments`:
`while (current_char != '\n' && current_char != EOF) get_next_char`. -/
def skip_comment_step (a : agent) : loop_step agent :=
  if decide (a.current_char ≠ 10) && decide (a.current_char ≠ EOF) then
    loop_step.next (get_next_char a)
  else loop_step.done a

/-- The body of the branch `if (current_char == '#')` of
`consume_whitespace_and_comments`, up to its `continue`. -/
def skip_comment (a : agent) : agent :=
  let a := run skip_comment_step pending a
  if a.current_char ≠ EOF then get_next_char a else a

/-- One pass of the loop `while (true)` of `consume_whitespace_and_comments`. -/
def consume_whitespace_and_comments_step (a : agent) : loop_step agent :=
  if a.current_char = EOF then loop_step.done a
  else if whitespace (uchar a.current_char) then loop_step.next (get_next_char a)
  else if a.current_char = 59 then loop_step.next (get_next_char a)
  else if a.current_char = 35 then loop_step.next (skip_comment a)
  else loop_step.done a

/-- The procedure `consume_whitespace_and_comments`. -/
def consume_whitespace_and_comments (a : agent) : agent :=
  run consume_whitespace_and_comments_step pending a

/-- The names of the lex routines, the entries of the table `lexer_routines`. -/
inductive lex_routine
  | lex_unknown
  | lex_at
  | lex_lparen
  | lex_rparen
  | lex_plus
  | lex_minus
  | lex_tilde
  | lex_up_arrow
  | lex_lbrace
  | lex_rbrace
  | lex_exclamation_point
  | lex_greater
  | lex_less
  | lex_equal
  | lex_ampersand
  | lex_vbar
  | lex_comma
  | lex_period
  | lex_quote
  | lex_digit
  | lex_constituent_string
  deriving DecidableEq, Repr

/-- The table `lexer_routines[i]` as filled by its initialiser (every entry
`lex_unknown`) and then by `init_lexer`, for an index `0 <= i < 256`. -/
def lexer_routines (i : Int) : lex_routine :=
  if i = 64 then lex_routine.lex_at
  else if i = 40 then lex_routine.lex_lparen
  else if i = 41 then lex_routine.lex_rparen
  else if i = 43 then lex_routine.lex_plus
  else if i = 45 then lex_routine.lex_minus
  else if i = 126 then lex_routine.lex_tilde
  else if i = 94 then lex_routine.lex_up_arrow
  else if i = 123 then lex_routine.lex_lbrace
  else if i = 125 then lex_routine.lex_rbrace
  else if i = 33 then lex_routine.lex_exclamation_point
  else if i = 62 then lex_routine.lex_greater
  else if i = 60 then lex_routine.lex_less
  else if i = 61 then lex_routine.lex_equal
  else if i = 38 then lex_routine.lex_ampersand
  else if i = 124 then lex_routine.lex_vbar
  else if i = 44 then lex_routine.lex_comma
  else if i = 46 then lex_routine.lex_period
  else if i = 34 then lex_routine.lex_quote
  else if isdigit i then lex_routine.lex_digit
  else if constituent_char i then lex_routine.lex_constituent_string
  else lex_routine.lex_unknown

/-- The first two statements of `get_lexeme`: `lexeme.length = 0; lexeme.string[0] = 0`. -/
def start_lexeme (a : agent) : agent :=
  { a with lexeme := { a.lexeme with string := [] } }

/-- The call `(*(lexer_routines[...]))(thisAgent)` of a routine by its name.  For
`lex_unknown`, which is `get_next_char; get_lexeme`, this is the part before its
recursive call of `get_lexeme`. -/
def call_routine (P : Platform) (r : lex_routine) (a : agent) : agent :=
  match r with
  | lex_routine.lex_unknown => get_next_char a
  | lex_routine.lex_at => lex_at a
  | lex_routine.lex_lparen => lex_lparen a
  | lex_routine.lex_rparen => lex_rparen a
  | lex_routine.lex_plus => lex_plus P a
  | lex_routine.lex_minus => lex_minus P a
  | lex_routine.lex_tilde => lex_tilde a
  | lex_routine.lex_up_arrow => lex_up_arrow a
  | lex_routine.lex_lbrace => lex_lbrace a
  | lex_routine.lex_rbrace => lex_rbrace a
  | lex_routine.lex_exclamation_point => lex_exclamation_point a
  | lex_routine.lex_greater => lex_greater P a
  | lex_routine.lex_less => lex_less P a
  | lex_routine.lex_equal => lex_equal P a
  | lex_routine.lex_ampersand => lex_ampersand P a
  | lex_routine.lex_vbar => lex_vbar P a
  | lex_routine.lex_comma => lex_comma a
  | lex_routine.lex_period => lex_period P a
  | lex_routine.lex_quote => lex_quote P a
  | lex_routine.lex_digit => lex_digit P a
  | lex_routine.lex_constituent_string => lex_constituent_string P a

/-- The end of `get_lexeme`, "dispatch to lexer routine by first character in lexeme".
The call of `get_lexeme` at the end of `lex_unknown` is the only recursive one and it is
the `next` of the loop; every other routine ends the call.  The value computed is that of
the recursion; the activation of `get_lexeme` that `lex_unknown` starts is nested in the
one that called it, which still has its debug prints to make, and `get_lexeme_frames`
counts these activations. -/
def dispatch (P : Platform) (a : agent) : loop_step agent :=
  if a.current_char ≠ EOF then
    if lexer_routines (uchar a.current_char) = lex_routine.lex_unknown then
      loop_step.next (call_routine P lex_routine.lex_unknown a)
    else loop_step.done (call_routine P (lexer_routines (uchar a.current_char)) a)
  else loop_step.done (lex_eof a)

/-- One activation of `get_lexeme`. -/
def get_lexeme_step (P : Platform) (a : agent) : loop_step agent :=
  dispatch P (consume_whitespace_and_comments (start_lexeme a))

/-- The procedure `get_lexeme`. -/
def get_lexeme (P : Platform) (a : agent) : agent :=
  run (get_lexeme_step P) pending a

/-- One activation of `get_lexeme` together with the number of activations of
`get_lexeme` that have not returned: `lex_unknown` calls `get_lexeme` before it returns,
so the activation that it starts is one more on the stack. -/
def get_lexeme_frames_step (P : Platform) (s : agent × Nat) : loop_step (agent × Nat) :=
  match get_lexeme_step P s.1 with
  | loop_step.next s1 => loop_step.next (s1, s.2 + 1)
  | loop_step.done r => loop_step.done (r, s.2)

/-- The number of activations of `get_lexeme` that are on the stack when the innermost
one returns, in the call `get_lexeme(thisAgent)`. -/
def get_lexeme_frames (P : Platform) (a : agent) : Nat :=
  (run (get_lexeme_frames_step P) (fun s => pending s.1) (a, 1)).2

/-- The procedure `set_lexer_allow_ids`. -/
def set_lexer_allow_ids (a : agent) (allow_identifiers : Bool) : agent :=
  { a with allow_ids := allow_identifiers }

/-- The function `get_lexer_allow_ids`. -/
def get_lexer_allow_ids (a : agent) : Bool := a.allow_ids

/-- The function `current_lexer_parentheses_level`. -/
def current_lexer_parentheses_level (a : agent) : Int := a.parentheses_level

/-- The procedure `setLexerInput` of `cli_sp.cpp`. -/
def setLexerInput (a : agent) (ai_string : Option (List Int)) : agent :=
  { a with lexer_input_string := ai_string, current_char := 32 }

/-! ## Exact decimal reading, for concrete platforms -/

/-- The decimal `(m, e)`, of value `m * 10 ^ e`, denoted by a text of the form digits,
`.`, digits: a reading of `strtod` that is exact on short literals without exponent. -/
def decimal_of_text (s : List Int) : Int × Int :=
  let int_part := s.takeWhile isdigit
  let frac_part := ((s.dropWhile isdigit).drop 1).takeWhile isdigit
  ((digits_value (int_part ++ frac_part) 0 : Int), -(frac_part.length : Int))

/-- A platform with 64-bit `long` and identifier numbers, the constants of `lexer.h`
at `1005` and `3`, and `strtod` reading short unsigned decimals exactly. -/
def lp64 : Platform :=
  { MAX_LEXEME_LENGTH := 1005
    LENGTH_OF_LONGEST_SPECIAL_LEXEME := 3
    LONG_MIN := -9223372036854775808
    LONG_MAX := 9223372036854775807
    INT_MAX := 2147483647
    ID_NUMBER_MAX := 18446744073709551615
    strtod := fun s => (decimal_of_text s, false) }

/-- Some agent, before any text is attached. -/
def agent0 : agent :=
  { lexer_input_string := none
    current_char := 32
    lexeme := { type := EOF_LEXEME, string := [], int_val := 0, float_val := (0, 0),
                id_letter := 0, id_number := 0 }
    parentheses_level := 0
    allow_ids := true
    print_warnings := true
    printed := [] }

/-! ## Right-hand-side values (`rhs.cpp`) -/

/-- A symbol of the symbol table, named by its address; a null `Symbol *` is `none` of
`Option Symbol`. -/
abbrev Symbol := Nat

/-- Modelled from the spec: the reference-count storage of the symbol table, which is
not among the sources ("this core calls into it but does not own it ... only adjusts
its count"): the count of every symbol. -/
abbrev refcounts := Symbol → Int

/-- Modelled from the spec: `symbol_add_ref` of `symtab.h`, which is not among the
sources: the count of `sym` goes up by one. -/
def symbol_add_ref (refs : refcounts) (sym : Symbol) : refcounts :=
  Function.update refs sym (refs sym + 1)

/-- Modelled from the spec: `symbol_remove_ref` of `symtab.h`, which is not among the
sources: the count of `sym` goes down by one. -/
def symbol_remove_ref (refs : refcounts) (sym : Symbol) : refcounts :=
  Function.update refs sym (refs sym - 1)

/-- Modelled from the spec: `struct rhs_symbol_struct` of `rhs.h`, which is not among the
sources; the two fields that `rhs.cpp` uses. -/
structure rhs_symbol where
  referent : Option Symbol
  original_variable : Option Symbol
  deriving DecidableEq, Repr

mutual
/-- Modelled from the spec: `rhs_value` and its accessor macros of `rhs.h`, which is not
among the sources.  An `rhs_value` is a tagged pointer: a rete location, an unbound-variable index, a
function-call list (`first` is the function, `rest` the arguments) or a pointer to an
`rhs_symbol`, which is `symbol none` when null (`NIL` carries the tag of a symbol). -/
inductive rhs_value
  | reteloc (field_num : Nat) (levels_up : Nat)
  | unboundvar (index : Nat)
  | funcall (first : Nat) (rest : cons)
  | symbol (r : Option rhs_symbol)
/-- A list of `cons` cells whose `first` fields are `rhs_value`s; `nil` is `NIL`. -/
inductive cons
  | nil
  | cell (first : rhs_value) (rest : cons)
end

/-- The function `make_rhs_value_symbol_no_refcount`. -/
def make_rhs_value_symbol_no_refcount (refs : refcounts) (sym : Option Symbol)
    (original_sym : Option Symbol) : rhs_value × refcounts :=
  match sym with
  | none => (rhs_value.symbol none, refs)
  | some s =>
    let new_rhs_symbol : rhs_symbol := { referent := some s, original_variable := original_sym }
    let refs :=
      match original_sym with
      | some o => symbol_add_ref refs o
      | none => refs
    (rhs_value.symbol (some new_rhs_symbol), refs)

/-- The function `make_rhs_value_symbol`. -/
def make_rhs_value_symbol (refs : refcounts) (sym : Option Symbol)
    (original_sym : Option Symbol) : rhs_value × refcounts :=
  let refs :=
    match sym with
    | some s => symbol_add_ref refs s
    | none => refs
  make_rhs_value_symbol_no_refcount refs sym original_sym

mutual
/-- The procedure `deallocate_rhs_value`: the counts afterwards, `none` when a null
`rhs_symbol` pointer is dereferenced. -/
def deallocate_rhs_value (refs : refcounts) : rhs_value → Option refcounts
  | rhs_value.reteloc _ _ => some refs
  | rhs_value.unboundvar _ => some refs
  | rhs_value.funcall _ rest => deallocate_rhs_value_list refs rest
  | rhs_value.symbol none => none
  | rhs_value.symbol (some r) =>
    let refs :=
      match r.referent with
      | some s => symbol_remove_ref refs s
      | none => refs
    let refs :=
      match r.original_variable with
      | some o => symbol_remove_ref refs o
      | none => refs
    some refs
/-- The loop `for (c = fl->rest; c != NIL; c = c->rest) deallocate_rhs_value(c->first)`
of `deallocate_rhs_value`. -/
def deallocate_rhs_value_list (refs : refcounts) : cons → Option refcounts
  | cons.nil => some refs
  | cons.cell first rest =>
    match deallocate_rhs_value refs first with
    | none => none
    | some refs1 => deallocate_rhs_value_list refs1 rest
end

mutual
/-- The function `copy_rhs_value`: the copy and the counts afterwards, `none` when a
null `rhs_symbol` pointer is dereferenced. -/
def copy_rhs_value (refs : refcounts) : rhs_value → Option (rhs_value × refcounts)
  | rhs_value.reteloc f l => some (rhs_value.reteloc f l, refs)
  | rhs_value.unboundvar i => some (rhs_value.unboundvar i, refs)
  | rhs_value.funcall first rest =>
    match copy_rhs_value_list refs rest with
    | none => none
    | some (new_rest, refs1) => some (rhs_value.funcall first new_rest, refs1)
  | rhs_value.symbol none => none
  | rhs_value.symbol (some r) => some (make_rhs_value_symbol refs r.referent r.original_variable)
/-- The loop of `copy_rhs_value` that copies the arguments of a function call into new
`cons` cells. -/
def copy_rhs_value_list (refs : refcounts) : cons → Option (cons × refcounts)
  | cons.nil => some (cons.nil, refs)
  | cons.cell first rest =>
    match copy_rhs_value refs first with
    | none => none
    | some (new_first, refs1) =>
      match copy_rhs_value_list refs1 rest with
      | none => none
      | some (new_rest, refs2) => some (cons.cell new_first new_rest, refs2)
end

/-! ## Actions (`rhs.cpp`) -/

/-- Modelled from the spec: the values of the field `type` of an action (`production.h`,
not among the sources). -/
inductive action_type
  | MAKE_ACTION
  | FUNCALL_ACTION
  deriving DecidableEq, Repr

/-- Modelled from the spec: `struct action_struct` of `production.h`, which is not among
the sources; the fields that `rhs.cpp` uses, but for the link `next`. -/
structure action where
  type : action_type
  preference_type : Nat
  id : rhs_value
  attr : rhs_value
  value : rhs_value
  referent : rhs_value

/-- Modelled from the spec: the macro `rhs_value_is_symbol` of `rhs.h`, which is not among
the sources: the value carries the tag of a pointer to an `rhs_symbol`. -/
def rhs_value_is_symbol : rhs_value → Bool
  | rhs_value.symbol _ => true
  | _ => false

/-- Modelled from the spec: the macro `rhs_value_is_funcall` of `rhs.h`, which is not
among the sources: the value carries the tag of a function-call list. -/
def rhs_value_is_funcall : rhs_value → Bool
  | rhs_value.funcall _ _ => true
  | _ => false

/-- Modelled from the spec: the macro `rhs_value_to_symbol` of `rhs.h`, which is not among
the sources: the `referent` of the `rhs_symbol` pointed to, `none` when that is null.  What
the macro reads from a value that does not point to an `rhs_symbol` is not determined by
the sources; `none` stands for it here, and `rhs_value_to_symbol_read` tells the two
apart. -/
def rhs_value_to_symbol : rhs_value → Option Symbol
  | rhs_value.symbol (some r) => r.referent
  | _ => none

/-- Modelled from the spec: the list `bindings` of `actions_are_equal_with_bindings`, the
"caller-maintained symbol correspondence": pairs of symbols. -/
abbrev bindings_list := List (Symbol × Symbol)

/-- Modelled from the spec: what `actions_are_equal_with_bindings` takes from outside the
sources: the function `symbols_are_equal_with_bindings`, given two symbol pointers and the
bindings, returns whether the symbols match and the bindings afterwards. -/
structure Matcher where
  symbols_are_equal_with_bindings :
    Option Symbol → Option Symbol → bindings_list → Bool × bindings_list

/-- The function `actions_are_equal_with_bindings`: the value returned and the bindings
afterwards.  The test of `a1->type` and the comparisons by `funcalls_match` are comments
in the source. -/
def actions_are_equal_with_bindings (M : Matcher) (a1 a2 : action)
    (bindings : bindings_list) : Bool × bindings_list :=
  if a2.type = action_type.FUNCALL_ACTION then (false, bindings)
  else if a1.preference_type ≠ a2.preference_type then (false, bindings)
  else
    let r := M.symbols_are_equal_with_bindings (rhs_value_to_symbol a1.id)
      (rhs_value_to_symbol a2.id) bindings
    let bindings := r.2
    if !r.1 then (false, bindings)
    else
      let r :=
        if rhs_value_is_symbol a1.attr && rhs_value_is_symbol a2.attr then
          M.symbols_are_equal_with_bindings (rhs_value_to_symbol a1.attr)
            (rhs_value_to_symbol a2.attr) bindings
        else (true, bindings)
      let bindings := r.2
      if !r.1 then (false, bindings)
      else if rhs_value_is_symbol a1.value && rhs_value_is_symbol a2.value then
        let r := M.symbols_are_equal_with_bindings (rhs_value_to_symbol a1.value)
          (rhs_value_to_symbol a2.value) bindings
        if r.1 then (true, r.2) else (false, r.2)
      else if rhs_value_is_funcall a1.value && rhs_value_is_funcall a2.value then
        (false, bindings)
      else (false, bindings)

/-- Modelled from the spec: the macro `rhs_value_to_symbol` of `rhs.h`, which is not among
the sources, as the read that it is, of the field `referent` through the pointer in the
slot: `some` of the symbol pointer read when the slot points to an `rhs_symbol`, and
`none` when it does not (the slot is null, or holds a function call, a rete location or
an unbound variable); the read is then made through a null or a wild pointer. -/
def rhs_value_to_symbol_read : rhs_value → Option (Option Symbol)
  | rhs_value.symbol (some r) => some r.referent
  | _ => none

/-- The function `actions_are_equal_with_bindings` with the reads of
`rhs_value_to_symbol` checked: `none` when the function reads through a slot that does
not point to an `rhs_symbol`, otherwise the value returned and the bindings
afterwards. -/
def actions_are_equal_with_bindings_read (M : Matcher) (a1 a2 : action)
    (bindings : bindings_list) : Option (Bool × bindings_list) :=
  if a2.type = action_type.FUNCALL_ACTION then some (false, bindings)
  else if a1.preference_type ≠ a2.preference_type then some (false, bindings)
  else
    match rhs_value_to_symbol_read a1.id, rhs_value_to_symbol_read a2.id with
    | some id1, some id2 =>
      let r := M.symbols_are_equal_with_bindings id1 id2 bindings
      let bindings := r.2
      if !r.1 then some (false, bindings)
      else
        let attrs : Option (Bool × bindings_list) :=
          if rhs_value_is_symbol a1.attr && rhs_value_is_symbol a2.attr then
            match rhs_value_to_symbol_read a1.attr, rhs_value_to_symbol_read a2.attr with
            | some s1, some s2 => some (M.symbols_are_equal_with_bindings s1 s2 bindings)
            | _, _ => none
          else some (true, bindings)
        match attrs with
        | none => none
        | some r =>
          let bindings := r.2
          if !r.1 then some (false, bindings)
          else if rhs_value_is_symbol a1.value && rhs_value_is_symbol a2.value then
            match rhs_value_to_symbol_read a1.value, rhs_value_to_symbol_read a2.value with
            | some s1, some s2 =>
              let r := M.symbols_are_equal_with_bindings s1 s2 bindings
              if r.1 then some (true, r.2) else some (false, r.2)
            | _, _ => none
          else if rhs_value_is_funcall a1.value && rhs_value_is_funcall a2.value then
            some (false, bindings)
          else some (false, bindings)
    | _, _ => none

/-! ## Finding the variables of right-hand-side values (`rhs.cpp`) -/

/-- Modelled from the spec: what the variable collectors of `rhs.cpp` take from outside
the sources: the field `common.symbol_type` of a symbol and the constant
`VARIABLE_SYMBOL_TYPE` (`symtab.h`), and the procedure `mark_variable_if_unmarked`
(`production.cpp`), the "mark-if-unmarked operation", called with a symbol and the
traversal number `tc`; it acts on a state `σ` that holds the marks of the symbols and
the list behind `var_list`. -/
structure Marker (σ : Type) where
  symbol_type : Symbol → Nat
  VARIABLE_SYMBOL_TYPE : Nat
  mark_variable_if_unmarked : σ → Symbol → Nat → σ

mutual
/-- The procedure `add_all_variables_in_rhs_value`: the state afterwards; `none` when a
null pointer is dereferenced, and for a rete location or an unbound variable, which the
procedure would read as a function-call list ("They don't handle reteloc's or RHS unbound
variables"). -/
def add_all_variables_in_rhs_value {σ : Type} (M : Marker σ) (s : σ) (tc : Nat) :
    rhs_value → Option σ
  | rhs_value.symbol none => none
  | rhs_value.symbol (some r) =>
    match r.referent with
    | none => none
    | some sym =>
      if M.symbol_type sym = M.VARIABLE_SYMBOL_TYPE then
        some (M.mark_variable_if_unmarked s sym tc)
      else some s
  | rhs_value.funcall _ rest => add_all_variables_in_rhs_value_list M s tc rest
  | rhs_value.reteloc _ _ => none
  | rhs_value.unboundvar _ => none
/-- The loop `for (c = fl->rest; c != NIL; c = c->rest)` of
`add_all_variables_in_rhs_value`. -/
def add_all_variables_in_rhs_value_list {σ : Type} (M : Marker σ) (s : σ) (tc : Nat) :
    cons → Option σ
  | cons.nil => some s
  | cons.cell first rest =>
    match add_all_variables_in_rhs_value M s tc first with
    | none => none
    | some s1 => add_all_variables_in_rhs_value_list M s1 tc rest
end

/-- Modelled from the spec: the state that "mark-if-unmarked" acts on when `var_list`
points to a list header: the traversal number with which every symbol was last marked,
and the list under construction. -/
structure marks where
  tc_num : Symbol → Nat
  var_list : List Symbol

/-- Modelled from the spec: `mark_variable_if_unmarked` of `production.cpp`, which is not
among the sources: "adding a symbol to the list only when it is not yet marked for the
current traversal number"; the symbol is then marked with that number and put at the
front of the list. -/
def mark_variable_if_unmarked (m : marks) (v : Symbol) (tc : Nat) : marks :=
  if m.tc_num v ≠ tc then
    { tc_num := Function.update m.tc_num v tc, var_list := v :: m.var_list }
  else m

/-- The collectors with `mark_variable_if_unmarked` as above, for a given field
`symbol_type` and constant `VARIABLE_SYMBOL_TYPE`. -/
def list_marker (symbol_type : Symbol → Nat) (VARIABLE_SYMBOL_TYPE : Nat) : Marker marks :=
  { symbol_type := symbol_type
    VARIABLE_SYMBOL_TYPE := VARIABLE_SYMBOL_TYPE
    mark_variable_if_unmarked := mark_variable_if_unmarked }

/-- The procedure `add_all_variables_in_action`; `preference_is_binary` is the macro of
that name (`gdatastructs.h`, not among the sources), a parameter.  `none` when the symbol
read from `a->id` is null or when one of the calls of `add_all_variables_in_rhs_value`
gives `none`. -/
def add_all_variables_in_action {σ : Type} (M : Marker σ) (preference_is_binary : Nat → Bool)
    (s : σ) (tc : Nat) (a : action) : Option σ :=
  if a.type = action_type.MAKE_ACTION then
    match rhs_value_to_symbol a.id with
    | none => none
    | some id =>
      let s :=
        if M.symbol_type id = M.VARIABLE_SYMBOL_TYPE then M.mark_variable_if_unmarked s id tc
        else s
      match add_all_variables_in_rhs_value M s tc a.attr with
      | none => none
      | some s =>
        match add_all_variables_in_rhs_value M s tc a.value with
        | none => none
        | some s =>
          if preference_is_binary a.preference_type then
            add_all_variables_in_rhs_value M s tc a.referent
          else some s
  else add_all_variables_in_rhs_value M s tc a.value

/-- The procedure `add_all_variables_in_action_list`, the actions linked by `next` being
given as a list. -/
def add_all_variables_in_action_list {σ : Type} (M : Marker σ)
    (preference_is_binary : Nat → Bool) (s : σ) (tc : Nat) : List action → Option σ
  | [] => some s
  | a :: actions =>
    match add_all_variables_in_action M preference_is_binary s tc a with
    | none => none
    | some s1 => add_all_variables_in_action_list M preference_is_binary s1 tc actions

mutual
/-- The procedure `add_bound_variables_in_rhs_value`: the state afterwards; `none` when a
null pointer is dereferenced, and for a rete location or an unbound variable, which the
procedure would read as a function-call list. -/
def add_bound_variables_in_rhs_value {σ : Type} (M : Marker σ) (s : σ) (tc : Nat) :
    rhs_value → Option σ
  | rhs_value.symbol none => none
  | rhs_value.symbol (some r) =>
    match r.referent with
    | none => none
    | some sym =>
      if M.symbol_type sym = M.VARIABLE_SYMBOL_TYPE then
        some (M.mark_variable_if_unmarked s sym tc)
      else some s
  | rhs_value.funcall _ rest => add_bound_variables_in_rhs_value_list M s tc rest
  | rhs_value.reteloc _ _ => none
  | rhs_value.unboundvar _ => none
/-- The loop `for (c = fl->rest; c != NIL; c = c->rest)` of
`add_bound_variables_in_rhs_value`. -/
def add_bound_variables_in_rhs_value_list {σ : Type} (M : Marker σ) (s : σ) (tc : Nat) :
    cons → Option σ
  | cons.nil => some s
  | cons.cell first rest =>
    match add_bound_variables_in_rhs_value M s tc first with
    | none => none
    | some s1 => add_bound_variables_in_rhs_value_list M s1 tc rest
end

/-- The procedure `add_bound_variables_in_action`.  Its first statement in the branch of
a make-action, `id = rhs_value_to_symbol(a->id)`, reads a value that is not used. -/
def add_bound_variables_in_action {σ : Type} (M : Marker σ)
    (preference_is_binary : Nat → Bool) (s : σ) (tc : Nat) (a : action) : Option σ :=
  if a.type = action_type.MAKE_ACTION then
    match add_bound_variables_in_rhs_value M s tc a.id with
    | none => none
    | some s =>
      match add_bound_variables_in_rhs_value M s tc a.attr with
      | none => none
      | some s =>
        match add_bound_variables_in_rhs_value M s tc a.value with
        | none => none
        | some s =>
          if preference_is_binary a.preference_type then
            add_bound_variables_in_rhs_value M s tc a.referent
          else some s
  else add_bound_variables_in_rhs_value M s tc a.value

/-- The procedure `add_bound_variables_in_action_list`, the actions linked by `next` being
given as a list. -/
def add_bound_variables_in_action_list {σ : Type} (M : Marker σ)
    (preference_is_binary : Nat → Bool) (s : σ) (tc : Nat) : List action → Option σ
  | [] => some s
  | a :: actions =>
    match add_bound_variables_in_action M preference_is_binary s tc a with
    | none => none
    | some s1 => add_bound_variables_in_action_list M preference_is_binary s1 tc actions

/-! ## The `sp` command (`cli_sp.cpp`) -/

/-- Modelled from the spec: `production` of `production.h`, which is not among the
sources; the field that `DoSP` writes, and a name for the production. -/
structure production where
  name : List Int
  filename : Option (List Int)
  deriving DecidableEq, Repr

/-- Modelled from the spec: what `DoSP` takes from outside the sources.  The parser
`parse_production` is given the agent and the initial value of `rete_addition_result` and
returns the production (`none` when null), the final `rete_addition_result` and the agent
afterwards; `DUPLICATE_PRODUCTION` is the constant of `rete.h`. -/
structure Kernel where
  parse_production : agent → Nat → Option production × Nat × agent
  DUPLICATE_PRODUCTION : Nat

/-- Modelled from the spec: the class `CommandLineInterface`, whose declaration is not
among the sources; the members that `DoSP` reads or writes; `agent` is
`m_pAgentSML->GetSoarAgent()` and `m_LastError` the message recorded by `SetError`. -/
structure CommandLineInterface where
  agent : agent
  m_NumProductionsIgnored : Int
  m_NumProductionsSourced : Int
  m_SourceFileStack : List (List Int)
  m_RawOutput : Bool
  m_Result : List Char
  m_LastError : Option String
  deriving DecidableEq, Repr

/-- The method `SetError`: record the message, return `false`. -/
def SetError (cli : CommandLineInterface) (msg : String) : CommandLineInterface × Bool :=
  ({ cli with m_LastError := some msg }, false)

/-- The method `CommandLineInterface::DoSP`: the interface afterwards, the production
with its `filename` when one was returned by the parser, and the value returned. -/
def DoSP (P : Platform) (K : Kernel) (cli : CommandLineInterface)
    (productionString : List Int) : CommandLineInterface × Option production × Bool :=
  let thisAgent := cli.agent
  let thisAgent := setLexerInput thisAgent (some productionString)
  let thisAgent := set_lexer_allow_ids thisAgent false
  let thisAgent := get_lexeme P thisAgent
  let r := K.parse_production thisAgent 0
  let p := r.1
  let rete_addition_result := r.2.1
  let thisAgent := r.2.2
  let thisAgent := set_lexer_allow_ids thisAgent true
  let thisAgent := setLexerInput thisAgent none
  let cli := { cli with agent := thisAgent }
  match p with
  | none =>
    if rete_addition_result ≠ K.DUPLICATE_PRODUCTION then
      let e := SetError cli "Production addition failed."
      (e.1, none, e.2)
    else
      ({ cli with m_NumProductionsIgnored := cli.m_NumProductionsIgnored + 1 }, none, true)
  | some p =>
    let p :=
      match cli.m_SourceFileStack with
      | top :: _ => { p with filename := some top }
      | [] => p
    let cli := { cli with m_NumProductionsSourced := cli.m_NumProductionsSourced + 1 }
    let cli := if cli.m_RawOutput then { cli with m_Result := cli.m_Result ++ ['*'] } else cli
    (cli, some p, true)

/-! ## Notions used in the statements -/

/-- The agent once `get_next_char` has read the first character of the attached
text `l`. -/
def next_from (a : agent) (l : List Int) : agent :=
  get_next_char (setLexerInput a (some l))

/-- The value `get_next_char` gives to `current_char` when the text `l` is still to be
read: its first character, `EOF` at the end of the text. -/
def first_char : List Int → Int
  | [] => EOF
  | b :: _ => if to_char b = 0 then EOF else to_char b

/-- The agent with the text of the current lexeme replaced by `t`. -/
def with_text (a : agent) (t : List Int) : agent :=
  { a with lexeme := { a.lexeme with string := t } }

/-- The text `rest` cannot continue a constituent string: it is empty, or its first
byte is not a constituent character. -/
def ends_constituent_string : List Int → Bool
  | [] => true
  | b :: _ => !constituent_char (uchar b)

/-- An "unknown" byte: a non-NUL ASCII byte that is not whitespace, not `#` or `;`, not
a constituent character and none of `( ) ~ ^ { } ! | , . "`. -/
def unknown_byte (u : Int) : Bool :=
  decide (0 < u) && decide (u < 128) && !whitespace u && decide (u ≠ 35) && decide (u ≠ 59)
    && !constituent_char u
    && decide (u ∉ ([40, 41, 126, 94, 123, 125, 33, 124, 44, 46, 34] : List Int))

/-- No byte of `w` closes a literal opened with `delim`: reading from the left, where a
backslash escapes the byte after it, every `delim` is escaped. -/
def never_closed (delim : Int) : List Int → Bool
  | [] => true
  | [c] => if c = 92 then true else decide (c ≠ delim)
  | c :: d :: w =>
    if c = 92 then never_closed delim w
    else decide (c ≠ delim) && never_closed delim (d :: w)

/-- The state in which `get_lexeme` calls the routine that reads the lexeme: after the
whitespace, the comments and the unknown bytes. -/
def lexeme_start (P : Platform) (a : agent) : agent :=
  run (fun s =>
    let s1 := consume_whitespace_and_comments (start_lexeme s)
    match dispatch P s1 with
    | loop_step.next s2 => loop_step.next s2
    | loop_step.done _ => loop_step.done s1) pending a

/-- The kinds that `determine_type_of_constituent_string` assigns. -/
def classification_kinds : List lexeme_type :=
  [VARIABLE_LEXEME, INT_CONSTANT_LEXEME, FLOAT_CONSTANT_LEXEME, IDENTIFIER_LEXEME,
   STR_CONSTANT_LEXEME, QUOTED_STRING_LEXEME]

mutual
/-- Every pointer to an `rhs_symbol` in the value is non-null and so is the `referent`
of every `rhs_symbol`. -/
def rhs_value.well_formed : rhs_value → Bool
  | rhs_value.reteloc _ _ => true
  | rhs_value.unboundvar _ => true
  | rhs_value.funcall _ rest => rest.well_formed
  | rhs_value.symbol none => false
  | rhs_value.symbol (some r) => r.referent.isSome
/-- Every value of the list is well formed. -/
def cons.well_formed : cons → Bool
  | cons.nil => true
  | cons.cell first rest => first.well_formed && rest.well_formed
end

/-- The number of references to the symbol `x` held by an `rhs_symbol`: one when `x` is
its `referent`, and one when `x` is its `original_variable`. -/
def rhs_symbol.held (r : rhs_symbol) (x : Symbol) : Int :=
  (if r.referent = some x then 1 else 0) + (if r.original_variable = some x then 1 else 0)

mutual
/-- The number of references to the symbol `x` held by the symbol references of a
value, at any depth. -/
def rhs_value.held : rhs_value → Symbol → Int
  | rhs_value.reteloc _ _, _ => 0
  | rhs_value.unboundvar _, _ => 0
  | rhs_value.funcall _ rest, x => rest.held x
  | rhs_value.symbol none, _ => 0
  | rhs_value.symbol (some r), x => r.held x
/-- The number of references to the symbol `x` held by the values of a list. -/
def cons.held : cons → Symbol → Int
  | cons.nil, _ => 0
  | cons.cell first rest, x => first.held x + rest.held x
end

/-- The kind a routine gives to the text `s` it has read without calling
`determine_type_of_constituent_string`, for the routines that read a constituent string;
`none` when the routine calls `determine_type_of_constituent_string`. -/
def special_kind (r : lex_routine) (s : List Int) : Option lexeme_type :=
  match r with
  | lex_routine.lex_equal => if s.length = 1 then some EQUAL_LEXEME else none
  | lex_routine.lex_ampersand => if s.length = 1 then some AMPERSAND_LEXEME else none
  | lex_routine.lex_greater =>
    if s.length = 1 then some GREATER_LEXEME
    else if decide (s.length = 2) && decide (char_at s 1 = 62) then some GREATER_GREATER_LEXEME
    else if decide (s.length = 2) && decide (char_at s 1 = 61) then some GREATER_EQUAL_LEXEME
    else none
  | lex_routine.lex_less =>
    if s.length = 1 then some LESS_LEXEME
    else if decide (s.length = 2) && decide (char_at s 1 = 62) then some NOT_EQUAL_LEXEME
    else if decide (s.length = 2) && decide (char_at s 1 = 61) then some LESS_EQUAL_LEXEME
    else if decide (s.length = 2) && decide (char_at s 1 = 60) then some LESS_LESS_LEXEME
    else if decide (s.length = 3) && decide (char_at s 1 = 61) && decide (char_at s 2 = 62) then
      some LESS_EQUAL_GREATER_LEXEME
    else none
  | lex_routine.lex_plus => if s.length = 1 then some PLUS_LEXEME else none
  | lex_routine.lex_minus =>
    if s.length = 1 then some MINUS_LEXEME
    else if decide (s.length = 3) && decide (char_at s 1 = 45) && decide (char_at s 2 = 62) then
      some RIGHT_ARROW_LEXEME
    else none
  | _ => none

/-- The routines that start with `read_constituent_string` and then look for a
floating-point number: `lex_plus`, `lex_minus` and `lex_digit`. -/
def reads_number (r : lex_routine) : Bool :=
  decide (r = lex_routine.lex_plus) || decide (r = lex_routine.lex_minus)
    || decide (r = lex_routine.lex_digit)

/-- The first part of a routine that reads a constituent string. -/
def read_phase (r : lex_routine) (a : agent) : agent :=
  if reads_number r then read_possible_number a else read_constituent_string a

/-- The routines that start by reading a constituent string. -/
def constituent_routines : List lex_routine :=
  [lex_routine.lex_plus, lex_routine.lex_minus, lex_routine.lex_greater, lex_routine.lex_less,
   lex_routine.lex_equal, lex_routine.lex_ampersand, lex_routine.lex_digit,
   lex_routine.lex_constituent_string]

/-- The text `(foo ^attr 3.5)`. -/
def text_foo_attr : List Int :=
  [40, 102, 111, 111, 32, 94, 97, 116, 116, 114, 32, 51, 46, 53, 41]

/-- A parser that reports every production as a duplicate, with
`DUPLICATE_PRODUCTION = 3`. -/
def duplicate_kernel : Kernel :=
  { parse_production := fun a _ => (none, 3, a)
    DUPLICATE_PRODUCTION := 3 }

/-- Some command-line interface, before any production is loaded. -/
def cli0 : CommandLineInterface :=
  { agent := agent0
    m_NumProductionsIgnored := 0
    m_NumProductionsSourced := 0
    m_SourceFileStack := []
    m_RawOutput := true
    m_Result := []
    m_LastError := none }

/-- A matcher for which two symbols match when they are the same symbol, and which
leaves the bindings as they are. -/
def same_symbol_matcher : Matcher :=
  { symbols_are_equal_with_bindings := fun s1 s2 bindings => (decide (s1 = s2), bindings) }

/-- A reference to the symbol `s`, without original variable. -/
def symbol_reference (s : Symbol) : rhs_value :=
  rhs_value.symbol (some { referent := some s, original_variable := none })

/-- The make-action `(1 ^2 3)` of preference kind `0`, its attribute being the reference
to the symbol `2`. -/
def make_action_1_2_3 : action :=
  { type := action_type.MAKE_ACTION
    preference_type := 0
    id := symbol_reference 1
    attr := symbol_reference 2
    value := symbol_reference 3
    referent := rhs_value.symbol none }

/-- The make-action of preference kind `0` with the id `1`, the value `3` and a function
call as attribute. -/
def make_action_1_call_3 : action :=
  { make_action_1_2_3 with attr := rhs_value.funcall 9 cons.nil }

/-- A function-call action: its value is the call of the function `9` on the symbol `3`. -/
def funcall_action_9 : action :=
  { type := action_type.FUNCALL_ACTION
    preference_type := 0
    id := rhs_value.symbol none
    attr := rhs_value.symbol none
    value := rhs_value.funcall 9 (cons.cell (symbol_reference 3) cons.nil)
    referent := rhs_value.symbol none }

/-- A make-action whose value is a function call. -/
def make_action_1_2_call : action :=
  { make_action_1_2_3 with value := rhs_value.funcall 9 cons.nil }

/-- The parenthesis depth after a lexeme of the kind `t` was returned at the depth `d`. -/
def depth_after (t : lexeme_type) (d : Int) : Int :=
  if t = L_PAREN_LEXEME then d + 1
  else if t = R_PAREN_LEXEME then (if d > 0 then d - 1 else d)
  else d

/-- The text `( ) ) #(`, a new line, and ` |(| x`. -/
def text_parentheses : List Int :=
  [40, 32, 41, 32, 41, 32, 35, 40, 10, 32, 124, 40, 124, 32, 120]

/-- The value of a string of decimal digits. -/
def decimal_value (ds : List Int) : Nat :=
  Nat.ofDigits 10 ((ds.map (fun c => (c - 48).toNat)).reverse)

/-- The text is an optional `+` or `-` followed by one or more decimal digits and nothing
else. -/
def integer_text (s : List Int) : Bool :=
  let ds := if decide (s.head? = some 43) || decide (s.head? = some 45) then s.tail else s
  decide (ds ≠ []) && ds.all isdigit

/-- The value of an optional `+` or `-` followed by decimal digits. -/
def integer_value (s : List Int) : Int :=
  if s.head? = some 45 then -(decimal_value s.tail : Int)
  else if s.head? = some 43 then (decimal_value s.tail : Int)
  else (decimal_value s : Int)

/-- Two agents have the same text still to read, the same current character and the same
value of `allow_ids`. -/
def same_input (s t : agent) : Prop :=
  s.lexer_input_string = t.lexer_input_string ∧ s.current_char = t.current_char
    ∧ s.allow_ids = t.allow_ids

instance (s t : agent) : Decidable (same_input s t) := by
  unfold same_input
  infer_instance

/-- Two lexemes are the same lexeme: the same kind, the same text and the same value,
which is `int_val` for an `INT_CONSTANT_LEXEME`, `float_val` for a `FLOAT_CONSTANT_LEXEME`,
and `id_letter` with `id_number` for an `IDENTIFIER_LEXEME`; the other kinds have no
value. -/
def same_lexeme (l1 l2 : lexeme_info) : Prop :=
  l1.type = l2.type ∧ l1.string = l2.string
    ∧ (l1.type = INT_CONSTANT_LEXEME → l1.int_val = l2.int_val)
    ∧ (l1.type = FLOAT_CONSTANT_LEXEME → l1.float_val = l2.float_val)
    ∧ (l1.type = IDENTIFIER_LEXEME →
        l1.id_letter = l2.id_letter ∧ l1.id_number = l2.id_number)

instance (l1 l2 : lexeme_info) : Decidable (same_lexeme l1 l2) := by
  unfold same_lexeme
  infer_instance

/-- Two agents in the middle of a lexeme that have the same input and the same text read
so far. -/
def same_scan (s t : agent) : Prop :=
  same_input s t ∧ s.lexeme.string = t.lexeme.string

/-- Two agents that have the same input and hold the same lexeme. -/
def same_result (s t : agent) : Prop :=
  same_input s t ∧ same_lexeme s.lexeme t.lexeme

/-- An agent that differs from `agent0` in all that `setLexerInput` leaves as it is but
`allow_ids`: a lexeme left by an earlier call, the parenthesis depth 1, the warnings off
and a message printed. -/
def agent1 : agent :=
  { lexer_input_string := some [120, 32, 121]
    current_char := 40
    lexeme := { type := INT_CONSTANT_LEXEME, string := [55], int_val := 7, float_val := (1, 0),
                id_letter := 65, id_number := 3 }
    parentheses_level := 1
    allow_ids := true
    print_warnings := false
    printed := [diagnostic.bad_integer] }

/-- The agent that `DoSP` hands over to `parse_production`: the text is attached,
`allow_ids` is set to false and the first lexeme is read. -/
def parser_input (P : Platform) (cli : CommandLineInterface)
    (productionString : List Int) : agent :=
  get_lexeme P (set_lexer_allow_ids (setLexerInput cli.agent (some productionString)) false)

/-- A parser that fails on every production with a signal that is not
`DUPLICATE_PRODUCTION`. -/
def failing_kernel : Kernel :=
  { parse_production := fun a _ => (none, 1, a)
    DUPLICATE_PRODUCTION := 3 }

/-- A parser that reads nothing more and returns a production named by the current
lexeme, without file name. -/
def accepting_kernel : Kernel :=
  { parse_production := fun a _ => (some { name := a.lexeme.string, filename := none }, 0, a)
    DUPLICATE_PRODUCTION := 3 }

/-- A command-line interface that is sourcing the file `a`, in raw output mode. -/
def cli1 : CommandLineInterface :=
  { cli0 with m_SourceFileStack := [[97]] }

/-- The kind of the ten operators that begin with `<`, `>`, `=` or `&`: `<`, `<>`, `<=`,
`<<`, `<=>`, `>`, `>>`, `>=`, `=` and `&`; `none` for any other text. -/
def operator_kind (r : List Int) : Option lexeme_type :=
  if r = [60] then some LESS_LEXEME
  else if r = [60, 62] then some NOT_EQUAL_LEXEME
  else if r = [60, 61] then some LESS_EQUAL_LEXEME
  else if r = [60, 60] then some LESS_LESS_LEXEME
  else if r = [60, 61, 62] then some LESS_EQUAL_GREATER_LEXEME
  else if r = [62] then some GREATER_LEXEME
  else if r = [62, 62] then some GREATER_GREATER_LEXEME
  else if r = [62, 61] then some GREATER_EQUAL_LEXEME
  else if r = [61] then some EQUAL_LEXEME
  else if r = [38] then some AMPERSAND_LEXEME
  else none

/-- The text is digits and then optionally an exponent and nothing else: `e` or `E`, an
optional `+` or `-`, digits; each run of digits may be empty. -/
def float_after_point (x : List Int) : Bool :=
  let u2 := x.dropWhile isdigit
  let u3 :=
    if decide (u2.head? = some 101) || decide (u2.head? = some 69) then
      let u4 := u2.tail
      let u5 :=
        if decide (u4.head? = some 43) || decide (u4.head? = some 45) then u4.tail else u4
      u5.dropWhile isdigit
    else u2
  u3.isEmpty

/-- The text is digits, a `.`, and then what `float_after_point` accepts. -/
def float_after_sign (u : List Int) : Bool :=
  let u1 := u.dropWhile isdigit
  if u1.head? = some 46 then float_after_point u1.tail else false

/-- The text is an optional `+` or `-`, then zero or more digits, then `.`, then zero or
more digits, then optionally `e` or `E`, an optional `+` or `-` and zero or more digits,
and nothing else. -/
def float_text (s : List Int) : Bool :=
  float_after_sign
    (if decide (s.head? = some 43) || decide (s.head? = some 45) then s.tail else s)

/-- The part of the text `l` that continues a number after its `.`: the digits at the
start of `l` and then, when `e` or `E` follows, that letter, a `+` or `-` when one follows,
and the digits after it. -/
def float_rest (l : List Int) : List Int :=
  let fs := l.takeWhile isdigit
  let l1 := l.dropWhile isdigit
  if decide (l1.head? = some 101) || decide (l1.head? = some 69) then
    let l2 := l1.tail
    let sg :=
      if decide (l2.head? = some 43) || decide (l2.head? = some 45) then l2.take 1 else []
    fs ++ l1.take 1 ++ sg ++ (l2.drop sg.length).takeWhile isdigit
  else fs

/-- The kind of the three operators that begin with `+` or `-`: `+`, `-` and `-->`;
`none` for any other text. -/
def sign_operator_kind (r : List Int) : Option lexeme_type :=
  if r = [43] then some PLUS_LEXEME
  else if r = [45] then some MINUS_LEXEME
  else if r = [45, 45, 62] then some RIGHT_ARROW_LEXEME
  else none

/-- The text `w` with a backslash put before every backslash and before every byte
`delim`. -/
def esc (delim : Int) : List Int → List Int
  | [] => []
  | c :: w =>
    if decide (c = 92) || decide (c = delim) then 92 :: c :: esc delim w
    else c :: esc delim w

/-- A byte inside a line comment that `get_next_char` delivers and that does not end the
line: every byte but NUL, the newline and 255, which a signed `char` holds as `EOF`. -/
def comment_byte (c : Int) : Bool := decide (0 < c) && decide (c < 255) && decide (c ≠ 10)

/-- Recogniser of the texts made only of whitespace bytes, `;` bytes and complete line
comments (`blank_text false`); `blank_text true p` holds when `p` is the rest of a line
comment already opened, up to its newline, followed by such a text. -/
def blank_text : Bool → List Int → Bool
  | false, [] => true
  | true, [] => false
  | false, c :: p =>
    if c = 35 then blank_text true p
    else (decide (c = 59) || whitespace c) && blank_text false p
  | true, c :: p =>
    if c = 10 then blank_text false p else comment_byte c && blank_text true p

mutual
/-- The value is built from symbol references and function calls only: it holds no rete
location and no unbound variable, every pointer to an `rhs_symbol` is non-null and so is
every `referent`. -/
def rhs_value.symbolic : rhs_value → Bool
  | rhs_value.reteloc _ _ => false
  | rhs_value.unboundvar _ => false
  | rhs_value.funcall _ rest => rest.symbolic
  | rhs_value.symbol none => false
  | rhs_value.symbol (some r) => r.referent.isSome
/-- Every value of the list is built from symbol references and function calls only. -/
def cons.symbolic : cons → Bool
  | cons.nil => true
  | cons.cell first rest => first.symbolic && rest.symbolic
end

mutual
/-- The referents of the symbol references of a value that are of variable kind, at any
depth and in argument order, with repetitions. -/
def rhs_value.variables {σ : Type} (M : Marker σ) : rhs_value → List Symbol
  | rhs_value.reteloc _ _ => []
  | rhs_value.unboundvar _ => []
  | rhs_value.funcall _ rest => rest.variables M
  | rhs_value.symbol none => []
  | rhs_value.symbol (some r) =>
    match r.referent with
    | none => []
    | some sym => if M.symbol_type sym = M.VARIABLE_SYMBOL_TYPE then [sym] else []
/-- The referents of variable kind of the values of a list, in order. -/
def cons.variables {σ : Type} (M : Marker σ) : cons → List Symbol
  | cons.nil => []
  | cons.cell first rest => first.variables M ++ rest.variables M
end

/-- The value `f(<1>, g(5, <1>, <2>, <3>))` where the symbols below 4 are variables. -/
def value_f_g : rhs_value :=
  rhs_value.funcall 7 (cons.cell (rhs_value.symbol (some ⟨some 1, none⟩))
    (cons.cell (rhs_value.funcall 8 (cons.cell (rhs_value.symbol (some ⟨some 5, none⟩))
      (cons.cell (rhs_value.symbol (some ⟨some 1, none⟩))
        (cons.cell (rhs_value.symbol (some ⟨some 2, none⟩))
          (cons.cell (rhs_value.symbol (some ⟨some 3, none⟩)) cons.nil))))) cons.nil))

/-- Marks where the symbol 2 alone is marked with the traversal number 9, and the list
holds the symbol 2. -/
def marks_2 : marks := { tc_num := fun x => if x = 2 then 9 else 0, var_list := [2] }

/-- Match the pairs of symbols in order with `symbols_are_equal_with_bindings`, the
bindings left by one call being given to the next, up to the first pair that does not
match: whether every pair matched, and the bindings left by the last call made. -/
def match_in_order (M : Matcher) :
    List (Option Symbol × Option Symbol) → bindings_list → Bool × bindings_list
  | [], bindings => (true, bindings)
  | (s1, s2) :: rest, bindings =>
    let r := M.symbols_are_equal_with_bindings s1 s2 bindings
    if r.1 then match_in_order M rest r.2 else (false, r.2)

/-- A matcher that matches two symbols when they are the same symbol, and that adds the
pair it was called with to the bindings. -/
def recording_matcher : Matcher :=
  { symbols_are_equal_with_bindings := fun s1 s2 bindings =>
      (decide (s1 = s2), bindings ++ [(s1.getD 0, s2.getD 0)]) }

/-- The make-action `(1 ^2 4)` of preference kind `0`. -/
def make_action_1_2_4 : action :=
  { make_action_1_2_3 with value := symbol_reference 4 }

/-- The make-action `(1 ^2 3)` of preference kind `1`. -/
def make_action_1_2_3_kind_1 : action :=
  { make_action_1_2_3 with preference_type := 1 }

/-- The make-action `(1 ^2 3 5)` of a preference kind `6` with a referent, the reference
to the symbol `5`. -/
def make_action_1_2_3_5 : action :=
  { make_action_1_2_3 with preference_type := 6, referent := symbol_reference 5 }

/-- The value is a plain symbol reference: a pointer to an `rhs_symbol`, not null, whose
`referent` is not null. -/
def plain_symbol_reference : rhs_value → Bool
  | rhs_value.symbol (some r) => r.referent.isSome
  | _ => false

/-- The slots that the collectors of variables visit in the action are built from symbol
references and function calls only, and the id of a make-action is a plain symbol
reference. -/
def action.symbolic (preference_is_binary : Nat → Bool) (a : action) : Bool :=
  if a.type = action_type.MAKE_ACTION then
    plain_symbol_reference a.id && a.attr.symbolic && a.value.symbolic
      && (!preference_is_binary a.preference_type || a.referent.symbolic)
  else a.value.symbolic

/-- The make-action `(<1> ^f(<2>, 7) <1> <3>)` of a preference kind `6`, where the kinds
from 5 on are binary. -/
def make_action_with_call : action :=
  { type := action_type.MAKE_ACTION
    preference_type := 6
    id := symbol_reference 1
    attr := rhs_value.funcall 9 (cons.cell (symbol_reference 2)
      (cons.cell (symbol_reference 7) cons.nil))
    value := symbol_reference 1
    referent := symbol_reference 3 }

/-- The function-call action `f(<2>, <0>)`, its other slots being null. -/
def funcall_action_2_0 : action :=
  { type := action_type.FUNCALL_ACTION
    preference_type := 0
    id := rhs_value.symbol none
    attr := rhs_value.symbol none
    value := rhs_value.funcall 9 (cons.cell (symbol_reference 2)
      (cons.cell (symbol_reference 0) cons.nil))
    referent := rhs_value.symbol none }

/-- The text is empty, or is `+`, or is `-`. -/
def optional_sign (l : List Int) : Prop := l = [] ∨ l = [43] ∨ l = [45]

/-- The text is made of decimal digits; it may be empty. -/
def all_digits (l : List Int) : Prop := ∀ c ∈ l, isdigit c = true

/-- The text is empty, or is `e` or `E`, an optional `+` or `-`, and zero or more
digits. -/
def optional_exponent (ex : List Int) : Prop :=
  ex = [] ∨ ∃ e sg ds, ex = e :: sg ++ ds ∧ (e = 101 ∨ e = 69) ∧ optional_sign sg ∧ all_digits ds

/-- The text is an optional `+` or `-`, then zero or more digits, then `.`, then zero or
more digits, then an optional exponent, and nothing else. -/
def float_shape (s : List Int) : Prop :=
  ∃ sg ds fs ex, s = sg ++ ds ++ 46 :: fs ++ ex
    ∧ optional_sign sg ∧ all_digits ds ∧ all_digits fs ∧ optional_exponent ex

/-- The agent on which the routine `r`, called in the state `s`, calls
`determine_type_of_constituent_string`; `none` when the routine returns without calling
it. -/
def classified (r : lex_routine) (s : agent) : Option agent :=
  if r = lex_routine.lex_period then
    let a := finish (store_and_advance s)
    let a := if isdigit a.current_char then read_rest_of_floating_point_number a else a
    if a.lexeme.length = 1 then none else some a
  else if r ∈ constituent_routines then
    match special_kind r (read_phase r s).lexeme.string with
    | some _ => none
    | none => some (read_phase r s)
  else none

/-! # Theorems -/

/-! ## Loops -/

theorem loop_fuel_mono {σ : Type} (step : σ → loop_step σ) :
    ∀ (n : Nat) (s r : σ), loop step n s = some r → ∀ m, n ≤ m → loop step m s = some r := by
  intro n
  induction n with
  | zero => intro s r h; simp [loop] at h
  | succ n ih =>
    intro s r h m hm
    obtain ⟨k, rfl⟩ : ∃ k, m = k + 1 := ⟨m - 1, by omega⟩
    simp only [loop] at h ⊢
    cases hs : step s with
    | done r1 => rw [hs] at h; simpa using h
    | next s1 =>
      rw [hs] at h
      exact ih s1 r h k (by omega)

theorem loop_terminates {σ : Type} (step : σ → loop_step σ) (μ : σ → Nat)
    (hdec : ∀ s s1, step s = loop_step.next s1 → μ s1 < μ s) :
    ∀ (n : Nat) (s : σ), μ s < n → ∃ r, loop step n s = some r := by
  intro n
  induction n with
  | zero => intro s h; omega
  | succ n ih =>
    intro s h
    simp only [loop]
    cases hs : step s with
    | done r1 => exact ⟨r1, rfl⟩
    | next s1 =>
      have := hdec s s1 hs
      exact ih s1 (by omega)

theorem loop_eq_run {σ : Type} (step : σ → loop_step σ) (μ : σ → Nat)
    (hdec : ∀ s s1, step s = loop_step.next s1 → μ s1 < μ s) (n : Nat) (s : σ)
    (h : μ s < n) : loop step n s = some (run step μ s) := by
  obtain ⟨r, hr⟩ := loop_terminates step μ hdec (μ s + 1) s (by omega)
  have h1 := loop_fuel_mono step (μ s + 1) s r hr n (by omega)
  rw [h1, run, hr]
  rfl

theorem run_next {σ : Type} (step : σ → loop_step σ) (μ : σ → Nat)
    (hdec : ∀ s s1, step s = loop_step.next s1 → μ s1 < μ s) (s s1 : σ)
    (h : step s = loop_step.next s1) : run step μ s = run step μ s1 := by
  have h1 := loop_eq_run step μ hdec (μ s + 1) s (by omega)
  have h2 := loop_eq_run step μ hdec (μ s) s1 (hdec s s1 h)
  simp only [loop, h] at h1
  rw [h2] at h1
  exact (Option.some.inj h1).symm

theorem run_done {σ : Type} (step : σ → loop_step σ) (μ : σ → Nat) (s r : σ)
    (h : step s = loop_step.done r) : run step μ s = r := by
  simp [run, loop, h]

/-- Induction along the passes of a terminating loop. -/
theorem run_induction {σ : Type} (step : σ → loop_step σ) (μ : σ → Nat)
    (hdec : ∀ s s1, step s = loop_step.next s1 → μ s1 < μ s) (Q : σ → σ → Prop)
    (hdone : ∀ s r, step s = loop_step.done r → Q s r)
    (hnext : ∀ s s1 r, step s = loop_step.next s1 → Q s1 r → Q s r) :
    ∀ s, Q s (run step μ s) := by
  have key : ∀ n s, μ s = n → Q s (run step μ s) := by
    intro n
    induction n using Nat.strong_induction_on with
    | _ n ih =>
      intro s h
      cases hs : step s with
      | done r => rw [run_done step μ s r hs]; exact hdone s r hs
      | next s1 =>
        rw [run_next step μ hdec s s1 hs]
        exact hnext s s1 _ hs (ih (μ s1) (h ▸ hdec s s1 hs) s1 rfl)
  exact fun s => key (μ s) s rfl

/-! ## Reading characters -/

theorem pending_get_next_char_le (a : agent) : pending (get_next_char a) ≤ pending a := by
  unfold get_next_char pending
  split
  · simp_all
  · rename_i h
    split <;> try split
    all_goals simp_all [EOF]
    all_goals split <;> simp_all

theorem pending_get_next_char_lt (a : agent) (h : a.current_char ≠ EOF) :
    pending (get_next_char a) < pending a := by
  unfold get_next_char pending
  rw [if_neg h]
  split <;> try split
  all_goals simp_all [EOF]
  all_goals split <;> simp_all

theorem pending_store (a : agent) : pending (store a) = pending a := rfl

theorem pending_store_and_advance_lt (a : agent) (h : a.current_char ≠ EOF) :
    pending (store_and_advance a) < pending a := by
  have := pending_get_next_char_lt (store a) h
  rwa [pending_store] at this

theorem pending_store_and_advance_le (a : agent) :
    pending (store_and_advance a) ≤ pending a := by
  have := pending_get_next_char_le (store a)
  rwa [pending_store] at this

theorem isdigit_ne_EOF (c : Int) (h : isdigit c = true) : c ≠ EOF := by
  intro hc
  subst hc
  simp [isdigit, EOF] at h

/-! ## Every loop of the lexer uses up pending characters -/

theorem read_constituent_string_step_dec (s s1 : agent)
    (h : read_constituent_string_step s = loop_step.next s1) : pending s1 < pending s := by
  unfold read_constituent_string_step at h
  split at h
  · rename_i hc
    simp only [Bool.and_eq_true, decide_eq_true_eq] at hc
    cases h
    exact pending_store_and_advance_lt s hc.1
  · cases h

theorem read_digits_step_dec (s s1 : agent)
    (h : read_digits_step s = loop_step.next s1) : pending s1 < pending s := by
  unfold read_digits_step at h
  split at h
  · rename_i hc
    cases h
    exact pending_store_and_advance_lt s (isdigit_ne_EOF _ hc)
  · cases h

theorem skip_comment_step_dec (s s1 : agent)
    (h : skip_comment_step s = loop_step.next s1) : pending s1 < pending s := by
  unfold skip_comment_step at h
  split at h
  · rename_i hc
    simp only [Bool.and_eq_true, decide_eq_true_eq] at hc
    cases h
    exact pending_get_next_char_lt s hc.2
  · cases h

theorem run_pending_le (step : agent → loop_step agent)
    (hdec : ∀ s s1, step s = loop_step.next s1 → pending s1 < pending s)
    (hdone : ∀ s r, step s = loop_step.done r → pending r ≤ pending s) (a : agent) :
    pending (run step pending a) ≤ pending a := by
  refine run_induction step pending hdec (fun s r => pending r ≤ pending s) hdone ?_ a
  intro s s1 r hs hr
  have := hdec s s1 hs
  omega

theorem skip_comment_step_done (s r : agent)
    (h : skip_comment_step s = loop_step.done r) : r = s := by
  unfold skip_comment_step at h
  split at h
  · cases h
  · cases h; rfl

theorem pending_skip_comment_lt (a : agent) (h : a.current_char = 35) :
    pending (skip_comment a) < pending a := by
  have hstep : skip_comment_step a = loop_step.next (get_next_char a) := by
    simp [skip_comment_step, h, EOF]
  have h1 : pending (get_next_char a) < pending a :=
    pending_get_next_char_lt a (by rw [h]; simp [EOF])
  have h2 : pending (run skip_comment_step pending a) ≤ pending (get_next_char a) := by
    rw [run_next skip_comment_step pending skip_comment_step_dec a _ hstep]
    exact run_pending_le _ skip_comment_step_dec
      (fun s r hs => by rw [skip_comment_step_done s r hs]) _
  unfold skip_comment
  simp only []
  split
  · have := pending_get_next_char_le (run skip_comment_step pending a)
    omega
  · omega

theorem consume_whitespace_and_comments_step_dec (s s1 : agent)
    (h : consume_whitespace_and_comments_step s = loop_step.next s1) :
    pending s1 < pending s := by
  unfold consume_whitespace_and_comments_step at h
  split at h
  · cases h
  · rename_i hne
    split at h
    · cases h; exact pending_get_next_char_lt s hne
    · split at h
      · cases h; exact pending_get_next_char_lt s hne
      · split at h
        · rename_i hc
          cases h
          exact pending_skip_comment_lt s hc
        · cases h

theorem consume_whitespace_and_comments_step_done (s r : agent)
    (h : consume_whitespace_and_comments_step s = loop_step.done r) : r = s := by
  unfold consume_whitespace_and_comments_step at h
  repeat' split at h
  all_goals first | (cases h; rfl) | cases h

theorem pending_consume_whitespace_and_comments_le (a : agent) :
    pending (consume_whitespace_and_comments a) ≤ pending a :=
  run_pending_le _ consume_whitespace_and_comments_step_dec
    (fun s r hs => by rw [consume_whitespace_and_comments_step_done s r hs]) a

theorem lex_literal_step_dec (P : Platform) (delim : Int) (err : agent → agent)
    (s s1 : agent) (h : lex_literal_step P delim err s = loop_step.next s1) :
    pending s1 < pending s := by
  unfold lex_literal_step at h
  split at h
  · cases h
  · rename_i hc
    simp only [Bool.or_eq_true, decide_eq_true_eq, not_or] at hc
    split at h
    · cases h
      have h1 := pending_get_next_char_lt s hc.1
      have h2 := pending_get_next_char_le (store (get_next_char s))
      rw [pending_store] at h2
      omega
    · split at h
      · cases h
      · cases h
        exact pending_store_and_advance_lt s hc.1

theorem get_lexeme_step_dec (P : Platform) (s s1 : agent)
    (h : get_lexeme_step P s = loop_step.next s1) : pending s1 < pending s := by
  unfold get_lexeme_step dispatch at h
  split at h
  · rename_i hne
    have hle := pending_consume_whitespace_and_comments_le (start_lexeme s)
    have hlt := pending_get_next_char_lt _ hne
    split at h
    · cases h
      exact lt_of_lt_of_le hlt hle
    · cases h
  · cases h

/-! ## Characters -/

theorem to_char_ascii (c : Int) (h0 : 0 ≤ c) (h1 : c < 128) : to_char c = c := by
  unfold to_char; omega

theorem uchar_ascii (c : Int) (h0 : 0 ≤ c) (h1 : c < 128) : uchar c = c := by
  unfold uchar; omega

theorem uchar_to_char (x : Int) : uchar (to_char x) = uchar x := by
  unfold uchar to_char; omega

theorem to_char_of_uchar_ascii (x : Int) (h : uchar x < 128) : to_char x = uchar x := by
  unfold uchar to_char at *; omega

theorem constituent_char_range (c : Int) (h : constituent_char c = true) :
    36 ≤ c ∧ c ≤ 122 := by
  unfold constituent_char at h
  split at h
  · rename_i h1
    simp [extra_constituents] at h1
    omega
  · simp [isalnum, isalpha, isdigit] at h
    omega

theorem isdigit_constituent (c : Int) (h : isdigit c = true) : constituent_char c = true := by
  simp [constituent_char, isalnum, h]

theorem constituent_not_special (c : Int) (h : constituent_char c = true) :
    whitespace c = false ∧ c ≠ 59 ∧ c ≠ 35 ∧ c ≠ 46 ∧ c ≠ 124 ∧ c ≠ 34 ∧ c ≠ 0 ∧ c ≠ EOF := by
  have hr := constituent_char_range c h
  refine ⟨?_, ?_, ?_, ?_, ?_, ?_, ?_, ?_⟩
  · simp [whitespace, isspace]; omega
  · rintro rfl; simp [constituent_char, extra_constituents, isalnum, isalpha, isdigit] at h
  · omega
  · rintro rfl; simp [constituent_char, extra_constituents, isalnum, isalpha, isdigit] at h
  · omega
  · omega
  · omega
  · simp [EOF]; omega

/-! ## Reading from an attached text -/

theorem next_from_nil (a : agent) :
    next_from a [] = { a with lexer_input_string := none, current_char := EOF } := by
  simp [next_from, get_next_char, setLexerInput, EOF]

theorem next_from_cons (a : agent) (c : Int) (l : List Int) (h0 : 0 < c) (h1 : c < 128) :
    next_from a (c :: l) = { a with lexer_input_string := some l, current_char := c } := by
  have hc := to_char_ascii c (le_of_lt h0) h1
  have : c ≠ 0 := by omega
  simp [next_from, get_next_char, setLexerInput, EOF, hc, this]

theorem next_from_current_char (a : agent) (c : Int) (l : List Int) (h0 : 0 < c)
    (h1 : c < 128) : (next_from a (c :: l)).current_char = c := by
  rw [next_from_cons a c l h0 h1]

theorem get_next_char_next_from (a : agent) (c : Int) (l : List Int) (h0 : 0 < c)
    (h1 : c < 128) : get_next_char (next_from a (c :: l)) = next_from a l := by
  rw [next_from_cons a c l h0 h1]
  have : c ≠ EOF := by simp [EOF]; omega
  simp [next_from, get_next_char, setLexerInput, EOF, this]
  intro h; omega

theorem with_text_next_from (a : agent) (t l : List Int) :
    with_text (next_from a l) t = next_from (with_text a t) l := by
  simp only [next_from, get_next_char, setLexerInput, with_text]
  split
  · rename_i h; simp [EOF] at h
  · cases l with
    | nil => simp [EOF]
    | cons c l => by_cases hc : to_char c = 0 <;> simp [hc, EOF]

theorem store_next_from (a : agent) (c : Int) (l : List Int) (h0 : 0 < c) (h1 : c < 128) :
    store (next_from a (c :: l)) = next_from (with_text a (a.lexeme.string ++ [c])) (c :: l) := by
  rw [next_from_cons a c l h0 h1, next_from_cons _ c l h0 h1]
  simp [store, with_text, to_char_ascii c (le_of_lt h0) h1]

theorem store_and_advance_next_from (a : agent) (c : Int) (l : List Int) (h0 : 0 < c)
    (h1 : c < 128) :
    store_and_advance (next_from a (c :: l)) = next_from (with_text a (a.lexeme.string ++ [c])) l := by
  rw [store_and_advance, store_next_from a c l h0 h1, get_next_char_next_from _ c l h0 h1]

theorem next_from_lexeme (a : agent) (l : List Int) : (next_from a l).lexeme = a.lexeme := by
  simp only [next_from, get_next_char, setLexerInput]
  split
  · rfl
  · cases l with
    | nil => rfl
    | cons c l => by_cases hc : to_char c = 0 <;> simp [hc]

theorem start_lexeme_setLexerInput (a : agent) (l : Option (List Int)) :
    start_lexeme (setLexerInput a l) = setLexerInput (start_lexeme a) l := rfl

theorem start_lexeme_next_from (a : agent) (l : List Int) :
    start_lexeme (next_from a l) = next_from (start_lexeme a) l :=
  with_text_next_from a [] l

theorem start_lexeme_idem (a : agent) : start_lexeme (start_lexeme a) = start_lexeme a := rfl

/-! ## Whitespace and the start of a lexeme -/

theorem run_congr_step {σ : Type} (step : σ → loop_step σ) (μ : σ → Nat)
    (hdec : ∀ s s1, step s = loop_step.next s1 → μ s1 < μ s) (s t : σ)
    (h : step s = step t) : run step μ s = run step μ t := by
  cases hs : step s with
  | done r => rw [run_done step μ s r hs, run_done step μ t r (h ▸ hs)]
  | next s1 => rw [run_next step μ hdec s s1 hs, run_next step μ hdec t s1 (h ▸ hs)]

theorem consume_whitespace_and_comments_next (a : agent) (h : a.current_char ≠ EOF)
    (hw : whitespace (uchar a.current_char) = true) :
    consume_whitespace_and_comments a = consume_whitespace_and_comments (get_next_char a) := by
  apply run_next _ _ consume_whitespace_and_comments_step_dec
  simp [consume_whitespace_and_comments_step, h, hw]

theorem consume_whitespace_and_comments_stop (a : agent)
    (hw : whitespace (uchar a.current_char) = false) (h1 : a.current_char ≠ 59)
    (h2 : a.current_char ≠ 35) : consume_whitespace_and_comments a = a := by
  apply run_done
  simp [consume_whitespace_and_comments_step, hw, h1, h2]

theorem consume_whitespace_and_comments_EOF (a : agent) (h : a.current_char = EOF) :
    consume_whitespace_and_comments a = a := by
  apply run_done
  simp [consume_whitespace_and_comments_step, h]

theorem consume_whitespace_and_comments_attach (a : agent) (l : List Int) :
    consume_whitespace_and_comments (setLexerInput a (some l))
      = consume_whitespace_and_comments (next_from a l) := by
  rw [consume_whitespace_and_comments_next]
  · rfl
  · simp [setLexerInput, EOF]
  · simp [setLexerInput, whitespace, isspace, uchar]

theorem get_lexeme_next (P : Platform) (a s : agent)
    (h : get_lexeme_step P a = loop_step.next s) : get_lexeme P a = get_lexeme P s :=
  run_next _ _ (get_lexeme_step_dec P) a s h

theorem get_lexeme_done (P : Platform) (a r : agent)
    (h : get_lexeme_step P a = loop_step.done r) : get_lexeme P a = r :=
  run_done _ _ a r h

theorem get_lexeme_step_attach (P : Platform) (a : agent) (l : List Int) :
    get_lexeme_step P (setLexerInput a (some l))
      = dispatch P (consume_whitespace_and_comments (next_from (start_lexeme a) l)) := by
  rw [get_lexeme_step, start_lexeme_setLexerInput, consume_whitespace_and_comments_attach]

theorem get_lexeme_step_next_from (P : Platform) (a : agent) (l : List Int) :
    get_lexeme_step P (next_from a l)
      = dispatch P (consume_whitespace_and_comments (next_from (start_lexeme a) l)) := by
  rw [get_lexeme_step, start_lexeme_next_from]

theorem get_lexeme_attach (P : Platform) (a : agent) (l : List Int) :
    get_lexeme P (setLexerInput a (some l)) = get_lexeme P (next_from a l) := by
  apply run_congr_step _ _ (get_lexeme_step_dec P)
  rw [get_lexeme_step_attach, get_lexeme_step_next_from]

theorem unknown_byte_spec (u : Int) (h : unknown_byte u = true) :
    0 < u ∧ u < 128 ∧ whitespace u = false ∧ u ≠ 59 ∧ u ≠ 35
      ∧ lexer_routines u = lex_routine.lex_unknown := by
  simp only [unknown_byte, Bool.and_eq_true, decide_eq_true_eq, Bool.not_eq_true',
    List.mem_cons, List.mem_singleton, not_or, List.not_mem_nil, not_false_eq_true,
    and_true] at h
  obtain ⟨⟨⟨⟨⟨⟨h0, h1⟩, hw⟩, h35⟩, h59⟩, hc⟩, hl⟩ := h
  refine ⟨h0, h1, hw, h59, h35, ?_⟩
  have hd : isdigit u = false := by
    cases hd : isdigit u
    · rfl
    · rw [isdigit_constituent u hd] at hc; cases hc
  have h64 : u ≠ 64 := by rintro rfl; revert hc; decide
  have h43 : u ≠ 43 := by rintro rfl; revert hc; decide
  have h45 : u ≠ 45 := by rintro rfl; revert hc; decide
  have h62 : u ≠ 62 := by rintro rfl; revert hc; decide
  have h60 : u ≠ 60 := by rintro rfl; revert hc; decide
  have h61 : u ≠ 61 := by rintro rfl; revert hc; decide
  have h38 : u ≠ 38 := by rintro rfl; revert hc; decide
  simp [lexer_routines, hl, hd, hc, h64, h43, h45, h62, h60, h61, h38]

theorem get_lexeme_skip_unknown (P : Platform) (a : agent) (u : Int) (l : List Int)
    (h : unknown_byte u = true) :
    get_lexeme P (next_from a (u :: l)) = get_lexeme P (next_from a l) := by
  obtain ⟨h0, h1, hw, h59, h35, hr⟩ := unknown_byte_spec u h
  have hu := uchar_ascii u (le_of_lt h0) h1
  have hcur := next_from_current_char (start_lexeme a) u l h0 h1
  have hE : u ≠ EOF := by simp [EOF]; omega
  have e1 : get_lexeme P (next_from a (u :: l)) = get_lexeme P (next_from (start_lexeme a) l) := by
    apply get_lexeme_next
    rw [get_lexeme_step_next_from, consume_whitespace_and_comments_stop _
      (by rw [hcur, hu]; exact hw) (by rw [hcur]; exact h59) (by rw [hcur]; exact h35)]
    simp only [dispatch, hcur, hu, hr, call_routine, if_true, ne_eq, hE, not_false_eq_true]
    rw [get_next_char_next_from _ u l h0 h1]
  rw [e1]
  apply run_congr_step _ _ (get_lexeme_step_dec P)
  rw [get_lexeme_step_next_from, get_lexeme_step_next_from, start_lexeme_idem]

/-! ## What the routines leave unchanged, and their progress -/

theorem determine_type_frame (P : Platform) (a : agent) :
    let r := (determine_type_of_constituent_string P a).1
    r.lexer_input_string = a.lexer_input_string ∧ r.current_char = a.current_char
      ∧ r.parentheses_level = a.parentheses_level ∧ r.allow_ids = a.allow_ids
      ∧ r.print_warnings = a.print_warnings ∧ r.lexeme.string = a.lexeme.string := by
  simp only [determine_type_of_constituent_string]
  repeat' split
  all_goals simp [set_type, print]

theorem pending_determine_type (P : Platform) (a : agent) :
    pending (determine_type_of_constituent_string P a).1 = pending a := by
  obtain ⟨h1, h2, -⟩ := determine_type_frame P a
  simp only [pending, h1, h2]

theorem pending_set_type (a : agent) (t : lexeme_type) : pending (set_type a t) = pending a :=
  rfl

theorem pending_lex_single_lt (t : lexeme_type) (a : agent) (h : a.current_char ≠ EOF) :
    pending (lex_single t a) < pending a :=
  pending_store_and_advance_lt a h

theorem read_constituent_string_next (a : agent) (h : a.current_char ≠ EOF)
    (hc : constituent_char (uchar a.current_char) = true) :
    read_constituent_string a = read_constituent_string (store_and_advance a) := by
  unfold read_constituent_string finish
  apply run_next _ _ read_constituent_string_step_dec
  simp [read_constituent_string_step, h, hc]

theorem read_constituent_string_stop (a : agent)
    (h : a.current_char = EOF ∨ constituent_char (uchar a.current_char) = false) :
    read_constituent_string a = a := by
  unfold read_constituent_string finish
  apply run_done
  rcases h with h | h <;> simp [read_constituent_string_step, h]

theorem read_constituent_string_step_done (s r : agent)
    (h : read_constituent_string_step s = loop_step.done r) : r = s := by
  unfold read_constituent_string_step at h
  split at h
  · cases h
  · cases h; rfl

theorem read_digits_step_done (s r : agent)
    (h : read_digits_step s = loop_step.done r) : r = s := by
  unfold read_digits_step at h
  split at h
  · cases h
  · cases h; rfl

theorem pending_read_constituent_string_le (a : agent) :
    pending (read_constituent_string a) ≤ pending a :=
  run_pending_le _ read_constituent_string_step_dec
    (fun s r hs => by rw [read_constituent_string_step_done s r hs]) a

theorem pending_read_digits_le (a : agent) :
    pending (run read_digits_step pending a) ≤ pending a :=
  run_pending_le _ read_digits_step_dec
    (fun s r hs => by rw [read_digits_step_done s r hs]) a

theorem pending_read_constituent_string_lt (a : agent) (h : a.current_char ≠ EOF)
    (hc : constituent_char (uchar a.current_char) = true) :
    pending (read_constituent_string a) < pending a := by
  rw [read_constituent_string_next a h hc]
  exact lt_of_le_of_lt (pending_read_constituent_string_le _)
    (pending_store_and_advance_lt a h)

theorem pending_read_rest_of_floating_point_number_le (a : agent) :
    pending (read_rest_of_floating_point_number a) ≤ pending a := by
  unfold read_rest_of_floating_point_number finish
  simp only []
  have h1 := pending_store_and_advance_le a
  have h2 := pending_read_digits_le (store_and_advance a)
  split
  · have h3 := pending_store_and_advance_le (run read_digits_step pending (store_and_advance a))
    split
    · have h4 := pending_store_and_advance_le
        (store_and_advance (run read_digits_step pending (store_and_advance a)))
      have h5 := pending_read_digits_le (store_and_advance
        (store_and_advance (run read_digits_step pending (store_and_advance a))))
      omega
    · have h5 := pending_read_digits_le
        (store_and_advance (run read_digits_step pending (store_and_advance a)))
      omega
  · omega

theorem pending_read_possible_number_lt (a : agent) (h : a.current_char ≠ EOF)
    (hc : constituent_char (uchar a.current_char) = true) :
    pending (read_possible_number a) < pending a := by
  unfold read_possible_number
  simp only []
  have h1 := pending_read_constituent_string_lt a h hc
  split
  · have := pending_read_rest_of_floating_point_number_le (read_constituent_string a)
    omega
  · exact h1

theorem lex_literal_step_done_le (P : Platform) (delim c : Int) (d : diagnostic)
    (s r : agent) (h : lex_literal_step P delim (unterminated d c) s = loop_step.done r) :
    pending r ≤ pending s := by
  unfold lex_literal_step at h
  split at h
  · cases h; exact le_of_eq rfl
  · split at h
    · cases h
    · split at h
      · cases h; exact pending_get_next_char_le s
      · cases h

theorem pending_lex_literal_lt (P : Platform) (delim c : Int) (d : diagnostic) (t : lexeme_type)
    (a : agent) (h : a.current_char ≠ EOF) :
    pending (run (lex_literal_step P delim (unterminated d c)) pending
      (get_next_char (set_type a t))) < pending a := by
  have h1 : pending (get_next_char (set_type a t)) < pending a :=
    pending_get_next_char_lt (set_type a t) h
  have h2 := run_pending_le _ (lex_literal_step_dec P delim (unterminated d c))
    (lex_literal_step_done_le P delim c d) (get_next_char (set_type a t))
  omega

theorem lexer_routines_constituent (i : Int)
    (h : lexer_routines i ∈ [lex_routine.lex_plus, lex_routine.lex_minus,
      lex_routine.lex_greater, lex_routine.lex_less, lex_routine.lex_equal,
      lex_routine.lex_ampersand, lex_routine.lex_digit, lex_routine.lex_constituent_string]) :
    constituent_char i = true := by
  unfold lexer_routines at h
  by_cases h64 : i = 64
  · rw [if_pos h64] at h; exact absurd h (by decide)
  rw [if_neg h64] at h
  by_cases h40 : i = 40
  · rw [if_pos h40] at h; exact absurd h (by decide)
  rw [if_neg h40] at h
  by_cases h41 : i = 41
  · rw [if_pos h41] at h; exact absurd h (by decide)
  rw [if_neg h41] at h
  by_cases h43 : i = 43
  · subst h43; decide
  rw [if_neg h43] at h
  by_cases h45 : i = 45
  · subst h45; decide
  rw [if_neg h45] at h
  by_cases h126 : i = 126
  · rw [if_pos h126] at h; exact absurd h (by decide)
  rw [if_neg h126] at h
  by_cases h94 : i = 94
  · rw [if_pos h94] at h; exact absurd h (by decide)
  rw [if_neg h94] at h
  by_cases h123 : i = 123
  · rw [if_pos h123] at h; exact absurd h (by decide)
  rw [if_neg h123] at h
  by_cases h125 : i = 125
  · rw [if_pos h125] at h; exact absurd h (by decide)
  rw [if_neg h125] at h
  by_cases h33 : i = 33
  · rw [if_pos h33] at h; exact absurd h (by decide)
  rw [if_neg h33] at h
  by_cases h62 : i = 62
  · subst h62; decide
  rw [if_neg h62] at h
  by_cases h60 : i = 60
  · subst h60; decide
  rw [if_neg h60] at h
  by_cases h61 : i = 61
  · subst h61; decide
  rw [if_neg h61] at h
  by_cases h38 : i = 38
  · subst h38; decide
  rw [if_neg h38] at h
  by_cases h124 : i = 124
  · rw [if_pos h124] at h; exact absurd h (by decide)
  rw [if_neg h124] at h
  by_cases h44 : i = 44
  · rw [if_pos h44] at h; exact absurd h (by decide)
  rw [if_neg h44] at h
  by_cases h46 : i = 46
  · rw [if_pos h46] at h; exact absurd h (by decide)
  rw [if_neg h46] at h
  by_cases h34 : i = 34
  · rw [if_pos h34] at h; exact absurd h (by decide)
  rw [if_neg h34] at h
  by_cases hd : isdigit i = true
  · exact isdigit_constituent i hd
  rw [if_neg hd] at h
  by_cases hc : constituent_char i = true
  · exact hc
  rw [if_neg hc] at h; exact absurd h (by decide)

theorem pending_call_routine_lt (P : Platform) (a : agent) (h : a.current_char ≠ EOF) :
    pending (call_routine P (lexer_routines (uchar a.current_char)) a) < pending a := by
  have hR := lexer_routines_constituent (uchar a.current_char)
  have hs : ∀ t, pending (lex_single t a) < pending a := fun t => pending_lex_single_lt t a h
  cases hr : lexer_routines (uchar a.current_char) <;> rw [hr] at hR <;>
    simp only [call_routine]
  case lex_unknown => exact pending_get_next_char_lt a h
  case lex_at => exact hs _
  case lex_tilde => exact hs _
  case lex_up_arrow => exact hs _
  case lex_lbrace => exact hs _
  case lex_rbrace => exact hs _
  case lex_exclamation_point => exact hs _
  case lex_comma => exact hs _
  case lex_lparen => exact hs L_PAREN_LEXEME
  case lex_rparen =>
    unfold lex_rparen
    simp only []
    split
    · exact hs R_PAREN_LEXEME
    · exact hs R_PAREN_LEXEME
  case lex_plus =>
    have h1 := pending_read_possible_number_lt a h (hR (by simp))
    unfold lex_plus
    simp only []
    split_ifs <;> simp only [pending_set_type, pending_determine_type] <;> exact h1
  case lex_minus =>
    have h1 := pending_read_possible_number_lt a h (hR (by simp))
    unfold lex_minus
    simp only []
    split_ifs <;> simp only [pending_set_type, pending_determine_type] <;> exact h1
  case lex_digit =>
    have h1 := pending_read_possible_number_lt a h (hR (by simp))
    unfold lex_digit
    simp only [pending_determine_type]
    exact h1
  case lex_greater =>
    have h1 := pending_read_constituent_string_lt a h (hR (by simp))
    unfold lex_greater
    simp only []
    split_ifs <;> simp only [pending_set_type, pending_determine_type] <;> exact h1
  case lex_less =>
    have h1 := pending_read_constituent_string_lt a h (hR (by simp))
    unfold lex_less
    simp only []
    split_ifs <;> simp only [pending_set_type, pending_determine_type] <;> exact h1
  case lex_equal =>
    have h1 := pending_read_constituent_string_lt a h (hR (by simp))
    unfold lex_equal
    simp only []
    split_ifs <;> simp only [pending_set_type, pending_determine_type] <;> exact h1
  case lex_ampersand =>
    have h1 := pending_read_constituent_string_lt a h (hR (by simp))
    unfold lex_ampersand
    simp only []
    split_ifs <;> simp only [pending_set_type, pending_determine_type] <;> exact h1
  case lex_constituent_string =>
    have h1 := pending_read_constituent_string_lt a h (hR (by simp))
    unfold lex_constituent_string
    simp only [pending_determine_type]
    exact h1
  case lex_period =>
    have h1 : pending (finish (store_and_advance a)) < pending a :=
      pending_store_and_advance_lt a h
    have h2 := pending_read_rest_of_floating_point_number_le (finish (store_and_advance a))
    unfold lex_period
    simp only []
    split_ifs <;> simp only [pending_set_type, pending_determine_type] <;> omega
  case lex_vbar => exact pending_lex_literal_lt P 124 _ _ _ a h
  case lex_quote => exact pending_lex_literal_lt P 34 _ _ _ a h

theorem get_lexeme_progress (P : Platform) (a : agent) :
    (get_lexeme P a).lexeme.type = EOF_LEXEME ∨ pending (get_lexeme P a) < pending a := by
  refine run_induction (get_lexeme_step P) pending (get_lexeme_step_dec P)
    (fun s r => r.lexeme.type = EOF_LEXEME ∨ pending r < pending s) ?_ ?_ a
  · intro s r hs
    unfold get_lexeme_step dispatch at hs
    have hle := pending_consume_whitespace_and_comments_le (start_lexeme s)
    split at hs
    · rename_i hne
      split at hs
      · cases hs
      · cases hs
        right
        exact lt_of_lt_of_le (pending_call_routine_lt P _ hne) hle
    · cases hs
      left
      rfl
  · intro s s1 r hs hr
    have := get_lexeme_step_dec P s s1 hs
    rcases hr with hr | hr
    · exact Or.inl hr
    · exact Or.inr (by omega)

/-! ## Termination -/

/-- The loops of the lexer leave through an exit of their body: the passes of
`get_lexeme_step`, one for each activation of `get_lexeme`, and each loop of the lexer
(whitespace and comments, an unterminated comment included, constituent strings, digits,
quoted literals, terminated or not) end before the fuel `pending a + 1` is used up,
whatever the state `a`; and a call of `get_lexeme` either returns an `EOF_LEXEME` or uses
up at least one pending character.  The activations of `get_lexeme` that are on the stack
at once are counted by `get_lexeme_frames`. -/
theorem get_lexeme_terminates (P : Platform) (a : agent) (delim : Int)
    (err : agent → agent) :
    loop (get_lexeme_step P) (pending a + 1) a = some (get_lexeme P a)
    ∧ loop consume_whitespace_and_comments_step (pending a + 1) a
        = some (consume_whitespace_and_comments a)
    ∧ loop skip_comment_step (pending a + 1) a = some (run skip_comment_step pending a)
    ∧ loop read_constituent_string_step (pending a + 1) a = some (read_constituent_string a)
    ∧ loop read_digits_step (pending a + 1) a = some (run read_digits_step pending a)
    ∧ loop (lex_literal_step P delim err) (pending a + 1) a
        = some (run (lex_literal_step P delim err) pending a)
    ∧ ((get_lexeme P a).lexeme.type = EOF_LEXEME ∨ pending (get_lexeme P a) < pending a) :=
  ⟨loop_eq_run _ _ (get_lexeme_step_dec P) _ a (Nat.lt_succ_self _),
   loop_eq_run _ _ consume_whitespace_and_comments_step_dec _ a (Nat.lt_succ_self _),
   loop_eq_run _ _ skip_comment_step_dec _ a (Nat.lt_succ_self _),
   loop_eq_run _ _ read_constituent_string_step_dec _ a (Nat.lt_succ_self _),
   loop_eq_run _ _ read_digits_step_dec _ a (Nat.lt_succ_self _),
   loop_eq_run _ _ (lex_literal_step_dec P delim err) _ a (Nat.lt_succ_self _),
   get_lexeme_progress P a⟩

/-! ## Unknown bytes -/

/-- The value that `get_lexeme` returns after unknown bytes: for unknown bytes `us` and any
remaining input `rest`, `get_lexeme` on the attached text `us ++ rest` has the value it has
on the attached text `rest`, and the same holds in the middle of a text.  This is the
value that the innermost activation of `get_lexeme` returns; the activations that
`lex_unknown` nests to come to it are counted by `get_lexeme_frames`. -/
theorem unknown_bytes_are_skipped (P : Platform) (a : agent) (us rest : List Int)
    (h : ∀ u ∈ us, unknown_byte u = true) :
    get_lexeme P (setLexerInput a (some (us ++ rest)))
        = get_lexeme P (setLexerInput a (some rest))
    ∧ get_lexeme P (next_from a (us ++ rest)) = get_lexeme P (next_from a rest) := by
  have key : get_lexeme P (next_from a (us ++ rest)) = get_lexeme P (next_from a rest) := by
    induction us with
    | nil => rfl
    | cons u us ih =>
      rw [List.cons_append, get_lexeme_skip_unknown P a u _ (h u (List.mem_cons_self u us))]
      exact ih (fun v hv => h v (List.mem_cons_of_mem u hv))
  exact ⟨by rw [get_lexeme_attach, get_lexeme_attach, key], key⟩

/-! ## Copying and deallocating right-hand-side values -/

theorem symbol_add_ref_apply (refs : refcounts) (s x : Symbol) :
    symbol_add_ref refs s x = refs x + (if s = x then 1 else 0) := by
  unfold symbol_add_ref
  by_cases h : s = x
  · subst h; simp
  · simp [h, Function.update_noteq (Ne.symm h)]

theorem symbol_remove_ref_apply (refs : refcounts) (s x : Symbol) :
    symbol_remove_ref refs s x = refs x - (if s = x then 1 else 0) := by
  unfold symbol_remove_ref
  by_cases h : s = x
  · subst h; simp
  · simp [h, Function.update_noteq (Ne.symm h)]

theorem make_rhs_value_symbol_some (refs : refcounts) (s : Symbol) (o : Option Symbol) :
    make_rhs_value_symbol refs (some s) o
      = (rhs_value.symbol (some { referent := some s, original_variable := o }),
         fun x => refs x + (rhs_symbol.held { referent := some s, original_variable := o } x)) := by
  cases o with
  | none =>
    simp only [make_rhs_value_symbol, make_rhs_value_symbol_no_refcount, rhs_symbol.held]
    congr 1
    funext x
    simp [symbol_add_ref_apply]
  | some t =>
    simp only [make_rhs_value_symbol, make_rhs_value_symbol_no_refcount, rhs_symbol.held]
    congr 1
    funext x
    simp [symbol_add_ref_apply, add_assoc]

mutual
theorem copy_rhs_value_eq : ∀ (v : rhs_value) (refs : refcounts), v.well_formed = true →
    copy_rhs_value refs v = some (v, fun x => refs x + v.held x)
  | rhs_value.reteloc _ _, refs, _ => by simp [copy_rhs_value, rhs_value.held]
  | rhs_value.unboundvar _, refs, _ => by simp [copy_rhs_value, rhs_value.held]
  | rhs_value.funcall f rest, refs, h => by
    have ih := copy_rhs_value_list_eq rest refs (by simpa [rhs_value.well_formed] using h)
    simp [copy_rhs_value, ih, rhs_value.held]
  | rhs_value.symbol none, refs, h => by simp [rhs_value.well_formed] at h
  | rhs_value.symbol (some ⟨none, o⟩), refs, h => by simp [rhs_value.well_formed] at h
  | rhs_value.symbol (some ⟨some s, o⟩), refs, _ => by
    simp [copy_rhs_value, make_rhs_value_symbol_some, rhs_value.held]
theorem copy_rhs_value_list_eq : ∀ (l : cons) (refs : refcounts), l.well_formed = true →
    copy_rhs_value_list refs l = some (l, fun x => refs x + l.held x)
  | cons.nil, refs, _ => by simp [copy_rhs_value_list, cons.held]
  | cons.cell first rest, refs, h => by
    have h' : first.well_formed = true ∧ rest.well_formed = true := by
      simpa [cons.well_formed] using h
    have ih1 := copy_rhs_value_eq first refs h'.1
    have ih2 := copy_rhs_value_list_eq rest (fun x => refs x + first.held x) h'.2
    simp [copy_rhs_value_list, ih1, ih2, cons.held, add_assoc]
end

mutual
theorem deallocate_rhs_value_eq : ∀ (v : rhs_value) (refs : refcounts),
    v.well_formed = true → deallocate_rhs_value refs v = some (fun x => refs x - v.held x)
  | rhs_value.reteloc _ _, refs, _ => by simp [deallocate_rhs_value, rhs_value.held]
  | rhs_value.unboundvar _, refs, _ => by simp [deallocate_rhs_value, rhs_value.held]
  | rhs_value.funcall f rest, refs, h => by
    have ih := deallocate_rhs_value_list_eq rest refs (by simpa [rhs_value.well_formed] using h)
    simp [deallocate_rhs_value, ih, rhs_value.held]
  | rhs_value.symbol none, refs, h => by simp [rhs_value.well_formed] at h
  | rhs_value.symbol (some ⟨none, o⟩), refs, h => by simp [rhs_value.well_formed] at h
  | rhs_value.symbol (some ⟨some s, none⟩), refs, _ => by
    simp only [deallocate_rhs_value, rhs_value.held, rhs_symbol.held]
    congr 1
    funext x
    simp [symbol_remove_ref_apply]
  | rhs_value.symbol (some ⟨some s, some t⟩), refs, _ => by
    simp only [deallocate_rhs_value, rhs_value.held, rhs_symbol.held]
    congr 1
    funext x
    simp only [symbol_remove_ref_apply, Option.some.injEq]
    omega
theorem deallocate_rhs_value_list_eq : ∀ (l : cons) (refs : refcounts),
    l.well_formed = true → deallocate_rhs_value_list refs l = some (fun x => refs x - l.held x)
  | cons.nil, refs, _ => by simp [deallocate_rhs_value_list, cons.held]
  | cons.cell first rest, refs, h => by
    have h' : first.well_formed = true ∧ rest.well_formed = true := by
      simpa [cons.well_formed] using h
    have ih1 := deallocate_rhs_value_eq first refs h'.1
    have ih2 := deallocate_rhs_value_list_eq rest (fun x => refs x - first.held x) h'.2
    simp only [deallocate_rhs_value_list, ih1, ih2, cons.held]
    congr 1
    funext x
    omega
end

/-- C2: reference symmetry.  For every rhs value `v` whose symbol references have a
non-null referent (function calls nested to any depth, rete locations and
unbound-variable placeholders included) and for all reference counts `refs`,
`copy_rhs_value` succeeds and `deallocate_rhs_value` of the copy succeeds and restores
the count of every symbol; a symbol reference whose referent and original_variable are
the same symbol is included. -/
theorem deallocate_copy_restores_refcounts (v : rhs_value) (refs : refcounts)
    (h : v.well_formed = true) :
    ∃ v1 refs1, copy_rhs_value refs v = some (v1, refs1)
      ∧ deallocate_rhs_value refs1 v1 = some refs := by
  refine ⟨v, fun x => refs x + v.held x, copy_rhs_value_eq v refs h, ?_⟩
  rw [deallocate_rhs_value_eq v _ h]
  congr 1
  funext x
  omega

theorem deallocate_copy_restores_refcounts_witness :
    ∃ v1 refs1,
      copy_rhs_value (fun _ => 1)
          (rhs_value.funcall 7 (cons.cell (rhs_value.symbol (some ⟨some 3, some 3⟩))
            (cons.cell (rhs_value.reteloc 0 1) cons.nil))) = some (v1, refs1)
      ∧ deallocate_rhs_value refs1 v1 = some (fun _ => 1) :=
  deallocate_copy_restores_refcounts
    (rhs_value.funcall 7 (cons.cell (rhs_value.symbol (some ⟨some 3, some 3⟩))
      (cons.cell (rhs_value.reteloc 0 1) cons.nil))) (fun _ => 1) (by decide)

/-! ## The `sp` command -/

/-- C8: the duplicate outcome of the loader.  For every production text, when the
parser returns no production and the signal `DUPLICATE_PRODUCTION`, `DoSP` returns
`true`, records no error, adds exactly one to the ignored counter, leaves the sourced
counter unchanged and appends nothing to the result buffer. -/
theorem DoSP_duplicate (P : Platform) (K : Kernel) (cli : CommandLineInterface)
    (productionString : List Int) (a1 : agent)
    (h : K.parse_production
          (get_lexeme P (set_lexer_allow_ids
            (setLexerInput cli.agent (some productionString)) false)) 0
        = (none, K.DUPLICATE_PRODUCTION, a1)) :
    (DoSP P K cli productionString).2.2 = true
    ∧ (DoSP P K cli productionString).1.m_LastError = cli.m_LastError
    ∧ (DoSP P K cli productionString).1.m_NumProductionsIgnored
        = cli.m_NumProductionsIgnored + 1
    ∧ (DoSP P K cli productionString).1.m_NumProductionsSourced = cli.m_NumProductionsSourced
    ∧ (DoSP P K cli productionString).1.m_Result = cli.m_Result := by
  simp [DoSP, h]

theorem DoSP_duplicate_witness :
    (DoSP lp64 duplicate_kernel cli0 [115, 112]).2.2 = true
    ∧ (DoSP lp64 duplicate_kernel cli0 [115, 112]).1.m_LastError = cli0.m_LastError
    ∧ (DoSP lp64 duplicate_kernel cli0 [115, 112]).1.m_NumProductionsIgnored
        = cli0.m_NumProductionsIgnored + 1
    ∧ (DoSP lp64 duplicate_kernel cli0 [115, 112]).1.m_NumProductionsSourced
        = cli0.m_NumProductionsSourced
    ∧ (DoSP lp64 duplicate_kernel cli0 [115, 112]).1.m_Result = cli0.m_Result :=
  DoSP_duplicate lp64 duplicate_kernel cli0 [115, 112] _ rfl

/-! ## Reading a constituent string -/

theorem with_text_string (a : agent) : with_text a a.lexeme.string = a := rfl

theorem with_text_with_text (a : agent) (s t : List Int) :
    with_text (with_text a s) t = with_text a t := rfl

theorem next_from_stops (a : agent) (rest : List Int)
    (hr : ends_constituent_string rest = true) :
    (next_from a rest).current_char = EOF
      ∨ constituent_char (uchar (next_from a rest).current_char) = false := by
  cases rest with
  | nil => left; rw [next_from_nil]
  | cons b bs =>
    simp only [ends_constituent_string, Bool.not_eq_true'] at hr
    simp only [next_from, get_next_char, setLexerInput]
    have h32 : ¬ ((32 : Int) = EOF) := by decide
    rw [if_neg h32]
    by_cases hb : to_char b = 0
    · left; simp [hb]
    · right; simp [hb, uchar_to_char, hr]

theorem read_constituent_string_run (t : List Int) :
    ∀ (a : agent) (rest : List Int), (∀ c ∈ t, constituent_char c = true) →
      ends_constituent_string rest = true →
      read_constituent_string (next_from a (t ++ rest))
        = next_from (with_text a (a.lexeme.string ++ t)) rest := by
  induction t with
  | nil =>
    intro a rest _ hr
    rw [List.nil_append, List.append_nil, with_text_string]
    exact read_constituent_string_stop _ (next_from_stops a rest hr)
  | cons c t ih =>
    intro a rest ht hr
    have hc := ht c (List.mem_cons_self c t)
    have hrange := constituent_char_range c hc
    have h0 : 0 < c := by omega
    have h1 : c < 128 := by omega
    have hcur := next_from_current_char a c (t ++ rest) h0 h1
    rw [List.cons_append, read_constituent_string_next _ (by rw [hcur]; simp [EOF]; omega)
      (by rw [hcur, uchar_ascii c (le_of_lt h0) h1]; exact hc),
      store_and_advance_next_from a c _ h0 h1,
      ih _ rest (fun d hd => ht d (List.mem_cons_of_mem c hd)) hr, with_text_with_text]
    simp [with_text]

theorem all_constituent_of_forall (t : List Int) (h : ∀ c ∈ t, constituent_char c = true) :
    all_constituent t = true := by
  induction t with
  | nil => rfl
  | cons c t ih =>
    have hc := h c (List.mem_cons_self c t)
    have hrange := constituent_char_range c hc
    have hu : uchar c = c := uchar_ascii c (by omega) (by omega)
    have h0 : c ≠ 0 := by omega
    simp [all_constituent, h0, hu, hc, ih (fun d hd => h d (List.mem_cons_of_mem c hd))]

/-! ## The routine called by `get_lexeme` -/

theorem get_lexeme_at (P : Platform) (a : agent) (c : Int) (l : List Int) (h0 : 0 < c)
    (h1 : c < 128) (hw : whitespace c = false) (h59 : c ≠ 59) (h35 : c ≠ 35)
    (hr : lexer_routines c ≠ lex_routine.lex_unknown) :
    get_lexeme P (next_from a (c :: l))
      = call_routine P (lexer_routines c) (next_from (start_lexeme a) (c :: l)) := by
  have hu := uchar_ascii c (le_of_lt h0) h1
  have hcur := next_from_current_char (start_lexeme a) c l h0 h1
  have hE : c ≠ EOF := by simp [EOF]; omega
  apply get_lexeme_done
  rw [get_lexeme_step_next_from, consume_whitespace_and_comments_stop _
    (by rw [hcur, hu]; exact hw) (by rw [hcur]; exact h59) (by rw [hcur]; exact h35)]
  simp only [dispatch, hcur, hu, hr, if_true, if_false, ne_eq, hE, not_false_eq_true]

theorem get_lexeme_at_constituent (P : Platform) (a : agent) (c : Int) (l : List Int)
    (hc : constituent_char c = true) (h64 : c ≠ 64) :
    get_lexeme P (next_from a (c :: l))
      = call_routine P (lexer_routines c) (next_from (start_lexeme a) (c :: l)) := by
  have hrange := constituent_char_range c hc
  obtain ⟨hw, h59, h35, h46, h124, h34, -, -⟩ := constituent_not_special c hc
  apply get_lexeme_at P a c l (by omega) (by omega) hw h59 h35
  have e40 : c ≠ 40 := by rintro rfl; revert hc; decide
  have e41 : c ≠ 41 := by rintro rfl; revert hc; decide
  have e126 : c ≠ 126 := by omega
  have e94 : c ≠ 94 := by rintro rfl; revert hc; decide
  have e123 : c ≠ 123 := by omega
  have e125 : c ≠ 125 := by omega
  have e33 : c ≠ 33 := by omega
  have e44 : c ≠ 44 := by rintro rfl; revert hc; decide
  simp only [lexer_routines, h64, e40, e41, e126, e94, e123, e125, e33, h124, e44, h46, h34,
    if_false, hc, if_true]
  split_ifs <;> simp

/-! ## Variables -/

theorem char_at_last (t : List Int) (c : Int) (h : t.getLast? = some c) :
    char_at t (t.length - 1) = c := by
  rw [List.getLast?_eq_getElem?] at h
  simp [char_at, h]

theorem char_at_zero (t : List Int) (c : Int) (h : t.head? = some c) : char_at t 0 = c := by
  cases t with
  | nil => simp at h
  | cons d t => simp at h; simp [char_at, h]

theorem determine_type_variable (P : Platform) (a : agent)
    (h1 : all_constituent a.lexeme.string = true) (h2 : char_at a.lexeme.string 0 = 60)
    (h3 : char_at a.lexeme.string (a.lexeme.length - 1) = 62) :
    (determine_type_of_constituent_string P a).1 = set_type a VARIABLE_LEXEME := by
  simp [determine_type_of_constituent_string, determine_possible_symbol_types_for_string,
    h1, h2, h3]

theorem lex_less_long (P : Platform) (a : agent)
    (h1 : 3 ≤ (read_constituent_string a).lexeme.string.length)
    (h2 : (read_constituent_string a).lexeme.string.take 3 ≠ [60, 61, 62]
      ∨ 3 < (read_constituent_string a).lexeme.string.length)
    (h3 : char_at (read_constituent_string a).lexeme.string 0 = 60) :
    lex_less P a = (determine_type_of_constituent_string P (read_constituent_string a)).1 := by
  unfold lex_less
  simp only [lexeme_info.length]
  generalize (read_constituent_string a) = b at *
  have e1 : b.lexeme.string.length ≠ 1 := by omega
  have e2 : b.lexeme.string.length ≠ 2 := by omega
  have e3 : ¬ (b.lexeme.string.length = 3 ∧ char_at b.lexeme.string 1 = 61
      ∧ char_at b.lexeme.string 2 = 62) := by
    rintro ⟨hl, h61, h62⟩
    rcases h2 with h2 | h2
    · apply h2
      match hs : b.lexeme.string, hl with
      | [x, y, z], _ =>
        rw [hs] at h3 h61 h62
        simp [char_at] at h3 h61 h62
        simp [h3, h61, h62]
    · omega
  simp only [e1, e2, if_false, decide_False, Bool.false_and, Bool.and_eq_true,
    decide_eq_true_eq, and_assoc, e3]
  simp

/-- The lexeme of a text in angle brackets, on the text as the list of the bytes stored:
a text `t` of at least three constituent bytes that starts with `<`, ends with `>` and is
not `<=>`, followed by the end of the input or by a byte that is not a constituent, gives
the kind `VARIABLE_LEXEME` and the bytes `t`, whatever the value `allow` of `allow_ids`.
It describes the buffer `lexeme.string` for texts no longer than `MAX_LEXEME_LENGTH`. -/
theorem variable_lexeme (P : Platform) (a : agent) (allow : Bool) (t rest : List Int)
    (hlen : 3 ≤ t.length) (hc : ∀ c ∈ t, constituent_char c = true)
    (hfirst : t.head? = some 60) (hlast : t.getLast? = some 62) (hne : t ≠ [60, 61, 62])
    (hrest : ends_constituent_string rest = true) :
    (get_lexeme P (setLexerInput (set_lexer_allow_ids a allow) (some (t ++ rest)))).lexeme.type
        = VARIABLE_LEXEME
    ∧ (get_lexeme P (setLexerInput (set_lexer_allow_ids a allow) (some (t ++ rest)))).lexeme.string
        = t := by
  obtain ⟨c, t1, rfl⟩ : ∃ c t1, t = c :: t1 := by
    cases t with
    | nil => simp at hlen
    | cons c t1 => exact ⟨c, t1, rfl⟩
  have hc60 : c = 60 := by simpa using hfirst
  subst hc60
  have hread := read_constituent_string_run (60 :: t1)
    (start_lexeme (set_lexer_allow_ids a allow)) rest hc hrest
  have hstr : (read_constituent_string (next_from (start_lexeme (set_lexer_allow_ids a allow))
      (60 :: t1 ++ rest))).lexeme.string = 60 :: t1 := by
    rw [hread, next_from_lexeme]
    simp [with_text, start_lexeme]
  rw [get_lexeme_attach, List.cons_append,
    get_lexeme_at_constituent P _ 60 _ (by decide) (by decide)]
  have hr : lexer_routines 60 = lex_routine.lex_less := by decide
  rw [hr]
  simp only [call_routine]
  rw [← List.cons_append, lex_less_long P _ (by rw [hstr]; exact hlen)
    (by
      rw [hstr]
      by_cases h3 : (60 :: t1).length = 3
      · left
        rw [List.take_of_length_le (le_of_eq h3)]
        exact hne
      · right
        omega)
    (by rw [hstr]; rfl),
    determine_type_variable P _
      (by rw [hstr]; exact all_constituent_of_forall _ hc)
      (by rw [hstr]; rfl)
      (by rw [lexeme_info.length, hstr]; exact char_at_last _ _ hlast)]
  exact ⟨rfl, hstr⟩

/-! ## The bound on the length of a lexeme -/

/-- C9, the code at the failing input: for every value of `MAX_LEXEME_LENGTH`, a text of
`MAX_LEXEME_LENGTH + 1` letters `a` is read by `lex_constituent_string` as one lexeme of
length `MAX_LEXEME_LENGTH + 1`; `read_constituent_string` stores each character without
comparing `lexeme.length` with `MAX_LEXEME_LENGTH`, which `lex_vbar` and `lex_quote`
do. -/
theorem constituent_string_exceeds_MAX_LEXEME_LENGTH (P : Platform) (a : agent) :
    (get_lexeme P (setLexerInput a
      (some (List.replicate (P.MAX_LEXEME_LENGTH + 1) 97)))).lexeme.length
        = P.MAX_LEXEME_LENGTH + 1
    ∧ ¬ (get_lexeme P (setLexerInput a
      (some (List.replicate (P.MAX_LEXEME_LENGTH + 1) 97)))).lexeme.length
        ≤ P.MAX_LEXEME_LENGTH := by
  have hall : ∀ c ∈ List.replicate (P.MAX_LEXEME_LENGTH + 1) (97 : Int),
      constituent_char c = true := by
    intro c hc
    rw [List.eq_of_mem_replicate hc]
    decide
  have hread := read_constituent_string_run (List.replicate (P.MAX_LEXEME_LENGTH + 1) 97)
    (start_lexeme a) [] hall rfl
  have key : (get_lexeme P (setLexerInput a
      (some (List.replicate (P.MAX_LEXEME_LENGTH + 1) 97)))).lexeme.string
        = List.replicate (P.MAX_LEXEME_LENGTH + 1) 97 := by
    rw [get_lexeme_attach, List.replicate_succ,
      get_lexeme_at_constituent P _ 97 _ (by decide) (by decide)]
    have hr : lexer_routines 97 = lex_routine.lex_constituent_string := by decide
    rw [hr]
    simp only [call_routine, lex_constituent_string]
    rw [(determine_type_frame P _).2.2.2.2.2, ← List.replicate_succ,
      ← List.append_nil (List.replicate (P.MAX_LEXEME_LENGTH + 1) 97), hread, next_from_lexeme]
    simp [with_text, start_lexeme]
  rw [lexeme_info.length, key, List.length_replicate]
  exact ⟨rfl, by omega⟩

/-! ## Quoted literals that are never closed -/

theorem set_type_next_from (a : agent) (t : lexeme_type) (l : List Int) :
    set_type (next_from a l) t = next_from (set_type a t) l := by
  simp only [next_from, get_next_char, setLexerInput, set_type]
  split
  · rename_i h; simp [EOF] at h
  · cases l with
    | nil => simp [EOF]
    | cons c l => by_cases hc : to_char c = 0 <;> simp [hc, EOF]

theorem get_next_char_EOF (a : agent) (h : a.current_char = EOF) : get_next_char a = a := by
  simp [get_next_char, h]

theorem lex_literal_never_closed (P : Platform) (delim c0 : Int) (d : diagnostic) :
    ∀ (n : Nat) (w : List Int), w.length = n → ∀ (a : agent),
      (∀ c ∈ w, 0 < c ∧ c < 128) → never_closed delim w = true →
      (run (lex_literal_step P delim (unterminated d c0)) pending
        (next_from a w)).lexeme.type = EOF_LEXEME := by
  intro n
  induction n using Nat.strong_induction_on with
  | _ n ih =>
    intro w hn a hw hnc
    have hdec := lex_literal_step_dec P delim (unterminated d c0)
    cases w with
    | nil =>
      rw [run_done _ _ _ (unterminated d c0 (next_from a []))]
      · rfl
      · simp [lex_literal_step, next_from_nil]
    | cons c w1 =>
      have hc := hw c (List.mem_cons_self c w1)
      have hcur := next_from_current_char a c w1 hc.1 hc.2
      have hE : c ≠ EOF := by simp [EOF]; omega
      by_cases hmax : (next_from a (c :: w1)).lexeme.length = P.MAX_LEXEME_LENGTH
      · rw [run_done _ _ _ (unterminated d c0 (next_from a (c :: w1)))]
        · rfl
        · simp [lex_literal_step, hmax]
      · by_cases h92 : c = 92
        · subst h92
          have hstep : lex_literal_step P delim (unterminated d c0) (next_from a (92 :: w1))
              = loop_step.next (get_next_char (store (get_next_char (next_from a (92 :: w1))))) := by
            simp [lex_literal_step, hmax, hcur, hE]
          rw [run_next _ _ hdec _ _ hstep, get_next_char_next_from a 92 w1 hc.1 hc.2]
          cases w1 with
          | nil =>
            have e : get_next_char (store (next_from a []))
                = next_from (with_text a (a.lexeme.string ++ [to_char EOF])) [] := by
              rw [get_next_char_EOF _ (by rw [next_from_nil]; rfl)]
              simp [next_from_nil, store, with_text]
            rw [e]
            exact ih 0 (by simp at hn; omega) [] rfl _ (by simp) rfl
          | cons e w2 =>
            have he := hw e (by simp)
            rw [← store_and_advance, store_and_advance_next_from a e w2 he.1 he.2]
            refine ih w2.length (by simp at hn; omega) w2 rfl _
              (fun x hx => hw x (by simp [hx])) ?_
            simpa [never_closed] using hnc
        · have hnd : c ≠ delim ∧ never_closed delim w1 = true := by
            cases w1 with
            | nil => simpa [never_closed, h92] using hnc
            | cons e w2 => simpa [never_closed, h92] using hnc
          have hstep : lex_literal_step P delim (unterminated d c0) (next_from a (c :: w1))
              = loop_step.next (get_next_char (store (next_from a (c :: w1)))) := by
            simp [lex_literal_step, hmax, hcur, hE, h92, hnd.1]
          rw [run_next _ _ hdec _ _ hstep, ← store_and_advance,
            store_and_advance_next_from a c w1 hc.1 hc.2]
          exact ih w1.length (by simp at hn; omega) w1 rfl _
            (fun x hx => hw x (by simp [hx])) hnd.2

/-- C7: an unterminated quoted literal is a hard error.  For every string `w` of non-NUL
ASCII bytes in which no unescaped `|` occurs, `get_lexeme` on the attached text `|w` yields
a lexeme of kind `EOF_LEXEME`; and for every such `w` in which no unescaped `"` occurs,
`get_lexeme` on the attached text `"w` yields a lexeme of kind `EOF_LEXEME`. -/
theorem unterminated_literal_is_EOF (P : Platform) (a : agent) (w : List Int)
    (hw : ∀ c ∈ w, 0 < c ∧ c < 128) :
    (never_closed 124 w = true →
      (get_lexeme P (setLexerInput a (some (124 :: w)))).lexeme.type = EOF_LEXEME)
    ∧ (never_closed 34 w = true →
      (get_lexeme P (setLexerInput a (some (34 :: w)))).lexeme.type = EOF_LEXEME) := by
  constructor
  · intro hnc
    rw [get_lexeme_attach, get_lexeme_at P _ 124 _ (by decide) (by decide) (by decide)
      (by decide) (by decide) (by decide)]
    have hr : lexer_routines 124 = lex_routine.lex_vbar := by decide
    rw [hr]
    simp only [call_routine, lex_vbar]
    rw [set_type_next_from, get_next_char_next_from _ 124 w (by decide) (by decide)]
    exact lex_literal_never_closed P 124 _ _ w.length w rfl _ hw hnc
  · intro hnc
    rw [get_lexeme_attach, get_lexeme_at P _ 34 _ (by decide) (by decide) (by decide)
      (by decide) (by decide) (by decide)]
    have hr : lexer_routines 34 = lex_routine.lex_quote := by decide
    rw [hr]
    simp only [call_routine, lex_quote]
    rw [set_type_next_from, get_next_char_next_from _ 34 w (by decide) (by decide)]
    exact lex_literal_never_closed P 34 _ _ w.length w rfl _ hw hnc

theorem unterminated_literal_is_EOF_witness :
    (never_closed 124 [97, 98, 99] = true →
      (get_lexeme lp64 (setLexerInput agent0 (some (124 :: [97, 98, 99])))).lexeme.type
        = EOF_LEXEME)
    ∧ (never_closed 34 [97, 98, 99] = true →
      (get_lexeme lp64 (setLexerInput agent0 (some (34 :: [97, 98, 99])))).lexeme.type
        = EOF_LEXEME) :=
  unterminated_literal_is_EOF lp64 agent0 [97, 98, 99] (by decide)

/-! ## Reading a known text, step by step -/

theorem next_from_frame (a : agent) (l : List Int) :
    (next_from a l).parentheses_level = a.parentheses_level
      ∧ (next_from a l).allow_ids = a.allow_ids
      ∧ (next_from a l).print_warnings = a.print_warnings
      ∧ (next_from a l).printed = a.printed := by
  simp only [next_from, get_next_char, setLexerInput]
  split
  · simp
  · cases l with
    | nil => simp
    | cons c l => by_cases hc : to_char c = 0 <;> simp [hc]

theorem next_from_shape (l : List Int) :
    ∃ (i : Option (List Int)) (c : Int), ∀ a : agent,
      next_from a l = { a with lexer_input_string := i, current_char := c } := by
  cases l with
  | nil => exact ⟨none, EOF, fun a => next_from_nil a⟩
  | cons b l =>
    by_cases hb : to_char b = 0
    · exact ⟨none, EOF, fun a => by simp [next_from, get_next_char, setLexerInput, EOF, hb]⟩
    · exact ⟨some l, to_char b, fun a => by
        simp [next_from, get_next_char, setLexerInput, EOF, hb]⟩

theorem determine_type_next_from (P : Platform) (a : agent) (l : List Int) :
    (determine_type_of_constituent_string P (next_from a l)).1
      = next_from (determine_type_of_constituent_string P a).1 l := by
  obtain ⟨i, c, h⟩ := next_from_shape l
  rw [h, h]
  simp only [determine_type_of_constituent_string]
  repeat' split
  all_goals simp_all [set_type, print]

theorem set_level_next_from (a : agent) (n : Int) (l : List Int) :
    ({ next_from a l with parentheses_level := n } : agent)
      = next_from { a with parentheses_level := n } l := by
  obtain ⟨i, c, h⟩ := next_from_shape l
  rw [h, h]

theorem get_lexeme_skip_whitespace (P : Platform) (a : agent) (c : Int) (l : List Int)
    (h0 : 0 < c) (h1 : c < 128) (hw : whitespace c = true) :
    get_lexeme P (next_from a (c :: l)) = get_lexeme P (next_from a l) := by
  have hu := uchar_ascii c (le_of_lt h0) h1
  have hcur := next_from_current_char (start_lexeme a) c l h0 h1
  have hE : c ≠ EOF := by simp [EOF]; omega
  apply run_congr_step _ _ (get_lexeme_step_dec P)
  rw [get_lexeme_step_next_from, get_lexeme_step_next_from,
    consume_whitespace_and_comments_next _ (by rw [hcur]; exact hE) (by rw [hcur, hu]; exact hw),
    get_next_char_next_from _ c l h0 h1]

theorem get_lexeme_at_end (P : Platform) (a : agent) :
    get_lexeme P (next_from a []) = lex_eof (next_from (start_lexeme a) []) := by
  apply get_lexeme_done
  rw [get_lexeme_step_next_from, consume_whitespace_and_comments_EOF _ (by rw [next_from_nil])]
  simp [dispatch, next_from_nil]

theorem lex_eof_next_from (a : agent) :
    lex_eof (next_from a [])
      = next_from (set_type (with_text a (a.lexeme.string ++ [to_char EOF])) EOF_LEXEME) [] := by
  simp [lex_eof, lex_single, finish, store_and_advance, store, next_from_nil, get_next_char,
    set_type, with_text]

theorem lex_single_next_from (t : lexeme_type) (a : agent) (c : Int) (l : List Int)
    (h0 : 0 < c) (h1 : c < 128) :
    lex_single t (next_from a (c :: l))
      = next_from (set_type (with_text a (a.lexeme.string ++ [c])) t) l := by
  rw [lex_single, finish, store_and_advance_next_from a c l h0 h1, set_type_next_from]

theorem lex_lparen_next_from (a : agent) (c : Int) (l : List Int) (h0 : 0 < c) (h1 : c < 128) :
    lex_lparen (next_from a (c :: l))
      = next_from { set_type (with_text a (a.lexeme.string ++ [c])) L_PAREN_LEXEME with
          parentheses_level := a.parentheses_level + 1 } l := by
  simp only [lex_lparen]
  rw [lex_single_next_from _ a c l h0 h1, set_level_next_from, (next_from_frame _ l).1]
  rfl

theorem lex_rparen_next_from (a : agent) (c : Int) (l : List Int) (h0 : 0 < c) (h1 : c < 128) :
    lex_rparen (next_from a (c :: l))
      = next_from { set_type (with_text a (a.lexeme.string ++ [c])) R_PAREN_LEXEME with
          parentheses_level :=
            if a.parentheses_level > 0 then a.parentheses_level - 1 else a.parentheses_level } l := by
  simp only [lex_rparen]
  rw [lex_single_next_from _ a c l h0 h1, (next_from_frame _ l).1]
  by_cases h : a.parentheses_level > 0
  · have h' : (set_type (with_text a (a.lexeme.string ++ [c])) R_PAREN_LEXEME).parentheses_level
        > 0 := h
    rw [if_pos h', if_pos h, set_level_next_from]
    rfl
  · have h' : ¬ (set_type (with_text a (a.lexeme.string ++ [c])) R_PAREN_LEXEME).parentheses_level
        > 0 := h
    rw [if_neg h', if_neg h]
    rfl

theorem read_digits_cons (a : agent) (c : Int) (l : List Int) (hd : isdigit c = true) :
    run read_digits_step pending (next_from a (c :: l))
      = run read_digits_step pending (next_from (with_text a (a.lexeme.string ++ [c])) l) := by
  have hr : 48 ≤ c ∧ c ≤ 57 := by simpa [isdigit] using hd
  have hcur := next_from_current_char a c l (by omega) (by omega)
  rw [run_next _ _ read_digits_step_dec _ (store_and_advance (next_from a (c :: l)))
    (by simp [read_digits_step, hcur, hd]),
    store_and_advance_next_from a c l (by omega) (by omega)]

theorem read_digits_halt (a : agent) (l : List Int)
    (h : isdigit (next_from a l).current_char = false) :
    run read_digits_step pending (next_from a l) = next_from a l :=
  run_done _ _ _ _ (by simp [read_digits_step, h])

theorem read_constituent_string_halt (a : agent) (rest : List Int)
    (hr : ends_constituent_string rest = true) :
    read_constituent_string (next_from a rest) = next_from a rest :=
  read_constituent_string_stop _ (next_from_stops a rest hr)

theorem next_from_nil_current_char (a : agent) : (next_from a []).current_char = EOF := by
  rw [next_from_nil]

theorem determine_type_parentheses_level (P : Platform) (a : agent) :
    (determine_type_of_constituent_string P a).1.parentheses_level = a.parentheses_level :=
  (determine_type_frame P a).2.2.1

theorem determine_type_allow_ids (P : Platform) (a : agent) :
    (determine_type_of_constituent_string P a).1.allow_ids = a.allow_ids :=
  (determine_type_frame P a).2.2.2.1

theorem determine_type_string (P : Platform) (a : agent) :
    (determine_type_of_constituent_string P a).1.lexeme.string = a.lexeme.string :=
  (determine_type_frame P a).2.2.2.2.2

theorem get_lexeme_constituent_string (P : Platform) (a : agent) (c : Int)
    (t rest : List Int) (hc : ∀ d ∈ c :: t, constituent_char d = true)
    (hr : lexer_routines c = lex_routine.lex_constituent_string)
    (hrest : ends_constituent_string rest = true) :
    get_lexeme P (next_from a (c :: t ++ rest))
      = next_from (determine_type_of_constituent_string P
          (with_text (start_lexeme a) (c :: t))).1 rest := by
  have h64 : c ≠ 64 := by rintro rfl; revert hr; decide
  rw [List.cons_append, get_lexeme_at_constituent P a c _ (hc c (List.mem_cons_self c t)) h64, hr]
  simp only [call_routine, lex_constituent_string]
  rw [← List.cons_append, read_constituent_string_run (c :: t) _ rest hc hrest,
    determine_type_next_from]
  rfl

theorem get_lexeme_lparen (P : Platform) (a : agent) (l : List Int) :
    get_lexeme P (next_from a (40 :: l))
      = next_from { set_type (with_text (start_lexeme a) [40]) L_PAREN_LEXEME with
          parentheses_level := a.parentheses_level + 1 } l := by
  rw [get_lexeme_at P a 40 l (by decide) (by decide) (by decide) (by decide) (by decide)
    (by decide)]
  have hr : lexer_routines 40 = lex_routine.lex_lparen := by decide
  rw [hr]
  simp only [call_routine]
  rw [lex_lparen_next_from _ 40 l (by decide) (by decide)]
  rfl

theorem get_lexeme_rparen (P : Platform) (a : agent) (l : List Int) :
    get_lexeme P (next_from a (41 :: l))
      = next_from { set_type (with_text (start_lexeme a) [41]) R_PAREN_LEXEME with
          parentheses_level :=
            if a.parentheses_level > 0 then a.parentheses_level - 1 else a.parentheses_level } l := by
  rw [get_lexeme_at P a 41 l (by decide) (by decide) (by decide) (by decide) (by decide)
    (by decide)]
  have hr : lexer_routines 41 = lex_routine.lex_rparen := by decide
  rw [hr]
  simp only [call_routine]
  rw [lex_rparen_next_from _ 41 l (by decide) (by decide)]
  rfl

theorem get_lexeme_up_arrow (P : Platform) (a : agent) (l : List Int) :
    get_lexeme P (next_from a (94 :: l))
      = next_from (set_type (with_text (start_lexeme a) [94]) UP_ARROW_LEXEME) l := by
  rw [get_lexeme_at P a 94 l (by decide) (by decide) (by decide) (by decide) (by decide)
    (by decide)]
  have hr : lexer_routines 94 = lex_routine.lex_up_arrow := by decide
  rw [hr]
  simp only [call_routine, lex_up_arrow]
  rw [lex_single_next_from _ _ 94 l (by decide) (by decide)]
  rfl

theorem get_lexeme_at_sign (P : Platform) (a : agent) (l : List Int) :
    get_lexeme P (next_from a (64 :: l))
      = next_from (set_type (with_text (start_lexeme a) [64]) AT_LEXEME) l := by
  rw [get_lexeme_at P a 64 l (by decide) (by decide) (by decide) (by decide) (by decide)
    (by decide)]
  have hr : lexer_routines 64 = lex_routine.lex_at := by decide
  rw [hr]
  simp only [call_routine, lex_at]
  rw [lex_single_next_from _ _ 64 l (by decide) (by decide)]
  rfl

theorem get_lexeme_eof (P : Platform) (a : agent) :
    get_lexeme P (next_from a [])
      = next_from (set_type (with_text (start_lexeme a) [to_char EOF]) EOF_LEXEME) [] := by
  rw [get_lexeme_at_end, lex_eof_next_from]
  rfl

/-! ## Numbers with a decimal point -/

theorem next_from_first_char (a : agent) (l : List Int) :
    (next_from a l).current_char = first_char l := by
  cases l with
  | nil => rw [next_from_nil]; rfl
  | cons b l =>
    simp only [next_from, get_next_char, setLexerInput, first_char]
    have h32 : ¬ ((32 : Int) = EOF) := by decide
    rw [if_neg h32]
    by_cases hb : to_char b = 0 <;> simp [hb]

theorem isdigit_range (c : Int) (h : isdigit c = true) : 48 ≤ c ∧ c ≤ 57 := by
  simpa [isdigit] using h

theorem lexer_routines_digit (c : Int) (h : isdigit c = true) :
    lexer_routines c = lex_routine.lex_digit := by
  have hr := isdigit_range c h
  have h64 : c ≠ 64 := by omega
  have h40 : c ≠ 40 := by omega
  have h41 : c ≠ 41 := by omega
  have h43 : c ≠ 43 := by omega
  have h45 : c ≠ 45 := by omega
  have h126 : c ≠ 126 := by omega
  have h94 : c ≠ 94 := by omega
  have h123 : c ≠ 123 := by omega
  have h125 : c ≠ 125 := by omega
  have h33 : c ≠ 33 := by omega
  have h62 : c ≠ 62 := by omega
  have h60 : c ≠ 60 := by omega
  have h61 : c ≠ 61 := by omega
  have h38 : c ≠ 38 := by omega
  have h124 : c ≠ 124 := by omega
  have h44 : c ≠ 44 := by omega
  have h46 : c ≠ 46 := by omega
  have h34 : c ≠ 34 := by omega
  simp only [lexer_routines, h, if_true, if_false, h64, h40, h41, h43, h45, h126, h94, h123, h125, h33, h62, h60, h61, h38, h124, h44, h46, h34]

theorem read_digits_run (t : List Int) :
    ∀ (a : agent) (rest : List Int), (∀ c ∈ t, isdigit c = true) →
      isdigit (first_char rest) = false →
      run read_digits_step pending (next_from a (t ++ rest))
        = next_from (with_text a (a.lexeme.string ++ t)) rest := by
  induction t with
  | nil =>
    intro a rest _ hr
    rw [List.nil_append, List.append_nil, with_text_string]
    exact read_digits_halt a rest (by rw [next_from_first_char]; exact hr)
  | cons c t ih =>
    intro a rest ht hr
    rw [List.cons_append, read_digits_cons a c _ (ht c (List.mem_cons_self c t)),
      ih _ rest (fun d hd => ht d (List.mem_cons_of_mem c hd)) hr, with_text_with_text]
    simp [with_text]

theorem read_rest_of_floating_point_number_plain (a : agent) (fs rest : List Int)
    (hfs : ∀ c ∈ fs, isdigit c = true) (h1 : isdigit (first_char rest) = false)
    (h2 : first_char rest ≠ 101) (h3 : first_char rest ≠ 69) :
    read_rest_of_floating_point_number (next_from a (46 :: fs ++ rest))
      = next_from (with_text a (a.lexeme.string ++ 46 :: fs)) rest := by
  unfold read_rest_of_floating_point_number finish
  simp only []
  rw [List.cons_append, store_and_advance_next_from a 46 _ (by decide) (by decide),
    read_digits_run fs _ rest hfs h1, with_text_with_text]
  simp [next_from_first_char, h2, h3, with_text]

theorem get_lexeme_decimal (P : Platform) (a : agent) (d : Int) (ds fs rest : List Int)
    (hds : ∀ c ∈ d :: ds, isdigit c = true) (hfs : ∀ c ∈ fs, isdigit c = true)
    (h1 : isdigit (first_char rest) = false) (h2 : first_char rest ≠ 101)
    (h3 : first_char rest ≠ 69) :
    get_lexeme P (next_from a (d :: ds ++ 46 :: fs ++ rest))
      = next_from (determine_type_of_constituent_string P
          (with_text (start_lexeme a) (d :: ds ++ 46 :: fs))).1 rest := by
  have hd := hds d (List.mem_cons_self d ds)
  have hdc : ∀ c ∈ d :: ds, constituent_char c = true :=
    fun c hc => isdigit_constituent c (hds c hc)
  have h64 : d ≠ 64 := by have := isdigit_range d hd; omega
  rw [List.append_assoc, List.cons_append,
    get_lexeme_at_constituent P a d _ (hdc d (List.mem_cons_self d ds)) h64,
    lexer_routines_digit d hd]
  simp only [call_routine, lex_digit, read_possible_number]
  have hend : ends_constituent_string (46 :: fs ++ rest) = true := rfl
  rw [← List.cons_append, read_constituent_string_run (d :: ds) _ _ hdc hend]
  have hcur : (next_from (with_text (start_lexeme a) ((start_lexeme a).lexeme.string ++ d :: ds))
      (46 :: fs ++ rest)).current_char = 46 := by
    rw [List.cons_append, next_from_current_char _ 46 _ (by decide) (by decide)]
  have hcb : could_be_floating_point (d :: ds) = true := by
    simp only [could_be_floating_point, List.drop_succ_cons, List.drop_zero, List.all_eq_true]
    exact fun c hc => hds c (List.mem_cons_of_mem d hc)
  have hstr : (next_from (with_text (start_lexeme a) ((start_lexeme a).lexeme.string ++ d :: ds))
      (46 :: fs ++ rest)).lexeme.string = d :: ds := by
    rw [next_from_lexeme]; rfl
  rw [hcur, hstr, hcb]
  simp only [decide_True, Bool.and_self, if_true]
  rw [read_rest_of_floating_point_number_plain _ fs rest hfs h1 h2 h3, determine_type_next_from]
  simp [with_text, start_lexeme]

/-! ## The text `(foo ^attr 3.5)` -/

theorem classify_foo (P : Platform) (X : agent) :
    (determine_type_of_constituent_string P (with_text X [102, 111, 111])).1.lexeme.type
      = STR_CONSTANT_LEXEME := by
  simp [determine_type_of_constituent_string, determine_possible_symbol_types_for_string,
    possible_number, possible_identifier, all_constituent, number_starters, char_at,
    skip_digits, with_text, set_type, print, uchar, isdigit, isalpha, isalnum, constituent_char,
    extra_constituents, lexeme_info.length]

theorem classify_attr (P : Platform) (X : agent) :
    (determine_type_of_constituent_string P (with_text X [97, 116, 116, 114])).1.lexeme.type
      = STR_CONSTANT_LEXEME := by
  simp [determine_type_of_constituent_string, determine_possible_symbol_types_for_string,
    possible_number, possible_identifier, all_constituent, number_starters, char_at,
    skip_digits, with_text, set_type, print, uchar, isdigit, isalpha, isalnum, constituent_char,
    extra_constituents, lexeme_info.length]

theorem classify_3_5 (P : Platform) (X : agent) (hs : P.strtod [51, 46, 53] = ((35, -1), false)) :
    (determine_type_of_constituent_string P (with_text X [51, 46, 53])).1.lexeme.type
      = FLOAT_CONSTANT_LEXEME ∧
    (determine_type_of_constituent_string P (with_text X [51, 46, 53])).1.lexeme.float_val
      = (35, -1) := by
  simp [determine_type_of_constituent_string, determine_possible_symbol_types_for_string,
    possible_number, possible_identifier, all_constituent, number_starters, char_at,
    skip_digits, with_text, set_type, print, uchar, isdigit, isalpha, isalnum, constituent_char,
    extra_constituents, lexeme_info.length, hs]

/-- C1: with the lexer attached to the text `(foo ^attr 3.5)` and the parenthesis depth
initially 0, seven successive calls of `get_lexeme` yield, in order, `L_PAREN_LEXEME`,
`STR_CONSTANT_LEXEME` with text `foo`, `UP_ARROW_LEXEME`, `STR_CONSTANT_LEXEME` with text
`attr`, `FLOAT_CONSTANT_LEXEME` with text `3.5` and the value that `strtod` gives for
`3.5`, which is 35 * 10 ^ (-1), `R_PAREN_LEXEME` and `EOF_LEXEME`; the parenthesis depth is 1
after the first lexeme and 0 after the `R_PAREN_LEXEME` and at the end. -/
theorem lexemes_of_foo_attr (P : Platform) (a : agent) (h0 : a.parentheses_level = 0)
    (hs : P.strtod [51, 46, 53] = ((35, -1), false)) :
    (((get_lexeme P)^[1] (setLexerInput a (some text_foo_attr))).lexeme.type = L_PAREN_LEXEME
      ∧ ((get_lexeme P)^[1] (setLexerInput a (some text_foo_attr))).parentheses_level = 1)
    ∧ (((get_lexeme P)^[2] (setLexerInput a (some text_foo_attr))).lexeme.type
        = STR_CONSTANT_LEXEME
      ∧ ((get_lexeme P)^[2] (setLexerInput a (some text_foo_attr))).lexeme.string
        = [102, 111, 111])
    ∧ ((get_lexeme P)^[3] (setLexerInput a (some text_foo_attr))).lexeme.type = UP_ARROW_LEXEME
    ∧ (((get_lexeme P)^[4] (setLexerInput a (some text_foo_attr))).lexeme.type
        = STR_CONSTANT_LEXEME
      ∧ ((get_lexeme P)^[4] (setLexerInput a (some text_foo_attr))).lexeme.string
        = [97, 116, 116, 114])
    ∧ (((get_lexeme P)^[5] (setLexerInput a (some text_foo_attr))).lexeme.type
        = FLOAT_CONSTANT_LEXEME
      ∧ ((get_lexeme P)^[5] (setLexerInput a (some text_foo_attr))).lexeme.string = [51, 46, 53]
      ∧ ((get_lexeme P)^[5] (setLexerInput a (some text_foo_attr))).lexeme.float_val = (35, -1))
    ∧ (((get_lexeme P)^[6] (setLexerInput a (some text_foo_attr))).lexeme.type = R_PAREN_LEXEME
      ∧ ((get_lexeme P)^[6] (setLexerInput a (some text_foo_attr))).parentheses_level = 0)
    ∧ (((get_lexeme P)^[7] (setLexerInput a (some text_foo_attr))).lexeme.type = EOF_LEXEME
      ∧ ((get_lexeme P)^[7] (setLexerInput a (some text_foo_attr))).parentheses_level = 0) := by
  have e1 : ∀ X : agent, get_lexeme P (setLexerInput X (some text_foo_attr))
      = next_from _ [102, 111, 111, 32, 94, 97, 116, 116, 114, 32, 51, 46, 53, 41] :=
    fun X => (get_lexeme_attach P X _).trans (get_lexeme_lparen P X _)
  have e2 : ∀ X : agent, get_lexeme P (next_from X [102, 111, 111, 32, 94, 97, 116, 116, 114, 32, 51, 46, 53, 41])
      = next_from _ [32, 94, 97, 116, 116, 114, 32, 51, 46, 53, 41] :=
    fun X => get_lexeme_constituent_string P X 102 [111, 111] _ (by decide) (by decide)
      (by decide)
  have e3 : ∀ X : agent, get_lexeme P (next_from X [32, 94, 97, 116, 116, 114, 32, 51, 46, 53, 41])
      = next_from _ [97, 116, 116, 114, 32, 51, 46, 53, 41] :=
    fun X => (get_lexeme_skip_whitespace P X 32 _ (by decide) (by decide) (by decide)).trans
      (get_lexeme_up_arrow P X _)
  have e4 : ∀ X : agent, get_lexeme P (next_from X [97, 116, 116, 114, 32, 51, 46, 53, 41])
      = next_from _ [32, 51, 46, 53, 41] :=
    fun X => get_lexeme_constituent_string P X 97 [116, 116, 114] _ (by decide) (by decide)
      (by decide)
  have e5 : ∀ X : agent, get_lexeme P (next_from X [32, 51, 46, 53, 41])
      = next_from (determine_type_of_constituent_string P
          (with_text (start_lexeme X) [51, 46, 53])).1 [41] :=
    fun X => (get_lexeme_skip_whitespace P X 32 _ (by decide) (by decide) (by decide)).trans
      (get_lexeme_decimal P X 51 [] [53] [41] (by decide) (by decide) (by decide) (by decide)
        (by decide))
  have e6 : ∀ X : agent, get_lexeme P (next_from X [41]) = next_from _ [] :=
    fun X => get_lexeme_rparen P X _
  simp only [Function.iterate_succ_apply, Function.iterate_zero_apply, e1, e2, e3, e4, e5, e6,
    get_lexeme_eof, next_from_lexeme, (next_from_frame _ _).1, determine_type_string,
    determine_type_parentheses_level, classify_foo, classify_attr, classify_3_5 P _ hs]
  simp [with_text, set_type, start_lexeme, h0, determine_type_parentheses_level]

theorem lexemes_of_foo_attr_witness :
    ((get_lexeme lp64)^[5] (setLexerInput agent0 (some text_foo_attr))).lexeme.float_val
      = (35, -1) :=
  (lexemes_of_foo_attr lp64 agent0 rfl (by decide)).2.2.2.2.1.2.2

/-! ## The text `@B123` -/

/-- C5, as stated, fails: with `allow_ids = true` and the text `@B123` attached, the
first lexeme is not of kind `IDENTIFIER_LEXEME`. -/
theorem at_B123_first_lexeme_is_not_identifier :
    ¬ (get_lexeme lp64 (setLexerInput (set_lexer_allow_ids agent0 true)
        (some [64, 66, 49, 50, 51]))).lexeme.type = IDENTIFIER_LEXEME := by
  decide

theorem classify_B123 (P : Platform) (X : agent) (hid : X.allow_ids = true)
    (hmax : 123 ≤ P.ID_NUMBER_MAX) :
    (determine_type_of_constituent_string P (with_text X [66, 49, 50, 51])).1.lexeme.type
      = IDENTIFIER_LEXEME
    ∧ (determine_type_of_constituent_string P (with_text X [66, 49, 50, 51])).1.lexeme.id_letter
      = 66
    ∧ (determine_type_of_constituent_string P (with_text X [66, 49, 50, 51])).1.lexeme.id_number
      = 123 := by
  simp [determine_type_of_constituent_string, determine_possible_symbol_types_for_string,
    possible_number, possible_identifier, all_constituent, number_starters, char_at,
    skip_digits, with_text, set_type, print, uchar, isdigit, isalpha, isalnum, constituent_char,
    extra_constituents, lexeme_info.length, hid, from_c_string, digits_value, hmax, toupper,
    to_char]

/-- C5, amended: with `allow_ids = true` and the text `@B123` attached, the first call of
`get_lexeme` yields an `AT_LEXEME` with text `@` (the routine of `@` is `lex_at`), and the
second call yields an `IDENTIFIER_LEXEME` with text `B123`, identifier letter `B` and
identifier number 123, provided 123 fits the type of the identifier number. -/
theorem lexemes_of_at_B123 (P : Platform) (a : agent) (hmax : 123 ≤ P.ID_NUMBER_MAX) :
    ((get_lexeme P (setLexerInput (set_lexer_allow_ids a true)
        (some [64, 66, 49, 50, 51]))).lexeme.type = AT_LEXEME
      ∧ (get_lexeme P (setLexerInput (set_lexer_allow_ids a true)
        (some [64, 66, 49, 50, 51]))).lexeme.string = [64])
    ∧ ((get_lexeme P (get_lexeme P (setLexerInput (set_lexer_allow_ids a true)
        (some [64, 66, 49, 50, 51])))).lexeme.type = IDENTIFIER_LEXEME
      ∧ (get_lexeme P (get_lexeme P (setLexerInput (set_lexer_allow_ids a true)
        (some [64, 66, 49, 50, 51])))).lexeme.string = [66, 49, 50, 51]
      ∧ (get_lexeme P (get_lexeme P (setLexerInput (set_lexer_allow_ids a true)
        (some [64, 66, 49, 50, 51])))).lexeme.id_letter = 66
      ∧ (get_lexeme P (get_lexeme P (setLexerInput (set_lexer_allow_ids a true)
        (some [64, 66, 49, 50, 51])))).lexeme.id_number = 123) := by
  have e1 : ∀ X : agent, get_lexeme P (setLexerInput X (some [64, 66, 49, 50, 51]))
      = next_from (set_type (with_text (start_lexeme X) [64]) AT_LEXEME) [66, 49, 50, 51] :=
    fun X => (get_lexeme_attach P X _).trans (get_lexeme_at_sign P X _)
  have e2 : ∀ X : agent, get_lexeme P (next_from X [66, 49, 50, 51])
      = next_from (determine_type_of_constituent_string P
          (with_text (start_lexeme X) [66, 49, 50, 51])).1 [] :=
    fun X => get_lexeme_constituent_string P X 66 [49, 50, 51] [] (by decide) (by decide)
      (by decide)
  have hc := classify_B123 P
    (start_lexeme (set_type (with_text (start_lexeme (set_lexer_allow_ids a true)) [64])
      AT_LEXEME)) rfl hmax
  simp only [e1, e2, next_from_lexeme, determine_type_string, hc]
  simp [with_text, set_type, start_lexeme]

theorem lexemes_of_at_B123_witness :
    (get_lexeme lp64 (get_lexeme lp64 (setLexerInput (set_lexer_allow_ids agent0 true)
        (some [64, 66, 49, 50, 51])))).lexeme.id_number = 123 :=
  (lexemes_of_at_B123 lp64 agent0 (by decide)).2.2.2.2

/-! ## The shape of the routines that read a constituent string -/

theorem call_routine_constituent (P : Platform) (r : lex_routine) (a : agent)
    (hr : r ∈ constituent_routines) :
    call_routine P r a
      = match special_kind r (read_phase r a).lexeme.string with
        | some t => set_type (read_phase r a) t
        | none => (determine_type_of_constituent_string P (read_phase r a)).1 := by
  simp only [constituent_routines, List.mem_cons, List.mem_singleton, List.not_mem_nil,
    or_false] at hr
  rcases hr with rfl | rfl | rfl | rfl | rfl | rfl | rfl | rfl
  · have e : read_phase lex_routine.lex_plus a = read_possible_number a := rfl
    simp only [call_routine, lex_plus, special_kind, lexeme_info.length, e]
    split_ifs <;> rfl
  · have e : read_phase lex_routine.lex_minus a = read_possible_number a := rfl
    simp only [call_routine, lex_minus, special_kind, lexeme_info.length, e]
    split_ifs <;> rfl
  · have e : read_phase lex_routine.lex_greater a = read_constituent_string a := rfl
    simp only [call_routine, lex_greater, special_kind, lexeme_info.length, e]
    split_ifs <;> rfl
  · have e : read_phase lex_routine.lex_less a = read_constituent_string a := rfl
    simp only [call_routine, lex_less, special_kind, lexeme_info.length, e]
    split_ifs <;> rfl
  · have e : read_phase lex_routine.lex_equal a = read_constituent_string a := rfl
    simp only [call_routine, lex_equal, special_kind, lexeme_info.length, e]
    split_ifs <;> rfl
  · have e : read_phase lex_routine.lex_ampersand a = read_constituent_string a := rfl
    simp only [call_routine, lex_ampersand, special_kind, lexeme_info.length, e]
    split_ifs <;> rfl
  · have e : read_phase lex_routine.lex_digit a = read_possible_number a := rfl
    simp only [call_routine, lex_digit, special_kind, e]
  · have e : read_phase lex_routine.lex_constituent_string a = read_constituent_string a := rfl
    simp only [call_routine, lex_constituent_string, special_kind, e]

theorem special_kind_not_classification (r : lex_routine) (s : List Int) (t : lexeme_type)
    (h : special_kind r s = some t) : t ∉ classification_kinds := by
  unfold special_kind at h
  split at h
  all_goals first
    | cases h
    | (split_ifs at h <;> cases h <;> decide)

/-! ## What the reading loops append to the text -/

theorem get_next_char_frame (a : agent) :
    (get_next_char a).lexeme = a.lexeme ∧ (get_next_char a).allow_ids = a.allow_ids := by
  unfold get_next_char
  split
  · exact ⟨rfl, rfl⟩
  · split
    · exact ⟨rfl, rfl⟩
    · exact ⟨rfl, rfl⟩
    · split <;> exact ⟨rfl, rfl⟩

theorem store_and_advance_string (a : agent) :
    (store_and_advance a).lexeme.string = a.lexeme.string ++ [to_char a.current_char] := by
  rw [store_and_advance, (get_next_char_frame _).1]
  rfl

theorem store_and_advance_allow_ids (a : agent) :
    (store_and_advance a).allow_ids = a.allow_ids := by
  rw [store_and_advance, (get_next_char_frame _).2]
  rfl

theorem to_char_constituent (x : Int) (h : constituent_char (uchar x) = true) :
    to_char x = uchar x ∧ constituent_char (to_char x) = true := by
  have hr := constituent_char_range _ h
  have e := to_char_of_uchar_ascii x (by omega)
  exact ⟨e, by rw [e]; exact h⟩

theorem read_constituent_string_appends (a : agent) :
    ∃ t, (read_constituent_string a).lexeme.string = a.lexeme.string ++ t
      ∧ (∀ c ∈ t, constituent_char c = true)
      ∧ (read_constituent_string a).allow_ids = a.allow_ids
      ∧ ((read_constituent_string a).current_char = EOF
          ∨ constituent_char (uchar (read_constituent_string a).current_char) = false) := by
  unfold read_constituent_string finish
  refine run_induction read_constituent_string_step pending read_constituent_string_step_dec
    (fun s r => ∃ t, r.lexeme.string = s.lexeme.string ++ t
      ∧ (∀ c ∈ t, constituent_char c = true) ∧ r.allow_ids = s.allow_ids
      ∧ (r.current_char = EOF ∨ constituent_char (uchar r.current_char) = false)) ?_ ?_ a
  · intro s r hs
    have hrs := read_constituent_string_step_done s r hs
    have hexit : s.current_char = EOF ∨ constituent_char (uchar s.current_char) = false := by
      unfold read_constituent_string_step at hs
      split at hs
      · cases hs
      · rename_i hc
        simp only [Bool.and_eq_true, decide_eq_true_eq, not_and, Bool.not_eq_true] at hc
        by_cases he : s.current_char = EOF
        · exact Or.inl he
        · exact Or.inr (hc he)
    rw [hrs]
    exact ⟨[], by simp, by simp, rfl, hexit⟩
  · intro s s1 r hs ⟨t, h1, h2, h3, h4⟩
    unfold read_constituent_string_step at hs
    split at hs
    · rename_i hc
      simp only [Bool.and_eq_true, decide_eq_true_eq] at hc
      cases hs
      refine ⟨to_char s.current_char :: t, ?_, ?_, ?_, h4⟩
      · rw [h1, store_and_advance_string]; simp
      · intro c hcm
        rcases List.mem_cons.1 hcm with rfl | hcm
        · exact (to_char_constituent _ hc.2).2
        · exact h2 c hcm
      · rw [h3, store_and_advance_allow_ids]
    · cases hs

theorem read_digits_appends (a : agent) :
    ∃ t, (run read_digits_step pending a).lexeme.string = a.lexeme.string ++ t
      ∧ (run read_digits_step pending a).allow_ids = a.allow_ids := by
  refine run_induction read_digits_step pending read_digits_step_dec
    (fun s r => ∃ t, r.lexeme.string = s.lexeme.string ++ t ∧ r.allow_ids = s.allow_ids) ?_ ?_ a
  · intro s r hs
    rw [read_digits_step_done s r hs]
    exact ⟨[], by simp, rfl⟩
  · intro s s1 r hs ⟨t, h1, h2⟩
    unfold read_digits_step at hs
    split at hs
    · cases hs
      refine ⟨to_char s.current_char :: t, ?_, ?_⟩
      · rw [h1, store_and_advance_string]; simp
      · rw [h2, store_and_advance_allow_ids]
    · cases hs

theorem read_rest_of_floating_point_number_appends (a : agent) :
    ∃ t, (read_rest_of_floating_point_number a).lexeme.string
        = a.lexeme.string ++ to_char a.current_char :: t
      ∧ (read_rest_of_floating_point_number a).allow_ids = a.allow_ids := by
  unfold read_rest_of_floating_point_number finish
  simp only []
  obtain ⟨t1, h1, g1⟩ := read_digits_appends (store_and_advance a)
  rw [store_and_advance_string] at h1
  rw [store_and_advance_allow_ids] at g1
  generalize run read_digits_step pending (store_and_advance a) = b at h1 g1 ⊢
  split
  · split
    · obtain ⟨t2, h2, g2⟩ := read_digits_appends (store_and_advance (store_and_advance b))
      refine ⟨t1 ++ to_char b.current_char :: to_char (store_and_advance b).current_char :: t2,
        ?_, ?_⟩
      · rw [h2, store_and_advance_string, store_and_advance_string, h1]
        simp
      · rw [g2, store_and_advance_allow_ids, store_and_advance_allow_ids, g1]
    · obtain ⟨t2, h2, g2⟩ := read_digits_appends (store_and_advance b)
      refine ⟨t1 ++ to_char b.current_char :: t2, ?_, ?_⟩
      · rw [h2, store_and_advance_string, h1]
        simp
      · rw [g2, store_and_advance_allow_ids, g1]
  · exact ⟨t1, by rw [h1]; simp, g1⟩

theorem all_constituent_append_period (x y : List Int)
    (hx : ∀ c ∈ x, constituent_char c = true) : all_constituent (x ++ 46 :: y) = false := by
  induction x with
  | nil => simp [all_constituent, uchar, constituent_char, extra_constituents, isalnum,
      isalpha, isdigit]
  | cons c x ih =>
    have hc := hx c (List.mem_cons_self c x)
    have hrange := constituent_char_range c hc
    have hu : uchar c = c := uchar_ascii c (by omega) (by omega)
    have h0 : c ≠ 0 := by omega
    simp [all_constituent, h0, hu, hc, ih (fun d hd => hx d (List.mem_cons_of_mem c hd))]

theorem rereadable_all_constituent (P : Platform) (s : List Int) (n : Nat)
    (h : (determine_possible_symbol_types_for_string P s n).rereadable = true) :
    all_constituent s = true := by
  unfold determine_possible_symbol_types_for_string at h
  simp only [] at h
  split at h
  · simp at h
  · rename_i hc
    simpa using hc

/-! ## Reading back a rereadable text -/

theorem lexer_routines_period (i : Int) (h : lexer_routines i = lex_routine.lex_period) :
    i = 46 := by
  unfold lexer_routines at h
  by_cases h64 : i = 64
  · rw [if_pos h64] at h; cases h
  rw [if_neg h64] at h
  by_cases h40 : i = 40
  · rw [if_pos h40] at h; cases h
  rw [if_neg h40] at h
  by_cases h41 : i = 41
  · rw [if_pos h41] at h; cases h
  rw [if_neg h41] at h
  by_cases h43 : i = 43
  · rw [if_pos h43] at h; cases h
  rw [if_neg h43] at h
  by_cases h45 : i = 45
  · rw [if_pos h45] at h; cases h
  rw [if_neg h45] at h
  by_cases h126 : i = 126
  · rw [if_pos h126] at h; cases h
  rw [if_neg h126] at h
  by_cases h94 : i = 94
  · rw [if_pos h94] at h; cases h
  rw [if_neg h94] at h
  by_cases h123 : i = 123
  · rw [if_pos h123] at h; cases h
  rw [if_neg h123] at h
  by_cases h125 : i = 125
  · rw [if_pos h125] at h; cases h
  rw [if_neg h125] at h
  by_cases h33 : i = 33
  · rw [if_pos h33] at h; cases h
  rw [if_neg h33] at h
  by_cases h62 : i = 62
  · rw [if_pos h62] at h; cases h
  rw [if_neg h62] at h
  by_cases h60 : i = 60
  · rw [if_pos h60] at h; cases h
  rw [if_neg h60] at h
  by_cases h61 : i = 61
  · rw [if_pos h61] at h; cases h
  rw [if_neg h61] at h
  by_cases h38 : i = 38
  · rw [if_pos h38] at h; cases h
  rw [if_neg h38] at h
  by_cases h124 : i = 124
  · rw [if_pos h124] at h; cases h
  rw [if_neg h124] at h
  by_cases h44 : i = 44
  · rw [if_pos h44] at h; cases h
  rw [if_neg h44] at h
  by_cases h46 : i = 46
  · exact h46
  rw [if_neg h46] at h
  by_cases h34 : i = 34
  · rw [if_pos h34] at h; cases h
  rw [if_neg h34] at h
  split_ifs at h

theorem determine_type_type_congr (P : Platform) (a b : agent)
    (hs : a.lexeme.string = b.lexeme.string) (hi : a.allow_ids = b.allow_ids) :
    (determine_type_of_constituent_string P a).1.lexeme.type
      = (determine_type_of_constituent_string P b).1.lexeme.type := by
  simp only [determine_type_of_constituent_string, lexeme_info.length, hs, hi]
  repeat' split
  all_goals simp_all [set_type, print]

theorem set_type_string (a : agent) (t : lexeme_type) :
    (set_type a t).lexeme.string = a.lexeme.string := rfl

theorem call_routine_constituent_string (P : Platform) (r : lex_routine) (a : agent)
    (hr : r ∈ constituent_routines) :
    (call_routine P r a).lexeme.string = (read_phase r a).lexeme.string := by
  rw [call_routine_constituent P r a hr]
  split
  · rfl
  · exact determine_type_string P _

theorem read_phase_at_end (r : lex_routine) (a : agent) (t : List Int)
    (ht : ∀ c ∈ t, constituent_char c = true) :
    read_phase r (next_from a t) = next_from (with_text a (a.lexeme.string ++ t)) [] := by
  have hrun := read_constituent_string_run t a [] ht rfl
  rw [List.append_nil] at hrun
  unfold read_phase read_possible_number
  simp only [hrun, next_from_nil_current_char]
  have : decide (EOF = (46 : Int)) = false := by decide
  simp [this]

theorem round_trip_at_dispatch (P : Platform) (s b : agent) (hs0 : s.lexeme.string = [])
    (hE : s.current_char ≠ EOF)
    (hR : lexer_routines (uchar s.current_char) ∈ constituent_routines)
    (hkind : (call_routine P (lexer_routines (uchar s.current_char)) s).lexeme.type
      ∈ classification_kinds)
    (hre : (determine_possible_symbol_types_for_string P
      (call_routine P (lexer_routines (uchar s.current_char)) s).lexeme.string
      (call_routine P (lexer_routines (uchar s.current_char)) s).lexeme.length).rereadable = true)
    (hids : b.allow_ids = s.allow_ids) :
    (get_lexeme P (setLexerInput b (some
        (call_routine P (lexer_routines (uchar s.current_char)) s).lexeme.string))).lexeme.type
      = (call_routine P (lexer_routines (uchar s.current_char)) s).lexeme.type
    ∧ (get_lexeme P (setLexerInput b (some
        (call_routine P (lexer_routines (uchar s.current_char)) s).lexeme.string))).lexeme.string
      = (call_routine P (lexer_routines (uchar s.current_char)) s).lexeme.string := by
  have hc0 := lexer_routines_constituent _ hR
  obtain ⟨hc0eq, hc0c⟩ := to_char_constituent _ hc0
  have hRc : lexer_routines (to_char s.current_char) = lexer_routines (uchar s.current_char) := by
    rw [hc0eq]
  generalize lexer_routines (uchar s.current_char) = R at hR hkind hre hRc ⊢
  -- the text read by `read_constituent_string`
  obtain ⟨t1, ht1, ht1c, hallow, -⟩ := read_constituent_string_appends (store_and_advance s)
  rw [← read_constituent_string_next s hE hc0, store_and_advance_string, hs0] at ht1
  rw [← read_constituent_string_next s hE hc0, store_and_advance_allow_ids] at hallow
  simp only [List.nil_append, List.singleton_append] at ht1
  have hall : ∀ c ∈ to_char s.current_char :: t1, constituent_char c = true := by
    intro c hc
    rcases List.mem_cons.1 hc with rfl | hc
    · exact hc0c
    · exact ht1c c hc
  -- the reading phase is `read_constituent_string`, no floating-point tail was read
  have hstr := call_routine_constituent_string P R s hR
  have hac := rereadable_all_constituent P _ _ hre
  rw [hstr] at hac
  have hphase : read_phase R s = read_constituent_string s := by
    by_cases hn : reads_number R = true
    · by_cases hf : (decide ((read_constituent_string s).current_char = 46)
          && could_be_floating_point (read_constituent_string s).lexeme.string) = true
      · exfalso
        obtain ⟨u, hu, -⟩ := read_rest_of_floating_point_number_appends (read_constituent_string s)
        have e : read_phase R s
            = read_rest_of_floating_point_number (read_constituent_string s) := by
          simp only [read_phase, read_possible_number, hn, hf, if_true]
        simp only [Bool.and_eq_true, decide_eq_true_eq] at hf
        rw [e, hu, ht1, hf.1] at hac
        have h46 : to_char (46 : Int) = 46 := by decide
        rw [h46, all_constituent_append_period _ _ hall] at hac
        cases hac
      · simp only [read_phase, read_possible_number, hn, hf, if_true]
        rfl
    · simp only [read_phase, hn]
      rfl
  have hphase_str : (read_phase R s).lexeme.string = to_char s.current_char :: t1 := by
    rw [hphase, ht1]
  -- no operator kind: the routine called `determine_type_of_constituent_string`
  have hnone : special_kind R (to_char s.current_char :: t1) = none := by
    cases hk : special_kind R (to_char s.current_char :: t1) with
    | none => rfl
    | some k =>
      exfalso
      rw [call_routine_constituent P R s hR, hphase_str, hk] at hkind
      exact special_kind_not_classification _ _ k hk hkind
  have hres : call_routine P R s
      = (determine_type_of_constituent_string P (read_constituent_string s)).1 := by
    rw [call_routine_constituent P R s hR, hphase_str, hnone, hphase]
  -- reading the text back
  have h64 : to_char s.current_char ≠ 64 := by
    intro h
    rw [h] at hRc
    rw [← hRc] at hR
    revert hR
    decide
  have hrelex : get_lexeme P (setLexerInput b (some (to_char s.current_char :: t1)))
      = (determine_type_of_constituent_string P
          (next_from (with_text (start_lexeme b) (to_char s.current_char :: t1)) [])).1 := by
    rw [get_lexeme_attach, get_lexeme_at_constituent P b _ t1 hc0c h64, hRc,
      call_routine_constituent P R _ hR,
      read_phase_at_end R (start_lexeme b) _ hall, next_from_lexeme]
    simp only [start_lexeme, with_text, List.nil_append]
    rw [hnone]
  rw [hstr, hphase_str, hrelex, hres]
  refine ⟨determine_type_type_congr P _ _ ?_ ?_, ?_⟩
  · rw [next_from_lexeme, ht1]; rfl
  · rw [(next_from_frame _ _).2.1, hallow, ← hids]; rfl
  · rw [determine_type_string, next_from_lexeme]; rfl

theorem skip_comment_frame (a : agent) :
    (skip_comment a).lexeme = a.lexeme ∧ (skip_comment a).allow_ids = a.allow_ids := by
  have h : (run skip_comment_step pending a).lexeme = a.lexeme
      ∧ (run skip_comment_step pending a).allow_ids = a.allow_ids := by
    refine run_induction skip_comment_step pending skip_comment_step_dec
      (fun s r => r.lexeme = s.lexeme ∧ r.allow_ids = s.allow_ids) ?_ ?_ a
    · intro s r hs
      rw [skip_comment_step_done s r hs]
      exact ⟨rfl, rfl⟩
    · intro s s1 r hs ⟨h1, h2⟩
      unfold skip_comment_step at hs
      split at hs
      · cases hs
        exact ⟨h1.trans (get_next_char_frame s).1, h2.trans (get_next_char_frame s).2⟩
      · cases hs
  unfold skip_comment
  simp only []
  split
  · exact ⟨(get_next_char_frame _).1.trans h.1, (get_next_char_frame _).2.trans h.2⟩
  · exact h

theorem consume_whitespace_and_comments_frame (a : agent) :
    (consume_whitespace_and_comments a).lexeme = a.lexeme
      ∧ (consume_whitespace_and_comments a).allow_ids = a.allow_ids := by
  refine run_induction consume_whitespace_and_comments_step pending
    consume_whitespace_and_comments_step_dec
    (fun s r => r.lexeme = s.lexeme ∧ r.allow_ids = s.allow_ids) ?_ ?_ a
  · intro s r hs
    rw [consume_whitespace_and_comments_step_done s r hs]
    exact ⟨rfl, rfl⟩
  · intro s s1 r hs ⟨h1, h2⟩
    have key : s1.lexeme = s.lexeme ∧ s1.allow_ids = s.allow_ids := by
      unfold consume_whitespace_and_comments_step at hs
      split at hs
      · cases hs
      · split at hs
        · cases hs; exact get_next_char_frame s
        · split at hs
          · cases hs; exact get_next_char_frame s
          · split at hs
            · cases hs; exact skip_comment_frame s
            · cases hs
    exact ⟨h1.trans key.1, h2.trans key.2⟩

theorem lexeme_start_spec (P : Platform) (a : agent) :
    dispatch P (lexeme_start P a) = loop_step.done (get_lexeme P a)
      ∧ (lexeme_start P a).lexeme.string = []
      ∧ (lexeme_start P a).allow_ids = a.allow_ids := by
  have hstep : ∀ s s2 : agent,
      (match dispatch P (consume_whitespace_and_comments (start_lexeme s)) with
        | loop_step.next s2 => loop_step.next s2
        | loop_step.done _ =>
          loop_step.done (consume_whitespace_and_comments (start_lexeme s)))
        = loop_step.next s2 → get_lexeme_step P s = loop_step.next s2 := by
    intro s s2 h
    unfold get_lexeme_step
    cases hd : dispatch P (consume_whitespace_and_comments (start_lexeme s)) with
    | next s3 => rw [hd] at h; exact h
    | done r => rw [hd] at h; cases h
  unfold lexeme_start
  refine run_induction _ pending (fun s s2 h => get_lexeme_step_dec P s s2 (hstep s s2 h))
    (fun s r => dispatch P r = loop_step.done (get_lexeme P s) ∧ r.lexeme.string = []
      ∧ r.allow_ids = s.allow_ids) ?_ ?_ a
  · intro s r hs
    simp only [] at hs
    cases hd : dispatch P (consume_whitespace_and_comments (start_lexeme s)) with
    | next s3 => rw [hd] at hs; cases hs
    | done x =>
      rw [hd] at hs
      cases hs
      refine ⟨?_, ?_, ?_⟩
      · rw [hd, get_lexeme_done P s x hd]
      · rw [(consume_whitespace_and_comments_frame _).1]; rfl
      · rw [(consume_whitespace_and_comments_frame _).2]; rfl
  · intro s s1 r hs ⟨h1, h2, h3⟩
    have hg := hstep s s1 hs
    refine ⟨by rw [h1, get_lexeme_next P s s1 hg], h2, ?_⟩
    rw [h3]
    unfold get_lexeme_step dispatch at hg
    split at hg
    · split at hg
      · cases hg
        simp only [call_routine]
        rw [(get_next_char_frame _).2, (consume_whitespace_and_comments_frame _).2]
        rfl
      · cases hg
    · cases hg

/-- The rereadable round trip on the text as the list of the bytes stored: when
`get_lexeme` produces a lexeme through `determine_type_of_constituent_string` (its kind is
one that the routine assigns and the routine called at the start of the lexeme is not
`lex_vbar` or `lex_quote`) and its text is marked rereadable, then `get_lexeme` on that
text alone, in an agent `b` with the same `allow_ids`, yields the same kind and text. -/
theorem rereadable_text_reread (P : Platform) (a b : agent)
    (hkind : (get_lexeme P a).lexeme.type ∈ classification_kinds)
    (hvbar : lexer_routines (uchar (lexeme_start P a).current_char) ≠ lex_routine.lex_vbar)
    (hquote : lexer_routines (uchar (lexeme_start P a).current_char) ≠ lex_routine.lex_quote)
    (hre : (determine_possible_symbol_types_for_string P (get_lexeme P a).lexeme.string
      (get_lexeme P a).lexeme.length).rereadable = true)
    (hids : b.allow_ids = a.allow_ids) :
    (get_lexeme P (setLexerInput b (some (get_lexeme P a).lexeme.string))).lexeme.type
        = (get_lexeme P a).lexeme.type
    ∧ (get_lexeme P (setLexerInput b (some (get_lexeme P a).lexeme.string))).lexeme.string
        = (get_lexeme P a).lexeme.string := by
  obtain ⟨hd, hs0, hal⟩ := lexeme_start_spec P a
  generalize lexeme_start P a = s at hd hs0 hal hvbar hquote
  unfold dispatch at hd
  split at hd
  · rename_i hE
    split at hd
    · cases hd
    · rename_i hunk
      have hg : get_lexeme P a = call_routine P (lexer_routines (uchar s.current_char)) s :=
        (loop_step.done.inj hd).symm
      rw [hg] at hkind hre ⊢
      cases hR : lexer_routines (uchar s.current_char)
      case lex_unknown => exact absurd hR hunk
      case lex_vbar => exact absurd hR hvbar
      case lex_quote => exact absurd hR hquote
      case lex_period =>
        exfalso
        have h46 := lexer_routines_period _ hR
        have hc : to_char s.current_char = 46 := by
          rw [to_char_of_uchar_ascii _ (by omega), h46]
        rw [hR] at hkind hre
        have hstring : ∃ u, (lex_period P s).lexeme.string = 46 :: u := by
          unfold lex_period finish
          simp only []
          have h1 : (store_and_advance s).lexeme.string = [46] := by
            rw [store_and_advance_string, hs0, hc]; rfl
          obtain ⟨u, hu, -⟩ := read_rest_of_floating_point_number_appends (store_and_advance s)
          rw [h1] at hu
          split_ifs
          · exact ⟨_, by rw [set_type_string, hu]; rfl⟩
          · exact ⟨_, by rw [determine_type_string, hu]; rfl⟩
          · exact ⟨_, by rw [set_type_string, h1]⟩
          · exact ⟨_, by rw [determine_type_string, h1]⟩
        obtain ⟨u, hu⟩ := hstring
        have hac := rereadable_all_constituent P _ _ hre
        simp only [call_routine] at hac
        rw [hu] at hac
        have := all_constituent_append_period [] u (by simp)
        rw [List.nil_append] at this
        rw [this] at hac
        cases hac
      case lex_plus =>
        rw [← hR]
        exact round_trip_at_dispatch P s b hs0 hE (by rw [hR]; decide) hkind hre (hids.trans hal.symm)
      case lex_minus =>
        rw [← hR]
        exact round_trip_at_dispatch P s b hs0 hE (by rw [hR]; decide) hkind hre (hids.trans hal.symm)
      case lex_greater =>
        rw [← hR]
        exact round_trip_at_dispatch P s b hs0 hE (by rw [hR]; decide) hkind hre (hids.trans hal.symm)
      case lex_less =>
        rw [← hR]
        exact round_trip_at_dispatch P s b hs0 hE (by rw [hR]; decide) hkind hre (hids.trans hal.symm)
      case lex_equal =>
        rw [← hR]
        exact round_trip_at_dispatch P s b hs0 hE (by rw [hR]; decide) hkind hre (hids.trans hal.symm)
      case lex_ampersand =>
        rw [← hR]
        exact round_trip_at_dispatch P s b hs0 hE (by rw [hR]; decide) hkind hre (hids.trans hal.symm)
      case lex_digit =>
        rw [← hR]
        exact round_trip_at_dispatch P s b hs0 hE (by rw [hR]; decide) hkind hre (hids.trans hal.symm)
      case lex_constituent_string =>
        rw [← hR]
        exact round_trip_at_dispatch P s b hs0 hE (by rw [hR]; decide) hkind hre (hids.trans hal.symm)
      all_goals
        exfalso
        rw [hR] at hkind
        revert hkind
        simp only [call_routine, lex_at, lex_tilde, lex_up_arrow, lex_lbrace, lex_rbrace,
          lex_exclamation_point, lex_comma, lex_lparen, lex_rparen, lex_single, set_type]
        try split
        all_goals first | decide | simp [classification_kinds]
  · have hg : get_lexeme P a = lex_eof s := (loop_step.done.inj hd).symm
    rw [hg] at hkind
    exfalso
    revert hkind
    simp only [lex_eof, lex_single, set_type]
    decide

/-! ## The symbol-reference constructors -/

/-- Claim C12, counterexample: with the referent `3` given as its own original variable,
`make_rhs_value_symbol_no_refcount` raises the count of the referent, from 0 to 1. -/
theorem no_refcount_raises_referent_given_as_original :
    (make_rhs_value_symbol_no_refcount (fun _ => 0) (some 3) (some 3)).2 3
      ≠ (fun _ : Symbol => (0 : Int)) 3 := by
  simp [make_rhs_value_symbol_no_refcount, symbol_add_ref]

/-- Claim C12, amended: for every referent `s`, every optional original variable `o` and
every symbol `x`, `make_rhs_value_symbol` raises the count of `x` by one when `x` is `s`
and by one more when `x` is `o`, `make_rhs_value_symbol_no_refcount` raises it by one when
`x` is `o` and not otherwise, and both return a node that stores `s` and `o`.  So the
count of a referent that is not the original variable rises by 1, respectively stays,
the count of an original variable that is not the referent rises by 1, the count of a
symbol that is both rises by 2, respectively by 1, and no other count changes. -/
theorem symbol_reference_constructors (refs : refcounts) (s : Symbol) (o : Option Symbol)
    (x : Symbol) :
    (make_rhs_value_symbol refs (some s) o).1
        = rhs_value.symbol (some { referent := some s, original_variable := o })
      ∧ (make_rhs_value_symbol_no_refcount refs (some s) o).1
        = rhs_value.symbol (some { referent := some s, original_variable := o })
      ∧ (make_rhs_value_symbol refs (some s) o).2 x
        = refs x + (if x = s then 1 else 0) + (if o = some x then 1 else 0)
      ∧ (make_rhs_value_symbol_no_refcount refs (some s) o).2 x
        = refs x + (if o = some x then 1 else 0) := by
  cases o with
  | none => simp [make_rhs_value_symbol, make_rhs_value_symbol_no_refcount, symbol_add_ref_apply, eq_comm]
  | some t =>
    simp [make_rhs_value_symbol, make_rhs_value_symbol_no_refcount, symbol_add_ref_apply, eq_comm]

/-- Claim C13: the copy of a value without null pointers is the value itself, node for
node (a rete location or an unbound variable unchanged, a function call with the same
function and the copies of its arguments in order, a symbol reference with the same
referent and original variable), and the count of every symbol `x` rises by the number of
symbol references of the value whose referent is `x` plus the number of those whose
original variable is `x`; the function of a call adds nothing. -/
theorem copy_rhs_value_structure (refs : refcounts) (v : rhs_value)
    (h : v.well_formed = true) :
    copy_rhs_value refs v = some (v, fun x => refs x + v.held x)
      ∧ (∀ f l x, (rhs_value.reteloc f l).held x = 0)
      ∧ (∀ i x, (rhs_value.unboundvar i).held x = 0)
      ∧ (∀ f first rest x, (rhs_value.funcall f (cons.cell first rest)).held x
          = first.held x + (rhs_value.funcall f rest).held x)
      ∧ (∀ f x, (rhs_value.funcall f cons.nil).held x = 0)
      ∧ (∀ r o x, (rhs_value.symbol (some { referent := r, original_variable := o })).held x
          = (if r = some x then 1 else 0) + (if o = some x then 1 else 0)) := by
  refine ⟨copy_rhs_value_eq v refs h, ?_, ?_, ?_, ?_, ?_⟩
  · intros; simp [rhs_value.held]
  · intros; simp [rhs_value.held]
  · intros; simp [rhs_value.held, cons.held]
  · intros; simp [rhs_value.held, cons.held]
  · intros; simp [rhs_value.held, rhs_symbol.held]

theorem copy_rhs_value_structure_witness :
    copy_rhs_value (fun _ => 0)
        (rhs_value.funcall 9 (cons.cell (rhs_value.symbol (some ⟨some 3, some 4⟩))
          (cons.cell (rhs_value.reteloc 1 2) cons.nil)))
      = some (rhs_value.funcall 9 (cons.cell (rhs_value.symbol (some ⟨some 3, some 4⟩))
          (cons.cell (rhs_value.reteloc 1 2) cons.nil)),
        fun x => (fun _ => 0) x
          + (rhs_value.funcall 9 (cons.cell (rhs_value.symbol (some ⟨some 3, some 4⟩))
              (cons.cell (rhs_value.reteloc 1 2) cons.nil))).held x) :=
  (copy_rhs_value_structure (fun _ => 0) _ (by decide)).1

/-! ## Equality of actions -/

/-- Claim C15: with a function-call action as second argument,
`actions_are_equal_with_bindings` returns false and leaves the bindings as they were,
whatever the first action. -/
theorem funcall_action_second_is_not_equal (M : Matcher) (a1 a2 : action)
    (bindings : bindings_list) (ht : a2.type = action_type.FUNCALL_ACTION) :
    actions_are_equal_with_bindings M a1 a2 bindings = (false, bindings) := by
  unfold actions_are_equal_with_bindings
  rw [if_pos ht]

theorem funcall_action_second_is_not_equal_witness :
    actions_are_equal_with_bindings same_symbol_matcher make_action_1_2_3 funcall_action_9 []
      = (false, []) :=
  funcall_action_second_is_not_equal same_symbol_matcher make_action_1_2_3 funcall_action_9 []
    rfl

/-- Claim C16, the divergence: two make-actions of the same preference kind, id and
value, the attribute of the first a plain symbol reference and that of the second a
function call, are found equal by `actions_are_equal_with_bindings`: the branch of the
attributes that are not both symbol references is empty, its body being a comment in the
source, where the same branch of the values returns false. -/
theorem mismatched_attributes_found_equal :
    (actions_are_equal_with_bindings same_symbol_matcher make_action_1_2_3
      make_action_1_call_3 []).1 = true := by
  decide

/-- Claim C17: when the value of the first action or the value of the second is not a
plain symbol reference, `actions_are_equal_with_bindings` returns false; so it does for a
make-action whose value is a function call, compared with itself. -/
theorem funcall_values_never_match (M : Matcher) (a1 a2 : action) (bindings : bindings_list)
    (h : rhs_value_is_symbol a1.value = false ∨ rhs_value_is_symbol a2.value = false) :
    (actions_are_equal_with_bindings M a1 a2 bindings).1 = false
      ∧ (rhs_value_is_funcall a1.value = true →
          (actions_are_equal_with_bindings M a1 a1 bindings).1 = false) := by
  have key : ∀ b1 b2 : action,
      (rhs_value_is_symbol b1.value && rhs_value_is_symbol b2.value) = false →
      (actions_are_equal_with_bindings M b1 b2 bindings).1 = false := by
    intro b1 b2 hb
    unfold actions_are_equal_with_bindings
    simp only [hb, Bool.false_eq_true, if_false]
    split_ifs <;> rfl
  refine ⟨key a1 a2 (by rcases h with h | h <;> simp [h]), fun hf => key a1 a1 ?_⟩
  cases hval : a1.value <;> simp_all [rhs_value_is_funcall, rhs_value_is_symbol]

theorem funcall_values_never_match_witness :
    (actions_are_equal_with_bindings same_symbol_matcher make_action_1_2_call
        make_action_1_2_call []).1 = false
      ∧ (rhs_value_is_funcall make_action_1_2_call.value = true →
          (actions_are_equal_with_bindings same_symbol_matcher make_action_1_2_call
            make_action_1_2_call []).1 = false) :=
  funcall_values_never_match same_symbol_matcher make_action_1_2_call make_action_1_2_call []
    (Or.inl rfl)

/-! ## The parenthesis depth -/

theorem get_next_char_parentheses_level (a : agent) :
    (get_next_char a).parentheses_level = a.parentheses_level := by
  unfold get_next_char
  split
  · rfl
  · split
    · rfl
    · rfl
    · split <;> rfl

theorem store_and_advance_parentheses_level (a : agent) :
    (store_and_advance a).parentheses_level = a.parentheses_level := by
  rw [store_and_advance, get_next_char_parentheses_level]
  rfl

theorem store_and_advance_type (a : agent) :
    (store_and_advance a).lexeme.type = a.lexeme.type := by
  rw [store_and_advance, (get_next_char_frame _).1]
  rfl

theorem run_parentheses_level (step : agent → loop_step agent)
    (hdec : ∀ s s1, step s = loop_step.next s1 → pending s1 < pending s)
    (hnext : ∀ s s1, step s = loop_step.next s1 → s1.parentheses_level = s.parentheses_level)
    (hdone : ∀ s r, step s = loop_step.done r → r.parentheses_level = s.parentheses_level)
    (a : agent) : (run step pending a).parentheses_level = a.parentheses_level :=
  run_induction step pending hdec (fun s r => r.parentheses_level = s.parentheses_level) hdone
    (fun s s1 _ hs hr => hr.trans (hnext s s1 hs)) a

theorem read_constituent_string_parentheses_level (a : agent) :
    (read_constituent_string a).parentheses_level = a.parentheses_level := by
  unfold read_constituent_string finish
  apply run_parentheses_level _ read_constituent_string_step_dec
  · intro s s1 h
    unfold read_constituent_string_step at h
    split at h
    · cases h; exact store_and_advance_parentheses_level s
    · cases h
  · intro s r h
    rw [read_constituent_string_step_done s r h]

theorem read_digits_parentheses_level (a : agent) :
    (run read_digits_step pending a).parentheses_level = a.parentheses_level := by
  apply run_parentheses_level _ read_digits_step_dec
  · intro s s1 h
    unfold read_digits_step at h
    split at h
    · cases h; exact store_and_advance_parentheses_level s
    · cases h
  · intro s r h
    rw [read_digits_step_done s r h]

theorem read_rest_of_floating_point_number_parentheses_level (a : agent) :
    (read_rest_of_floating_point_number a).parentheses_level = a.parentheses_level := by
  unfold read_rest_of_floating_point_number finish
  simp only []
  split_ifs <;>
    simp only [read_digits_parentheses_level, store_and_advance_parentheses_level]

theorem read_possible_number_parentheses_level (a : agent) :
    (read_possible_number a).parentheses_level = a.parentheses_level := by
  unfold read_possible_number
  simp only []
  split_ifs <;>
    simp only [read_rest_of_floating_point_number_parentheses_level,
      read_constituent_string_parentheses_level]

theorem read_phase_parentheses_level (r : lex_routine) (a : agent) :
    (read_phase r a).parentheses_level = a.parentheses_level := by
  unfold read_phase
  split_ifs
  · exact read_possible_number_parentheses_level a
  · exact read_constituent_string_parentheses_level a

theorem determine_type_kind (P : Platform) (a : agent) :
    (determine_type_of_constituent_string P a).1.lexeme.type ∈ classification_kinds := by
  simp only [determine_type_of_constituent_string]
  repeat' split
  all_goals simp [set_type, print, classification_kinds]

theorem depth_after_classification (t : lexeme_type) (d : Int)
    (h : t ∈ classification_kinds) : depth_after t d = d := by
  simp only [classification_kinds, List.mem_cons, List.mem_singleton, List.not_mem_nil,
    or_false] at h
  rcases h with rfl | rfl | rfl | rfl | rfl | rfl <;> rfl

theorem depth_after_special (r : lex_routine) (s : List Int) (t : lexeme_type) (d : Int)
    (h : special_kind r s = some t) : depth_after t d = d := by
  unfold special_kind at h
  split at h
  all_goals first
    | cases h
    | (split_ifs at h <;> cases h <;> rfl)

theorem determine_type_depth (P : Platform) (a : agent) :
    (determine_type_of_constituent_string P a).1.parentheses_level
      = depth_after (determine_type_of_constituent_string P a).1.lexeme.type
          a.parentheses_level := by
  rw [depth_after_classification _ _ (determine_type_kind P a),
    determine_type_parentheses_level]

theorem lex_single_depth (t : lexeme_type) (a : agent)
    (h : ∀ d, depth_after t d = d) :
    (lex_single t a).parentheses_level
      = depth_after (lex_single t a).lexeme.type a.parentheses_level := by
  unfold lex_single finish
  exact (store_and_advance_parentheses_level a).trans (h _).symm

theorem lex_literal_depth (P : Platform) (delim : Int) (d : diagnostic) (c : Int)
    (a : agent) :
    let r := run (lex_literal_step P delim (unterminated d c)) pending a
    r.parentheses_level = a.parentheses_level
      ∧ (r.lexeme.type = a.lexeme.type ∨ r.lexeme.type = EOF_LEXEME) := by
  refine run_induction (lex_literal_step P delim (unterminated d c)) pending
    (lex_literal_step_dec P delim _)
    (fun s r => r.parentheses_level = s.parentheses_level
      ∧ (r.lexeme.type = s.lexeme.type ∨ r.lexeme.type = EOF_LEXEME)) ?_ ?_ a
  · intro s r h
    unfold lex_literal_step at h
    split_ifs at h
    · cases h
      exact ⟨rfl, Or.inr rfl⟩
    · cases h
      exact ⟨get_next_char_parentheses_level s, Or.inl (by rw [finish, (get_next_char_frame s).1])⟩
  · intro s s1 r h ⟨h1, h2⟩
    have key : s1.parentheses_level = s.parentheses_level ∧ s1.lexeme.type = s.lexeme.type := by
      unfold lex_literal_step at h
      split_ifs at h
      · cases h
        refine ⟨?_, ?_⟩
        · rw [get_next_char_parentheses_level]
          exact get_next_char_parentheses_level s
        · rw [(get_next_char_frame _).1]
          show (get_next_char s).lexeme.type = _
          rw [(get_next_char_frame s).1]
      · cases h
        exact ⟨store_and_advance_parentheses_level s, store_and_advance_type s⟩
    rw [← key.1, ← key.2]
    exact ⟨h1, h2⟩

theorem call_routine_depth (P : Platform) (r : lex_routine) (a : agent)
    (hr : r ≠ lex_routine.lex_unknown) :
    (call_routine P r a).parentheses_level
      = depth_after (call_routine P r a).lexeme.type a.parentheses_level := by
  by_cases hc : r ∈ constituent_routines
  · rw [call_routine_constituent P r a hc]
    cases hk : special_kind r (read_phase r a).lexeme.string with
    | some t =>
      show (read_phase r a).parentheses_level = depth_after t a.parentheses_level
      rw [depth_after_special r _ t _ hk, read_phase_parentheses_level]
    | none =>
      show (determine_type_of_constituent_string P (read_phase r a)).1.parentheses_level = _
      rw [determine_type_depth, read_phase_parentheses_level]
  · cases r with
    | lex_unknown => exact absurd rfl hr
    | lex_at => exact lex_single_depth _ a (fun _ => rfl)
    | lex_tilde => exact lex_single_depth _ a (fun _ => rfl)
    | lex_up_arrow => exact lex_single_depth _ a (fun _ => rfl)
    | lex_lbrace => exact lex_single_depth _ a (fun _ => rfl)
    | lex_rbrace => exact lex_single_depth _ a (fun _ => rfl)
    | lex_exclamation_point => exact lex_single_depth _ a (fun _ => rfl)
    | lex_comma => exact lex_single_depth _ a (fun _ => rfl)
    | lex_lparen =>
      show (store_and_advance a).parentheses_level + 1 = a.parentheses_level + 1
      rw [store_and_advance_parentheses_level]
    | lex_rparen =>
      have e : (lex_single R_PAREN_LEXEME a).parentheses_level = a.parentheses_level :=
        store_and_advance_parentheses_level a
      simp only [call_routine, lex_rparen]
      split_ifs with h
      · rw [e] at h
        show (lex_single R_PAREN_LEXEME a).parentheses_level - 1
          = if a.parentheses_level > 0 then a.parentheses_level - 1 else a.parentheses_level
        rw [if_pos h, e]
      · rw [e] at h
        show (lex_single R_PAREN_LEXEME a).parentheses_level
          = if a.parentheses_level > 0 then a.parentheses_level - 1 else a.parentheses_level
        rw [if_neg h, e]
    | lex_period =>
      simp only [call_routine, lex_period, finish]
      split_ifs
      · show (read_rest_of_floating_point_number (store_and_advance a)).parentheses_level = _
        rw [read_rest_of_floating_point_number_parentheses_level,
          store_and_advance_parentheses_level]
        rfl
      · rw [determine_type_depth, read_rest_of_floating_point_number_parentheses_level,
          store_and_advance_parentheses_level]
      · show (store_and_advance a).parentheses_level = _
        rw [store_and_advance_parentheses_level]
        rfl
      · rw [determine_type_depth, store_and_advance_parentheses_level]
    | lex_vbar =>
      obtain ⟨h1, h2⟩ := lex_literal_depth P 124 diagnostic.vbar_without_closing (to_char EOF)
        (get_next_char (set_type a STR_CONSTANT_LEXEME))
      simp only [call_routine, lex_vbar]
      rw [h1, get_next_char_parentheses_level]
      rw [(get_next_char_frame _).1] at h2
      rcases h2 with h2 | h2 <;> rw [h2] <;> rfl
    | lex_quote =>
      obtain ⟨h1, h2⟩ := lex_literal_depth P 34 diagnostic.quote_without_closing 0
        (get_next_char (set_type a QUOTED_STRING_LEXEME))
      simp only [call_routine, lex_quote]
      rw [h1, get_next_char_parentheses_level]
      rw [(get_next_char_frame _).1] at h2
      rcases h2 with h2 | h2 <;> rw [h2] <;> rfl
    | lex_plus => exact absurd (by decide) hc
    | lex_minus => exact absurd (by decide) hc
    | lex_greater => exact absurd (by decide) hc
    | lex_less => exact absurd (by decide) hc
    | lex_equal => exact absurd (by decide) hc
    | lex_ampersand => exact absurd (by decide) hc
    | lex_digit => exact absurd (by decide) hc
    | lex_constituent_string => exact absurd (by decide) hc

theorem skip_comment_parentheses_level (a : agent) :
    (skip_comment a).parentheses_level = a.parentheses_level := by
  have h : (run skip_comment_step pending a).parentheses_level = a.parentheses_level := by
    apply run_parentheses_level _ skip_comment_step_dec
    · intro s s1 hs
      unfold skip_comment_step at hs
      split at hs
      · cases hs; exact get_next_char_parentheses_level s
      · cases hs
    · intro s r hs
      rw [skip_comment_step_done s r hs]
  unfold skip_comment
  simp only []
  split_ifs
  · rw [get_next_char_parentheses_level, h]
  · exact h

theorem consume_whitespace_and_comments_parentheses_level (a : agent) :
    (consume_whitespace_and_comments a).parentheses_level = a.parentheses_level := by
  apply run_parentheses_level _ consume_whitespace_and_comments_step_dec
  · intro s s1 hs
    unfold consume_whitespace_and_comments_step at hs
    split_ifs at hs
    · cases hs; exact get_next_char_parentheses_level s
    · cases hs; exact get_next_char_parentheses_level s
    · cases hs; exact skip_comment_parentheses_level s
  · intro s r hs
    rw [consume_whitespace_and_comments_step_done s r hs]

theorem get_lexeme_depth (P : Platform) (a : agent) :
    (get_lexeme P a).parentheses_level
      = depth_after (get_lexeme P a).lexeme.type a.parentheses_level := by
  refine run_induction (get_lexeme_step P) pending (get_lexeme_step_dec P)
    (fun s r => r.parentheses_level = depth_after r.lexeme.type s.parentheses_level) ?_ ?_ a
  · intro s r h
    have e : (consume_whitespace_and_comments (start_lexeme s)).parentheses_level
        = s.parentheses_level := consume_whitespace_and_comments_parentheses_level _
    unfold get_lexeme_step dispatch at h
    split_ifs at h with h1 h2
    · cases h
      rw [call_routine_depth P _ _ h2, e]
    · cases h
      rw [← e]
      exact lex_single_depth _ _ (fun _ => rfl)
  · intro s s1 r h hr
    have e : s1.parentheses_level = s.parentheses_level := by
      unfold get_lexeme_step dispatch at h
      split_ifs at h
      cases h
      show (get_next_char _).parentheses_level = _
      rw [get_next_char_parentheses_level]
      exact consume_whitespace_and_comments_parentheses_level _
    rw [← e]
    exact hr

theorem get_lexeme_iterate_depth (P : Platform) (n : Nat) :
    ∀ a : agent, 0 ≤ a.parentheses_level →
      0 ≤ ((get_lexeme P)^[n] a).parentheses_level := by
  induction n with
  | zero => intro a h; exact h
  | succ n ih =>
    intro a h
    rw [Function.iterate_succ_apply]
    apply ih
    rw [get_lexeme_depth]
    unfold depth_after
    split_ifs <;> omega

/-- The depth as an integer without a bound: from a state of depth `d >= 0`, after
`get_lexeme` the depth is `d + 1` when the lexeme returned is an `L_PAREN_LEXEME`, `d - 1`
when it is an `R_PAREN_LEXEME` and `d > 0`, and `d` in every other case; so it is not
negative after any number of calls.  It describes the `int` of the source as long as the
depth stays at most `INT_MAX`. -/
theorem parentheses_level_update (P : Platform) (a : agent)
    (hd : 0 ≤ a.parentheses_level) :
    ((get_lexeme P a).lexeme.type = L_PAREN_LEXEME →
        current_lexer_parentheses_level (get_lexeme P a) = a.parentheses_level + 1)
      ∧ ((get_lexeme P a).lexeme.type = R_PAREN_LEXEME → 0 < a.parentheses_level →
        current_lexer_parentheses_level (get_lexeme P a) = a.parentheses_level - 1)
      ∧ ((get_lexeme P a).lexeme.type = R_PAREN_LEXEME → a.parentheses_level = 0 →
        current_lexer_parentheses_level (get_lexeme P a) = 0)
      ∧ ((get_lexeme P a).lexeme.type ≠ L_PAREN_LEXEME →
          (get_lexeme P a).lexeme.type ≠ R_PAREN_LEXEME →
        current_lexer_parentheses_level (get_lexeme P a) = a.parentheses_level)
      ∧ ∀ n, 0 ≤ current_lexer_parentheses_level ((get_lexeme P)^[n] a) := by
  have h := get_lexeme_depth P a
  unfold depth_after at h
  unfold current_lexer_parentheses_level
  refine ⟨?_, ?_, ?_, ?_, fun n => get_lexeme_iterate_depth P n a hd⟩
  · intro ht
    rw [h, if_pos ht]
  · intro ht hpos
    rw [h, ht]
    simp [hpos]
  · intro ht h0
    rw [h, ht]
    simp [h0]
  · intro h1 h2
    rw [h, if_neg h1, if_neg h2]

/-! ## Integers -/

theorem takeWhile_isdigit_end (l : List Int) (h0 : (0 : Int) ∉ l) :
    decide (l.getD (l.takeWhile isdigit).length 0 = 0) = l.all isdigit := by
  induction l with
  | nil => simp
  | cons c t ih =>
    have hc : c ≠ 0 := fun h => h0 (h ▸ List.mem_cons_self _ _)
    have ht : (0 : Int) ∉ t := fun h => h0 (List.mem_cons_of_mem _ h)
    by_cases hd : isdigit c = true
    · simpa [List.takeWhile_cons, hd] using ih ht
    · simp [List.takeWhile_cons, hd, hc]

theorem takeWhile_isdigit_all (l : List Int) (h : l.all isdigit = true) :
    l.takeWhile isdigit = l := by
  induction l with
  | nil => rfl
  | cons c t ih =>
    simp only [List.all_cons, Bool.and_eq_true] at h
    simp [List.takeWhile_cons, h.1, ih h.2]

theorem isdigit_last (l : List Int) (hne : l ≠ []) (h : l.all isdigit = true) :
    isdigit (l.getD (l.length - 1) 0) = true := by
  have hlt : l.length - 1 < l.length := by
    have := List.length_pos.mpr hne
    omega
  rw [List.getD_eq_getElem _ _ hlt]
  exact List.all_eq_true.mp h _ (List.getElem_mem _)

theorem digits_value_eq (ds : List Int) :
    ∀ acc : Nat, ds.all isdigit = true →
      digits_value ds acc = acc * 10 ^ ds.length + decimal_value ds := by
  induction ds with
  | nil => intro acc _; simp [digits_value, decimal_value]
  | cons c cs ih =>
    intro acc h
    simp only [List.all_cons, Bool.and_eq_true] at h
    have e := ih (acc * 10 + (c - 48).toNat) h.2
    simp only [digits_value, h.1, if_true, e, decimal_value, List.map_cons, List.reverse_cons,
      Nat.ofDigits_append, List.length_reverse, List.length_map, Nat.ofDigits_singleton,
      List.length_cons]
    ring

theorem possible_number_sign (c : Int) (ds : List Int) (hc : c = 43 ∨ c = 45)
    (h0 : (0 : Int) ∉ ds) :
    (possible_number (c :: ds)).1 = (decide (ds ≠ []) && ds.all isdigit) := by
  have hst : number_starters (uchar (char_at (c :: ds) 0)) = true := by
    rcases hc with rfl | rfl <;> rfl
  have hsign : (decide (char_at (c :: ds) 0 = 43) || decide (char_at (c :: ds) 0 = 45)) = true := by
    rcases hc with rfl | rfl <;> simp [char_at]
  have hnd : isdigit c = false := by
    rcases hc with rfl | rfl <;> rfl
  have e1 : skip_digits (c :: ds) (0 + 1) = 1 + (ds.takeWhile isdigit).length := by
    simp [skip_digits]
  have e2 : ∀ n, char_at (c :: ds) (1 + n) = ds.getD n 0 := by
    intro n
    simp [char_at, Nat.add_comm 1 n]
  unfold possible_number
  simp only [hst, if_true, hsign, e1, e2, Nat.add_sub_cancel_left]
  by_cases hall : ds.all isdigit = true
  · rw [takeWhile_isdigit_all ds hall, hall]
    by_cases hne : ds = []
    · subst hne
      simp [char_at, hnd]
    · have hlen : ds.length = 1 + (ds.length - 1) := by
        have := List.length_pos.mpr hne
        omega
      have hlast := isdigit_last ds hne hall
      rw [hlen, e2, ← hlen, hlast]
      simp [hne, List.getD_eq_default]
  · have hall : ds.all isdigit = false := by simpa using hall
    rw [takeWhile_isdigit_end ds h0, hall]
    simp

theorem isdigit_number_starter (c : Int) (h : isdigit c = true) :
    number_starters (uchar c) = true := by
  simp only [isdigit, Bool.and_eq_true, decide_eq_true_eq] at h
  have e : uchar c = c := by
    unfold uchar
    omega
  rw [e]
  unfold number_starters
  split_ifs <;> simp [isdigit, h.1, h.2]

theorem possible_number_digits (c : Int) (ds : List Int) (h43 : c ≠ 43) (h45 : c ≠ 45)
    (h0 : (0 : Int) ∉ c :: ds) :
    (possible_number (c :: ds)).1 = (c :: ds).all isdigit := by
  have hsign : (decide (c = 43) || decide (c = 45)) = false := by
    simp [h43, h45]
  have e1 : skip_digits (c :: ds) 0 = ((c :: ds).takeWhile isdigit).length := by
    simp [skip_digits]
  have e0 : char_at (c :: ds) 0 = c := rfl
  by_cases hst : number_starters (uchar c) = true
  · unfold possible_number
    simp only [e0, hst, if_true, hsign, Bool.false_eq_true, if_false, e1]
    by_cases hall : (c :: ds).all isdigit = true
    · have hlast := isdigit_last (c :: ds) (List.cons_ne_nil _ _) hall
      rw [takeWhile_isdigit_all _ hall, hall]
      unfold char_at
      rw [hlast]
      simp [List.getD_eq_default]
    · have hall : (c :: ds).all isdigit = false := by simpa using hall
      have := takeWhile_isdigit_end (c :: ds) h0
      unfold char_at
      rw [this, hall]
      simp
  · have hd : isdigit c = false := by
      by_contra hd
      exact hst (isdigit_number_starter c (by simpa using hd))
    unfold possible_number
    simp [e0, hst, hd]

theorem possible_number_integer_text (s : List Int) (h0 : (0 : Int) ∉ s) :
    (possible_number s).1 = integer_text s := by
  cases s with
  | nil => rfl
  | cons c ds =>
    by_cases hc : c = 43 ∨ c = 45
    · rw [possible_number_sign c ds hc (fun h => h0 (List.mem_cons_of_mem _ h))]
      rcases hc with rfl | rfl <;> simp [integer_text]
    · have h43 : c ≠ 43 := fun h => hc (Or.inl h)
      have h45 : c ≠ 45 := fun h => hc (Or.inr h)
      rw [possible_number_digits c ds h43 h45 h0]
      simp [integer_text, h43, h45]

theorem integer_text_first (s : List Int) (h : integer_text s = true) :
    char_at s 0 ≠ 60 ∧ isspace (char_at s 0) = false ∧ s ≠ [] := by
  cases s with
  | nil => simp [integer_text] at h
  | cons c ds =>
    by_cases hc : c = 43 ∨ c = 45
    · rcases hc with rfl | rfl <;> simp [char_at, isspace]
    · have h43 : c ≠ 43 := fun h => hc (Or.inl h)
      have h45 : c ≠ 45 := fun h => hc (Or.inr h)
      simp only [integer_text, List.head?_cons, Option.some.injEq, h43, h45, decide_False,
        Bool.or_self, Bool.false_eq_true, if_false, List.all_cons, Bool.and_eq_true,
        decide_eq_true_eq] at h
      have hd := h.2.1
      simp only [isdigit, Bool.and_eq_true, decide_eq_true_eq] at hd
      refine ⟨?_, ?_, List.cons_ne_nil _ _⟩
      · show c ≠ 60
        omega
      · show isspace c = false
        simp only [isspace, Bool.or_eq_false_iff, decide_eq_false_iff_not, Bool.and_eq_false_iff]
        omega

theorem strtol_integer_text (P : Platform) (s : List Int) (h : integer_text s = true) :
    strtol P s
      = if integer_value s < P.LONG_MIN then (P.LONG_MIN, true)
        else if P.LONG_MAX < integer_value s then (P.LONG_MAX, true)
        else (integer_value s, false) := by
  obtain ⟨-, hsp, hne⟩ := integer_text_first s h
  cases s with
  | nil => exact absurd rfl hne
  | cons c ds =>
    have hdrop : (c :: ds).dropWhile isspace = c :: ds := by
      have : isspace c = false := hsp
      simp [List.dropWhile_cons, this]
    have hv : (if decide (((c :: ds).dropWhile isspace).head? = some 45) then
          -(digits_value (if decide (((c :: ds).dropWhile isspace).head? = some 45)
              || decide (((c :: ds).dropWhile isspace).head? = some 43)
            then ((c :: ds).dropWhile isspace).tail else (c :: ds).dropWhile isspace) 0 : Int)
        else (digits_value (if decide (((c :: ds).dropWhile isspace).head? = some 45)
              || decide (((c :: ds).dropWhile isspace).head? = some 43)
            then ((c :: ds).dropWhile isspace).tail else (c :: ds).dropWhile isspace) 0 : Int))
        = integer_value (c :: ds) := by
      rw [hdrop]
      by_cases h45 : c = 45
      · subst h45
        have hall : ds.all isdigit = true := by
          simp [integer_text] at h
          simpa using h.2
        simp [integer_value, digits_value_eq ds 0 hall]
      · by_cases h43 : c = 43
        · subst h43
          have hall : ds.all isdigit = true := by
            simp [integer_text] at h
            simpa using h.2
          simp [integer_value, digits_value_eq ds 0 hall]
        · have hall : (c :: ds).all isdigit = true := by
            simp only [integer_text, List.head?_cons, Option.some.injEq, h43, h45, decide_False,
              Bool.or_self, Bool.false_eq_true, if_false] at h
            simpa using h
          simp [integer_value, h43, h45, digits_value_eq (c :: ds) 0 hall]
    unfold strtol
    simp only []
    rw [hv]

theorem possible_ic_eq (P : Platform) (s : List Int) (n : Nat) :
    (determine_possible_symbol_types_for_string P s n).possible_ic = (possible_number s).1 := by
  unfold determine_possible_symbol_types_for_string
  simp only []
  split <;> rfl

theorem possible_var_first (P : Platform) (s : List Int) (n : Nat)
    (h : (determine_possible_symbol_types_for_string P s n).possible_var = true) :
    char_at s 0 = 60 := by
  unfold determine_possible_symbol_types_for_string at h
  simp only [] at h
  split at h
  · cases h
  · simp only [Bool.and_eq_true, decide_eq_true_eq] at h
    exact h.1

theorem determine_type_integer (P : Platform) (a : agent) :
    ((determine_type_of_constituent_string P a).1.lexeme.type = INT_CONSTANT_LEXEME
        ↔ ((determine_possible_symbol_types_for_string P a.lexeme.string
              a.lexeme.length).possible_var = false
            ∧ (determine_possible_symbol_types_for_string P a.lexeme.string
              a.lexeme.length).possible_ic = true))
      ∧ ((determine_possible_symbol_types_for_string P a.lexeme.string
              a.lexeme.length).possible_var = false →
          (determine_possible_symbol_types_for_string P a.lexeme.string
              a.lexeme.length).possible_ic = true →
          (determine_type_of_constituent_string P a).1.lexeme.int_val
            = if (strtol P a.lexeme.string).2 then 0 else (strtol P a.lexeme.string).1) := by
  simp only [determine_type_of_constituent_string]
  refine ⟨?_, ?_⟩
  · repeat' split
    all_goals simp_all [set_type, print]
  · intro h1 h2
    simp only [h1, h2, Bool.false_eq_true, if_false, if_true]
    split <;> rfl

/-- Claim C19: a text without NUL that is passed to `determine_type_of_constituent_string`
is given the kind `INT_CONSTANT_LEXEME` exactly when it is an optional `+` or `-` followed
by one or more decimal digits and nothing else; for such a text `int_val` is its decimal
value when that lies between `LONG_MIN` and `LONG_MAX`, and is 0 otherwise, the kind
being `INT_CONSTANT_LEXEME` all the same. -/
theorem integer_classification (P : Platform) (a : agent) (h0 : (0 : Int) ∉ a.lexeme.string) :
    ((determine_type_of_constituent_string P a).1.lexeme.type = INT_CONSTANT_LEXEME
        ↔ integer_text a.lexeme.string = true)
      ∧ (integer_text a.lexeme.string = true →
          (determine_type_of_constituent_string P a).1.lexeme.int_val
            = if P.LONG_MIN ≤ integer_value a.lexeme.string
                ∧ integer_value a.lexeme.string ≤ P.LONG_MAX then
                integer_value a.lexeme.string
              else 0) := by
  obtain ⟨h1, h2⟩ := determine_type_integer P a
  have hic := possible_ic_eq P a.lexeme.string a.lexeme.length
  rw [possible_number_integer_text _ h0] at hic
  have hvar : integer_text a.lexeme.string = true →
      (determine_possible_symbol_types_for_string P a.lexeme.string
        a.lexeme.length).possible_var = false := by
    intro ht
    by_contra hv
    exact (integer_text_first _ ht).1 (possible_var_first P _ _ (by simpa using hv))
  refine ⟨?_, ?_⟩
  · rw [h1, hic]
    exact ⟨fun h => h.2, fun h => ⟨hvar h, h⟩⟩
  · intro ht
    rw [h2 (hvar ht) (hic.trans ht), strtol_integer_text P _ ht]
    by_cases hlo : integer_value a.lexeme.string < P.LONG_MIN
    · have hn : ¬(P.LONG_MIN ≤ integer_value a.lexeme.string
          ∧ integer_value a.lexeme.string ≤ P.LONG_MAX) := by omega
      simp [hlo, hn]
    · by_cases hhi : P.LONG_MAX < integer_value a.lexeme.string
      · have hn : ¬(P.LONG_MIN ≤ integer_value a.lexeme.string
            ∧ integer_value a.lexeme.string ≤ P.LONG_MAX) := by omega
        simp [hlo, hhi, hn]
      · have hy : P.LONG_MIN ≤ integer_value a.lexeme.string
            ∧ integer_value a.lexeme.string ≤ P.LONG_MAX := by omega
        simp [hlo, hhi, hy]

theorem integer_classification_witness :
    (0 : Int) ∉ (with_text agent0 [45, 49, 50]).lexeme.string
      ∧ (determine_type_of_constituent_string lp64 (with_text agent0 [45, 49, 50])).1.lexeme.type
          = INT_CONSTANT_LEXEME
      ∧ (determine_type_of_constituent_string lp64 (with_text agent0 [45, 49, 50])).1.lexeme.int_val
          = -12
      ∧ (determine_type_of_constituent_string lp64
          (with_text agent0 (List.replicate 20 57))).1.lexeme.type = INT_CONSTANT_LEXEME
      ∧ (determine_type_of_constituent_string lp64
          (with_text agent0 (List.replicate 20 57))).1.lexeme.int_val = 0
      ∧ ((determine_type_of_constituent_string lp64
            (with_text agent0 [45, 49, 50])).1.lexeme.type = INT_CONSTANT_LEXEME
          ↔ integer_text (with_text agent0 [45, 49, 50]).lexeme.string = true) :=
  ⟨by decide, by decide, by decide, by decide, by decide,
    (integer_classification lp64 (with_text agent0 [45, 49, 50]) (by decide)).1⟩

/-! ## Identifiers -/

theorem isalpha_range (c : Int) (h : isalpha c = true) :
    (65 ≤ c ∧ c ≤ 90) ∨ (97 ≤ c ∧ c ≤ 122) := by
  simpa [isalpha] using h

theorem isalpha_constituent (c : Int) (h : isalpha c = true) : constituent_char c = true := by
  unfold constituent_char
  split_ifs
  · rfl
  · simp [isalnum, h]

theorem isdigit_constituent_char (c : Int) (h : isdigit c = true) :
    constituent_char c = true := by
  unfold constituent_char
  split_ifs
  · rfl
  · simp [isalnum, h]

theorem lexer_routines_letter (c : Int) (h : isalpha c = true) :
    lexer_routines c = lex_routine.lex_constituent_string := by
  have hr := isalpha_range c h
  have hcc := isalpha_constituent c h
  have hd : isdigit c = false := by
    simp only [isdigit, Bool.and_eq_false_iff, decide_eq_false_iff_not]
    omega
  unfold lexer_routines
  iterate 18 rw [if_neg (by omega)]
  simp [hd, hcc]

theorem possible_number_letter (c : Int) (d : List Int) (h : isalpha c = true) :
    possible_number (c :: d) = (false, false) := by
  have hr := isalpha_range c h
  have e : uchar c = c := by
    unfold uchar
    omega
  have hst : number_starters (uchar (char_at (c :: d) 0)) = false := by
    show number_starters (uchar c) = false
    rw [e]
    unfold number_starters
    rw [if_neg (by omega), if_neg (by omega), if_neg (by omega)]
    simp only [isdigit, Bool.and_eq_false_iff, decide_eq_false_iff_not]
    omega
  unfold possible_number
  simp [hst]

theorem possible_identifier_letter_digits (c : Int) (d : List Int) (h : isalpha c = true)
    (hd : d ≠ []) (hdig : d.all isdigit = true) : possible_identifier (c :: d) = true := by
  have hr := isalpha_range c h
  have e0 : char_at (c :: d) 0 = c := rfl
  have e64 : c ≠ 64 := by omega
  obtain ⟨x, t, rfl⟩ : ∃ x t, d = x :: t := by
    cases d with
    | nil => exact absurd rfl hd
    | cons x t => exact ⟨x, t, rfl⟩
  have hx : isdigit x = true := by
    simp only [List.all_cons, Bool.and_eq_true] at hdig
    exact hdig.1
  have hx0 : x ≠ 0 := by
    simp only [isdigit, Bool.and_eq_true, decide_eq_true_eq] at hx
    omega
  have e1 : char_at (c :: x :: t) (0 + 1) = x := rfl
  have e2 : skip_digits (c :: x :: t) (0 + 1) = 1 + (x :: t).length := by
    have := takeWhile_isdigit_all (x :: t) hdig
    simp only [skip_digits, List.drop_succ_cons, List.drop_zero, this]
  have e3 : char_at (c :: x :: t) (1 + (x :: t).length) = 0 := by
    unfold char_at
    apply List.getD_eq_default
    simp only [List.length_cons]
    omega
  unfold possible_identifier
  simp only [e0, e64, if_false, e1, h, e2, e3]
  simp [hx0]

theorem to_char_toupper (c : Int) (h : isalpha c = true) : to_char (toupper c) = toupper c := by
  have hr := isalpha_range c h
  unfold toupper
  split_ifs with hl
  · simp only [Bool.and_eq_true, decide_eq_true_eq] at hl
    unfold to_char
    omega
  · unfold to_char
    omega

theorem classify_letter_digits (P : Platform) (b : agent) (c : Int) (d : List Int)
    (hs : b.lexeme.string = c :: d) (h : isalpha c = true) (hd : d ≠ [])
    (hdig : d.all isdigit = true) (hfit : decimal_value d ≤ P.ID_NUMBER_MAX) :
    (b.allow_ids = true →
        (determine_type_of_constituent_string P b).1.lexeme.type = IDENTIFIER_LEXEME
        ∧ (determine_type_of_constituent_string P b).1.lexeme.id_letter = toupper c
        ∧ (determine_type_of_constituent_string P b).1.lexeme.id_number = decimal_value d)
      ∧ (b.allow_ids = false →
        (determine_type_of_constituent_string P b).1.lexeme.type = STR_CONSTANT_LEXEME) := by
  have hr := isalpha_range c h
  have hnum := possible_number_letter c d h
  have hid := possible_identifier_letter_digits c d h hd hdig
  have hall : all_constituent (c :: d) = true := by
    apply all_constituent_of_forall
    intro x hx
    rcases List.mem_cons.mp hx with rfl | hx
    · exact isalpha_constituent _ h
    · exact isdigit_constituent_char x (List.all_eq_true.mp hdig x hx)
  have e0 : char_at (c :: d) 0 = c := rfl
  have e60 : c ≠ 60 := by omega
  have e64 : c ≠ 64 := by omega
  have hval : digits_value d 0 = decimal_value d := by
    rw [digits_value_eq d 0 hdig]
    simp
  have hfrom : from_c_string P d = some (decimal_value d) := by
    unfold from_c_string
    simp [hd, hdig, hval, hfit]
  have htype : determine_possible_symbol_types_for_string P (c :: d) (c :: d).length
      = { possible_id := true, possible_var := false, possible_sc := true,
          possible_ic := false, possible_fc := false,
          rereadable := all_alphanum (c :: d)
            || decide ((c :: d).length > P.LENGTH_OF_LONGEST_SPECIAL_LEXEME)
            || (decide ((c :: d).length = 1) && decide (char_at (c :: d) 0 = 42)) } := by
    unfold determine_possible_symbol_types_for_string
    simp [hall, hnum, hid, e0, e60]
  constructor
  · intro hallow
    simp only [determine_type_of_constituent_string, lexeme_info.length, hs, htype, hallow,
      e0, e64]
    simp [set_type, hfrom, e0, to_char_toupper c h]
  · intro hallow
    simp only [determine_type_of_constituent_string, lexeme_info.length, hs, htype, hallow]
    simp only [Bool.false_eq_true, if_false, Bool.false_and, if_true]
    split_ifs <;> simp [set_type, print]

/-- The lexeme of a letter followed by digits, on the text as the list of the bytes
stored: for every ASCII letter `c` and every non-empty string `d` of decimal digits whose
value is at most `ID_NUMBER_MAX`, the text `c` followed by `d`, and then the end of the
input or a byte that is not a constituent, gives an `IDENTIFIER_LEXEME` with `id_letter`
the upper-case form of `c` and `id_number` the decimal value of `d` when `allow_ids` is
true, and a `STR_CONSTANT_LEXEME` when `allow_ids` is false.  It describes the buffer
`lexeme.string` for texts no longer than `MAX_LEXEME_LENGTH`. -/
theorem letter_digits_lexeme (P : Platform) (a : agent) (c : Int) (d rest : List Int)
    (hc : isalpha c = true) (hd : d ≠ []) (hdig : d.all isdigit = true)
    (hfit : decimal_value d ≤ P.ID_NUMBER_MAX)
    (hrest : ends_constituent_string rest = true) :
    ((get_lexeme P (setLexerInput (set_lexer_allow_ids a true)
          (some (c :: d ++ rest)))).lexeme.type = IDENTIFIER_LEXEME
      ∧ (get_lexeme P (setLexerInput (set_lexer_allow_ids a true)
          (some (c :: d ++ rest)))).lexeme.id_letter = toupper c
      ∧ (get_lexeme P (setLexerInput (set_lexer_allow_ids a true)
          (some (c :: d ++ rest)))).lexeme.id_number = decimal_value d
      ∧ (get_lexeme P (setLexerInput (set_lexer_allow_ids a true)
          (some (c :: d ++ rest)))).lexeme.string = c :: d)
    ∧ ((get_lexeme P (setLexerInput (set_lexer_allow_ids a false)
          (some (c :: d ++ rest)))).lexeme.type = STR_CONSTANT_LEXEME
      ∧ (get_lexeme P (setLexerInput (set_lexer_allow_ids a false)
          (some (c :: d ++ rest)))).lexeme.string = c :: d) := by
  have hall : ∀ x ∈ c :: d, constituent_char x = true := by
    intro x hx
    rcases List.mem_cons.mp hx with rfl | hx
    · exact isalpha_constituent _ hc
    · exact isdigit_constituent_char x (List.all_eq_true.mp hdig x hx)
  have key : ∀ allow : Bool,
      (get_lexeme P (setLexerInput (set_lexer_allow_ids a allow) (some (c :: d ++ rest)))).lexeme
        = (determine_type_of_constituent_string P
            (with_text (start_lexeme (set_lexer_allow_ids a allow)) (c :: d))).1.lexeme := by
    intro allow
    rw [get_lexeme_attach, get_lexeme_constituent_string P _ c d rest hall
      (lexer_routines_letter c hc) hrest, next_from_lexeme]
  have hcl := fun allow : Bool => classify_letter_digits P
    (with_text (start_lexeme (set_lexer_allow_ids a allow)) (c :: d)) c d rfl hc hd hdig hfit
  rw [key true, key false]
  obtain ⟨h1, h2, h3⟩ := (hcl true).1 rfl
  refine ⟨⟨h1, h2, h3, ?_⟩, (hcl false).2 rfl, ?_⟩
  · rw [determine_type_string]; rfl
  · rw [determine_type_string]; rfl

/-! ## What a call of `get_lexeme` depends on -/

theorem run_rel {σ : Type} (step : σ → loop_step σ) (μ : σ → Nat)
    (hdec : ∀ s s1, step s = loop_step.next s1 → μ s1 < μ s) (R Q : σ → σ → Prop)
    (hstep : ∀ s t, R s t →
      (∃ s1 t1, step s = loop_step.next s1 ∧ step t = loop_step.next t1 ∧ R s1 t1)
        ∨ (∃ r1 r2, step s = loop_step.done r1 ∧ step t = loop_step.done r2 ∧ Q r1 r2)) :
    ∀ s t, R s t → Q (run step μ s) (run step μ t) := by
  have key : ∀ n s t, μ s = n → R s t → Q (run step μ s) (run step μ t) := by
    intro n
    induction n using Nat.strong_induction_on with
    | _ n ih =>
      intro s t hn hR
      rcases hstep s t hR with ⟨s1, t1, hs, ht, hR1⟩ | ⟨r1, r2, hs, ht, hQ⟩
      · rw [run_next step μ hdec s s1 hs, run_next step μ hdec t t1 ht]
        exact ih (μ s1) (hn ▸ hdec s s1 hs) s1 t1 rfl hR1
      · rw [run_done step μ s r1 hs, run_done step μ t r2 ht]
        exact hQ
  exact fun s t h => key (μ s) s t rfl h

theorem same_input_get_next_char (s t : agent) (h : same_input s t) :
    same_input (get_next_char s) (get_next_char t) := by
  obtain ⟨h1, h2, h3⟩ := h
  refine ⟨?_, ?_, by rw [(get_next_char_frame s).2, (get_next_char_frame t).2, h3]⟩
  all_goals
    by_cases hE : t.current_char = EOF
    · simp [get_next_char, h1, h2, hE]
    · cases hin : t.lexer_input_string with
      | none => simp [get_next_char, h1, h2, hE, hin]
      | some l =>
        cases l with
        | nil => simp [get_next_char, h1, h2, hE, hin]
        | cons c l => by_cases hc : to_char c = 0 <;> simp [get_next_char, h1, h2, hE, hin, hc]

theorem same_scan_get_next_char (s t : agent) (h : same_scan s t) :
    same_scan (get_next_char s) (get_next_char t) :=
  ⟨same_input_get_next_char s t h.1,
    by rw [(get_next_char_frame s).1, (get_next_char_frame t).1]; exact h.2⟩

theorem same_scan_store (s t : agent) (h : same_scan s t) : same_scan (store s) (store t) := by
  obtain ⟨⟨h1, h2, h3⟩, h4⟩ := h
  refine ⟨⟨h1, h2, h3⟩, ?_⟩
  show s.lexeme.string ++ [to_char s.current_char] = t.lexeme.string ++ [to_char t.current_char]
  rw [h2, h4]

theorem same_scan_store_and_advance (s t : agent) (h : same_scan s t) :
    same_scan (store_and_advance s) (store_and_advance t) :=
  same_scan_get_next_char _ _ (same_scan_store s t h)

theorem same_scan_read_constituent_string (s t : agent) (h : same_scan s t) :
    same_scan (read_constituent_string s) (read_constituent_string t) := by
  unfold read_constituent_string finish
  refine run_rel _ _ read_constituent_string_step_dec same_scan same_scan ?_ s t h
  intro a b hab
  have hc : a.current_char = b.current_char := hab.1.2.1
  unfold read_constituent_string_step
  rw [hc]
  split_ifs
  · exact Or.inl ⟨_, _, rfl, rfl, same_scan_store_and_advance a b hab⟩
  · exact Or.inr ⟨_, _, rfl, rfl, hab⟩

theorem same_scan_read_digits (s t : agent) (h : same_scan s t) :
    same_scan (run read_digits_step pending s) (run read_digits_step pending t) := by
  refine run_rel _ _ read_digits_step_dec same_scan same_scan ?_ s t h
  intro a b hab
  have hc : a.current_char = b.current_char := hab.1.2.1
  unfold read_digits_step
  rw [hc]
  split_ifs
  · exact Or.inl ⟨_, _, rfl, rfl, same_scan_store_and_advance a b hab⟩
  · exact Or.inr ⟨_, _, rfl, rfl, hab⟩

theorem same_scan_read_rest_of_floating_point_number (s t : agent) (h : same_scan s t) :
    same_scan (read_rest_of_floating_point_number s)
      (read_rest_of_floating_point_number t) := by
  have h1 := same_scan_read_digits _ _ (same_scan_store_and_advance s t h)
  have h2 := same_scan_store_and_advance _ _ h1
  have h3 := same_scan_store_and_advance _ _ h2
  unfold read_rest_of_floating_point_number finish
  simp only []
  rw [h1.1.2.1, h2.1.2.1]
  split_ifs
  · exact same_scan_read_digits _ _ h3
  · exact same_scan_read_digits _ _ h2
  · exact h1

theorem same_scan_read_possible_number (s t : agent) (h : same_scan s t) :
    same_scan (read_possible_number s) (read_possible_number t) := by
  have h1 := same_scan_read_constituent_string s t h
  unfold read_possible_number
  simp only []
  rw [h1.1.2.1, h1.2]
  split_ifs
  · exact same_scan_read_rest_of_floating_point_number _ _ h1
  · exact h1

theorem same_scan_read_phase (r : lex_routine) (s t : agent) (h : same_scan s t) :
    same_scan (read_phase r s) (read_phase r t) := by
  unfold read_phase
  split_ifs
  · exact same_scan_read_possible_number s t h
  · exact same_scan_read_constituent_string s t h

theorem determine_type_value_congr (P : Platform) (a b : agent)
    (hs : a.lexeme.string = b.lexeme.string) (hi : a.allow_ids = b.allow_ids) :
    ((determine_type_of_constituent_string P a).1.lexeme.type = INT_CONSTANT_LEXEME →
        (determine_type_of_constituent_string P a).1.lexeme.int_val
          = (determine_type_of_constituent_string P b).1.lexeme.int_val)
      ∧ ((determine_type_of_constituent_string P a).1.lexeme.type = FLOAT_CONSTANT_LEXEME →
        (determine_type_of_constituent_string P a).1.lexeme.float_val
          = (determine_type_of_constituent_string P b).1.lexeme.float_val)
      ∧ ((determine_type_of_constituent_string P a).1.lexeme.type = IDENTIFIER_LEXEME →
        (determine_type_of_constituent_string P a).1.lexeme.id_letter
            = (determine_type_of_constituent_string P b).1.lexeme.id_letter
          ∧ (determine_type_of_constituent_string P a).1.lexeme.id_number
            = (determine_type_of_constituent_string P b).1.lexeme.id_number) := by
  simp only [determine_type_of_constituent_string, lexeme_info.length, hs, hi]
  repeat' split
  all_goals simp_all [set_type, print]

theorem same_result_determine_type (P : Platform) (a b : agent) (h : same_scan a b) :
    same_result (determine_type_of_constituent_string P a).1
      (determine_type_of_constituent_string P b).1 := by
  obtain ⟨⟨h1, h2, h3⟩, h4⟩ := h
  obtain ⟨a1, a2, -, a4, -, a6⟩ := determine_type_frame P a
  obtain ⟨b1, b2, -, b4, -, b6⟩ := determine_type_frame P b
  refine ⟨⟨by rw [a1, b1, h1], by rw [a2, b2, h2], by rw [a4, b4, h3]⟩,
    determine_type_type_congr P a b h4 h3, by rw [a6, b6, h4],
    determine_type_value_congr P a b h4 h3⟩

theorem same_result_of_type (t : lexeme_type) (a b : agent) (h : same_scan a b)
    (ha : a.lexeme.type = t) (hb : b.lexeme.type = t) (ht : t ∉ classification_kinds) :
    same_result a b := by
  refine ⟨h.1, by rw [ha, hb], h.2, ?_, ?_, ?_⟩
  all_goals
    intro e
    rw [ha] at e
    subst e
    exact absurd ht (by decide)

theorem same_result_set_type (t : lexeme_type) (a b : agent) (h : same_scan a b)
    (ht : t ∉ classification_kinds) : same_result (set_type a t) (set_type b t) :=
  same_result_of_type t _ _ ⟨h.1, h.2⟩ rfl rfl ht

theorem same_result_lex_single (t : lexeme_type) (a b : agent) (h : same_scan a b)
    (ht : t ∉ classification_kinds) : same_result (lex_single t a) (lex_single t b) :=
  same_result_set_type t _ _ (same_scan_store_and_advance a b h) ht

theorem same_result_lex_literal (P : Platform) (delim : Int) (d : diagnostic) (c : Int)
    (t : lexeme_type) (ht : t ∉ classification_kinds ∨ t = STR_CONSTANT_LEXEME
      ∨ t = QUOTED_STRING_LEXEME) (a b : agent)
    (h : same_scan a b) (ha : a.lexeme.type = t) (hb : b.lexeme.type = t) :
    same_result (run (lex_literal_step P delim (unterminated d c)) pending a)
      (run (lex_literal_step P delim (unterminated d c)) pending b) := by
  have hval : ∀ x y : agent, same_scan x y → x.lexeme.type = t → y.lexeme.type = t →
      same_result x y := by
    intro x y hxy hx hy
    refine ⟨hxy.1, by rw [hx, hy], hxy.2, ?_, ?_, ?_⟩
    all_goals
      intro e
      rw [hx] at e
      subst e
      rcases ht with ht | ht | ht
      · exact absurd ht (by decide)
      · cases ht
      · cases ht
  refine run_rel _ _ (lex_literal_step_dec P delim _)
    (fun x y => same_scan x y ∧ x.lexeme.type = t ∧ y.lexeme.type = t) same_result ?_ a b
    ⟨h, ha, hb⟩
  intro x y ⟨hxy, hx, hy⟩
  have hc : x.current_char = y.current_char := hxy.1.2.1
  have hl : x.lexeme.length = y.lexeme.length := by
    rw [lexeme_info.length, lexeme_info.length, hxy.2]
  unfold lex_literal_step
  rw [hc, hl]
  split_ifs
  · refine Or.inr ⟨_, _, rfl, rfl, ?_⟩
    exact same_result_of_type EOF_LEXEME _ _ ⟨hxy.1, rfl⟩ rfl rfl (by decide)
  · refine Or.inl ⟨_, _, rfl, rfl, ?_, ?_, ?_⟩
    · exact same_scan_get_next_char _ _ (same_scan_store _ _ (same_scan_get_next_char _ _ hxy))
    · rw [(get_next_char_frame _).1]
      show (get_next_char x).lexeme.type = t
      rw [(get_next_char_frame x).1, hx]
    · rw [(get_next_char_frame _).1]
      show (get_next_char y).lexeme.type = t
      rw [(get_next_char_frame y).1, hy]
  · refine Or.inr ⟨_, _, rfl, rfl, ?_⟩
    apply hval _ _ (same_scan_get_next_char _ _ hxy)
    · show (get_next_char x).lexeme.type = t
      rw [(get_next_char_frame x).1, hx]
    · show (get_next_char y).lexeme.type = t
      rw [(get_next_char_frame y).1, hy]
  · refine Or.inl ⟨_, _, rfl, rfl, same_scan_store_and_advance _ _ hxy, ?_, ?_⟩
    · exact (store_and_advance_type x).trans hx
    · exact (store_and_advance_type y).trans hy

theorem same_result_call_routine (P : Platform) (r : lex_routine) (a b : agent)
    (hr : r ≠ lex_routine.lex_unknown) (h : same_scan a b) :
    same_result (call_routine P r a) (call_routine P r b) := by
  by_cases hc : r ∈ constituent_routines
  · have hp := same_scan_read_phase r a b h
    rw [call_routine_constituent P r a hc, call_routine_constituent P r b hc, hp.2]
    cases hk : special_kind r (read_phase r b).lexeme.string with
    | some t => exact same_result_set_type t _ _ hp (special_kind_not_classification r _ t hk)
    | none => exact same_result_determine_type P _ _ hp
  · cases r with
    | lex_unknown => exact absurd rfl hr
    | lex_at => exact same_result_lex_single _ a b h (by decide)
    | lex_tilde => exact same_result_lex_single _ a b h (by decide)
    | lex_up_arrow => exact same_result_lex_single _ a b h (by decide)
    | lex_lbrace => exact same_result_lex_single _ a b h (by decide)
    | lex_rbrace => exact same_result_lex_single _ a b h (by decide)
    | lex_exclamation_point => exact same_result_lex_single _ a b h (by decide)
    | lex_comma => exact same_result_lex_single _ a b h (by decide)
    | lex_lparen =>
      have e := same_result_lex_single L_PAREN_LEXEME a b h (by decide)
      exact ⟨e.1, e.2⟩
    | lex_rparen =>
      have e := same_result_lex_single R_PAREN_LEXEME a b h (by decide)
      simp only [call_routine, lex_rparen]
      split_ifs <;> exact ⟨e.1, e.2⟩
    | lex_period =>
      have h1 := same_scan_store_and_advance a b h
      have h2 := same_scan_read_rest_of_floating_point_number _ _ h1
      have l1 : (store_and_advance a).lexeme.length = (store_and_advance b).lexeme.length := by
        rw [lexeme_info.length, lexeme_info.length, h1.2]
      have l2 : (read_rest_of_floating_point_number (store_and_advance a)).lexeme.length
          = (read_rest_of_floating_point_number (store_and_advance b)).lexeme.length := by
        rw [lexeme_info.length, lexeme_info.length, h2.2]
      simp only [call_routine, lex_period, finish]
      rw [h1.1.2.1]
      by_cases hd : isdigit (store_and_advance b).current_char = true
      · simp only [hd, if_true]
        rw [l2]
        split_ifs
        · exact same_result_set_type _ _ _ h2 (by decide)
        · exact same_result_determine_type P _ _ h2
      · simp only [hd, Bool.false_eq_true, if_false]
        rw [l1]
        split_ifs
        · exact same_result_set_type _ _ _ h1 (by decide)
        · exact same_result_determine_type P _ _ h1
    | lex_vbar =>
      simp only [call_routine, lex_vbar]
      apply same_result_lex_literal P 124 _ _ STR_CONSTANT_LEXEME (Or.inr (Or.inl rfl))
      · exact same_scan_get_next_char _ _ ⟨h.1, h.2⟩
      · rw [(get_next_char_frame _).1]; rfl
      · rw [(get_next_char_frame _).1]; rfl
    | lex_quote =>
      simp only [call_routine, lex_quote]
      apply same_result_lex_literal P 34 _ _ QUOTED_STRING_LEXEME (Or.inr (Or.inr rfl))
      · exact same_scan_get_next_char _ _ ⟨h.1, h.2⟩
      · rw [(get_next_char_frame _).1]; rfl
      · rw [(get_next_char_frame _).1]; rfl
    | lex_plus => exact absurd (by decide) hc
    | lex_minus => exact absurd (by decide) hc
    | lex_greater => exact absurd (by decide) hc
    | lex_less => exact absurd (by decide) hc
    | lex_equal => exact absurd (by decide) hc
    | lex_ampersand => exact absurd (by decide) hc
    | lex_digit => exact absurd (by decide) hc
    | lex_constituent_string => exact absurd (by decide) hc

theorem same_scan_skip_comment (s t : agent) (h : same_scan s t) :
    same_scan (skip_comment s) (skip_comment t) := by
  have h1 : same_scan (run skip_comment_step pending s) (run skip_comment_step pending t) := by
    refine run_rel _ _ skip_comment_step_dec same_scan same_scan ?_ s t h
    intro a b hab
    have hc : a.current_char = b.current_char := hab.1.2.1
    unfold skip_comment_step
    rw [hc]
    split_ifs
    · exact Or.inl ⟨_, _, rfl, rfl, same_scan_get_next_char a b hab⟩
    · exact Or.inr ⟨_, _, rfl, rfl, hab⟩
  unfold skip_comment
  simp only []
  rw [h1.1.2.1]
  split_ifs
  · exact same_scan_get_next_char _ _ h1
  · exact h1

theorem same_scan_consume_whitespace_and_comments (s t : agent) (h : same_scan s t) :
    same_scan (consume_whitespace_and_comments s) (consume_whitespace_and_comments t) := by
  refine run_rel _ _ consume_whitespace_and_comments_step_dec same_scan same_scan ?_ s t h
  intro a b hab
  have hc : a.current_char = b.current_char := hab.1.2.1
  unfold consume_whitespace_and_comments_step
  rw [hc]
  split_ifs
  · exact Or.inr ⟨_, _, rfl, rfl, hab⟩
  · exact Or.inl ⟨_, _, rfl, rfl, same_scan_get_next_char a b hab⟩
  · exact Or.inl ⟨_, _, rfl, rfl, same_scan_get_next_char a b hab⟩
  · exact Or.inl ⟨_, _, rfl, rfl, same_scan_skip_comment a b hab⟩
  · exact Or.inr ⟨_, _, rfl, rfl, hab⟩

theorem same_result_get_lexeme (P : Platform) (s t : agent) (h : same_input s t) :
    same_result (get_lexeme P s) (get_lexeme P t) := by
  refine run_rel _ _ (get_lexeme_step_dec P) same_input same_result ?_ s t h
  intro a b hab
  have h1 : same_scan (consume_whitespace_and_comments (start_lexeme a))
      (consume_whitespace_and_comments (start_lexeme b)) :=
    same_scan_consume_whitespace_and_comments _ _ ⟨hab, rfl⟩
  unfold get_lexeme_step dispatch
  rw [h1.1.2.1]
  split_ifs with hE hu
  · exact Or.inl ⟨_, _, rfl, rfl, same_input_get_next_char _ _ h1.1⟩
  · exact Or.inr ⟨_, _, rfl, rfl, same_result_call_routine P _ _ _ hu h1⟩
  · exact Or.inr ⟨_, _, rfl, rfl, same_result_lex_single _ _ _ h1 (by decide)⟩

theorem same_result_iterate (P : Platform) (n : Nat) :
    ∀ s t : agent, same_input s t →
      same_result ((get_lexeme P)^[n + 1] s) ((get_lexeme P)^[n + 1] t)
        ∧ (s.parentheses_level = t.parentheses_level →
            ((get_lexeme P)^[n + 1] s).parentheses_level
              = ((get_lexeme P)^[n + 1] t).parentheses_level) := by
  induction n with
  | zero =>
    intro s t h
    have e := same_result_get_lexeme P s t h
    refine ⟨e, fun hl => ?_⟩
    show (get_lexeme P s).parentheses_level = (get_lexeme P t).parentheses_level
    rw [get_lexeme_depth P s, get_lexeme_depth P t, e.2.1, hl]
  | succ n ih =>
    intro s t h
    have e := same_result_get_lexeme P s t h
    rw [Function.iterate_succ_apply, Function.iterate_succ_apply (get_lexeme P) (n + 1) t]
    obtain ⟨i1, i2⟩ := ih (get_lexeme P s) (get_lexeme P t) e.1
    refine ⟨i1, fun hl => i2 ?_⟩
    rw [get_lexeme_depth P s, get_lexeme_depth P t, e.2.1, hl]

/-- Claim C11, counterexample: two prior states that differ in the parenthesis depth only,
0 and 1, with the same value of `allow_ids`: after `setLexerInput` of the text `(` and one
call of `get_lexeme` the values of `current_lexer_parentheses_level` differ, 1 and 2. -/
theorem attach_keeps_parentheses_level :
    current_lexer_parentheses_level
        (get_lexeme lp64 (setLexerInput agent0 (some [40]))) = 1
      ∧ current_lexer_parentheses_level
        (get_lexeme lp64 (setLexerInput { agent0 with parentheses_level := 1 } (some [40]))) = 2
      ∧ current_lexer_parentheses_level
          (get_lexeme lp64 (setLexerInput agent0 (some [40])))
        ≠ current_lexer_parentheses_level
          (get_lexeme lp64 (setLexerInput { agent0 with parentheses_level := 1 } (some [40]))) := by
  decide

/-- Claim C11, amended: for any two prior states with the same value of `allow_ids` and
any text (or none), after `setLexerInput` of the text the successive calls of `get_lexeme`
return the same lexemes: the same kind, the same text and the same value; when the two
prior states have the same parenthesis depth, which `setLexerInput` leaves as it is, the
values of `current_lexer_parentheses_level` after each call are the same too. -/
theorem attach_no_carryover (P : Platform) (s1 s2 : agent) (text : Option (List Int))
    (n : Nat) (hallow : s1.allow_ids = s2.allow_ids) :
    same_lexeme ((get_lexeme P)^[n + 1] (setLexerInput s1 text)).lexeme
        ((get_lexeme P)^[n + 1] (setLexerInput s2 text)).lexeme
      ∧ (s1.parentheses_level = s2.parentheses_level →
          current_lexer_parentheses_level ((get_lexeme P)^[n + 1] (setLexerInput s1 text))
            = current_lexer_parentheses_level
                ((get_lexeme P)^[n + 1] (setLexerInput s2 text))) := by
  have h : same_input (setLexerInput s1 text) (setLexerInput s2 text) := ⟨rfl, rfl, hallow⟩
  obtain ⟨h1, h2⟩ := same_result_iterate P n _ _ h
  exact ⟨h1.2, h2⟩

theorem attach_no_carryover_witness :
    agent0.allow_ids = agent1.allow_ids
      ∧ ((get_lexeme lp64)^[1 + 1] (setLexerInput agent0 (some text_foo_attr))).lexeme.string
          = [102, 111, 111]
      ∧ agent0.parentheses_level ≠ agent1.parentheses_level
      ∧ same_lexeme ((get_lexeme lp64)^[1 + 1] (setLexerInput agent0 (some text_foo_attr))).lexeme
          ((get_lexeme lp64)^[1 + 1] (setLexerInput agent1 (some text_foo_attr))).lexeme :=
  ⟨by decide, by decide, by decide,
    (attach_no_carryover lp64 agent0 agent1 (some text_foo_attr) 1 (by decide)).1⟩

/-! ## The outcomes of the `sp` command -/

/-- Claim C26: for every production text, every parser and every state of the interface
before the call, when `DoSP` returns the flag `allow_ids` of the lexer is true and the
lexer input is the null pointer, whether a production was installed, reported as a
duplicate or refused. -/
theorem DoSP_cleanup (P : Platform) (K : Kernel) (cli : CommandLineInterface)
    (productionString : List Int) :
    get_lexer_allow_ids (DoSP P K cli productionString).1.agent = true
      ∧ (DoSP P K cli productionString).1.agent.lexer_input_string = none := by
  unfold DoSP
  simp only []
  split
  · split_ifs <;> exact ⟨rfl, rfl⟩
  · split_ifs <;> exact ⟨rfl, rfl⟩

/-- Claim C27: when the parser returns no production and a signal other than
`DUPLICATE_PRODUCTION`, `DoSP` returns false with the error "Production addition failed."
and leaves the two counters and the result buffer as they were; when the parser returns a
production, `DoSP` returns true, records no error, adds exactly one to the sourced
counter, leaves the ignored counter as it was, sets the file name of the production to
the top of the source-file stack when the stack is not empty and leaves the production as
it is when the stack is empty, and appends one `*` to the result buffer when raw output is
on and nothing when it is off. -/
theorem DoSP_outcome (P : Platform) (K : Kernel) (cli : CommandLineInterface)
    (productionString : List Int) (a1 : agent) (sig : Nat) :
    (K.parse_production (get_lexeme P (set_lexer_allow_ids
          (setLexerInput cli.agent (some productionString)) false)) 0 = (none, sig, a1) →
      sig ≠ K.DUPLICATE_PRODUCTION →
        (DoSP P K cli productionString).2.2 = false
        ∧ (DoSP P K cli productionString).2.1 = none
        ∧ (DoSP P K cli productionString).1.m_LastError = some "Production addition failed."
        ∧ (DoSP P K cli productionString).1.m_NumProductionsIgnored
            = cli.m_NumProductionsIgnored
        ∧ (DoSP P K cli productionString).1.m_NumProductionsSourced
            = cli.m_NumProductionsSourced
        ∧ (DoSP P K cli productionString).1.m_Result = cli.m_Result)
    ∧ (∀ p : production,
        K.parse_production (get_lexeme P (set_lexer_allow_ids
          (setLexerInput cli.agent (some productionString)) false)) 0 = (some p, sig, a1) →
        (DoSP P K cli productionString).2.2 = true
        ∧ (DoSP P K cli productionString).1.m_LastError = cli.m_LastError
        ∧ (DoSP P K cli productionString).1.m_NumProductionsSourced
            = cli.m_NumProductionsSourced + 1
        ∧ (DoSP P K cli productionString).1.m_NumProductionsIgnored
            = cli.m_NumProductionsIgnored
        ∧ (∀ top rest, cli.m_SourceFileStack = top :: rest →
            (DoSP P K cli productionString).2.1 = some { p with filename := some top })
        ∧ (cli.m_SourceFileStack = [] → (DoSP P K cli productionString).2.1 = some p)
        ∧ (cli.m_RawOutput = true →
            (DoSP P K cli productionString).1.m_Result = cli.m_Result ++ ['*'])
        ∧ (cli.m_RawOutput = false →
            (DoSP P K cli productionString).1.m_Result = cli.m_Result)) := by
  constructor
  · intro h hs
    simp [DoSP, h, hs, SetError]
  · intro p h
    refine ⟨?_, ?_, ?_, ?_, ?_, ?_, ?_, ?_⟩
    · simp [DoSP, h]
    · simp only [DoSP, h]
      split_ifs <;> rfl
    · simp only [DoSP, h]
      split_ifs <;> rfl
    · simp only [DoSP, h]
      split_ifs <;> rfl
    · intro top rest hst
      simp [DoSP, h, hst]
    · intro hst
      simp [DoSP, h, hst]
    · intro hraw
      simp [DoSP, h, hraw]
    · intro hraw
      simp [DoSP, h, hraw]

theorem DoSP_outcome_witness :
    ((DoSP lp64 failing_kernel cli0 [115, 112]).2.2 = false
        ∧ (DoSP lp64 failing_kernel cli0 [115, 112]).2.1 = none
        ∧ (DoSP lp64 failing_kernel cli0 [115, 112]).1.m_LastError
            = some "Production addition failed."
        ∧ (DoSP lp64 failing_kernel cli0 [115, 112]).1.m_NumProductionsIgnored
            = cli0.m_NumProductionsIgnored
        ∧ (DoSP lp64 failing_kernel cli0 [115, 112]).1.m_NumProductionsSourced
            = cli0.m_NumProductionsSourced
        ∧ (DoSP lp64 failing_kernel cli0 [115, 112]).1.m_Result = cli0.m_Result)
      ∧ (DoSP lp64 accepting_kernel cli1 [115, 112]).2.1
          = some { name := [115, 112], filename := some [97] }
      ∧ (DoSP lp64 accepting_kernel cli1 [115, 112]).1.m_Result = ['*']
      ∧ (DoSP lp64 accepting_kernel cli1 [115, 112]).1.m_NumProductionsSourced
          = cli1.m_NumProductionsSourced + 1 :=
  ⟨(DoSP_outcome lp64 failing_kernel cli0 [115, 112] _ 1).1 rfl (by decide),
    by decide, by decide,
    ((DoSP_outcome lp64 accepting_kernel cli1 [115, 112] _ 0).2 _ rfl).2.2.1⟩

/-! ## The first lexeme of a production -/

theorem run_allow_ids (step : agent → loop_step agent)
    (hdec : ∀ s s1, step s = loop_step.next s1 → pending s1 < pending s)
    (hnext : ∀ s s1, step s = loop_step.next s1 → s1.allow_ids = s.allow_ids)
    (hdone : ∀ s r, step s = loop_step.done r → r.allow_ids = s.allow_ids)
    (a : agent) : (run step pending a).allow_ids = a.allow_ids :=
  run_induction step pending hdec (fun s r => r.allow_ids = s.allow_ids) hdone
    (fun s s1 _ hs hr => hr.trans (hnext s s1 hs)) a

theorem read_constituent_string_allow_ids (a : agent) :
    (read_constituent_string a).allow_ids = a.allow_ids := by
  unfold read_constituent_string finish
  apply run_allow_ids _ read_constituent_string_step_dec
  · intro s s1 h
    unfold read_constituent_string_step at h
    split at h
    · cases h; exact store_and_advance_allow_ids s
    · cases h
  · intro s r h
    rw [read_constituent_string_step_done s r h]

theorem read_digits_allow_ids (a : agent) :
    (run read_digits_step pending a).allow_ids = a.allow_ids := by
  apply run_allow_ids _ read_digits_step_dec
  · intro s s1 h
    unfold read_digits_step at h
    split at h
    · cases h; exact store_and_advance_allow_ids s
    · cases h
  · intro s r h
    rw [read_digits_step_done s r h]

theorem read_rest_of_floating_point_number_allow_ids (a : agent) :
    (read_rest_of_floating_point_number a).allow_ids = a.allow_ids := by
  unfold read_rest_of_floating_point_number finish
  simp only []
  split_ifs <;> simp only [read_digits_allow_ids, store_and_advance_allow_ids]

theorem read_possible_number_allow_ids (a : agent) :
    (read_possible_number a).allow_ids = a.allow_ids := by
  unfold read_possible_number
  simp only []
  split_ifs <;>
    simp only [read_rest_of_floating_point_number_allow_ids, read_constituent_string_allow_ids]

theorem read_phase_allow_ids (r : lex_routine) (a : agent) :
    (read_phase r a).allow_ids = a.allow_ids := by
  unfold read_phase
  split_ifs
  · exact read_possible_number_allow_ids a
  · exact read_constituent_string_allow_ids a

theorem determine_type_not_identifier (P : Platform) (a : agent) (h : a.allow_ids = false) :
    (determine_type_of_constituent_string P a).1.lexeme.type ≠ IDENTIFIER_LEXEME := by
  simp only [determine_type_of_constituent_string, h]
  repeat' split
  all_goals simp_all [set_type, print]

theorem special_kind_not_identifier (r : lex_routine) (s : List Int) (t : lexeme_type)
    (h : special_kind r s = some t) : t ≠ IDENTIFIER_LEXEME := by
  intro e
  subst e
  exact special_kind_not_classification r s _ h (by decide)

theorem call_routine_not_identifier (P : Platform) (r : lex_routine) (a : agent)
    (hr : r ≠ lex_routine.lex_unknown) (h : a.allow_ids = false) :
    (call_routine P r a).lexeme.type ≠ IDENTIFIER_LEXEME := by
  by_cases hc : r ∈ constituent_routines
  · rw [call_routine_constituent P r a hc]
    cases hk : special_kind r (read_phase r a).lexeme.string with
    | some t => exact special_kind_not_identifier r _ t hk
    | none =>
      exact determine_type_not_identifier P _ ((read_phase_allow_ids r a).trans h)
  · cases r with
    | lex_unknown => exact absurd rfl hr
    | lex_at => exact fun e => nomatch e
    | lex_tilde => exact fun e => nomatch e
    | lex_up_arrow => exact fun e => nomatch e
    | lex_lbrace => exact fun e => nomatch e
    | lex_rbrace => exact fun e => nomatch e
    | lex_exclamation_point => exact fun e => nomatch e
    | lex_comma => exact fun e => nomatch e
    | lex_lparen => exact fun e => nomatch e
    | lex_rparen =>
      simp only [call_routine, lex_rparen]
      split_ifs <;> exact fun e => nomatch e
    | lex_period =>
      simp only [call_routine, lex_period, finish]
      split_ifs
      · exact fun e => nomatch e
      · exact determine_type_not_identifier P _
          ((read_rest_of_floating_point_number_allow_ids _).trans
            ((store_and_advance_allow_ids a).trans h))
      · exact fun e => nomatch e
      · exact determine_type_not_identifier P _ ((store_and_advance_allow_ids a).trans h)
    | lex_vbar =>
      obtain ⟨-, h2⟩ := lex_literal_depth P 124 diagnostic.vbar_without_closing (to_char EOF)
        (get_next_char (set_type a STR_CONSTANT_LEXEME))
      simp only [call_routine, lex_vbar]
      rw [(get_next_char_frame _).1] at h2
      rcases h2 with h2 | h2 <;> rw [h2] <;> exact fun e => nomatch e
    | lex_quote =>
      obtain ⟨-, h2⟩ := lex_literal_depth P 34 diagnostic.quote_without_closing 0
        (get_next_char (set_type a QUOTED_STRING_LEXEME))
      simp only [call_routine, lex_quote]
      rw [(get_next_char_frame _).1] at h2
      rcases h2 with h2 | h2 <;> rw [h2] <;> exact fun e => nomatch e
    | lex_plus => exact absurd (by decide) hc
    | lex_minus => exact absurd (by decide) hc
    | lex_greater => exact absurd (by decide) hc
    | lex_less => exact absurd (by decide) hc
    | lex_equal => exact absurd (by decide) hc
    | lex_ampersand => exact absurd (by decide) hc
    | lex_digit => exact absurd (by decide) hc
    | lex_constituent_string => exact absurd (by decide) hc

theorem get_lexeme_not_identifier (P : Platform) (a : agent) (h : a.allow_ids = false) :
    (get_lexeme P a).lexeme.type ≠ IDENTIFIER_LEXEME := by
  have key := run_induction (get_lexeme_step P) pending (get_lexeme_step_dec P)
    (fun s r => s.allow_ids = false → r.lexeme.type ≠ IDENTIFIER_LEXEME) ?_ ?_ a
  · exact key h
  · intro s r hs hal
    have e : (consume_whitespace_and_comments (start_lexeme s)).allow_ids = false :=
      (consume_whitespace_and_comments_frame _).2.trans hal
    unfold get_lexeme_step dispatch at hs
    split_ifs at hs with h1 h2
    · cases hs
      exact call_routine_not_identifier P _ _ h2 e
    · cases hs
      exact fun e => nomatch e
  · intro s s1 r hs hr hal
    apply hr
    unfold get_lexeme_step dispatch at hs
    split_ifs at hs
    cases hs
    show (get_next_char _).allow_ids = false
    rw [(get_next_char_frame _).2]
    exact (consume_whitespace_and_comments_frame _).2.trans hal

theorem classify_letter_digits_string (P : Platform) (b : agent) (c : Int) (d : List Int)
    (hs : b.lexeme.string = c :: d) (h : isalpha c = true)
    (hdig : d.all isdigit = true) (hallow : b.allow_ids = false) :
    (determine_type_of_constituent_string P b).1.lexeme.type = STR_CONSTANT_LEXEME := by
  have hr := isalpha_range c h
  have hnum := possible_number_letter c d h
  have hall : all_constituent (c :: d) = true := by
    apply all_constituent_of_forall
    intro x hx
    rcases List.mem_cons.mp hx with rfl | hx
    · exact isalpha_constituent _ h
    · exact isdigit_constituent_char x (List.all_eq_true.mp hdig x hx)
  have e0 : char_at (c :: d) 0 = c := rfl
  have e60 : c ≠ 60 := by omega
  have hv : (determine_possible_symbol_types_for_string P (c :: d) (c :: d).length).possible_var
      = false := by
    unfold determine_possible_symbol_types_for_string
    simp [hall, e0, e60]
  have hi : (determine_possible_symbol_types_for_string P (c :: d) (c :: d).length).possible_ic
      = false := by
    rw [possible_ic_eq, hnum]
  have hf : (determine_possible_symbol_types_for_string P (c :: d) (c :: d).length).possible_fc
      = false := by
    unfold determine_possible_symbol_types_for_string
    simp [hall, hnum]
  have hsc : (determine_possible_symbol_types_for_string P (c :: d) (c :: d).length).possible_sc
      = true := by
    unfold determine_possible_symbol_types_for_string
    simp [hall]
  simp only [determine_type_of_constituent_string, lexeme_info.length, hs, hv, hi, hf, hsc,
    hallow, Bool.false_eq_true, if_false, Bool.false_and, if_true]
  split_ifs <;> simp [set_type, print]

/-- The first lexeme of a production, on the text as the list of the bytes stored: for
every production text and every state of the interface, `allow_ids` included,
`parse_production` is called by `DoSP` on the agent `parser_input`, whose current lexeme,
the first of the text, is not an `IDENTIFIER_LEXEME`; when the text begins with a letter
followed by one or more digits and then ends or goes on with a byte that is not a
constituent, the kind is `STR_CONSTANT_LEXEME` and the bytes stored are the letter and the
digits.  It describes the buffer `lexeme.string` for names no longer than
`MAX_LEXEME_LENGTH`. -/
theorem production_name_is_not_identifier (P : Platform) (K : Kernel)
    (cli : CommandLineInterface) (productionString : List Int) :
    DoSP P K cli productionString
        = DoSP P { K with parse_production := fun _ n =>
            K.parse_production (parser_input P cli productionString) n } cli
            productionString
      ∧ (parser_input P cli productionString).lexeme.type ≠ IDENTIFIER_LEXEME
      ∧ ∀ (c : Int) (d rest : List Int), isalpha c = true → d ≠ [] → d.all isdigit = true →
          ends_constituent_string rest = true → productionString = c :: d ++ rest →
          (parser_input P cli productionString).lexeme.type = STR_CONSTANT_LEXEME
            ∧ (parser_input P cli productionString).lexeme.string = c :: d := by
  refine ⟨rfl, get_lexeme_not_identifier P _ rfl, ?_⟩
  intro c d rest hc hd hdig hrest htext
  subst htext
  have hall : ∀ x ∈ c :: d, constituent_char x = true := by
    intro x hx
    rcases List.mem_cons.mp hx with rfl | hx
    · exact isalpha_constituent _ hc
    · exact isdigit_constituent_char x (List.all_eq_true.mp hdig x hx)
  have key : parser_input P cli (c :: d ++ rest)
      = next_from (determine_type_of_constituent_string P
          (with_text (start_lexeme (set_lexer_allow_ids cli.agent false)) (c :: d))).1 rest := by
    have e : set_lexer_allow_ids (setLexerInput cli.agent (some (c :: d ++ rest))) false
        = setLexerInput (set_lexer_allow_ids cli.agent false) (some (c :: d ++ rest)) := rfl
    rw [parser_input, e, get_lexeme_attach, get_lexeme_constituent_string P _ c d rest hall
      (lexer_routines_letter c hc) hrest]
  rw [key, next_from_lexeme]
  exact ⟨classify_letter_digits_string P _ c d rfl hc hdig rfl,
    by rw [determine_type_string]; rfl⟩

/-! ## Skipping ahead to a closing parenthesis -/

theorem special_kind_operator (c : Int) (t : List Int)
    (hc : c = 60 ∨ c = 62 ∨ c = 61 ∨ c = 38) :
    special_kind (lexer_routines c) (c :: t) = operator_kind (c :: t) := by
  rcases hc with rfl | rfl | rfl | rfl
  · have hr : lexer_routines 60 = lex_routine.lex_less := by decide
    rw [hr]
    rcases t with _ | ⟨d, _ | ⟨e, _ | ⟨f, t⟩⟩⟩
    · rfl
    · simp only [special_kind, operator_kind, char_at]
      simp
    · simp only [special_kind, operator_kind, char_at]
      simp
    · simp [special_kind, operator_kind]
  · have hr : lexer_routines 62 = lex_routine.lex_greater := by decide
    rw [hr]
    rcases t with _ | ⟨d, _ | ⟨e, t⟩⟩
    · rfl
    · simp only [special_kind, operator_kind, char_at]
      simp
    · simp [special_kind, operator_kind]
  · have hr : lexer_routines 61 = lex_routine.lex_equal := by decide
    rw [hr]
    rcases t with _ | ⟨d, t⟩
    · rfl
    · simp [special_kind, operator_kind]
  · have hr : lexer_routines 38 = lex_routine.lex_ampersand := by decide
    rw [hr]
    rcases t with _ | ⟨d, t⟩
    · rfl
    · simp [special_kind, operator_kind]

theorem operator_kind_not_classification (r : List Int) (k : lexeme_type)
    (h : operator_kind r = some k) : k ∉ classification_kinds := by
  unfold operator_kind at h
  by_cases h0 : r = [60]
  · rw [if_pos h0] at h; injection h with h; subst h; decide
  rw [if_neg h0] at h
  by_cases h1 : r = [60, 62]
  · rw [if_pos h1] at h; injection h with h; subst h; decide
  rw [if_neg h1] at h
  by_cases h2 : r = [60, 61]
  · rw [if_pos h2] at h; injection h with h; subst h; decide
  rw [if_neg h2] at h
  by_cases h3 : r = [60, 60]
  · rw [if_pos h3] at h; injection h with h; subst h; decide
  rw [if_neg h3] at h
  by_cases h4 : r = [60, 61, 62]
  · rw [if_pos h4] at h; injection h with h; subst h; decide
  rw [if_neg h4] at h
  by_cases h5 : r = [62]
  · rw [if_pos h5] at h; injection h with h; subst h; decide
  rw [if_neg h5] at h
  by_cases h6 : r = [62, 62]
  · rw [if_pos h6] at h; injection h with h; subst h; decide
  rw [if_neg h6] at h
  by_cases h7 : r = [62, 61]
  · rw [if_pos h7] at h; injection h with h; subst h; decide
  rw [if_neg h7] at h
  by_cases h8 : r = [61]
  · rw [if_pos h8] at h; injection h with h; subst h; decide
  rw [if_neg h8] at h
  by_cases h9 : r = [38]
  · rw [if_pos h9] at h; injection h with h; subst h; decide
  rw [if_neg h9] at h
  cases h

theorem get_lexeme_operator_run (P : Platform) (a : agent) (c : Int) (t rest : List Int)
    (hc : c = 60 ∨ c = 62 ∨ c = 61 ∨ c = 38) (ht : ∀ x ∈ t, constituent_char x = true)
    (hrest : ends_constituent_string rest = true) :
    get_lexeme P (setLexerInput a (some (c :: t ++ rest)))
      = match operator_kind (c :: t) with
        | some k => next_from (set_type (with_text (start_lexeme a) (c :: t)) k) rest
        | none => next_from (determine_type_of_constituent_string P
            (with_text (start_lexeme a) (c :: t))).1 rest := by
  have hcc : constituent_char c = true := by
    rcases hc with rfl | rfl | rfl | rfl <;> decide
  have h64 : c ≠ 64 := by
    rcases hc with rfl | rfl | rfl | rfl <;> decide
  have hall : ∀ x ∈ c :: t, constituent_char x = true := by
    intro x hx
    rcases List.mem_cons.mp hx with rfl | hx
    · exact hcc
    · exact ht x hx
  have hr : lexer_routines c ∈ constituent_routines := by
    rcases hc with rfl | rfl | rfl | rfl <;> decide
  have hread : read_phase (lexer_routines c) (next_from (start_lexeme a) (c :: t ++ rest))
      = next_from (with_text (start_lexeme a) (c :: t)) rest := by
    have e : read_phase (lexer_routines c) (next_from (start_lexeme a) (c :: t ++ rest))
        = read_constituent_string (next_from (start_lexeme a) (c :: t ++ rest)) := by
      rcases hc with rfl | rfl | rfl | rfl <;> rfl
    rw [e, read_constituent_string_run (c :: t) (start_lexeme a) rest hall hrest]
    rfl
  rw [get_lexeme_attach, List.cons_append, get_lexeme_at_constituent P a c _ hcc h64,
    call_routine_constituent P _ _ hr, ← List.cons_append, hread, next_from_lexeme,
    ← special_kind_operator c t hc]
  have e : (with_text (start_lexeme a) (c :: t)).lexeme.string = c :: t := rfl
  rw [e]
  cases special_kind (lexer_routines c) (c :: t) with
  | some k => exact set_type_next_from _ _ _
  | none => exact determine_type_next_from P _ _

/-- The lexemes that begin with `<`, `>`, `=` or `&`, on the text as the list of the
bytes stored: for a maximal run `r` of constituent bytes that begins with one of them the
bytes stored are `r`; the kind is `LESS` for `<`, `NOT_EQUAL` for `<>`, `LESS_EQUAL` for
`<=`, `LESS_LESS` for `<<`, `LESS_EQUAL_GREATER` for `<=>`, `GREATER` for `>`,
`GREATER_GREATER` for `>>`, `GREATER_EQUAL` for `>=`, `EQUAL` for `=` and `AMPERSAND` for
`&` (the table `operator_kind`); for any other such run it is the kind that
`determine_type_of_constituent_string` gives to `r`, which is none of these ten kinds.
It describes the buffer `lexeme.string` for runs no longer than `MAX_LEXEME_LENGTH`. -/
theorem comparison_operators (P : Platform) (a : agent) (c : Int) (t rest : List Int)
    (hc : c = 60 ∨ c = 62 ∨ c = 61 ∨ c = 38) (ht : ∀ x ∈ t, constituent_char x = true)
    (hrest : ends_constituent_string rest = true) :
    (get_lexeme P (setLexerInput a (some (c :: t ++ rest)))).lexeme.string = c :: t
      ∧ (∀ k, operator_kind (c :: t) = some k →
          (get_lexeme P (setLexerInput a (some (c :: t ++ rest)))).lexeme.type = k)
      ∧ (operator_kind (c :: t) = none →
          (get_lexeme P (setLexerInput a (some (c :: t ++ rest)))).lexeme.type
              = (determine_type_of_constituent_string P
                  (with_text (start_lexeme a) (c :: t))).1.lexeme.type
            ∧ ∀ r k, operator_kind r = some k →
                (get_lexeme P (setLexerInput a (some (c :: t ++ rest)))).lexeme.type ≠ k) := by
  rw [get_lexeme_operator_run P a c t rest hc ht hrest]
  cases hk : operator_kind (c :: t) with
  | some k =>
    refine ⟨?_, ?_, ?_⟩
    · rw [next_from_lexeme]; rfl
    · intro k1 e
      cases e
      rw [next_from_lexeme]; rfl
    · intro e
      cases e
  | none =>
    refine ⟨?_, ?_, ?_⟩
    · rw [next_from_lexeme, determine_type_string]; rfl
    · intro k1 e
      cases e
    · intro _
      refine ⟨by rw [next_from_lexeme], ?_⟩
      intro r k hrk e
      rw [next_from_lexeme] at e
      exact operator_kind_not_classification r k hrk (e ▸ determine_type_kind P _)

/-! ## Floating-point numbers -/

theorem drop_length_takeWhile (p : Int → Bool) (l : List Int) :
    l.drop (l.takeWhile p).length = l.dropWhile p := by
  induction l with
  | nil => rfl
  | cons c t ih =>
    by_cases h : p c = true
    · simp [List.takeWhile_cons, List.dropWhile_cons, h, ih]
    · simp [List.takeWhile_cons, List.dropWhile_cons, h]

theorem drop_skip_digits (s : List Int) (k : Nat) :
    s.drop (skip_digits s k) = (s.drop k).dropWhile isdigit := by
  unfold skip_digits
  rw [← List.drop_drop, drop_length_takeWhile]

theorem drop_succ_tail (s : List Int) (k : Nat) : s.drop (k + 1) = (s.drop k).tail := by
  rw [List.tail_drop]

theorem char_at_eq_head (s : List Int) (k : Nat) :
    char_at s k = ((s.drop k).head?).getD 0 := by
  unfold char_at
  rw [List.head?_drop, List.getD_eq_getElem?_getD]

theorem char_at_eq_iff (s : List Int) (k : Nat) (x : Int) (hx : x ≠ 0) :
    char_at s k = x ↔ (s.drop k).head? = some x := by
  rw [char_at_eq_head]
  cases h : (s.drop k).head? with
  | none => simp [hx.symm]
  | some y => simp

theorem char_at_zero_iff (s : List Int) (k : Nat) (h0 : (0 : Int) ∉ s) :
    char_at s k = 0 ↔ s.drop k = [] := by
  rw [char_at_eq_head]
  cases h : s.drop k with
  | nil => simp
  | cons y t =>
    have hy : y ∈ s := List.mem_of_mem_drop (h ▸ List.mem_cons_self y t)
    have : y ≠ 0 := fun e => h0 (e ▸ hy)
    simp [this]

theorem decide_eq_isEmpty (l : List Int) : decide (l = []) = l.isEmpty := by
  cases l <;> simp

theorem possible_fc_at (s : List Int) (k : Nat) (h0 : (0 : Int) ∉ s) :
    (if char_at s (skip_digits s k) = 46 then
        decide (char_at s
          (if (decide (char_at s (skip_digits s (skip_digits s k + 1)) = 101)
              || decide (char_at s (skip_digits s (skip_digits s k + 1)) = 69)) = true then
            skip_digits s
              (if (decide (char_at s (skip_digits s (skip_digits s k + 1) + 1) = 43)
                  || decide (char_at s (skip_digits s (skip_digits s k + 1) + 1) = 45)) = true
               then skip_digits s (skip_digits s k + 1) + 1 + 1
               else skip_digits s (skip_digits s k + 1) + 1)
          else skip_digits s (skip_digits s k + 1)) = 0)
      else false)
      = float_after_sign (s.drop k) := by
  unfold float_after_sign float_after_point
  simp only [char_at_eq_iff s _ 46 (by decide), char_at_eq_iff s _ 101 (by decide),
    char_at_eq_iff s _ 69 (by decide), char_at_eq_iff s _ 43 (by decide),
    char_at_eq_iff s _ 45 (by decide), char_at_zero_iff s _ h0, drop_skip_digits,
    drop_succ_tail]
  split_ifs
  all_goals first
    | rfl
    | (simp only [drop_skip_digits, drop_succ_tail]
       exact decide_eq_isEmpty _)

theorem number_starters_of_float (c : Int) (l : List Int)
    (h : number_starters (uchar c) = false) : float_text (c :: l) = false := by
  have h43 : c ≠ 43 := by rintro rfl; revert h; decide
  have h45 : c ≠ 45 := by rintro rfl; revert h; decide
  have h46 : c ≠ 46 := by rintro rfl; revert h; decide
  have hd : isdigit c = false := by
    by_contra hd
    rw [isdigit_number_starter c (by simpa using hd)] at h
    cases h
  simp [float_text, float_after_sign, h43, h45, h46, hd, List.dropWhile_cons]

theorem possible_number_float_text (s : List Int) (h0 : (0 : Int) ∉ s) :
    (possible_number s).2 = float_text s := by
  cases s with
  | nil => rfl
  | cons c l =>
    by_cases hst : number_starters (uchar c) = true
    · have e0 : char_at (c :: l) 0 = c := rfl
      by_cases hsign : c = 43 ∨ c = 45
      · have hs : (decide (c = 43) || decide (c = 45)) = true := by simpa using hsign
        have e := possible_fc_at (c :: l) (0 + 1) h0
        have ft : float_text (c :: l) = float_after_sign ((c :: l).drop (0 + 1)) := by
          rcases hsign with rfl | rfl <;> rfl
        rw [ft, ← e]
        unfold possible_number
        simp only [e0, hst, if_true, hs]
      · have hs : (decide (c = 43) || decide (c = 45)) = false := by simpa using hsign
        have e := possible_fc_at (c :: l) 0 h0
        have ft : float_text (c :: l) = float_after_sign ((c :: l).drop 0) := by
          simp only [float_text, List.head?_cons, Option.some.injEq, hs, Bool.false_eq_true,
            if_false, List.drop_zero]
        rw [ft, ← e]
        unfold possible_number
        simp only [e0, hst, if_true, hs, Bool.false_eq_true, if_false]
    · have hst : number_starters (uchar c) = false := by simpa using hst
      rw [number_starters_of_float c l hst]
      unfold possible_number
      have e0 : char_at (c :: l) 0 = c := rfl
      simp [e0, hst]

theorem mem_of_float_text (s : List Int) (h : float_text s = true) : (46 : Int) ∈ s := by
  unfold float_text float_after_sign at h
  simp only [] at h
  split_ifs at h with h1 h2 h3
  · exact List.mem_of_mem_tail
      ((List.dropWhile_suffix _).subset (List.mem_of_mem_head? h2))
  · exact (List.dropWhile_suffix _).subset (List.mem_of_mem_head? h3)

theorem digits_split (l : List Int) :
    (∀ c ∈ l.takeWhile isdigit, isdigit c = true)
      ∧ (∀ c t, l.dropWhile isdigit = c :: t → isdigit c = false)
      ∧ l.takeWhile isdigit ++ l.dropWhile isdigit = l := by
  refine ⟨fun c hc => (List.mem_takeWhile_imp hc), ?_, List.takeWhile_append_dropWhile _ _⟩
  induction l with
  | nil => intro c t h; cases h
  | cons x l ih =>
    intro c t h
    by_cases hx : isdigit x = true
    · rw [List.dropWhile_cons, if_pos hx] at h
      exact ih c t h
    · rw [List.dropWhile_cons, if_neg hx] at h
      cases h
      simpa using hx

theorem first_char_ascii (c : Int) (l : List Int) (h0 : 0 < c) (h1 : c < 128) :
    first_char (c :: l) = c := by
  have e := to_char_ascii c (le_of_lt h0) h1
  show (if to_char c = 0 then EOF else to_char c) = c
  rw [e, if_neg (by omega)]

theorem isdigit_first_char_dropWhile (l : List Int) (hl : ∀ c ∈ l, 0 < c ∧ c < 128) :
    isdigit (first_char (l.dropWhile isdigit)) = false := by
  cases h : l.dropWhile isdigit with
  | nil => rfl
  | cons c t =>
    have hc := hl c ((List.dropWhile_suffix _).subset (h ▸ List.mem_cons_self c t))
    rw [first_char_ascii c t hc.1 hc.2]
    exact (digits_split l).2.1 c t h

theorem read_digits_ascii (a : agent) (l : List Int) (hl : ∀ c ∈ l, 0 < c ∧ c < 128) :
    run read_digits_step pending (next_from a l)
      = next_from (with_text a (a.lexeme.string ++ l.takeWhile isdigit))
          (l.dropWhile isdigit) := by
  have h := read_digits_run (l.takeWhile isdigit) a (l.dropWhile isdigit)
    (digits_split l).1 (isdigit_first_char_dropWhile l hl)
  rwa [(digits_split l).2.2] at h

theorem read_rest_of_floating_point_number_run (a : agent) (tail : List Int)
    (hl : ∀ c ∈ tail, 0 < c ∧ c < 128) :
    ∃ rem, tail = float_rest tail ++ rem
      ∧ read_rest_of_floating_point_number (next_from a (46 :: tail))
        = next_from (with_text a (a.lexeme.string ++ 46 :: float_rest tail)) rem := by
  have hsplit := (digits_split tail).2.2
  have hrd := read_digits_ascii (with_text a (a.lexeme.string ++ [46])) tail hl
  unfold read_rest_of_floating_point_number finish
  simp only []
  rw [store_and_advance_next_from a 46 tail (by decide) (by decide), hrd,
    next_from_first_char]
  cases h1 : tail.dropWhile isdigit with
  | nil =>
    refine ⟨[], ?_, ?_⟩
    · rw [h1, List.append_nil] at hsplit
      simp [float_rest, h1, hsplit]
    · have e : float_rest tail = tail.takeWhile isdigit := by simp [float_rest, h1]
      rw [e]
      simp [first_char, EOF, with_text]
  | cons e l2 =>
    have he : 0 < e ∧ e < 128 :=
      hl e ((List.dropWhile_suffix _).subset (h1 ▸ List.mem_cons_self e l2))
    have hl2 : ∀ c ∈ l2, 0 < c ∧ c < 128 := fun c hc =>
      hl c ((List.dropWhile_suffix _).subset (h1 ▸ List.mem_cons_of_mem e hc))
    rw [first_char_ascii e l2 he.1 he.2]
    by_cases hexp : e = 101 ∨ e = 69
    · have hexp' : (decide (e = 101) || decide (e = 69)) = true := by simpa using hexp
      simp only [hexp', if_true]
      rw [store_and_advance_next_from _ e l2 he.1 he.2, next_from_first_char]
      cases h2 : l2 with
      | nil =>
        refine ⟨[], ?_, ?_⟩
        · rw [h1, h2] at hsplit
          simp [float_rest, h1, h2, hexp, hsplit]
        · have e' : float_rest tail = tail.takeWhile isdigit ++ [e] := by
            simp [float_rest, h1, h2, hexp]
          rw [e']
          have hh := read_digits_ascii
            (with_text (with_text (with_text a (a.lexeme.string ++ [46]))
              ((with_text a (a.lexeme.string ++ [46])).lexeme.string
                ++ List.takeWhile isdigit tail))
              ((with_text (with_text a (a.lexeme.string ++ [46]))
                ((with_text a (a.lexeme.string ++ [46])).lexeme.string
                  ++ List.takeWhile isdigit tail)).lexeme.string ++ [e])) []
            (fun c hc => absurd hc (List.not_mem_nil c))
          simp only [first_char, EOF] at hh ⊢
          simp only [show ((-1 : Int) = 43) = False from by simp,
            show ((-1 : Int) = 45) = False from by simp, decide_False, Bool.or_self,
            Bool.false_eq_true, if_false, hh]
          simp [with_text]
      | cons g l3 =>
        have hg : 0 < g ∧ g < 128 := hl2 g (h2 ▸ List.mem_cons_self g l3)
        have hl3 : ∀ c ∈ l3, 0 < c ∧ c < 128 := fun c hc =>
          hl2 c (h2 ▸ List.mem_cons_of_mem g hc)
        rw [first_char_ascii g l3 hg.1 hg.2]
        by_cases hsg : g = 43 ∨ g = 45
        · have hsg' : (decide (g = 43) || decide (g = 45)) = true := by simpa using hsg
          simp only [hsg', if_true]
          rw [store_and_advance_next_from _ g l3 hg.1 hg.2, read_digits_ascii _ l3 hl3]
          refine ⟨l3.dropWhile isdigit, ?_, ?_⟩
          · have e' : float_rest tail
                = tail.takeWhile isdigit ++ [e] ++ [g] ++ l3.takeWhile isdigit := by
              simp [float_rest, h1, h2, hexp, hsg]
            rw [e']
            conv_lhs => rw [← hsplit, h1, h2, ← (digits_split l3).2.2]
            simp
          · have e' : float_rest tail
                = tail.takeWhile isdigit ++ [e] ++ [g] ++ l3.takeWhile isdigit := by
              simp [float_rest, h1, h2, hexp, hsg]
            rw [e']
            simp [with_text]
        · have hsg' : (decide (g = 43) || decide (g = 45)) = false := by simpa using hsg
          simp only [hsg', Bool.false_eq_true, if_false]
          rw [read_digits_ascii _ (g :: l3) (h2 ▸ hl2)]
          refine ⟨(g :: l3).dropWhile isdigit, ?_, ?_⟩
          · have e' : float_rest tail
                = tail.takeWhile isdigit ++ [e] ++ (g :: l3).takeWhile isdigit := by
              simp [float_rest, h1, h2, hexp, hsg]
            rw [e']
            conv_lhs => rw [← hsplit, h1, h2, ← (digits_split (g :: l3)).2.2]
            simp
          · have e' : float_rest tail
                = tail.takeWhile isdigit ++ [e] ++ (g :: l3).takeWhile isdigit := by
              simp [float_rest, h1, h2, hexp, hsg]
            rw [e']
            simp [with_text]
    · have hexp' : (decide (e = 101) || decide (e = 69)) = false := by simpa using hexp
      simp only [hexp', Bool.false_eq_true, if_false]
      have e' : float_rest tail = tail.takeWhile isdigit := by
        simp [float_rest, h1, hexp]
      refine ⟨e :: l2, ?_, ?_⟩
      · rw [e', ← h1, hsplit]
      · rw [e']
        simp [with_text]

/-! ## The kind given by the possible symbol types -/

theorem determine_type_type (P : Platform) (a : agent) :
    (determine_type_of_constituent_string P a).1.lexeme.type
      = if (determine_possible_symbol_types_for_string P a.lexeme.string
            a.lexeme.length).possible_var = true then VARIABLE_LEXEME
        else if (determine_possible_symbol_types_for_string P a.lexeme.string
            a.lexeme.length).possible_ic = true then INT_CONSTANT_LEXEME
        else if (determine_possible_symbol_types_for_string P a.lexeme.string
            a.lexeme.length).possible_fc = true then FLOAT_CONSTANT_LEXEME
        else if (a.allow_ids
            && (determine_possible_symbol_types_for_string P a.lexeme.string
              a.lexeme.length).possible_id) = true then IDENTIFIER_LEXEME
        else if (determine_possible_symbol_types_for_string P a.lexeme.string
            a.lexeme.length).possible_sc = true then STR_CONSTANT_LEXEME
        else QUOTED_STRING_LEXEME := by
  simp only [determine_type_of_constituent_string]
  repeat' split
  all_goals simp_all [set_type, print]

theorem possible_fc_eq (P : Platform) (s : List Int) (n : Nat) :
    (determine_possible_symbol_types_for_string P s n).possible_fc = (possible_number s).2 := by
  unfold determine_possible_symbol_types_for_string
  simp only []
  split <;> rfl

theorem possible_sc_eq (P : Platform) (s : List Int) (n : Nat) :
    (determine_possible_symbol_types_for_string P s n).possible_sc = all_constituent s := by
  unfold determine_possible_symbol_types_for_string
  simp only []
  split <;> simp_all

theorem possible_id_eq (P : Platform) (s : List Int) (n : Nat) :
    (determine_possible_symbol_types_for_string P s n).possible_id
      = (all_constituent s && possible_identifier s) := by
  unfold determine_possible_symbol_types_for_string
  simp only []
  split <;> simp_all

theorem possible_var_eq (P : Platform) (s : List Int) (n : Nat) :
    (determine_possible_symbol_types_for_string P s n).possible_var
      = (all_constituent s && (decide (char_at s 0 = 60) && decide (char_at s (n - 1) = 62))) := by
  unfold determine_possible_symbol_types_for_string
  simp only []
  split <;> simp_all

theorem not_mem_zero_of_constituent (t : List Int) (h : ∀ x ∈ t, constituent_char x = true) :
    (0 : Int) ∉ t := by
  intro h0
  have := constituent_char_range 0 (h 0 h0)
  omega

/-! ## Tokens that begin with a sign -/

theorem special_kind_sign (c : Int) (t : List Int) (hc : c = 43 ∨ c = 45) :
    special_kind (lexer_routines c) (c :: t) = sign_operator_kind (c :: t) := by
  rcases hc with rfl | rfl
  · have hr : lexer_routines 43 = lex_routine.lex_plus := by decide
    rw [hr]
    rcases t with _ | ⟨d, t⟩
    · rfl
    · simp [special_kind, sign_operator_kind]
  · have hr : lexer_routines 45 = lex_routine.lex_minus := by decide
    rw [hr]
    rcases t with _ | ⟨d, _ | ⟨e, _ | ⟨f, t⟩⟩⟩
    · rfl
    · simp [special_kind, sign_operator_kind]
    · simp only [special_kind, sign_operator_kind, char_at]
      simp
    · simp [special_kind, sign_operator_kind]

theorem sign_operator_kind_not_classification (r : List Int) (k : lexeme_type)
    (h : sign_operator_kind r = some k) : k ∉ classification_kinds := by
  unfold sign_operator_kind at h
  by_cases h0 : r = [43]
  · rw [if_pos h0] at h; injection h with h; subst h; decide
  rw [if_neg h0] at h
  by_cases h1 : r = [45]
  · rw [if_pos h1] at h; injection h with h; subst h; decide
  rw [if_neg h1] at h
  by_cases h2 : r = [45, 45, 62]
  · rw [if_pos h2] at h; injection h with h; subst h; decide
  rw [if_neg h2] at h
  cases h

theorem dropWhile_digits_append (fs r : List Int) (h : ∀ c ∈ fs, isdigit c = true) :
    (fs ++ r).dropWhile isdigit = r.dropWhile isdigit := by
  induction fs with
  | nil => rfl
  | cons c fs ih =>
    have hc := h c (List.mem_cons_self c fs)
    rw [List.cons_append, List.dropWhile_cons, if_pos hc]
    exact ih (fun d hd => h d (List.mem_cons_of_mem c hd))

theorem dropWhile_takeWhile_digits (l : List Int) :
    (l.takeWhile isdigit).dropWhile isdigit = [] := by
  have := dropWhile_digits_append (l.takeWhile isdigit) [] (digits_split l).1
  simpa using this

theorem head?_takeWhile_digits (l : List Int) (x : Int) (hx : isdigit x = false) :
    (l.takeWhile isdigit).head? ≠ some x := by
  intro h
  have := (digits_split l).1 x (List.mem_of_mem_head? h)
  rw [hx] at this
  cases this

theorem float_after_point_float_rest (tail : List Int) :
    float_after_point (float_rest tail) = true := by
  have hd := (digits_split tail).1
  cases h1 : tail.dropWhile isdigit with
  | nil =>
    have e : float_rest tail = tail.takeWhile isdigit := by simp [float_rest, h1]
    rw [e]
    simp [float_after_point, dropWhile_takeWhile_digits]
  | cons e l2 =>
    have hne : isdigit e = false := (digits_split tail).2.1 e l2 h1
    by_cases hexp : e = 101 ∨ e = 69
    · have hexp' : (decide (e = 101) || decide (e = 69)) = true := by simpa using hexp
      by_cases hsg : l2.head? = some 43 ∨ l2.head? = some 45
      · have hsg' : (decide (l2.head? = some 43) || decide (l2.head? = some 45)) = true := by
          simpa using hsg
        obtain ⟨g, l3, rfl⟩ : ∃ g l3, l2 = g :: l3 := by
          cases l2 with
          | nil => simp at hsg
          | cons g l3 => exact ⟨g, l3, rfl⟩
        have hg : g = 43 ∨ g = 45 := by simpa using hsg
        have hg' : (decide (g = 43) || decide (g = 45)) = true := by simpa using hg
        have e' : float_rest tail = tail.takeWhile isdigit ++ e :: g :: l3.takeWhile isdigit := by
          simp [float_rest, h1, hexp, hg]
        rw [e']
        unfold float_after_point
        simp only [dropWhile_digits_append _ _ hd, List.dropWhile_cons, hne,
          Bool.false_eq_true, if_false, List.head?_cons, Option.some.injEq, hexp', if_true,
          List.tail_cons, hg', dropWhile_takeWhile_digits]
        rfl
      · have hsg' : (decide (l2.head? = some 43) || decide (l2.head? = some 45)) = false := by
          simpa using hsg
        have e' : float_rest tail = tail.takeWhile isdigit ++ e :: l2.takeWhile isdigit := by
          simp only [float_rest, h1, List.head?_cons, Option.some.injEq, hexp', if_true,
            List.tail_cons, hsg', Bool.false_eq_true, if_false, List.length_nil, List.drop_zero,
            List.take_succ_cons, List.take_zero, List.append_nil, List.append_assoc,
            List.singleton_append]
        have hnsg : (decide ((l2.takeWhile isdigit).head? = some 43)
            || decide ((l2.takeWhile isdigit).head? = some 45)) = false := by
          have a1 := head?_takeWhile_digits l2 43 (by decide)
          have a2 := head?_takeWhile_digits l2 45 (by decide)
          simp [a1, a2]
        rw [e']
        unfold float_after_point
        simp only [dropWhile_digits_append _ _ hd, List.dropWhile_cons, hne,
          Bool.false_eq_true, if_false, List.head?_cons, Option.some.injEq, hexp', if_true,
          List.tail_cons, hnsg, dropWhile_takeWhile_digits]
        rfl
    · have hexp' : (decide (e = 101) || decide (e = 69)) = false := by simpa using hexp
      have e' : float_rest tail = tail.takeWhile isdigit := by
        simp [float_rest, h1, hexp]
      rw [e']
      simp [float_after_point, dropWhile_takeWhile_digits]

theorem float_text_signed (c : Int) (ds tail : List Int) (hc : c = 43 ∨ c = 45)
    (hds : ∀ x ∈ ds, isdigit x = true) :
    float_text (c :: ds ++ 46 :: float_rest tail) = true := by
  have hs : (decide ((c :: ds ++ 46 :: float_rest tail).head? = some 43)
      || decide ((c :: ds ++ 46 :: float_rest tail).head? = some 45)) = true := by
    rcases hc with rfl | rfl <;> rfl
  unfold float_text
  rw [if_pos hs]
  unfold float_after_sign
  simp only [List.cons_append, List.tail_cons, dropWhile_digits_append _ _ hds]
  have h46 : isdigit 46 = false := by decide
  simp only [List.dropWhile_cons, h46, Bool.false_eq_true, if_false, List.head?_cons, if_true,
    List.tail_cons]
  exact float_after_point_float_rest tail

theorem classify_signed_float (P : Platform) (b : agent) (c : Int) (ds fr : List Int)
    (hs : b.lexeme.string = c :: ds ++ 46 :: fr) (hc : c = 43 ∨ c = 45)
    (hds : ∀ x ∈ ds, isdigit x = true) (h0 : (0 : Int) ∉ fr)
    (hft : float_text (c :: ds ++ 46 :: fr) = true) :
    (determine_type_of_constituent_string P b).1.lexeme.type = FLOAT_CONSTANT_LEXEME := by
  have hcc : constituent_char c = true := by rcases hc with rfl | rfl <;> decide
  have hall : ∀ x ∈ c :: ds, constituent_char x = true := by
    intro x hx
    rcases List.mem_cons.mp hx with rfl | hx
    · exact hcc
    · exact isdigit_constituent_char x (hds x hx)
  have hz : (0 : Int) ∉ c :: ds ++ 46 :: fr := by
    intro h
    rcases List.mem_append.mp h with h | h
    · exact not_mem_zero_of_constituent _ hall h
    · rcases List.mem_cons.mp h with h | h
      · cases h
      · exact h0 h
  have hac : all_constituent (c :: ds ++ 46 :: fr) = false :=
    all_constituent_append_period (c :: ds) fr hall
  have hv : (determine_possible_symbol_types_for_string P (c :: ds ++ 46 :: fr)
      (c :: ds ++ 46 :: fr).length).possible_var = false := by
    rw [possible_var_eq, hac]
    rfl
  have hi : (determine_possible_symbol_types_for_string P (c :: ds ++ 46 :: fr)
      (c :: ds ++ 46 :: fr).length).possible_ic = false := by
    rw [possible_ic_eq, possible_number_integer_text _ hz]
    have h46 : isdigit 46 = false := by decide
    rcases hc with rfl | rfl <;> simp [integer_text, h46]
  have hf : (determine_possible_symbol_types_for_string P (c :: ds ++ 46 :: fr)
      (c :: ds ++ 46 :: fr).length).possible_fc = true := by
    rw [possible_fc_eq, possible_number_float_text _ hz, hft]
  rw [determine_type_type]
  simp only [lexeme_info.length, hs, hv, hi, hf, Bool.false_eq_true, if_false, if_true]

theorem special_kind_signed_float (c : Int) (ds fr : List Int) (hc : c = 43 ∨ c = 45)
    (hds : ∀ x ∈ ds, isdigit x = true) :
    special_kind (lexer_routines c) (c :: ds ++ 46 :: fr) = none := by
  rw [List.cons_append, special_kind_sign c _ hc]
  unfold sign_operator_kind
  have h1 : c :: (ds ++ 46 :: fr) ≠ [43] := by
    cases ds <;> simp
  have h2 : c :: (ds ++ 46 :: fr) ≠ [45] := by
    cases ds <;> simp
  have h3 : c :: (ds ++ 46 :: fr) ≠ [45, 45, 62] := by
    cases ds with
    | nil => simp
    | cons d ds =>
      have hd := hds d (List.mem_cons_self d ds)
      intro h
      simp only [List.cons_append, List.cons.injEq] at h
      rw [h.2.1] at hd
      revert hd
      decide
  rw [if_neg h1, if_neg h2, if_neg h3]

theorem get_lexeme_signed_float (P : Platform) (a : agent) (c : Int) (ds tail : List Int)
    (hc : c = 43 ∨ c = 45) (hds : ∀ x ∈ ds, isdigit x = true)
    (hl : ∀ x ∈ tail, 0 < x ∧ x < 128) :
    ∃ rem, tail = float_rest tail ++ rem
      ∧ get_lexeme P (setLexerInput a (some (c :: ds ++ 46 :: tail)))
        = next_from (determine_type_of_constituent_string P
            (with_text (start_lexeme a) (c :: ds ++ 46 :: float_rest tail))).1 rem
      ∧ (determine_type_of_constituent_string P
            (with_text (start_lexeme a) (c :: ds ++ 46 :: float_rest tail))).1.lexeme.type
          = FLOAT_CONSTANT_LEXEME := by
  have hcc : constituent_char c = true := by
    rcases hc with rfl | rfl <;> decide
  have h64 : c ≠ 64 := by
    rcases hc with rfl | rfl <;> decide
  have hall : ∀ x ∈ c :: ds, constituent_char x = true := by
    intro x hx
    rcases List.mem_cons.mp hx with rfl | hx
    · exact hcc
    · exact isdigit_constituent_char x (hds x hx)
  have hr : lexer_routines c ∈ constituent_routines := by
    rcases hc with rfl | rfl <;> decide
  obtain ⟨rem, hrem, hrest⟩ := read_rest_of_floating_point_number_run
    (with_text (start_lexeme a) (c :: ds)) tail hl
  have h0 : (0 : Int) ∉ float_rest tail := by
    intro h
    have := hl 0 (by rw [hrem]; exact List.mem_append_left _ h)
    omega
  refine ⟨rem, hrem, ?_, classify_signed_float P _ c ds _ rfl hc hds h0
    (float_text_signed c ds tail hc hds)⟩
  have hread : read_phase (lexer_routines c)
      (next_from (start_lexeme a) (c :: ds ++ 46 :: tail))
      = next_from (with_text (start_lexeme a) (c :: ds ++ 46 :: float_rest tail)) rem := by
    have e : read_phase (lexer_routines c) (next_from (start_lexeme a) (c :: ds ++ 46 :: tail))
        = read_possible_number (next_from (start_lexeme a) (c :: ds ++ 46 :: tail)) := by
      rcases hc with rfl | rfl <;> rfl
    have e2 : read_constituent_string (next_from (start_lexeme a) (c :: ds ++ 46 :: tail))
        = next_from (with_text (start_lexeme a) (c :: ds)) (46 :: tail) := by
      rw [read_constituent_string_run (c :: ds) (start_lexeme a) (46 :: tail) hall rfl]
      rfl
    have e3 : could_be_floating_point (c :: ds) = true := by
      simp only [could_be_floating_point, List.drop_succ_cons, List.drop_zero]
      exact List.all_eq_true.mpr hds
    have e4 : (next_from (with_text (start_lexeme a) (c :: ds)) (46 :: tail)).current_char = 46 :=
      next_from_current_char _ 46 tail (by decide) (by decide)
    have e5 : (next_from (with_text (start_lexeme a) (c :: ds)) (46 :: tail)).lexeme.string
        = c :: ds := by
      rw [next_from_lexeme]
      rfl
    rw [e]
    unfold read_possible_number
    simp only [e2, e4, e5, e3, decide_True, Bool.and_self, if_true]
    rw [hrest]
    rfl
  have hlex : (next_from (with_text (start_lexeme a) (c :: ds ++ 46 :: float_rest tail))
      rem).lexeme.string = c :: ds ++ 46 :: float_rest tail := by
    rw [next_from_lexeme]
    rfl
  rw [get_lexeme_attach, List.cons_append, get_lexeme_at_constituent P a c _ hcc h64,
    call_routine_constituent P _ _ hr, ← List.cons_append, hread, hlex,
    special_kind_signed_float c ds _ hc hds]
  exact determine_type_next_from P _ _

/-- Claim C30, the divergence: on every platform and from every lexer state, `get_lexeme`
reads the text `+.` and the text `-.`, at the end of the input or before a byte that is
not a digit, as a `FLOAT_CONSTANT_LEXEME` whose text is the sign and the `.`, without any
digit. -/
theorem sign_point_is_float (P : Platform) (a : agent) :
    (get_lexeme P (setLexerInput a (some [43, 46]))).lexeme.type = FLOAT_CONSTANT_LEXEME
      ∧ (get_lexeme P (setLexerInput a (some [43, 46]))).lexeme.string = [43, 46]
      ∧ (get_lexeme P (setLexerInput a (some [45, 46]))).lexeme.type = FLOAT_CONSTANT_LEXEME
      ∧ (get_lexeme P (setLexerInput a (some [45, 46]))).lexeme.string = [45, 46]
      ∧ (get_lexeme P (setLexerInput a (some [43, 46, 41]))).lexeme.type
          = FLOAT_CONSTANT_LEXEME
      ∧ (get_lexeme P (setLexerInput a (some [43, 46, 41]))).lexeme.string = [43, 46] := by
  obtain ⟨r1, -, g1, t1⟩ := get_lexeme_signed_float P a 43 [] [] (Or.inl rfl)
    (fun x hx => absurd hx (List.not_mem_nil x)) (fun x hx => absurd hx (List.not_mem_nil x))
  obtain ⟨r2, -, g2, t2⟩ := get_lexeme_signed_float P a 45 [] [] (Or.inr rfl)
    (fun x hx => absurd hx (List.not_mem_nil x)) (fun x hx => absurd hx (List.not_mem_nil x))
  obtain ⟨r3, -, g3, t3⟩ := get_lexeme_signed_float P a 43 [] [41] (Or.inl rfl)
    (fun x hx => absurd hx (List.not_mem_nil x)) (by decide)
  have g1' : get_lexeme P (setLexerInput a (some [43, 46]))
      = next_from (determine_type_of_constituent_string P
          (with_text (start_lexeme a) [43, 46])).1 r1 := g1
  have t1' : (determine_type_of_constituent_string P
      (with_text (start_lexeme a) [43, 46])).1.lexeme.type = FLOAT_CONSTANT_LEXEME := t1
  have g2' : get_lexeme P (setLexerInput a (some [45, 46]))
      = next_from (determine_type_of_constituent_string P
          (with_text (start_lexeme a) [45, 46])).1 r2 := g2
  have t2' : (determine_type_of_constituent_string P
      (with_text (start_lexeme a) [45, 46])).1.lexeme.type = FLOAT_CONSTANT_LEXEME := t2
  have g3' : get_lexeme P (setLexerInput a (some [43, 46, 41]))
      = next_from (determine_type_of_constituent_string P
          (with_text (start_lexeme a) [43, 46])).1 r3 := g3
  have t3' : (determine_type_of_constituent_string P
      (with_text (start_lexeme a) [43, 46])).1.lexeme.type = FLOAT_CONSTANT_LEXEME := t3
  rw [g1', g2', g3']
  simp only [next_from_lexeme]
  exact ⟨t1', by rw [determine_type_string]; rfl, t2', by rw [determine_type_string]; rfl,
    t3', by rw [determine_type_string]; rfl⟩

/-! ## Quoted literals that are closed -/

theorem lex_literal_step_close (P : Platform) (delim : Int) (err : agent → agent)
    (a : agent) (l : List Int) (hd0 : 0 < delim) (hd1 : delim < 128) (hd92 : delim ≠ 92)
    (hlen : a.lexeme.string.length < P.MAX_LEXEME_LENGTH) :
    lex_literal_step P delim err (next_from a (delim :: l))
      = loop_step.done (finish (get_next_char (next_from a (delim :: l)))) := by
  have hcur := next_from_current_char a delim l hd0 hd1
  have hE : delim ≠ EOF := by simp [EOF]; omega
  have hmax : (next_from a (delim :: l)).lexeme.length ≠ P.MAX_LEXEME_LENGTH := by
    rw [next_from_lexeme, lexeme_info.length]
    omega
  simp only [lex_literal_step, hcur]
  rw [if_neg (by simp [hmax, hE]), if_neg hd92, if_pos trivial]

theorem lex_literal_step_escape (P : Platform) (delim : Int) (err : agent → agent)
    (a : agent) (l : List Int) (hlen : a.lexeme.string.length < P.MAX_LEXEME_LENGTH) :
    lex_literal_step P delim err (next_from a (92 :: l))
      = loop_step.next (get_next_char (store (get_next_char (next_from a (92 :: l))))) := by
  have hcur := next_from_current_char a 92 l (by decide) (by decide)
  have hmax : (next_from a (92 :: l)).lexeme.length ≠ P.MAX_LEXEME_LENGTH := by
    rw [next_from_lexeme, lexeme_info.length]
    omega
  simp only [lex_literal_step, hcur]
  rw [if_neg (by simp [hmax, EOF]), if_pos trivial]

theorem lex_literal_step_plain (P : Platform) (delim : Int) (err : agent → agent)
    (a : agent) (c : Int) (l : List Int) (h0 : 0 < c) (h1 : c < 128) (h92 : c ≠ 92)
    (hd : c ≠ delim) (hlen : a.lexeme.string.length < P.MAX_LEXEME_LENGTH) :
    lex_literal_step P delim err (next_from a (c :: l))
      = loop_step.next (get_next_char (store (next_from a (c :: l)))) := by
  have hcur := next_from_current_char a c l h0 h1
  have hE : c ≠ EOF := by simp [EOF]; omega
  have hmax : (next_from a (c :: l)).lexeme.length ≠ P.MAX_LEXEME_LENGTH := by
    rw [next_from_lexeme, lexeme_info.length]
    omega
  simp only [lex_literal_step, hcur]
  rw [if_neg (by simp [hmax, hE]), if_neg h92, if_neg hd]

theorem lex_literal_closed (P : Platform) (delim : Int) (err : agent → agent)
    (hd0 : 0 < delim) (hd1 : delim < 128) (hd92 : delim ≠ 92) (rest : List Int) :
    ∀ (w : List Int) (a : agent), (∀ c ∈ w, 0 < c ∧ c < 128) →
      a.lexeme.string.length + w.length < P.MAX_LEXEME_LENGTH →
      run (lex_literal_step P delim err) pending (next_from a (esc delim w ++ delim :: rest))
        = next_from (with_text a (a.lexeme.string ++ w)) rest := by
  have hdec := lex_literal_step_dec P delim err
  intro w
  induction w with
  | nil =>
    intro a _ hlen
    have hl : a.lexeme.string.length < P.MAX_LEXEME_LENGTH := by
      simp only [List.length_nil] at hlen
      omega
    show run _ pending (next_from a (delim :: rest)) = _
    rw [run_done _ _ _ _ (lex_literal_step_close P delim err a rest hd0 hd1 hd92 hl), finish,
      get_next_char_next_from a delim rest hd0 hd1, List.append_nil, with_text_string]
  | cons c w ih =>
    intro a hw hlen
    have hc := hw c (List.mem_cons_self c w)
    have hw' : ∀ x ∈ w, 0 < x ∧ x < 128 := fun x hx => hw x (List.mem_cons_of_mem c hx)
    have hl : a.lexeme.string.length < P.MAX_LEXEME_LENGTH := by
      simp only [List.length_cons] at hlen
      omega
    have hlen' : (with_text a (a.lexeme.string ++ [c])).lexeme.string.length + w.length
        < P.MAX_LEXEME_LENGTH := by
      simp only [with_text, List.length_append, List.length_cons, List.length_nil] at hlen ⊢
      omega
    have hres : with_text (with_text a (a.lexeme.string ++ [c]))
        ((with_text a (a.lexeme.string ++ [c])).lexeme.string ++ w)
        = with_text a (a.lexeme.string ++ c :: w) := by
      simp [with_text]
    by_cases hesc : c = 92 ∨ c = delim
    · have he : esc delim (c :: w) ++ delim :: rest
          = 92 :: c :: (esc delim w ++ delim :: rest) := by
        simp [esc, hesc]
      rw [he, run_next _ _ hdec _ _ (lex_literal_step_escape P delim err a _ hl),
        get_next_char_next_from a 92 _ (by decide) (by decide), ← store_and_advance,
        store_and_advance_next_from a c _ hc.1 hc.2, ih _ hw' hlen', hres]
    · have hne : c ≠ 92 ∧ c ≠ delim :=
        ⟨fun h => hesc (Or.inl h), fun h => hesc (Or.inr h)⟩
      have he : esc delim (c :: w) ++ delim :: rest
          = c :: (esc delim w ++ delim :: rest) := by
        simp [esc, hne.1, hne.2]
      rw [he, run_next _ _ hdec _ _
          (lex_literal_step_plain P delim err a c _ hc.1 hc.2 hne.1 hne.2 hl),
        ← store_and_advance, store_and_advance_next_from a c _ hc.1 hc.2, ih _ hw' hlen',
        hres]

/-- Claim C23: for every string `w` of non-NUL ASCII bytes that is shorter than
`MAX_LEXEME_LENGTH`, `get_lexeme` reads the text `|`, `esc w`, `|` as a
`STR_CONSTANT_LEXEME` whose text is `w`, and the text `"`, `esc w`, `"` as a
`QUOTED_STRING_LEXEME` whose text is `w`, where `esc w` is `w` with a backslash before
every backslash and every delimiter; the kind does not depend on `w`, which is not
classified; and the lexer is left at the first byte after the closing delimiter. -/
theorem quoted_literal_round_trip (P : Platform) (a : agent) (w rest : List Int)
    (hw : ∀ c ∈ w, 0 < c ∧ c < 128) (hlen : w.length < P.MAX_LEXEME_LENGTH) :
    (get_lexeme P (setLexerInput a (some (124 :: esc 124 w ++ 124 :: rest)))
        = next_from (with_text (set_type (start_lexeme a) STR_CONSTANT_LEXEME) w) rest
      ∧ (get_lexeme P (setLexerInput a
          (some (124 :: esc 124 w ++ 124 :: rest)))).lexeme.type = STR_CONSTANT_LEXEME
      ∧ (get_lexeme P (setLexerInput a
          (some (124 :: esc 124 w ++ 124 :: rest)))).lexeme.string = w)
    ∧ (get_lexeme P (setLexerInput a (some (34 :: esc 34 w ++ 34 :: rest)))
        = next_from (with_text (set_type (start_lexeme a) QUOTED_STRING_LEXEME) w) rest
      ∧ (get_lexeme P (setLexerInput a
          (some (34 :: esc 34 w ++ 34 :: rest)))).lexeme.type = QUOTED_STRING_LEXEME
      ∧ (get_lexeme P (setLexerInput a
          (some (34 :: esc 34 w ++ 34 :: rest)))).lexeme.string = w) := by
  have h1 : get_lexeme P (setLexerInput a (some (124 :: esc 124 w ++ 124 :: rest)))
      = next_from (with_text (set_type (start_lexeme a) STR_CONSTANT_LEXEME) w) rest := by
    rw [get_lexeme_attach, List.cons_append,
      get_lexeme_at P _ 124 _ (by decide) (by decide) (by decide) (by decide) (by decide)
        (by decide)]
    have hr : lexer_routines 124 = lex_routine.lex_vbar := by decide
    rw [hr]
    simp only [call_routine, lex_vbar]
    rw [set_type_next_from, get_next_char_next_from _ 124 _ (by decide) (by decide),
      lex_literal_closed P 124 _ (by decide) (by decide) (by decide) rest w _ hw
        (by simpa [set_type, start_lexeme] using hlen)]
    rfl
  have h2 : get_lexeme P (setLexerInput a (some (34 :: esc 34 w ++ 34 :: rest)))
      = next_from (with_text (set_type (start_lexeme a) QUOTED_STRING_LEXEME) w) rest := by
    rw [get_lexeme_attach, List.cons_append,
      get_lexeme_at P _ 34 _ (by decide) (by decide) (by decide) (by decide) (by decide)
        (by decide)]
    have hr : lexer_routines 34 = lex_routine.lex_quote := by decide
    rw [hr]
    simp only [call_routine, lex_quote]
    rw [set_type_next_from, get_next_char_next_from _ 34 _ (by decide) (by decide),
      lex_literal_closed P 34 _ (by decide) (by decide) (by decide) rest w _ hw
        (by simpa [set_type, start_lexeme] using hlen)]
    rfl
  refine ⟨⟨h1, ?_, ?_⟩, h2, ?_, ?_⟩
  · rw [h1, next_from_lexeme]; rfl
  · rw [h1, next_from_lexeme]; rfl
  · rw [h2, next_from_lexeme]; rfl
  · rw [h2, next_from_lexeme]; rfl

theorem quoted_literal_round_trip_witness :
    (get_lexeme lp64 (setLexerInput agent0
        (some (124 :: esc 124 [49, 50, 51] ++ 124 :: [32, 120])))).lexeme.type
        = STR_CONSTANT_LEXEME
      ∧ (get_lexeme lp64 (setLexerInput agent0
        (some (124 :: esc 124 [60, 120, 62] ++ 124 :: [])))).lexeme.type
        = STR_CONSTANT_LEXEME
      ∧ (get_lexeme lp64 (setLexerInput agent0
        (some (34 :: esc 34 [97, 34, 92, 124] ++ 34 :: [41])))).lexeme.string
        = [97, 34, 92, 124]
      ∧ esc 34 [97, 34, 92, 124] = [97, 92, 34, 92, 92, 124] :=
  ⟨(quoted_literal_round_trip lp64 agent0 [49, 50, 51] [32, 120] (by decide)
      (by decide)).1.2.1,
    (quoted_literal_round_trip lp64 agent0 [60, 120, 62] [] (by decide) (by decide)).1.2.1,
    (quoted_literal_round_trip lp64 agent0 [97, 34, 92, 124] [41] (by decide)
      (by decide)).2.2.2,
    by decide⟩

/-! ## Whitespace, terminators and comments before a lexeme -/

theorem get_next_char_next_from_byte (a : agent) (c : Int) (l : List Int) (h0 : 0 < c)
    (h1 : c < 255) : get_next_char (next_from a (c :: l)) = next_from a l := by
  have hz : to_char c ≠ 0 := by unfold to_char; omega
  have he : to_char c ≠ -1 := by unfold to_char; omega
  simp [next_from, get_next_char, setLexerInput, EOF, hz, he]

theorem next_from_current_char_byte (a : agent) (c : Int) (l : List Int) (h0 : 0 < c)
    (h1 : c < 255) : (next_from a (c :: l)).current_char = to_char c := by
  have hz : to_char c ≠ 0 := by unfold to_char; omega
  rw [next_from_first_char, first_char, if_neg hz]

theorem skip_comment_byte (a : agent) (c : Int) (l : List Int)
    (hc : comment_byte c = true) :
    skip_comment (next_from a (c :: l)) = skip_comment (next_from a l) := by
  simp only [comment_byte, Bool.and_eq_true, decide_eq_true_eq] at hc
  have hcur := next_from_current_char_byte a c l hc.1.1 hc.1.2
  have h10 : to_char c ≠ 10 := by unfold to_char; omega
  have he : to_char c ≠ EOF := by unfold to_char EOF; omega
  have hstep : skip_comment_step (next_from a (c :: l))
      = loop_step.next (get_next_char (next_from a (c :: l))) := by
    simp [skip_comment_step, hcur, h10, he]
  unfold skip_comment
  rw [run_next _ _ skip_comment_step_dec _ _ hstep,
    get_next_char_next_from_byte a c l hc.1.1 hc.1.2]

theorem skip_comment_newline (a : agent) (l : List Int) :
    skip_comment (next_from a (10 :: l)) = next_from a l := by
  have hcur := next_from_current_char a 10 l (by decide) (by decide)
  have hstep : skip_comment_step (next_from a (10 :: l))
      = loop_step.done (next_from a (10 :: l)) := by
    simp [skip_comment_step, hcur]
  unfold skip_comment
  rw [run_done _ _ _ _ hstep]
  simp only [hcur]
  rw [if_pos (by decide), get_next_char_next_from a 10 l (by decide) (by decide)]

theorem skip_comment_at_end (a : agent) :
    skip_comment (next_from a []) = next_from a [] := by
  have hcur := next_from_nil_current_char a
  have hstep : skip_comment_step (next_from a []) = loop_step.done (next_from a []) := by
    simp [skip_comment_step, hcur]
  unfold skip_comment
  rw [run_done _ _ _ _ hstep]
  simp only [hcur]
  rw [if_neg (by simp)]

theorem skip_comment_unclosed (a : agent) :
    ∀ body : List Int, (∀ c ∈ body, comment_byte c = true) →
      skip_comment (next_from a body) = next_from a [] := by
  intro body
  induction body with
  | nil => intro _; exact skip_comment_at_end a
  | cons c l ih =>
    intro h
    rw [skip_comment_byte a c l (h c (List.mem_cons_self c l))]
    exact ih (fun x hx => h x (List.mem_cons_of_mem c hx))

theorem consume_whitespace_and_comments_blank (a : agent) (c : Int) (l : List Int)
    (hc : c = 59 ∨ whitespace c = true) :
    consume_whitespace_and_comments (next_from a (c :: l))
      = consume_whitespace_and_comments (next_from a l) := by
  have hr : 0 < c ∧ c < 128 := by
    rcases hc with hc | hc
    · subst hc; decide
    · simp only [whitespace, isspace, Bool.or_eq_true, Bool.and_eq_true,
        decide_eq_true_eq] at hc
      omega
  have hcur := next_from_current_char a c l hr.1 hr.2
  have he : c ≠ EOF := by unfold EOF; omega
  have hstep : consume_whitespace_and_comments_step (next_from a (c :: l))
      = loop_step.next (get_next_char (next_from a (c :: l))) := by
    simp only [consume_whitespace_and_comments_step, hcur, uchar_ascii c (le_of_lt hr.1) hr.2]
    rw [if_neg he]
    rcases hc with hc | hc
    · by_cases hw : whitespace c = true
      · rw [if_pos hw]
      · rw [if_neg hw, if_pos hc]
    · rw [if_pos hc]
  unfold consume_whitespace_and_comments
  rw [run_next _ _ consume_whitespace_and_comments_step_dec _ _ hstep,
    get_next_char_next_from a c l hr.1 hr.2]

theorem consume_whitespace_and_comments_sharp (a : agent) (l : List Int) :
    consume_whitespace_and_comments (next_from a (35 :: l))
      = consume_whitespace_and_comments (skip_comment (next_from a l)) := by
  have hcur := next_from_current_char a 35 l (by decide) (by decide)
  have hstep : consume_whitespace_and_comments_step (next_from a (35 :: l))
      = loop_step.next (skip_comment (next_from a (35 :: l))) := by
    simp only [consume_whitespace_and_comments_step, hcur]
    rw [if_neg (by decide), if_neg (by decide), if_neg (by decide), if_pos trivial]
  unfold consume_whitespace_and_comments
  rw [run_next _ _ consume_whitespace_and_comments_step_dec _ _ hstep,
    skip_comment_byte a 35 l (by decide)]

theorem consume_whitespace_and_comments_blank_text (rest : List Int) :
    ∀ (p : List Int) (a : agent),
      (blank_text false p = true →
        consume_whitespace_and_comments (next_from a (p ++ rest))
          = consume_whitespace_and_comments (next_from a rest))
      ∧ (blank_text true p = true →
        consume_whitespace_and_comments (skip_comment (next_from a (p ++ rest)))
          = consume_whitespace_and_comments (next_from a rest)) := by
  intro p
  induction p with
  | nil =>
    intro a
    constructor
    · intro _; rfl
    · intro h; simp [blank_text] at h
  | cons c p ih =>
    intro a
    constructor
    · intro h
      by_cases h35 : c = 35
      · subst h35
        have hp : blank_text true p = true := by simpa [blank_text] using h
        rw [List.cons_append, consume_whitespace_and_comments_sharp]
        exact (ih a).2 hp
      · simp only [blank_text, if_neg h35, Bool.and_eq_true, Bool.or_eq_true,
          decide_eq_true_eq] at h
        rw [List.cons_append, consume_whitespace_and_comments_blank a c _ h.1]
        exact (ih a).1 h.2
    · intro h
      by_cases h10 : c = 10
      · subst h10
        have hp : blank_text false p = true := by simpa [blank_text] using h
        rw [List.cons_append, skip_comment_newline]
        exact (ih a).1 hp
      · simp only [blank_text, if_neg h10, Bool.and_eq_true] at h
        rw [List.cons_append, skip_comment_byte a c _ h.1]
        exact (ih a).2 h.2

/-- Blank text before a lexeme, for comments without the byte 255: when `p` is made only
of whitespace bytes, `;` bytes and complete line comments (a `#`, bytes other than NUL,
newline and 255, and the newline), `get_lexeme` on the text `p` followed by `rest` leaves
the agent in the same state as `get_lexeme` on `rest`; and when such a `p` is followed by
a `#` and such bytes up to the end of the text, `get_lexeme` reads the whole input and
yields `EOF_LEXEME`. -/
theorem leading_blank_text_skipped (P : Platform) (a : agent) (p rest body : List Int)
    (hp : blank_text false p = true) (hb : ∀ c ∈ body, comment_byte c = true) :
    get_lexeme P (setLexerInput a (some (p ++ rest)))
        = get_lexeme P (setLexerInput a (some rest))
      ∧ (get_lexeme P (setLexerInput a (some (p ++ 35 :: body)))).lexeme.type = EOF_LEXEME
      ∧ (get_lexeme P (setLexerInput a (some (p ++ 35 :: body)))).current_char = EOF
      ∧ (get_lexeme P (setLexerInput a (some (p ++ 35 :: body)))).lexer_input_string
          = none := by
  have h1 : ∀ r, get_lexeme P (setLexerInput a (some (p ++ r)))
      = get_lexeme P (setLexerInput a (some r)) := by
    intro r
    apply run_congr_step _ _ (get_lexeme_step_dec P)
    rw [get_lexeme_step_attach, get_lexeme_step_attach,
      (consume_whitespace_and_comments_blank_text r p (start_lexeme a)).1 hp]
  have h2 : get_lexeme P (setLexerInput a (some (35 :: body)))
      = get_lexeme P (setLexerInput a (some [])) := by
    apply run_congr_step _ _ (get_lexeme_step_dec P)
    rw [get_lexeme_step_attach, get_lexeme_step_attach,
      consume_whitespace_and_comments_sharp, skip_comment_unclosed _ body hb]
  have h3 : get_lexeme P (setLexerInput a (some (p ++ 35 :: body)))
      = next_from (set_type (with_text (start_lexeme a) [to_char EOF]) EOF_LEXEME) [] := by
    rw [h1, h2, get_lexeme_attach, get_lexeme_eof]
  refine ⟨h1 rest, ?_, ?_, ?_⟩
  · rw [h3, next_from_lexeme]; rfl
  · rw [h3, next_from_nil]
  · rw [h3, next_from_nil]

/-! ## Finding the variables of a right-hand-side value -/

mutual
theorem add_all_variables_in_rhs_value_eq {σ : Type} (M : Marker σ) (tc : Nat) :
    ∀ (v : rhs_value) (s : σ), v.symbolic = true →
      add_all_variables_in_rhs_value M s tc v
        = some ((v.variables M).foldl (fun st x => M.mark_variable_if_unmarked st x tc) s)
  | rhs_value.reteloc _ _, s, h => by simp [rhs_value.symbolic] at h
  | rhs_value.unboundvar _, s, h => by simp [rhs_value.symbolic] at h
  | rhs_value.funcall f rest, s, h => by
    have ih := add_all_variables_in_rhs_value_list_eq M tc rest s
      (by simpa [rhs_value.symbolic] using h)
    simp [add_all_variables_in_rhs_value, ih, rhs_value.variables]
  | rhs_value.symbol none, s, h => by simp [rhs_value.symbolic] at h
  | rhs_value.symbol (some ⟨none, o⟩), s, h => by simp [rhs_value.symbolic] at h
  | rhs_value.symbol (some ⟨some sym, o⟩), s, _ => by
    by_cases hk : M.symbol_type sym = M.VARIABLE_SYMBOL_TYPE
    · simp [add_all_variables_in_rhs_value, rhs_value.variables, hk]
    · simp [add_all_variables_in_rhs_value, rhs_value.variables, hk]
theorem add_all_variables_in_rhs_value_list_eq {σ : Type} (M : Marker σ) (tc : Nat) :
    ∀ (l : cons) (s : σ), l.symbolic = true →
      add_all_variables_in_rhs_value_list M s tc l
        = some ((l.variables M).foldl (fun st x => M.mark_variable_if_unmarked st x tc) s)
  | cons.nil, s, _ => by simp [add_all_variables_in_rhs_value_list, cons.variables]
  | cons.cell first rest, s, h => by
    have h' : first.symbolic = true ∧ rest.symbolic = true := by
      simpa [cons.symbolic] using h
    have ih1 := add_all_variables_in_rhs_value_eq M tc first s h'.1
    have ih2 := add_all_variables_in_rhs_value_list_eq M tc rest
      ((first.variables M).foldl (fun st x => M.mark_variable_if_unmarked st x tc) s) h'.2
    simp [add_all_variables_in_rhs_value_list, ih1, ih2, cons.variables, List.foldl_append]
end

theorem mark_variable_if_unmarked_tc_num (m : marks) (v x : Symbol) (tc : Nat) :
    (mark_variable_if_unmarked m v tc).tc_num x ≠ tc ↔ x ≠ v ∧ m.tc_num x ≠ tc := by
  unfold mark_variable_if_unmarked
  by_cases hm : m.tc_num v = tc
  · rw [if_neg (not_not.mpr hm)]
    constructor
    · intro h
      exact ⟨fun hx => h (hx ▸ hm), h⟩
    · intro h; exact h.2
  · rw [if_pos hm]
    by_cases hx : x = v
    · subst hx; simp
    · simp [Function.update_noteq hx, hx]

theorem foldl_mark_variable_if_unmarked (tc : Nat) :
    ∀ (l : List Symbol) (m : marks),
      ∃ added : List Symbol,
        (l.foldl (fun st x => mark_variable_if_unmarked st x tc) m).var_list
            = added ++ m.var_list
          ∧ added.Nodup ∧ ∀ x, x ∈ added ↔ x ∈ l ∧ m.tc_num x ≠ tc := by
  intro l
  induction l with
  | nil => intro m; exact ⟨[], rfl, List.nodup_nil, by simp⟩
  | cons v l ih =>
    intro m
    obtain ⟨added, h1, h2, h3⟩ := ih (mark_variable_if_unmarked m v tc)
    by_cases hm : m.tc_num v = tc
    · have he : mark_variable_if_unmarked m v tc = m := by
        unfold mark_variable_if_unmarked
        rw [if_neg (not_not.mpr hm)]
      rw [he] at h1 h3
      refine ⟨added, by rw [List.foldl_cons, he]; exact h1, h2, ?_⟩
      intro x
      rw [h3 x, List.mem_cons]
      constructor
      · intro h; exact ⟨Or.inr h.1, h.2⟩
      · intro h
        rcases h.1 with hx | hx
        · exact absurd (hx ▸ hm) h.2
        · exact ⟨hx, h.2⟩
    · have hl : (mark_variable_if_unmarked m v tc).var_list = v :: m.var_list := by
        unfold mark_variable_if_unmarked
        rw [if_pos hm]
      have hv : v ∉ added := by
        intro h
        have := ((h3 v).mp h).2
        rw [mark_variable_if_unmarked_tc_num] at this
        exact this.1 rfl
      refine ⟨added ++ [v], ?_, ?_, ?_⟩
      · rw [List.foldl_cons, h1, hl, List.append_assoc]; rfl
      · rw [List.nodup_append]
        refine ⟨h2, List.nodup_singleton v, ?_⟩
        intro x hx hx'
        rw [List.mem_singleton] at hx'
        exact hv (hx' ▸ hx)
      · intro x
        rw [List.mem_append, List.mem_singleton, h3 x, mark_variable_if_unmarked_tc_num,
          List.mem_cons]
        constructor
        · intro h
          rcases h with h | h
          · exact ⟨Or.inr h.1, h.2.2⟩
          · exact ⟨Or.inl h, h ▸ hm⟩
        · intro h
          by_cases hx : x = v
          · exact Or.inr hx
          · rcases h.1 with h' | h'
            · exact absurd h' hx
            · exact Or.inl ⟨h', hx, h.2⟩

/-- Claim C29: for every rhs value `v` built from symbol references and function calls,
`add_all_variables_in_rhs_value` returns, and the state it leaves is the one obtained by
applying `mark_variable_if_unmarked`, whatever that operation is, to the referents of
variable kind of the symbol references of `v`, in argument order and at any depth, and to
nothing else; and when `mark_variable_if_unmarked` adds a symbol to the list only if it is
not yet marked with the traversal number `tc`, the list afterwards is the list before
with some symbols `added` in front, in which every variable of `v` that was not marked
with `tc` occurs exactly once and no other symbol occurs. -/
theorem variable_collection {σ : Type} (M : Marker σ) (s : σ) (symbol_type : Symbol → Nat)
    (VARIABLE_SYMBOL_TYPE : Nat) (m : marks) (tc : Nat) (v : rhs_value)
    (hv : v.symbolic = true) :
    add_all_variables_in_rhs_value M s tc v
        = some ((v.variables M).foldl (fun st x => M.mark_variable_if_unmarked st x tc) s)
      ∧ ∃ added : List Symbol,
        (add_all_variables_in_rhs_value (list_marker symbol_type VARIABLE_SYMBOL_TYPE)
            m tc v).map marks.var_list = some (added ++ m.var_list)
          ∧ ∀ x, added.count x
              = if x ∈ v.variables (list_marker symbol_type VARIABLE_SYMBOL_TYPE)
                  ∧ m.tc_num x ≠ tc then 1 else 0 := by
  refine ⟨add_all_variables_in_rhs_value_eq M tc v s hv, ?_⟩
  obtain ⟨added, h1, h2, h3⟩ := foldl_mark_variable_if_unmarked tc
    (v.variables (list_marker symbol_type VARIABLE_SYMBOL_TYPE)) m
  refine ⟨added, ?_, ?_⟩
  · rw [add_all_variables_in_rhs_value_eq _ tc v m hv, Option.map_some']
    exact congrArg some h1
  · intro x
    by_cases hx : x ∈ v.variables (list_marker symbol_type VARIABLE_SYMBOL_TYPE)
        ∧ m.tc_num x ≠ tc
    · rw [if_pos hx]
      exact List.count_eq_one_of_mem h2 ((h3 x).mpr hx)
    · rw [if_neg hx]
      exact List.count_eq_zero_of_not_mem (fun h => hx ((h3 x).mp h))

theorem variable_collection_witness :
    (add_all_variables_in_rhs_value (list_marker (fun x => if x < 4 then 0 else 1) 0)
        marks_2 9 value_f_g).map marks.var_list = some [3, 1, 2]
      ∧ value_f_g.variables (list_marker (fun x => if x < 4 then 0 else 1) 0)
        = [1, 1, 2, 3] := by
  have h := (variable_collection (list_marker (fun x => if x < 4 then 0 else 1) 0) marks_2
    (fun x => if x < 4 then 0 else 1) 0 marks_2 9 value_f_g (by decide)).1
  constructor
  · rw [h]; rfl
  · decide

/-! ## Equality of make-actions made of plain symbol references -/

/-- Claim C33: for a make-action `a2` and an action `a1` whose attributes and values are
plain symbol references, `actions_are_equal_with_bindings` returns false and the bindings
as they were when the preference kinds differ; otherwise it calls
`symbols_are_equal_with_bindings` for the ids, then for the attributes, then for the
values, each call with the bindings left by the one before, stops at the first call that
fails and returns its bindings (`match_in_order`); so it returns true exactly when the
preference kinds are equal and the three calls succeed. -/
theorem plain_make_actions_equal (M : Matcher) (a1 a2 : action) (bindings : bindings_list)
    (ht : a2.type = action_type.MAKE_ACTION)
    (hattr : rhs_value_is_symbol a1.attr = true ∧ rhs_value_is_symbol a2.attr = true)
    (hvalue : rhs_value_is_symbol a1.value = true ∧ rhs_value_is_symbol a2.value = true) :
    actions_are_equal_with_bindings M a1 a2 bindings
        = (if a1.preference_type ≠ a2.preference_type then (false, bindings)
          else match_in_order M
            [(rhs_value_to_symbol a1.id, rhs_value_to_symbol a2.id),
             (rhs_value_to_symbol a1.attr, rhs_value_to_symbol a2.attr),
             (rhs_value_to_symbol a1.value, rhs_value_to_symbol a2.value)] bindings)
      ∧ ((actions_are_equal_with_bindings M a1 a2 bindings).1 = true ↔
          a1.preference_type = a2.preference_type
          ∧ (M.symbols_are_equal_with_bindings (rhs_value_to_symbol a1.id)
              (rhs_value_to_symbol a2.id) bindings).1 = true
          ∧ (M.symbols_are_equal_with_bindings (rhs_value_to_symbol a1.attr)
              (rhs_value_to_symbol a2.attr)
              (M.symbols_are_equal_with_bindings (rhs_value_to_symbol a1.id)
                (rhs_value_to_symbol a2.id) bindings).2).1 = true
          ∧ (M.symbols_are_equal_with_bindings (rhs_value_to_symbol a1.value)
              (rhs_value_to_symbol a2.value)
              (M.symbols_are_equal_with_bindings (rhs_value_to_symbol a1.attr)
                (rhs_value_to_symbol a2.attr)
                (M.symbols_are_equal_with_bindings (rhs_value_to_symbol a1.id)
                  (rhs_value_to_symbol a2.id) bindings).2).2).1 = true) := by
  have hk : a2.type ≠ action_type.FUNCALL_ACTION := by rw [ht]; decide
  constructor
  · unfold actions_are_equal_with_bindings
    simp only [match_in_order, hattr.1, hattr.2, hvalue.1, hvalue.2, Bool.and_self, if_true]
    rw [if_neg hk]
    split_ifs <;> simp_all
  · unfold actions_are_equal_with_bindings
    simp only [hattr.1, hattr.2, hvalue.1, hvalue.2, Bool.and_self, if_true]
    rw [if_neg hk]
    split_ifs <;> simp_all

theorem plain_make_actions_equal_witness :
    actions_are_equal_with_bindings recording_matcher make_action_1_2_3 make_action_1_2_3 []
        = (true, [(1, 1), (2, 2), (3, 3)])
      ∧ actions_are_equal_with_bindings recording_matcher make_action_1_2_3
          make_action_1_2_4 [] = (false, [(1, 1), (2, 2), (3, 4)])
      ∧ actions_are_equal_with_bindings recording_matcher make_action_1_2_3
          make_action_1_2_3_kind_1 [] = (false, []) := by
  refine ⟨?_, ?_, ?_⟩
  · rw [(plain_make_actions_equal recording_matcher make_action_1_2_3 make_action_1_2_3 []
      rfl ⟨rfl, rfl⟩ ⟨rfl, rfl⟩).1]
    decide
  · rw [(plain_make_actions_equal recording_matcher make_action_1_2_3 make_action_1_2_4 []
      rfl ⟨rfl, rfl⟩ ⟨rfl, rfl⟩).1]
    decide
  · rw [(plain_make_actions_equal recording_matcher make_action_1_2_3
      make_action_1_2_3_kind_1 [] rfl ⟨rfl, rfl⟩ ⟨rfl, rfl⟩).1]
    decide

/-- Claim C35: `actions_are_equal_with_bindings` does not read the slot `referent`: for
every matcher, all actions `a1` and `a2`, every value `r` and all bindings, the value
returned and the bindings left are the same when the referent of `a2`, or that of `a1`,
is replaced by `r`; so an action and its copy with another referent are found equal
whenever the action is found equal to itself, as are the make-actions `(1 ^2 3 5)` and
`(1 ^2 3 4)` of the same preference kind. -/
theorem referent_is_not_read (M : Matcher) (a1 a2 : action) (r : rhs_value)
    (bindings : bindings_list) :
    actions_are_equal_with_bindings M a1 { a2 with referent := r } bindings
        = actions_are_equal_with_bindings M a1 a2 bindings
      ∧ actions_are_equal_with_bindings M { a1 with referent := r } a2 bindings
        = actions_are_equal_with_bindings M a1 a2 bindings
      ∧ actions_are_equal_with_bindings M a1 { a1 with referent := r } bindings
        = actions_are_equal_with_bindings M a1 a1 bindings
      ∧ (actions_are_equal_with_bindings same_symbol_matcher make_action_1_2_3_5
          { make_action_1_2_3_5 with referent := symbol_reference 4 } []).1 = true :=
  ⟨rfl, rfl, rfl, by decide⟩

/-! ## After the end of the input -/

theorem lex_eof_at_EOF (a : agent) (h : a.current_char = EOF) :
    lex_eof a = { a with lexeme :=
      { a.lexeme with string := a.lexeme.string ++ [to_char EOF], type := EOF_LEXEME } } := by
  simp [lex_eof, lex_single, finish, store_and_advance, store, get_next_char, set_type, h]

theorem get_lexeme_at_EOF (P : Platform) (a : agent) (h : a.current_char = EOF) :
    get_lexeme P a = lex_eof (start_lexeme a) := by
  apply get_lexeme_done
  have hs : (start_lexeme a).current_char = EOF := h
  rw [get_lexeme_step, consume_whitespace_and_comments_EOF _ hs, dispatch,
    if_neg (not_not.mpr hs)]

theorem get_lexeme_detached (P : Platform) (a : agent)
    (h : a.lexer_input_string = none ∧ a.current_char = 32) :
    get_lexeme P a = lex_eof { start_lexeme a with current_char := EOF } := by
  apply get_lexeme_done
  have hc : (start_lexeme a).current_char = 32 := h.2
  have hn : get_next_char (start_lexeme a) = { start_lexeme a with current_char := EOF } := by
    have hi : (start_lexeme a).lexer_input_string = none := h.1
    simp [get_next_char, hc, hi, EOF]
  rw [get_lexeme_step,
    consume_whitespace_and_comments_next _ (by rw [hc]; decide) (by rw [hc]; decide), hn,
    consume_whitespace_and_comments_EOF _ rfl, dispatch, if_neg (not_not.mpr rfl)]

theorem get_lexeme_after_end (P : Platform) (a : agent)
    (h : a.current_char = EOF ∨ (a.lexer_input_string = none ∧ a.current_char = 32)) :
    (get_lexeme P a).lexeme.type = EOF_LEXEME
      ∧ (get_lexeme P a).lexeme.string = [to_char EOF]
      ∧ (get_lexeme P a).parentheses_level = a.parentheses_level
      ∧ (get_lexeme P a).allow_ids = a.allow_ids
      ∧ (get_lexeme P a).current_char = EOF := by
  rcases h with h | h
  · have hs : (start_lexeme a).current_char = EOF := h
    rw [get_lexeme_at_EOF P a h, lex_eof_at_EOF _ hs]
    exact ⟨rfl, rfl, rfl, rfl, h⟩
  · rw [get_lexeme_detached P a h, lex_eof_at_EOF _ rfl]
    exact ⟨rfl, rfl, rfl, rfl, rfl⟩

theorem DoSP_leaves_detached (P : Platform) (K : Kernel) (cli : CommandLineInterface)
    (productionString : List Int) :
    (DoSP P K cli productionString).1.agent.lexer_input_string = none
      ∧ (DoSP P K cli productionString).1.agent.current_char = 32 := by
  unfold DoSP
  simp only []
  split
  · split_ifs <;> exact ⟨rfl, rfl⟩
  · split_ifs <;> exact ⟨rfl, rfl⟩

/-- Claim C36: once the current character is `EOF`, or when no text is attached and the
current character is the blank that `setLexerInput` leaves, every later call of
`get_lexeme` (the call number `n + 1` for every `n`) returns with a lexeme of kind
`EOF_LEXEME` and of length 1, with the parenthesis depth and the flag `allow_ids` as they
were; this holds for the agent that `DoSP` leaves, whatever the parser and the text. -/
theorem end_of_input_is_absorbing (P : Platform) (a : agent) (n : Nat)
    (h : a.current_char = EOF ∨ (a.lexer_input_string = none ∧ a.current_char = 32)) :
    (((get_lexeme P)^[n + 1] a).lexeme.type = EOF_LEXEME
      ∧ ((get_lexeme P)^[n + 1] a).lexeme.length = 1
      ∧ current_lexer_parentheses_level ((get_lexeme P)^[n + 1] a)
          = current_lexer_parentheses_level a
      ∧ get_lexer_allow_ids ((get_lexeme P)^[n + 1] a) = get_lexer_allow_ids a
      ∧ ((get_lexeme P)^[n + 1] a).current_char = EOF)
    ∧ ∀ (K : Kernel) (cli : CommandLineInterface) (productionString : List Int),
        ((get_lexeme P)^[n + 1] (DoSP P K cli productionString).1.agent).lexeme.type
          = EOF_LEXEME := by
  have key : ∀ (b : agent),
      (b.current_char = EOF ∨ (b.lexer_input_string = none ∧ b.current_char = 32)) →
      ∀ m : Nat, ((get_lexeme P)^[m + 1] b).lexeme.type = EOF_LEXEME
        ∧ ((get_lexeme P)^[m + 1] b).lexeme.string = [to_char EOF]
        ∧ ((get_lexeme P)^[m + 1] b).parentheses_level = b.parentheses_level
        ∧ ((get_lexeme P)^[m + 1] b).allow_ids = b.allow_ids
        ∧ ((get_lexeme P)^[m + 1] b).current_char = EOF := by
    intro b hb m
    induction m with
    | zero => exact get_lexeme_after_end P b hb
    | succ m ih =>
      rw [Function.iterate_succ_apply']
      obtain ⟨_, _, i3, i4, i5⟩ := ih
      obtain ⟨g1, g2, g3, g4, g5⟩ := get_lexeme_after_end P _ (Or.inl i5)
      exact ⟨g1, g2, g3.trans i3, g4.trans i4, g5⟩
  obtain ⟨k1, k2, k3, k4, k5⟩ := key a h n
  refine ⟨⟨k1, ?_, k3, k4, k5⟩, ?_⟩
  · rw [lexeme_info.length, k2]; rfl
  · intro K cli productionString
    exact (key _ (Or.inr (DoSP_leaves_detached P K cli productionString)) n).1

theorem end_of_input_is_absorbing_witness :
    (get_lexeme lp64 (get_lexeme lp64 (get_lexeme lp64
        (get_lexeme lp64 (setLexerInput agent1 (some [40])))))).lexeme.type = EOF_LEXEME
      ∧ ((get_lexeme lp64)^[3] (setLexerInput agent1 none)).lexeme.length = 1
      ∧ ((get_lexeme lp64)^[3] (setLexerInput agent1 none)).parentheses_level = 1 :=
  ⟨(end_of_input_is_absorbing lp64 (get_lexeme lp64 (setLexerInput agent1 (some [40]))) 2
      (Or.inl (by decide))).1.1,
    (end_of_input_is_absorbing lp64 (setLexerInput agent1 none) 2
      (Or.inr ⟨rfl, rfl⟩)).1.2.1,
    (end_of_input_is_absorbing lp64 (setLexerInput agent1 none) 2
      (Or.inr ⟨rfl, rfl⟩)).1.2.2.1⟩

/-! ## The collectors of bound variables -/

mutual
theorem add_bound_variables_in_rhs_value_eq {σ : Type} (M : Marker σ) (tc : Nat) :
    ∀ (v : rhs_value) (s : σ),
      add_bound_variables_in_rhs_value M s tc v = add_all_variables_in_rhs_value M s tc v
  | rhs_value.reteloc _ _, s => by
    simp [add_bound_variables_in_rhs_value, add_all_variables_in_rhs_value]
  | rhs_value.unboundvar _, s => by
    simp [add_bound_variables_in_rhs_value, add_all_variables_in_rhs_value]
  | rhs_value.funcall f rest, s => by
    have ih := add_bound_variables_in_rhs_value_list_eq M tc rest s
    simp [add_bound_variables_in_rhs_value, add_all_variables_in_rhs_value, ih]
  | rhs_value.symbol none, s => by
    simp [add_bound_variables_in_rhs_value, add_all_variables_in_rhs_value]
  | rhs_value.symbol (some ⟨none, o⟩), s => by
    simp [add_bound_variables_in_rhs_value, add_all_variables_in_rhs_value]
  | rhs_value.symbol (some ⟨some sym, o⟩), s => by
    simp [add_bound_variables_in_rhs_value, add_all_variables_in_rhs_value]
theorem add_bound_variables_in_rhs_value_list_eq {σ : Type} (M : Marker σ) (tc : Nat) :
    ∀ (l : cons) (s : σ),
      add_bound_variables_in_rhs_value_list M s tc l
        = add_all_variables_in_rhs_value_list M s tc l
  | cons.nil, s => by
    simp [add_bound_variables_in_rhs_value_list, add_all_variables_in_rhs_value_list]
  | cons.cell first rest, s => by
    have ih1 := add_bound_variables_in_rhs_value_eq M tc first s
    have ih2 := fun s1 => add_bound_variables_in_rhs_value_list_eq M tc rest s1
    simp only [add_bound_variables_in_rhs_value_list, add_all_variables_in_rhs_value_list, ih1]
    cases add_all_variables_in_rhs_value M s tc first with
    | none => rfl
    | some s1 => exact ih2 s1
end

theorem add_bound_variables_in_action_eq {σ : Type} (M : Marker σ)
    (preference_is_binary : Nat → Bool) (s : σ) (tc : Nat) (a : action)
    (hid : a.type = action_type.MAKE_ACTION → plain_symbol_reference a.id = true) :
    add_bound_variables_in_action M preference_is_binary s tc a
      = add_all_variables_in_action M preference_is_binary s tc a := by
  unfold add_bound_variables_in_action add_all_variables_in_action
  simp only [add_bound_variables_in_rhs_value_eq]
  by_cases ht : a.type = action_type.MAKE_ACTION
  · rw [if_pos ht, if_pos ht]
    have h := hid ht
    cases hv : a.id with
    | reteloc f l => rw [hv] at h; cases h
    | unboundvar i => rw [hv] at h; cases h
    | funcall f rest => rw [hv] at h; cases h
    | symbol r =>
      rcases r with _ | ⟨_ | sym, o⟩
      · rw [hv] at h; cases h
      · rw [hv] at h; cases h
      · simp only [add_all_variables_in_rhs_value, rhs_value_to_symbol]
        split_ifs <;> rfl
  · rw [if_neg ht, if_neg ht]

theorem add_all_variables_in_action_some {σ : Type} (M : Marker σ)
    (preference_is_binary : Nat → Bool) (s : σ) (tc : Nat) (a : action)
    (h : a.symbolic preference_is_binary = true) :
    (add_all_variables_in_action M preference_is_binary s tc a).isSome = true := by
  unfold action.symbolic at h
  unfold add_all_variables_in_action
  by_cases ht : a.type = action_type.MAKE_ACTION
  · rw [if_pos ht] at h ⊢
    simp only [Bool.and_eq_true, Bool.or_eq_true, Bool.not_eq_true'] at h
    obtain ⟨⟨⟨h1, h2⟩, h3⟩, h4⟩ := h
    cases hv : a.id with
    | reteloc f l => rw [hv] at h1; cases h1
    | unboundvar i => rw [hv] at h1; cases h1
    | funcall f rest => rw [hv] at h1; cases h1
    | symbol r =>
      rcases r with _ | ⟨_ | sym, o⟩
      · rw [hv] at h1; cases h1
      · rw [hv] at h1; cases h1
      · simp only [rhs_value_to_symbol, add_all_variables_in_rhs_value_eq M tc _ _ h2,
          add_all_variables_in_rhs_value_eq M tc _ _ h3]
        rcases h4 with h4 | h4
        · rw [h4]; rfl
        · rw [add_all_variables_in_rhs_value_eq M tc _ _ h4]
          split_ifs <;> rfl
  · rw [if_neg ht] at h ⊢
    rw [add_all_variables_in_rhs_value_eq M tc _ _ h]
    rfl

theorem add_bound_variables_in_action_list_eq {σ : Type} (M : Marker σ)
    (preference_is_binary : Nat → Bool) (tc : Nat) :
    ∀ (actions : List action) (s : σ),
      (∀ a ∈ actions, a.type = action_type.MAKE_ACTION → plain_symbol_reference a.id = true) →
      add_bound_variables_in_action_list M preference_is_binary s tc actions
        = add_all_variables_in_action_list M preference_is_binary s tc actions := by
  intro actions
  induction actions with
  | nil => intro s _; rfl
  | cons a l ih =>
    intro s h
    simp only [add_bound_variables_in_action_list, add_all_variables_in_action_list,
      add_bound_variables_in_action_eq M preference_is_binary s tc a
        (h a (List.mem_cons_self a l))]
    cases add_all_variables_in_action M preference_is_binary s tc a with
    | none => rfl
    | some s1 => exact ih s1 (fun b hb => h b (List.mem_cons_of_mem a hb))

theorem add_all_variables_in_action_list_some {σ : Type} (M : Marker σ)
    (preference_is_binary : Nat → Bool) (tc : Nat) :
    ∀ (actions : List action) (s : σ),
      (∀ a ∈ actions, a.symbolic preference_is_binary = true) →
      (add_all_variables_in_action_list M preference_is_binary s tc actions).isSome = true := by
  intro actions
  induction actions with
  | nil => intro s _; rfl
  | cons a l ih =>
    intro s h
    have h1 := add_all_variables_in_action_some M preference_is_binary s tc a
      (h a (List.mem_cons_self a l))
    simp only [add_all_variables_in_action_list]
    cases hr : add_all_variables_in_action M preference_is_binary s tc a with
    | none => rw [hr] at h1; cases h1
    | some s1 => exact ih s1 (fun b hb => h b (List.mem_cons_of_mem a hb))

/-- Claim C37: the collectors of bound variables give what the collectors of all
variables give, for every mark operation, every state of the marks and the list, and
every traversal number: for every rhs value `v` the two results are the same, and they are
a state (the procedures return) when `v` is built from symbol references and function
calls; for every action whose id is a plain symbol reference when it is a make-action,
and for every list of such actions, the two results are the same, and they are a state
when the slots visited are built from symbol references and function calls. -/
theorem bound_variable_collectors_are_all_variable_collectors {σ : Type} (M : Marker σ)
    (preference_is_binary : Nat → Bool) (s : σ) (tc : Nat) (v : rhs_value)
    (actions : List action)
    (hid : ∀ a ∈ actions,
      a.type = action_type.MAKE_ACTION → plain_symbol_reference a.id = true) :
    (add_bound_variables_in_rhs_value M s tc v = add_all_variables_in_rhs_value M s tc v
      ∧ (v.symbolic = true → (add_all_variables_in_rhs_value M s tc v).isSome = true))
    ∧ (∀ a ∈ actions, ∀ s1 : σ,
        add_bound_variables_in_action M preference_is_binary s1 tc a
          = add_all_variables_in_action M preference_is_binary s1 tc a
        ∧ (a.symbolic preference_is_binary = true →
            (add_all_variables_in_action M preference_is_binary s1 tc a).isSome = true))
    ∧ (add_bound_variables_in_action_list M preference_is_binary s tc actions
        = add_all_variables_in_action_list M preference_is_binary s tc actions
      ∧ ((∀ a ∈ actions, a.symbolic preference_is_binary = true) →
          (add_all_variables_in_action_list M preference_is_binary s tc actions).isSome
            = true)) := by
  refine ⟨⟨add_bound_variables_in_rhs_value_eq M tc v s, ?_⟩, ?_, ?_, ?_⟩
  · intro hv
    rw [add_all_variables_in_rhs_value_eq M tc v s hv]; rfl
  · intro a hm s1
    exact ⟨add_bound_variables_in_action_eq M preference_is_binary s1 tc a (hid a hm),
      add_all_variables_in_action_some M preference_is_binary s1 tc a⟩
  · exact add_bound_variables_in_action_list_eq M preference_is_binary tc actions s hid
  · exact add_all_variables_in_action_list_some M preference_is_binary tc actions s

theorem bound_variable_collectors_are_all_variable_collectors_witness :
    (add_bound_variables_in_action_list (list_marker (fun x => if x < 4 then 0 else 1) 0)
        (fun k => decide (5 ≤ k)) marks_2 9 [make_action_with_call, funcall_action_2_0]).map
          marks.var_list = some [0, 3, 1, 2]
      ∧ (add_all_variables_in_action_list (list_marker (fun x => if x < 4 then 0 else 1) 0)
        (fun k => decide (5 ≤ k)) marks_2 9 [make_action_with_call, funcall_action_2_0]).map
          marks.var_list = some [0, 3, 1, 2] := by
  have h := (bound_variable_collectors_are_all_variable_collectors
    (list_marker (fun x => if x < 4 then 0 else 1) 0) (fun k => decide (5 ≤ k)) marks_2 9
    value_f_g [make_action_with_call, funcall_action_2_0] (by decide)).2.2.1
  constructor
  · rw [h]; rfl
  · rfl

/-! ## The shape of the texts marked as floating-point numbers -/

theorem dropWhile_digits_stop (ds r : List Int) (hds : all_digits ds)
    (hr : ∀ c t, r = c :: t → isdigit c = false) : (ds ++ r).dropWhile isdigit = r := by
  rw [dropWhile_digits_append ds r hds]
  cases r with
  | nil => rfl
  | cons c t => rw [List.dropWhile_cons, if_neg (by rw [hr c t rfl]; decide)]

theorem all_digits_of_dropWhile (l : List Int) (h : l.dropWhile isdigit = []) :
    all_digits l := by
  intro c hc
  exact (List.dropWhile_eq_nil_iff.mp h) c hc

theorem head?_all_digits (ds : List Int) (hds : all_digits ds) (x : Int)
    (hx : isdigit x = false) : ds.head? ≠ some x := by
  intro h
  have := hds x (List.mem_of_mem_head? h)
  rw [hx] at this
  cases this

theorem float_after_point_iff (x : List Int) :
    float_after_point x = true
      ↔ ∃ fs ex, x = fs ++ ex ∧ all_digits fs ∧ optional_exponent ex := by
  constructor
  · intro h
    have hsplit := digits_split x
    refine ⟨x.takeWhile isdigit, x.dropWhile isdigit, hsplit.2.2.symm, hsplit.1, ?_⟩
    unfold float_after_point at h
    simp only [] at h
    cases hu : x.dropWhile isdigit with
    | nil => exact Or.inl rfl
    | cons e u4 =>
      rw [hu] at h
      by_cases he : e = 101 ∨ e = 69
      · have he' : (decide ((e :: u4).head? = some 101) || decide ((e :: u4).head? = some 69))
            = true := by simpa using he
        rw [if_pos he', List.tail_cons] at h
        right
        by_cases hs : u4.head? = some 43 ∨ u4.head? = some 45
        · have hs' : (decide (u4.head? = some 43) || decide (u4.head? = some 45)) = true := by
            simpa using hs
          rw [if_pos hs'] at h
          cases u4 with
          | nil => rcases hs with hs | hs <;> cases hs
          | cons c u5 =>
            have hc : c = 43 ∨ c = 45 := by simpa using hs
            refine ⟨e, [c], u5, rfl, he, ?_, all_digits_of_dropWhile u5 (by simpa using h)⟩
            rcases hc with rfl | rfl
            · exact Or.inr (Or.inl rfl)
            · exact Or.inr (Or.inr rfl)
        · have hs' : (decide (u4.head? = some 43) || decide (u4.head? = some 45)) = false := by
            simpa using hs
          rw [hs'] at h
          exact ⟨e, [], u4, rfl, he, Or.inl rfl,
            all_digits_of_dropWhile u4 (by simpa using h)⟩
      · have he' : (decide ((e :: u4).head? = some 101) || decide ((e :: u4).head? = some 69))
            = false := by simpa using he
        rw [he'] at h
        simp at h
  · rintro ⟨fs, ex, rfl, hfs, hex⟩
    unfold float_after_point
    simp only []
    rcases hex with rfl | ⟨e, sg, ds, rfl, he, hsg, hds⟩
    · rw [List.append_nil]
      have e1 : fs.dropWhile isdigit = [] := by
        have := dropWhile_digits_stop fs [] hfs (fun c t h => by cases h)
        simpa using this
      rw [e1]
      rfl
    · have hne : isdigit e = false := by rcases he with rfl | rfl <;> decide
      have e1 : (fs ++ (e :: sg ++ ds)).dropWhile isdigit = e :: (sg ++ ds) := by
        rw [List.cons_append]
        exact dropWhile_digits_stop fs (e :: (sg ++ ds)) hfs
          (fun c t h => by cases h; exact hne)
      rw [e1]
      have he' : (decide ((e :: (sg ++ ds)).head? = some 101)
          || decide ((e :: (sg ++ ds)).head? = some 69)) = true := by simpa using he
      rw [if_pos he', List.tail_cons]
      have hd0 : ds.dropWhile isdigit = [] := by
        have := dropWhile_digits_stop ds [] hds (fun c t h => by cases h)
        simpa using this
      rcases hsg with rfl | rfl | rfl
      · have h43 := head?_all_digits ds hds 43 (by decide)
        have h45 := head?_all_digits ds hds 45 (by decide)
        simp [h43, h45, hd0]
      · simp [hd0]
      · simp [hd0]

theorem float_after_sign_iff (u : List Int) :
    float_after_sign u = true
      ↔ ∃ ds fs ex, u = ds ++ 46 :: fs ++ ex ∧ all_digits ds ∧ all_digits fs
          ∧ optional_exponent ex := by
  constructor
  · intro h
    have hsplit := digits_split u
    unfold float_after_sign at h
    simp only [] at h
    cases hu : u.dropWhile isdigit with
    | nil => rw [hu] at h; simp at h
    | cons c x =>
      rw [hu] at h
      by_cases hc : c = 46
      · subst hc
        have h' : float_after_point x = true := by simpa using h
        obtain ⟨fs, ex, rfl, hfs, hex⟩ := (float_after_point_iff x).mp h'
        have e := hsplit.2.2.symm
        rw [hu] at e
        exact ⟨u.takeWhile isdigit, fs, ex, e.trans (by simp), hsplit.1, hfs, hex⟩
      · rw [if_neg (by simpa using hc)] at h
        cases h
  · rintro ⟨ds, fs, ex, rfl, hds, hfs, hex⟩
    unfold float_after_sign
    simp only []
    have e1 : (ds ++ 46 :: fs ++ ex).dropWhile isdigit = 46 :: (fs ++ ex) := by
      have : ds ++ 46 :: fs ++ ex = ds ++ 46 :: (fs ++ ex) := by simp
      rw [this]
      exact dropWhile_digits_stop ds _ hds (fun c t h => by cases h; decide)
    rw [e1]
    simp only [List.head?_cons, List.tail_cons, if_true]
    exact (float_after_point_iff _).mpr ⟨fs, ex, rfl, hfs, hex⟩

theorem float_text_iff (s : List Int) : float_text s = true ↔ float_shape s := by
  unfold float_text float_shape
  constructor
  · intro h
    by_cases hs : s.head? = some 43 ∨ s.head? = some 45
    · have hs' : (decide (s.head? = some 43) || decide (s.head? = some 45)) = true := by
        simpa using hs
      rw [if_pos hs'] at h
      cases s with
      | nil => rcases hs with hs | hs <;> cases hs
      | cons c u =>
        have hc : c = 43 ∨ c = 45 := by simpa using hs
        obtain ⟨ds, fs, ex, hu, hds, hfs, hex⟩ := (float_after_sign_iff u).mp h
        refine ⟨[c], ds, fs, ex, ?_, ?_, hds, hfs, hex⟩
        · rw [hu]
          simp
        · rcases hc with rfl | rfl
          · exact Or.inr (Or.inl rfl)
          · exact Or.inr (Or.inr rfl)
    · have hs' : (decide (s.head? = some 43) || decide (s.head? = some 45)) = false := by
        simpa using hs
      rw [hs'] at h
      obtain ⟨ds, fs, ex, hu, hds, hfs, hex⟩ := (float_after_sign_iff s).mp h
      exact ⟨[], ds, fs, ex, by rw [hu]; simp, Or.inl rfl, hds, hfs, hex⟩
  · rintro ⟨sg, ds, fs, ex, rfl, hsg, hds, hfs, hex⟩
    rcases hsg with rfl | rfl | rfl
    · have h43 := head?_all_digits ds hds 43 (by decide)
      have h45 := head?_all_digits ds hds 45 (by decide)
      have hs' : (decide (([] ++ ds ++ 46 :: fs ++ ex).head? = some 43)
          || decide (([] ++ ds ++ 46 :: fs ++ ex).head? = some 45)) = false := by
        cases ds with
        | nil => simp
        | cons d ds => simpa using And.intro h43 h45
      rw [hs']
      exact (float_after_sign_iff _).mpr ⟨ds, fs, ex, by simp, hds, hfs, hex⟩
    · have hs' : (decide (([43] ++ ds ++ 46 :: fs ++ ex).head? = some 43)
          || decide (([43] ++ ds ++ 46 :: fs ++ ex).head? = some 45)) = true := by
        simp
      rw [if_pos hs']
      exact (float_after_sign_iff _).mpr ⟨ds, fs, ex, by simp, hds, hfs, hex⟩
    · have hs' : (decide (([45] ++ ds ++ 46 :: fs ++ ex).head? = some 43)
          || decide (([45] ++ ds ++ 46 :: fs ++ ex).head? = some 45)) = true := by
        simp
      rw [if_pos hs']
      exact (float_after_sign_iff _).mpr ⟨ds, fs, ex, by simp, hds, hfs, hex⟩

theorem all_constituent_forall (s : List Int) (h0 : (0 : Int) ∉ s)
    (h : all_constituent s = true) : ∀ c ∈ s, constituent_char (uchar c) = true := by
  induction s with
  | nil => intro c hc; cases hc
  | cons d s ih =>
    have hd : d ≠ 0 := fun e => h0 (e ▸ List.mem_cons_self d s)
    have hs : (0 : Int) ∉ s := fun e => h0 (List.mem_cons_of_mem d e)
    unfold all_constituent at h
    rw [if_neg hd] at h
    by_cases hcd : constituent_char (uchar d) = true
    · simp only [hcd, Bool.not_true, Bool.false_eq_true, if_false] at h
      intro c hc
      rcases List.mem_cons.1 hc with rfl | hc
      · exact hcd
      · exact ih hs h c hc
    · simp [hcd] at h

theorem not_all_constituent_of_period (s : List Int) (h0 : (0 : Int) ∉ s)
    (h : (46 : Int) ∈ s) : all_constituent s = false := by
  by_contra hc
  have := all_constituent_forall s h0 (by simpa using hc) 46 h
  revert this
  decide

theorem not_integer_text_of_period (s : List Int) (h : (46 : Int) ∈ s) :
    integer_text s = false := by
  by_contra hc
  have hi : integer_text s = true := by simpa using hc
  unfold integer_text at hi
  simp only [Bool.and_eq_true, decide_eq_true_eq, List.all_eq_true] at hi
  have h46 : isdigit 46 = false := by decide
  by_cases hs : s.head? = some 43 ∨ s.head? = some 45
  · have hs' : (decide (s.head? = some 43) || decide (s.head? = some 45)) = true := by
      simpa using hs
    rw [if_pos hs'] at hi
    cases s with
    | nil => cases h
    | cons c u =>
      have hc' : c = 43 ∨ c = 45 := by simpa using hs
      rcases List.mem_cons.1 h with e | e
      · omega
      · have := hi.2 46 e
        rw [h46] at this
        cases this
  · have hs' : (decide (s.head? = some 43) || decide (s.head? = some 45)) = false := by
      simpa using hs
    rw [hs'] at hi
    have := hi.2 46 h
    rw [h46] at this
    cases this

/-- Claim C34: for every string `s` without NUL and every length given with it,
`determine_possible_symbol_types_for_string` sets `possible_fc` exactly when `s` is an
optional `+` or `-`, zero or more digits, a `.`, zero or more digits, and an optional
exponent (`e` or `E`, an optional `+` or `-`, zero or more digits) and nothing else;
`possible_fc` and `possible_ic` are not both set, and when `possible_fc` is set none of
`possible_sc`, `possible_var` and `possible_id` is. -/
theorem float_shape_accepted (P : Platform) (s : List Int) (n : Nat)
    (h0 : (0 : Int) ∉ s) :
    ((determine_possible_symbol_types_for_string P s n).possible_fc = true ↔ float_shape s)
      ∧ ¬ ((determine_possible_symbol_types_for_string P s n).possible_fc = true
          ∧ (determine_possible_symbol_types_for_string P s n).possible_ic = true)
      ∧ ((determine_possible_symbol_types_for_string P s n).possible_fc = true →
          (determine_possible_symbol_types_for_string P s n).possible_sc = false
          ∧ (determine_possible_symbol_types_for_string P s n).possible_var = false
          ∧ (determine_possible_symbol_types_for_string P s n).possible_id = false) := by
  have hfc : (determine_possible_symbol_types_for_string P s n).possible_fc = float_text s := by
    rw [possible_fc_eq, possible_number_float_text s h0]
  have hic : (determine_possible_symbol_types_for_string P s n).possible_ic
      = integer_text s := by
    rw [possible_ic_eq, possible_number_integer_text s h0]
  refine ⟨by rw [hfc]; exact float_text_iff s, ?_, ?_⟩
  · rintro ⟨h1, h2⟩
    rw [hfc] at h1
    rw [hic, not_integer_text_of_period s (mem_of_float_text s h1)] at h2
    cases h2
  · intro h1
    rw [hfc] at h1
    have hc := not_all_constituent_of_period s h0 (mem_of_float_text s h1)
    rw [possible_sc_eq, possible_var_eq, possible_id_eq, hc]
    exact ⟨rfl, rfl, rfl⟩

theorem float_shape_accepted_witness :
    (determine_possible_symbol_types_for_string lp64 [45, 49, 50, 46, 53, 101, 43, 51]
        8).possible_fc = true
      ∧ float_shape [45, 49, 50, 46, 53, 101, 43, 51]
      ∧ (determine_possible_symbol_types_for_string lp64 [46] 1).possible_fc = true
      ∧ (determine_possible_symbol_types_for_string lp64 [49, 46, 53, 120] 4).possible_fc
          = false
      ∧ ¬ float_shape [49, 46, 53, 120] := by
  have h1 := (float_shape_accepted lp64 [45, 49, 50, 46, 53, 101, 43, 51] 8 (by decide)).1
  have h2 := (float_shape_accepted lp64 [49, 46, 53, 120] 4 (by decide)).1
  have e1 : (determine_possible_symbol_types_for_string lp64 [45, 49, 50, 46, 53, 101, 43, 51]
      8).possible_fc = true := by decide
  have e2 : (determine_possible_symbol_types_for_string lp64 [49, 46, 53, 120] 4).possible_fc
      = false := by decide
  refine ⟨e1, h1.mp e1, by decide, e2, ?_⟩
  intro h
  rw [h2.mpr h] at e2
  cases e2

/-! ## The texts that are classified -/

theorem read_digits_shape (a : agent) :
    ∃ t, (run read_digits_step pending a).lexeme.string = a.lexeme.string ++ t
      ∧ all_digits t := by
  refine run_induction read_digits_step pending read_digits_step_dec
    (fun s r => ∃ t, r.lexeme.string = s.lexeme.string ++ t ∧ all_digits t) ?_ ?_ a
  · intro s r hs
    rw [read_digits_step_done s r hs]
    exact ⟨[], by simp, fun c hc => by cases hc⟩
  · intro s s1 r hs ⟨t, h1, h2⟩
    unfold read_digits_step at hs
    split at hs
    · rename_i hd
      cases hs
      have hr := isdigit_range _ hd
      have e : to_char s.current_char = s.current_char := to_char_ascii _ (by omega) (by omega)
      refine ⟨s.current_char :: t, ?_, ?_⟩
      · rw [h1, store_and_advance_string, e]; simp
      · intro c hc
        rcases List.mem_cons.1 hc with rfl | hc
        · exact hd
        · exact h2 c hc
    · cases hs

theorem read_rest_of_floating_point_number_shape (a : agent) :
    ∃ tail, (read_rest_of_floating_point_number a).lexeme.string
        = a.lexeme.string ++ to_char a.current_char :: tail
      ∧ float_after_point tail = true := by
  unfold read_rest_of_floating_point_number finish
  simp only []
  obtain ⟨t1, h1, d1⟩ := read_digits_shape (store_and_advance a)
  rw [store_and_advance_string] at h1
  generalize run read_digits_step pending (store_and_advance a) = b at h1 ⊢
  split
  · rename_i he
    have he' : b.current_char = 101 ∨ b.current_char = 69 := by simpa using he
    have hte : to_char b.current_char = b.current_char := by
      rcases he' with e | e <;> rw [e] <;> rfl
    split
    · rename_i hs
      have hs' : (store_and_advance b).current_char = 43
          ∨ (store_and_advance b).current_char = 45 := by simpa using hs
      have hts : to_char (store_and_advance b).current_char
          = (store_and_advance b).current_char := by
        rcases hs' with e | e <;> rw [e] <;> rfl
      obtain ⟨t2, h2, d2⟩ := read_digits_shape (store_and_advance (store_and_advance b))
      refine ⟨t1 ++ b.current_char :: (store_and_advance b).current_char :: t2, ?_, ?_⟩
      · rw [h2, store_and_advance_string, store_and_advance_string, h1, hte, hts]
        simp
      · refine (float_after_point_iff _).mpr ⟨t1, _, rfl, d1, Or.inr
          ⟨b.current_char, [(store_and_advance b).current_char], t2, rfl, he', ?_, d2⟩⟩
        rcases hs' with e | e
        · exact Or.inr (Or.inl (by rw [e]))
        · exact Or.inr (Or.inr (by rw [e]))
    · obtain ⟨t2, h2, d2⟩ := read_digits_shape (store_and_advance b)
      refine ⟨t1 ++ b.current_char :: t2, ?_, ?_⟩
      · rw [h2, store_and_advance_string, h1, hte]
        simp
      · exact (float_after_point_iff _).mpr ⟨t1, _, rfl, d1, Or.inr
          ⟨b.current_char, [], t2, rfl, he', Or.inl rfl, d2⟩⟩
  · refine ⟨t1, by rw [h1]; simp, ?_⟩
    exact (float_after_point_iff _).mpr ⟨t1, [], by simp, d1, Or.inl rfl⟩

theorem not_mem_zero_of_all_digits (l : List Int) (h : all_digits l) : (0 : Int) ∉ l := by
  intro h0
  have := h 0 h0
  revert this
  decide

theorem not_mem_zero_of_optional_sign (l : List Int) (h : optional_sign l) :
    (0 : Int) ∉ l := by
  rcases h with rfl | rfl | rfl <;> decide

theorem not_mem_zero_of_float_shape (s : List Int) (h : float_shape s) : (0 : Int) ∉ s := by
  obtain ⟨sg, ds, fs, ex, rfl, hsg, hds, hfs, hex⟩ := h
  have h1 := not_mem_zero_of_optional_sign sg hsg
  have h2 := not_mem_zero_of_all_digits ds hds
  have h3 := not_mem_zero_of_all_digits fs hfs
  have h4 : (0 : Int) ∉ ex := by
    rcases hex with rfl | ⟨e, sg2, ds2, rfl, he, hsg2, hds2⟩
    · exact List.not_mem_nil _
    · have g1 := not_mem_zero_of_optional_sign sg2 hsg2
      have g2 := not_mem_zero_of_all_digits ds2 hds2
      have g3 : (0 : Int) ≠ e := by rcases he with rfl | rfl <;> decide
      simp [g1, g2, g3]
  simp [h1, h2, h3, h4]

theorem possible_fc_of_float_shape (P : Platform) (s : List Int) (n : Nat)
    (h : float_shape s) :
    (determine_possible_symbol_types_for_string P s n).possible_fc = true := by
  rw [possible_fc_eq, possible_number_float_text s (not_mem_zero_of_float_shape s h)]
  exact (float_text_iff s).mpr h

theorem mem_period_of_float_shape (s : List Int) (h : float_shape s) : (46 : Int) ∈ s := by
  obtain ⟨sg, ds, fs, ex, rfl, -⟩ := h
  simp

theorem period_not_mem_of_constituent (t : List Int)
    (h : ∀ c ∈ t, constituent_char c = true) : (46 : Int) ∉ t := by
  intro h46
  have := h 46 h46
  revert this
  decide

theorem determine_type_not_quoted (P : Platform) (a : agent)
    (h : (determine_possible_symbol_types_for_string P a.lexeme.string
          a.lexeme.length).possible_var = true
      ∨ (determine_possible_symbol_types_for_string P a.lexeme.string
          a.lexeme.length).possible_ic = true
      ∨ (determine_possible_symbol_types_for_string P a.lexeme.string
          a.lexeme.length).possible_fc = true
      ∨ (determine_possible_symbol_types_for_string P a.lexeme.string
          a.lexeme.length).possible_sc = true) :
    (determine_type_of_constituent_string P a).1.lexeme.type ≠ QUOTED_STRING_LEXEME := by
  rw [determine_type_type]
  split_ifs with h1 h2 h3 h4 h5
  · exact fun e => nomatch e
  · exact fun e => nomatch e
  · exact fun e => nomatch e
  · exact fun e => nomatch e
  · exact fun e => nomatch e
  · rcases h with h | h | h | h
    · exact absurd h h1
    · exact absurd h h2
    · exact absurd h h3
    · exact absurd h h5

theorem lexer_routines_number (i : Int) (h : reads_number (lexer_routines i) = true) :
    i = 43 ∨ i = 45 ∨ isdigit i = true := by
  unfold lexer_routines at h
  by_cases h64 : i = 64
  · rw [if_pos h64] at h; exact absurd h (by decide)
  rw [if_neg h64] at h
  by_cases h40 : i = 40
  · rw [if_pos h40] at h; exact absurd h (by decide)
  rw [if_neg h40] at h
  by_cases h41 : i = 41
  · rw [if_pos h41] at h; exact absurd h (by decide)
  rw [if_neg h41] at h
  by_cases h43 : i = 43
  · exact Or.inl h43
  rw [if_neg h43] at h
  by_cases h45 : i = 45
  · exact Or.inr (Or.inl h45)
  rw [if_neg h45] at h
  by_cases h126 : i = 126
  · rw [if_pos h126] at h; exact absurd h (by decide)
  rw [if_neg h126] at h
  by_cases h94 : i = 94
  · rw [if_pos h94] at h; exact absurd h (by decide)
  rw [if_neg h94] at h
  by_cases h123 : i = 123
  · rw [if_pos h123] at h; exact absurd h (by decide)
  rw [if_neg h123] at h
  by_cases h125 : i = 125
  · rw [if_pos h125] at h; exact absurd h (by decide)
  rw [if_neg h125] at h
  by_cases h33 : i = 33
  · rw [if_pos h33] at h; exact absurd h (by decide)
  rw [if_neg h33] at h
  by_cases h62 : i = 62
  · rw [if_pos h62] at h; exact absurd h (by decide)
  rw [if_neg h62] at h
  by_cases h60 : i = 60
  · rw [if_pos h60] at h; exact absurd h (by decide)
  rw [if_neg h60] at h
  by_cases h61 : i = 61
  · rw [if_pos h61] at h; exact absurd h (by decide)
  rw [if_neg h61] at h
  by_cases h38 : i = 38
  · rw [if_pos h38] at h; exact absurd h (by decide)
  rw [if_neg h38] at h
  by_cases h124 : i = 124
  · rw [if_pos h124] at h; exact absurd h (by decide)
  rw [if_neg h124] at h
  by_cases h44 : i = 44
  · rw [if_pos h44] at h; exact absurd h (by decide)
  rw [if_neg h44] at h
  by_cases h46 : i = 46
  · rw [if_pos h46] at h; exact absurd h (by decide)
  rw [if_neg h46] at h
  by_cases h34 : i = 34
  · rw [if_pos h34] at h; exact absurd h (by decide)
  rw [if_neg h34] at h
  by_cases hd : isdigit i = true
  · exact Or.inr (Or.inr hd)
  rw [if_neg hd] at h
  split_ifs at h <;> exact absurd h (by decide)

theorem lexer_routines_quote (i : Int) (h : lexer_routines i = lex_routine.lex_quote) :
    i = 34 := by
  unfold lexer_routines at h
  by_cases h64 : i = 64
  · rw [if_pos h64] at h; cases h
  rw [if_neg h64] at h
  by_cases h40 : i = 40
  · rw [if_pos h40] at h; cases h
  rw [if_neg h40] at h
  by_cases h41 : i = 41
  · rw [if_pos h41] at h; cases h
  rw [if_neg h41] at h
  by_cases h43 : i = 43
  · rw [if_pos h43] at h; cases h
  rw [if_neg h43] at h
  by_cases h45 : i = 45
  · rw [if_pos h45] at h; cases h
  rw [if_neg h45] at h
  by_cases h126 : i = 126
  · rw [if_pos h126] at h; cases h
  rw [if_neg h126] at h
  by_cases h94 : i = 94
  · rw [if_pos h94] at h; cases h
  rw [if_neg h94] at h
  by_cases h123 : i = 123
  · rw [if_pos h123] at h; cases h
  rw [if_neg h123] at h
  by_cases h125 : i = 125
  · rw [if_pos h125] at h; cases h
  rw [if_neg h125] at h
  by_cases h33 : i = 33
  · rw [if_pos h33] at h; cases h
  rw [if_neg h33] at h
  by_cases h62 : i = 62
  · rw [if_pos h62] at h; cases h
  rw [if_neg h62] at h
  by_cases h60 : i = 60
  · rw [if_pos h60] at h; cases h
  rw [if_neg h60] at h
  by_cases h61 : i = 61
  · rw [if_pos h61] at h; cases h
  rw [if_neg h61] at h
  by_cases h38 : i = 38
  · rw [if_pos h38] at h; cases h
  rw [if_neg h38] at h
  by_cases h124 : i = 124
  · rw [if_pos h124] at h; cases h
  rw [if_neg h124] at h
  by_cases h44 : i = 44
  · rw [if_pos h44] at h; cases h
  rw [if_neg h44] at h
  by_cases h46 : i = 46
  · rw [if_pos h46] at h; cases h
  rw [if_neg h46] at h
  by_cases h34 : i = 34
  · exact h34
  rw [if_neg h34] at h
  split_ifs at h

theorem classified_call_routine (P : Platform) (r : lex_routine) (s x : agent)
    (h : classified r s = some x) :
    call_routine P r s = (determine_type_of_constituent_string P x).1 := by
  unfold classified at h
  by_cases hp : r = lex_routine.lex_period
  · subst hp
    rw [if_pos rfl] at h
    simp only [] at h
    simp only [call_routine, lex_period]
    split_ifs at h ⊢ with h1 h2
    · cases h; rfl
    · cases h; rfl
  · rw [if_neg hp] at h
    by_cases hc : r ∈ constituent_routines
    · rw [if_pos hc] at h
      rw [call_routine_constituent P r s hc]
      cases hk : special_kind r (read_phase r s).lexeme.string with
      | some k => rw [hk] at h; cases h
      | none => rw [hk] at h; cases h; rfl
    · rw [if_neg hc] at h
      cases h

theorem classified_none_not_quoted (P : Platform) (r : lex_routine) (s : agent)
    (hr : r = lex_routine.lex_period ∨ r ∈ constituent_routines)
    (h : classified r s = none) :
    (call_routine P r s).lexeme.type ≠ QUOTED_STRING_LEXEME := by
  unfold classified at h
  by_cases hp : r = lex_routine.lex_period
  · subst hp
    rw [if_pos rfl] at h
    simp only [] at h
    simp only [call_routine, lex_period]
    split_ifs at h ⊢ with h1 h2
    · exact fun e => nomatch e
    · exact fun e => nomatch e
  · rw [if_neg hp] at h
    have hc : r ∈ constituent_routines := by
      rcases hr with hr | hr
      · exact absurd hr hp
      · exact hr
    rw [if_pos hc] at h
    rw [call_routine_constituent P r s hc]
    cases hk : special_kind r (read_phase r s).lexeme.string with
    | some k =>
      intro e
      have := special_kind_not_classification r _ k hk
      apply this
      show (set_type (read_phase r s) k).lexeme.type ∈ classification_kinds
      rw [e]
      decide
    | none => rw [hk] at h; cases h

theorem classified_text (s x : agent) (hs0 : s.lexeme.string = [])
    (hE : s.current_char ≠ EOF)
    (hx : classified (lexer_routines (uchar s.current_char)) s = some x) :
    float_shape x.lexeme.string ∨ (∀ c ∈ x.lexeme.string, constituent_char c = true) := by
  unfold classified at hx
  by_cases hp : lexer_routines (uchar s.current_char) = lex_routine.lex_period
  · rw [if_pos hp] at hx
    simp only [finish] at hx
    have hu := lexer_routines_period _ hp
    have htc : to_char s.current_char = 46 := by
      rw [to_char_of_uchar_ascii _ (by rw [hu]; decide), hu]
    have hstr : (store_and_advance s).lexeme.string = [46] := by
      rw [store_and_advance_string, hs0, htc]; rfl
    by_cases hd : isdigit (store_and_advance s).current_char = true
    · rw [if_pos hd] at hx
      split_ifs at hx
      cases hx
      obtain ⟨tail, ht, hf⟩ := read_rest_of_floating_point_number_shape (store_and_advance s)
      obtain ⟨fs, ex, rfl, hfs, hex⟩ := (float_after_point_iff tail).mp hf
      have hr := isdigit_range _ hd
      have e : to_char (store_and_advance s).current_char = (store_and_advance s).current_char :=
        to_char_ascii _ (by omega) (by omega)
      left
      refine ⟨[], [], (store_and_advance s).current_char :: fs, ex, ?_, Or.inl rfl,
        ?_, ?_, hex⟩
      · rw [ht, hstr, e]; simp
      · intro c hc
        cases hc
      · intro c hc
        rcases List.mem_cons.1 hc with rfl | hc
        · exact hd
        · exact hfs c hc
    · rw [if_neg hd] at hx
      have hl : (store_and_advance s).lexeme.length = 1 := by
        rw [lexeme_info.length, hstr]; rfl
      rw [if_pos hl] at hx
      cases hx
  · rw [if_neg hp] at hx
    by_cases hR : lexer_routines (uchar s.current_char) ∈ constituent_routines
    · rw [if_pos hR] at hx
      have hc0 := lexer_routines_constituent _ hR
      obtain ⟨hc0eq, hc0c⟩ := to_char_constituent _ hc0
      obtain ⟨t1, ht1, ht1c, -, -⟩ := read_constituent_string_appends (store_and_advance s)
      rw [← read_constituent_string_next s hE hc0, store_and_advance_string, hs0] at ht1
      simp only [List.nil_append, List.singleton_append] at ht1
      have hall : ∀ c ∈ to_char s.current_char :: t1, constituent_char c = true := by
        intro c hc
        rcases List.mem_cons.1 hc with rfl | hc
        · exact hc0c
        · exact ht1c c hc
      have hxe : x = read_phase (lexer_routines (uchar s.current_char)) s := by
        cases hk : special_kind (lexer_routines (uchar s.current_char))
            (read_phase (lexer_routines (uchar s.current_char)) s).lexeme.string with
        | some k => rw [hk] at hx; cases hx
        | none => rw [hk] at hx; cases hx; rfl
      by_cases hn : reads_number (lexer_routines (uchar s.current_char)) = true
      · by_cases hf : (decide ((read_constituent_string s).current_char = 46)
            && could_be_floating_point (read_constituent_string s).lexeme.string) = true
        · have e : read_phase (lexer_routines (uchar s.current_char)) s
              = read_rest_of_floating_point_number (read_constituent_string s) := by
            simp only [read_phase, read_possible_number, hn, hf, if_true]
          obtain ⟨tail, ht, hfp⟩ :=
            read_rest_of_floating_point_number_shape (read_constituent_string s)
          obtain ⟨fs, ex, rfl, hfs, hex⟩ := (float_after_point_iff tail).mp hfp
          simp only [Bool.and_eq_true, decide_eq_true_eq] at hf
          have h46 : to_char (46 : Int) = 46 := by decide
          rw [hf.1, h46, ht1] at ht
          have hcf := hf.2
          rw [ht1] at hcf
          have hdig : all_digits t1 := by
            intro c hc
            have : t1.all isdigit = true := hcf
            exact List.all_eq_true.mp this c hc
          left
          rw [hxe, e, ht]
          rcases lexer_routines_number _ hn with h43 | h45 | hd
          · rw [hc0eq, h43]
            exact ⟨[43], t1, fs, ex, by simp, Or.inr (Or.inl rfl), hdig, hfs, hex⟩
          · rw [hc0eq, h45]
            exact ⟨[45], t1, fs, ex, by simp, Or.inr (Or.inr rfl), hdig, hfs, hex⟩
          · refine ⟨[], to_char s.current_char :: t1, fs, ex, by simp, Or.inl rfl, ?_,
              hfs, hex⟩
            intro c hc
            rcases List.mem_cons.1 hc with rfl | hc
            · rw [hc0eq]; exact hd
            · exact hdig c hc
        · right
          have e : read_phase (lexer_routines (uchar s.current_char)) s
              = read_constituent_string s := by
            simp only [read_phase, read_possible_number, hn, hf, if_true]
            rfl
          rw [hxe, e, ht1]
          exact hall
      · right
        have e : read_phase (lexer_routines (uchar s.current_char)) s
            = read_constituent_string s := by
          simp only [read_phase, hn]
          rfl
        rw [hxe, e, ht1]
        exact hall
    · rw [if_neg hR] at hx
      cases hx

theorem classified_marked (P : Platform) (s x : agent) (hs0 : s.lexeme.string = [])
    (hE : s.current_char ≠ EOF)
    (hx : classified (lexer_routines (uchar s.current_char)) s = some x) :
    ((determine_possible_symbol_types_for_string P x.lexeme.string
          x.lexeme.length).possible_var = true
      ∨ (determine_possible_symbol_types_for_string P x.lexeme.string
          x.lexeme.length).possible_ic = true
      ∨ (determine_possible_symbol_types_for_string P x.lexeme.string
          x.lexeme.length).possible_fc = true
      ∨ (determine_possible_symbol_types_for_string P x.lexeme.string
          x.lexeme.length).possible_sc = true)
    ∧ ((46 : Int) ∈ x.lexeme.string →
        (determine_possible_symbol_types_for_string P x.lexeme.string
          x.lexeme.length).possible_fc = true)
    ∧ ((46 : Int) ∉ x.lexeme.string → ∀ c ∈ x.lexeme.string, constituent_char c = true) := by
  rcases classified_text s x hs0 hE hx with h | h
  · have hfc := possible_fc_of_float_shape P x.lexeme.string x.lexeme.length h
    exact ⟨Or.inr (Or.inr (Or.inl hfc)), fun _ => hfc,
      fun h46 => absurd (mem_period_of_float_shape _ h) h46⟩
  · have hsc : (determine_possible_symbol_types_for_string P x.lexeme.string
        x.lexeme.length).possible_sc = true := by
      rw [possible_sc_eq]
      exact all_constituent_of_forall _ h
    exact ⟨Or.inr (Or.inr (Or.inr hsc)),
      fun h46 => absurd h46 (period_not_mem_of_constituent _ h), fun _ => h⟩

theorem call_routine_not_quoted (P : Platform) (s : agent) (hs0 : s.lexeme.string = [])
    (hE : s.current_char ≠ EOF)
    (hu : lexer_routines (uchar s.current_char) ≠ lex_routine.lex_unknown)
    (hq : lexer_routines (uchar s.current_char) ≠ lex_routine.lex_quote) :
    (call_routine P (lexer_routines (uchar s.current_char)) s).lexeme.type
      ≠ QUOTED_STRING_LEXEME := by
  by_cases hp : lexer_routines (uchar s.current_char) = lex_routine.lex_period
      ∨ lexer_routines (uchar s.current_char) ∈ constituent_routines
  · cases hcl : classified (lexer_routines (uchar s.current_char)) s with
    | none => exact classified_none_not_quoted P _ s hp hcl
    | some x =>
      rw [classified_call_routine P _ s x hcl]
      exact determine_type_not_quoted P x (classified_marked P s x hs0 hE hcl).1
  · generalize lexer_routines (uchar s.current_char) = r at hu hq hp
    cases r with
    | lex_unknown => exact absurd rfl hu
    | lex_quote => exact absurd rfl hq
    | lex_period => exact absurd (Or.inl rfl) hp
    | lex_at => exact fun e => nomatch e
    | lex_tilde => exact fun e => nomatch e
    | lex_up_arrow => exact fun e => nomatch e
    | lex_lbrace => exact fun e => nomatch e
    | lex_rbrace => exact fun e => nomatch e
    | lex_exclamation_point => exact fun e => nomatch e
    | lex_comma => exact fun e => nomatch e
    | lex_lparen => exact fun e => nomatch e
    | lex_rparen =>
      simp only [call_routine, lex_rparen]
      split_ifs <;> exact fun e => nomatch e
    | lex_vbar =>
      obtain ⟨-, h2⟩ := lex_literal_depth P 124 diagnostic.vbar_without_closing (to_char EOF)
        (get_next_char (set_type s STR_CONSTANT_LEXEME))
      simp only [call_routine, lex_vbar]
      rw [(get_next_char_frame _).1] at h2
      rcases h2 with h2 | h2 <;> rw [h2] <;> exact fun e => nomatch e
    | lex_plus => exact absurd (Or.inr (by decide)) hp
    | lex_minus => exact absurd (Or.inr (by decide)) hp
    | lex_greater => exact absurd (Or.inr (by decide)) hp
    | lex_less => exact absurd (Or.inr (by decide)) hp
    | lex_equal => exact absurd (Or.inr (by decide)) hp
    | lex_ampersand => exact absurd (Or.inr (by decide)) hp
    | lex_digit => exact absurd (Or.inr (by decide)) hp
    | lex_constituent_string => exact absurd (Or.inr (by decide)) hp

/-- Claim C31: whenever a routine called by `get_lexeme`, in a state `s` at the start of a
lexeme, calls `determine_type_of_constituent_string` (on the agent `x` of `classified`),
the text to classify is marked as a possible variable, integer, floating-point number or
symbolic constant; a text with a `.` is marked as a floating-point number and any other
text is made of constituent characters only.  So a lexeme of kind `QUOTED_STRING_LEXEME`
that `get_lexeme` returns was read by `lex_quote`, the routine of the character `"`. -/
theorem quoted_string_fallback_unreachable (P : Platform) (a s x : agent) :
    (s.lexeme.string = [] → s.current_char ≠ EOF →
      classified (lexer_routines (uchar s.current_char)) s = some x →
      call_routine P (lexer_routines (uchar s.current_char)) s
          = (determine_type_of_constituent_string P x).1
        ∧ ((determine_possible_symbol_types_for_string P x.lexeme.string
              x.lexeme.length).possible_var = true
          ∨ (determine_possible_symbol_types_for_string P x.lexeme.string
              x.lexeme.length).possible_ic = true
          ∨ (determine_possible_symbol_types_for_string P x.lexeme.string
              x.lexeme.length).possible_fc = true
          ∨ (determine_possible_symbol_types_for_string P x.lexeme.string
              x.lexeme.length).possible_sc = true)
        ∧ ((46 : Int) ∈ x.lexeme.string →
            (determine_possible_symbol_types_for_string P x.lexeme.string
              x.lexeme.length).possible_fc = true)
        ∧ ((46 : Int) ∉ x.lexeme.string →
            ∀ c ∈ x.lexeme.string, constituent_char c = true)
        ∧ (determine_type_of_constituent_string P x).1.lexeme.type ≠ QUOTED_STRING_LEXEME)
    ∧ ((get_lexeme P a).lexeme.type = QUOTED_STRING_LEXEME →
        (lexeme_start P a).current_char ≠ EOF
        ∧ lexer_routines (uchar (lexeme_start P a).current_char) = lex_routine.lex_quote
        ∧ uchar (lexeme_start P a).current_char = 34) := by
  constructor
  · intro hs0 hE hx
    obtain ⟨m1, m2, m3⟩ := classified_marked P s x hs0 hE hx
    exact ⟨classified_call_routine P _ s x hx, m1, m2, m3, determine_type_not_quoted P x m1⟩
  · intro hty
    obtain ⟨hd, hs0, -⟩ := lexeme_start_spec P a
    generalize lexeme_start P a = s0 at hd hs0 ⊢
    unfold dispatch at hd
    split_ifs at hd with hE hU
    · have e := loop_step.done.inj hd
      rw [← e] at hty
      have hq : lexer_routines (uchar s0.current_char) = lex_routine.lex_quote := by
        by_contra hq
        exact call_routine_not_quoted P s0 hs0 hE hU hq hty
      exact ⟨hE, hq, lexer_routines_quote _ hq⟩
    · have e := loop_step.done.inj hd
      rw [← e] at hty
      exact absurd hty (fun e => nomatch e)

theorem quoted_string_fallback_unreachable_witness :
    ((determine_possible_symbol_types_for_string lp64
        (read_possible_number (next_from agent0 [49, 46, 53, 41])).lexeme.string
        (read_possible_number (next_from agent0 [49, 46, 53, 41])).lexeme.length).possible_fc
        = true)
      ∧ lexer_routines (uchar (lexeme_start lp64
          (setLexerInput agent0 (some [32, 34, 97, 34]))).current_char)
        = lex_routine.lex_quote :=
  ⟨((quoted_string_fallback_unreachable lp64 agent0 (next_from agent0 [49, 46, 53, 41])
      (read_possible_number (next_from agent0 [49, 46, 53, 41]))).1 (by decide) (by decide)
      (by decide)).2.2.1 (by decide),
    ((quoted_string_fallback_unreachable lp64
      (setLexerInput agent0 (some [32, 34, 97, 34])) agent0 agent0).2 (by decide)).2.1⟩

/-! ## The flag `rereadable` for a string that no lexeme was read from -/

theorem lexer_routines_of_constituent (c : Int) (hc : constituent_char c = true)
    (h64 : c ≠ 64) : lexer_routines c ∈ constituent_routines := by
  have hrange := constituent_char_range c hc
  obtain ⟨-, -, -, h46, h124, h34, -, -⟩ := constituent_not_special c hc
  have e40 : c ≠ 40 := by rintro rfl; revert hc; decide
  have e41 : c ≠ 41 := by rintro rfl; revert hc; decide
  have e126 : c ≠ 126 := by omega
  have e94 : c ≠ 94 := by rintro rfl; revert hc; decide
  have e123 : c ≠ 123 := by omega
  have e125 : c ≠ 125 := by omega
  have e33 : c ≠ 33 := by omega
  have e44 : c ≠ 44 := by rintro rfl; revert hc; decide
  simp only [lexer_routines, h64, e40, e41, e126, e94, e123, e125, e33, h124, e44, h46, h34,
    if_false, hc, if_true]
  split_ifs <;> decide

theorem get_lexeme_constituent_text (P : Platform) (a : agent) (c : Int) (t : List Int)
    (hc : ∀ d ∈ c :: t, constituent_char d = true) (h64 : c ≠ 64) :
    ∃ y : agent, get_lexeme P (setLexerInput a (some (c :: t))) = next_from y []
      ∧ y.lexeme.string = c :: t := by
  have hc0 := hc c (List.mem_cons_self c t)
  have hR := lexer_routines_of_constituent c hc0 h64
  rw [get_lexeme_attach, get_lexeme_at_constituent P a c t hc0 h64,
    call_routine_constituent P _ _ hR, read_phase_at_end _ (start_lexeme a) (c :: t) hc]
  have e : (start_lexeme a).lexeme.string ++ c :: t = c :: t := rfl
  rw [e]
  cases special_kind (lexer_routines c)
      (next_from (with_text (start_lexeme a) (c :: t)) []).lexeme.string with
  | some k =>
    exact ⟨set_type (with_text (start_lexeme a) (c :: t)) k, set_type_next_from _ _ _, rfl⟩
  | none =>
    exact ⟨(determine_type_of_constituent_string P (with_text (start_lexeme a) (c :: t))).1,
      determine_type_next_from P _ _, determine_type_string P _⟩

theorem byte_of_constituent (c : Int) (hb : -128 ≤ c ∧ c < 256)
    (h : constituent_char (uchar c) = true) : constituent_char c = true := by
  have hr := constituent_char_range _ h
  have e : uchar c = c := by
    unfold uchar at hr ⊢
    omega
  rw [← e]
  exact h

/-- What holds of the flag `rereadable`: a string of bytes without NUL for which it is
set, that is not empty and does not begin with `@`, is read by `get_lexeme`, when it is
the whole text attached, as one lexeme whose text is the string, and the next call gives
an `EOF_LEXEME`. -/
theorem rereadable_text_is_one_lexeme (P : Platform) (a : agent) (c : Int) (t : List Int)
    (n : Nat) (hb : ∀ d ∈ c :: t, d ≠ 0 ∧ -128 ≤ d ∧ d < 256) (h64 : c ≠ 64)
    (hre : (determine_possible_symbol_types_for_string P (c :: t) n).rereadable = true) :
    (get_lexeme P (setLexerInput a (some (c :: t)))).lexeme.string = c :: t
      ∧ (get_lexeme P (get_lexeme P (setLexerInput a (some (c :: t))))).lexeme.type
          = EOF_LEXEME := by
  have h0 : (0 : Int) ∉ c :: t := fun h => (hb 0 h).1 rfl
  have hall := all_constituent_forall (c :: t) h0 (rereadable_all_constituent P _ n hre)
  have hc : ∀ d ∈ c :: t, constituent_char d = true :=
    fun d hd => byte_of_constituent d (hb d hd).2 (hall d hd)
  obtain ⟨y, hy, hs⟩ := get_lexeme_constituent_text P a c t hc h64
  rw [hy]
  constructor
  · rw [next_from_lexeme, hs]
  · exact (get_lexeme_after_end P _ (Or.inl (next_from_nil_current_char y))).1

/-- Claim C32, the divergence: on every platform the flag `rereadable` is set for the
string made of `@` and as many letters `a` as the longest special lexeme is long, and for
the empty string; but `get_lexeme`, with the first string as the whole text attached,
returns an `AT_LEXEME` whose text is `@` alone, the letters being left for the next
lexeme, and with the empty string it returns an `EOF_LEXEME` whose text is not empty. -/
theorem rereadable_text_read_as_two_lexemes (P : Platform) (a : agent) :
    (determine_possible_symbol_types_for_string P
        (64 :: List.replicate P.LENGTH_OF_LONGEST_SPECIAL_LEXEME 97)
        (P.LENGTH_OF_LONGEST_SPECIAL_LEXEME + 1)).rereadable = true
      ∧ (get_lexeme P (setLexerInput a (some
          (64 :: List.replicate P.LENGTH_OF_LONGEST_SPECIAL_LEXEME 97)))).lexeme.type
          = AT_LEXEME
      ∧ (get_lexeme P (setLexerInput a (some
          (64 :: List.replicate P.LENGTH_OF_LONGEST_SPECIAL_LEXEME 97)))).lexeme.string = [64]
      ∧ (get_lexeme P (setLexerInput a (some
          (64 :: List.replicate P.LENGTH_OF_LONGEST_SPECIAL_LEXEME 97)))).lexer_input_string
          = (next_from a (List.replicate P.LENGTH_OF_LONGEST_SPECIAL_LEXEME 97)
              ).lexer_input_string
      ∧ (determine_possible_symbol_types_for_string P [] 0).rereadable = true
      ∧ (get_lexeme P (setLexerInput a (some []))).lexeme.type = EOF_LEXEME
      ∧ (get_lexeme P (setLexerInput a (some []))).lexeme.string ≠ []
      ∧ (determine_possible_symbol_types_for_string lp64 [64, 97, 98, 99] 4).rereadable = true
      ∧ (get_lexeme lp64 (get_lexeme lp64
          (setLexerInput agent0 (some [64, 97, 98, 99])))).lexeme.string = [97, 98, 99] := by
  have hall : all_constituent (64 :: List.replicate P.LENGTH_OF_LONGEST_SPECIAL_LEXEME 97)
      = true := by
    apply all_constituent_of_forall
    intro c hc
    rcases List.mem_cons.1 hc with rfl | hc
    · decide
    · rw [List.eq_of_mem_replicate hc]
      decide
  have h1 : get_lexeme P (setLexerInput a (some
      (64 :: List.replicate P.LENGTH_OF_LONGEST_SPECIAL_LEXEME 97)))
      = next_from (set_type (with_text (start_lexeme a) [64]) AT_LEXEME)
          (List.replicate P.LENGTH_OF_LONGEST_SPECIAL_LEXEME 97) := by
    rw [get_lexeme_attach, get_lexeme_at_sign]
  have h2 : get_lexeme P (setLexerInput a (some []))
      = next_from (set_type (with_text (start_lexeme a) [to_char EOF]) EOF_LEXEME) [] := by
    rw [get_lexeme_attach, get_lexeme_eof]
  refine ⟨?_, ?_, ?_, ?_, ?_, ?_, ?_, by decide, by decide⟩
  · unfold determine_possible_symbol_types_for_string
    simp [hall]
  · rw [h1, next_from_lexeme]; rfl
  · rw [h1, next_from_lexeme]; rfl
  · rw [h1]
    obtain ⟨i, c, h⟩ := next_from_shape (List.replicate P.LENGTH_OF_LONGEST_SPECIAL_LEXEME 97)
    rw [h, h]
  · unfold determine_possible_symbol_types_for_string
    simp [all_constituent, all_alphanum]
  · rw [h2, next_from_lexeme]; rfl
  · rw [h2, next_from_lexeme]
    exact fun e => nomatch e

/-! ## The activations of `get_lexeme` that `lex_unknown` nests -/

theorem get_lexeme_frames_step_dec (P : Platform) (s s1 : agent × Nat)
    (h : get_lexeme_frames_step P s = loop_step.next s1) : pending s1.1 < pending s.1 := by
  unfold get_lexeme_frames_step at h
  cases hg : get_lexeme_step P s.1 with
  | next t =>
    rw [hg] at h
    cases h
    exact get_lexeme_step_dec P s.1 t hg
  | done r =>
    rw [hg] at h
    cases h

theorem get_lexeme_frames_next (P : Platform) (a s1 : agent) (k : Nat)
    (h : get_lexeme_step P a = loop_step.next s1) :
    run (get_lexeme_frames_step P) (fun s => pending s.1) (a, k)
      = run (get_lexeme_frames_step P) (fun s => pending s.1) (s1, k + 1) := by
  apply run_next _ _ (get_lexeme_frames_step_dec P)
  simp only [get_lexeme_frames_step, h]

theorem get_lexeme_frames_done (P : Platform) (a r : agent) (k : Nat)
    (h : get_lexeme_step P a = loop_step.done r) :
    run (get_lexeme_frames_step P) (fun s => pending s.1) (a, k) = (r, k) := by
  apply run_done
  simp only [get_lexeme_frames_step, h]

theorem get_lexeme_frames_shift (P : Platform) :
    ∀ (n : Nat) (a : agent) (k : Nat), pending a ≤ n →
      (run (get_lexeme_frames_step P) (fun s => pending s.1) (a, k + 1)).2
        = (run (get_lexeme_frames_step P) (fun s => pending s.1) (a, k)).2 + 1 := by
  intro n
  induction n using Nat.strong_induction_on with
  | _ n ih =>
    intro a k hn
    cases hg : get_lexeme_step P a with
    | done r =>
      rw [get_lexeme_frames_done P a r _ hg, get_lexeme_frames_done P a r _ hg]
    | next s1 =>
      rw [get_lexeme_frames_next P a s1 _ hg, get_lexeme_frames_next P a s1 _ hg]
      have hlt := get_lexeme_step_dec P a s1 hg
      exact ih (pending s1) (by omega) s1 (k + 1) (le_refl _)

theorem get_lexeme_frames_congr (P : Platform) (s t : agent)
    (h : get_lexeme_step P s = get_lexeme_step P t) :
    get_lexeme_frames P s = get_lexeme_frames P t := by
  unfold get_lexeme_frames
  cases hg : get_lexeme_step P s with
  | done r =>
    rw [get_lexeme_frames_done P s r _ hg, get_lexeme_frames_done P t r _ (h ▸ hg)]
  | next s1 =>
    rw [get_lexeme_frames_next P s s1 _ hg, get_lexeme_frames_next P t s1 _ (h ▸ hg)]

theorem get_lexeme_frames_attach (P : Platform) (a : agent) (l : List Int) :
    get_lexeme_frames P (setLexerInput a (some l)) = get_lexeme_frames P (next_from a l) := by
  apply get_lexeme_frames_congr
  rw [get_lexeme_step_attach, get_lexeme_step_next_from]

theorem get_lexeme_frames_unknown (P : Platform) (a : agent) (u : Int) (l : List Int)
    (h : unknown_byte u = true) :
    get_lexeme_frames P (next_from a (u :: l)) = get_lexeme_frames P (next_from a l) + 1 := by
  obtain ⟨h0, h1, hw, h59, h35, hr⟩ := unknown_byte_spec u h
  have hu := uchar_ascii u (le_of_lt h0) h1
  have hcur := next_from_current_char (start_lexeme a) u l h0 h1
  have hE : u ≠ EOF := by simp [EOF]; omega
  have hstep : get_lexeme_step P (next_from a (u :: l))
      = loop_step.next (next_from (start_lexeme a) l) := by
    rw [get_lexeme_step_next_from, consume_whitespace_and_comments_stop _
      (by rw [hcur, hu]; exact hw) (by rw [hcur]; exact h59) (by rw [hcur]; exact h35)]
    simp only [dispatch, hcur, hu, hr, call_routine, if_true, ne_eq, hE, not_false_eq_true]
    rw [get_next_char_next_from _ u l h0 h1]
  have hc : get_lexeme_frames P (next_from (start_lexeme a) l)
      = get_lexeme_frames P (next_from a l) := by
    apply get_lexeme_frames_congr
    rw [get_lexeme_step_next_from, get_lexeme_step_next_from, start_lexeme_idem]
  rw [← hc]
  unfold get_lexeme_frames
  rw [get_lexeme_frames_next P _ _ _ hstep]
  exact get_lexeme_frames_shift P _ _ 1 (le_refl _)

theorem get_lexeme_frames_unknown_bytes (P : Platform) (a : agent) (us rest : List Int)
    (h : ∀ u ∈ us, unknown_byte u = true) :
    get_lexeme_frames P (next_from a (us ++ rest))
      = us.length + get_lexeme_frames P (next_from a rest) := by
  induction us with
  | nil => simp
  | cons u us ih =>
    rw [List.cons_append, get_lexeme_frames_unknown P a u _ (h u (List.mem_cons_self u us)),
      ih (fun v hv => h v (List.mem_cons_of_mem u hv)), List.length_cons]
    omega

theorem get_lexeme_frames_at_end (P : Platform) (a : agent) :
    get_lexeme_frames P (next_from a []) = 1 := by
  have hstep : get_lexeme_step P (next_from a [])
      = loop_step.done (lex_eof (next_from (start_lexeme a) [])) := by
    rw [get_lexeme_step_next_from,
      consume_whitespace_and_comments_EOF _ (by rw [next_from_nil])]
    simp [dispatch, next_from_nil]
  unfold get_lexeme_frames
  rw [get_lexeme_frames_done P _ _ _ hstep]

/-- Claim C3, the divergence: every unknown byte that `get_lexeme` skips costs one nested
activation of `get_lexeme`, started by `lex_unknown` before it returns: on the text `us`
followed by `rest`, with `us` made of unknown bytes, the number of activations on the
stack is the number of bytes of `us` more than on `rest`.  So the bytes are skipped with
the result of `rest` only as long as the stack holds one frame for each of them. -/
theorem unknown_bytes_nest_get_lexeme (P : Platform) (a : agent) (us rest : List Int)
    (h : ∀ u ∈ us, unknown_byte u = true) :
    get_lexeme_frames P (setLexerInput a (some (us ++ rest)))
      = us.length + get_lexeme_frames P (setLexerInput a (some rest)) := by
  rw [get_lexeme_frames_attach, get_lexeme_frames_attach,
    get_lexeme_frames_unknown_bytes P a us rest h]

theorem unknown_bytes_nest_get_lexeme_witness :
    get_lexeme_frames lp64 (setLexerInput agent0 (some ([39, 96, 7] ++ [40, 97, 41])))
      = [39, 96, (7 : Int)].length
        + get_lexeme_frames lp64 (setLexerInput agent0 (some [40, 97, 41])) :=
  unknown_bytes_nest_get_lexeme lp64 agent0 [39, 96, 7] [40, 97, 41] (by decide)

/-- Claim C10, the divergence: on a text of `n` unknown bytes (the byte 96) the call of
`get_lexeme` has `n + 1` activations of `get_lexeme` on the stack before the innermost
one returns, for every `n`, every platform and every lexer state: the depth of the
recursion through `lex_unknown` grows with the input without a bound. -/
theorem get_lexeme_recursion_depth (P : Platform) (a : agent) (n : Nat) :
    get_lexeme_frames P (setLexerInput a (some (List.replicate n 96))) = n + 1 := by
  have h := get_lexeme_frames_unknown_bytes P a (List.replicate n 96) []
    (fun u hu => by rw [List.eq_of_mem_replicate hu]; decide)
  rw [List.append_nil, List.length_replicate, get_lexeme_frames_at_end] at h
  rw [get_lexeme_frames_attach, h]

/-! ## The rereadable round trip within the buffer of the lexeme -/

/-- Claim C4: the rereadable round trip.  Let `get_lexeme` produce a lexeme through
`determine_type_of_constituent_string`: its kind is one of the kinds that routine assigns
and the routine called at the start of the lexeme is not `lex_vbar` or `lex_quote`, the
only other places where one of these kinds is assigned; and let its text be held by the
buffer `lexeme.string`, its length being at most `MAX_LEXEME_LENGTH`.  If
`determine_possible_symbol_types_for_string` marks the text of the lexeme rereadable, then
attaching that text alone and calling `get_lexeme` once, in an agent `b` with the same
`allow_ids`, yields a lexeme of the same kind whose text is exactly that text, again
within the buffer. -/
theorem rereadable_round_trip (P : Platform) (a b : agent)
    (hkind : (get_lexeme P a).lexeme.type ∈ classification_kinds)
    (hvbar : lexer_routines (uchar (lexeme_start P a).current_char) ≠ lex_routine.lex_vbar)
    (hquote : lexer_routines (uchar (lexeme_start P a).current_char) ≠ lex_routine.lex_quote)
    (hlen : (get_lexeme P a).lexeme.length ≤ P.MAX_LEXEME_LENGTH)
    (hre : (determine_possible_symbol_types_for_string P (get_lexeme P a).lexeme.string
      (get_lexeme P a).lexeme.length).rereadable = true)
    (hids : b.allow_ids = a.allow_ids) :
    (get_lexeme P (setLexerInput b (some (get_lexeme P a).lexeme.string))).lexeme.type
        = (get_lexeme P a).lexeme.type
    ∧ (get_lexeme P (setLexerInput b (some (get_lexeme P a).lexeme.string))).lexeme.string
        = (get_lexeme P a).lexeme.string
    ∧ (get_lexeme P (setLexerInput b (some (get_lexeme P a).lexeme.string))).lexeme.length
        ≤ P.MAX_LEXEME_LENGTH := by
  obtain ⟨h1, h2⟩ := rereadable_text_reread P a b hkind hvbar hquote hre hids
  refine ⟨h1, h2, ?_⟩
  rw [lexeme_info.length, h2]
  exact hlen

theorem rereadable_round_trip_witness :
    (get_lexeme lp64 (setLexerInput agent0 (some
        (get_lexeme lp64 (setLexerInput agent0
          (some [32, 43, 49, 50, 51, 52, 41]))).lexeme.string))).lexeme.type
      = (get_lexeme lp64 (setLexerInput agent0 (some [32, 43, 49, 50, 51, 52, 41]))).lexeme.type
    ∧ (get_lexeme lp64 (setLexerInput agent0 (some
        (get_lexeme lp64 (setLexerInput agent0
          (some [32, 43, 49, 50, 51, 52, 41]))).lexeme.string))).lexeme.string
      = (get_lexeme lp64 (setLexerInput agent0
          (some [32, 43, 49, 50, 51, 52, 41]))).lexeme.string
    ∧ (get_lexeme lp64 (setLexerInput agent0 (some
        (get_lexeme lp64 (setLexerInput agent0
          (some [32, 43, 49, 50, 51, 52, 41]))).lexeme.string))).lexeme.length
      ≤ lp64.MAX_LEXEME_LENGTH :=
  rereadable_round_trip lp64 (setLexerInput agent0 (some [32, 43, 49, 50, 51, 52, 41])) agent0
    (by decide) (by decide) (by decide) (by decide) (by decide) rfl

/-! ## A function-call action as first argument -/

theorem rhs_value_to_symbol_of_read (v : rhs_value) (x : Option Symbol)
    (h : rhs_value_to_symbol_read v = some x) : rhs_value_to_symbol v = x := by
  cases v with
  | reteloc f l => cases h
  | unboundvar i => cases h
  | funcall f rest => cases h
  | symbol r =>
    cases r with
    | none => cases h
    | some r =>
      simp only [rhs_value_to_symbol_read, Option.some.injEq] at h
      exact h

theorem actions_are_equal_with_bindings_of_read (M : Matcher) (a1 a2 : action)
    (bindings : bindings_list) (r : Bool × bindings_list)
    (h : actions_are_equal_with_bindings_read M a1 a2 bindings = some r) :
    actions_are_equal_with_bindings M a1 a2 bindings = r := by
  unfold actions_are_equal_with_bindings_read at h
  unfold actions_are_equal_with_bindings
  by_cases ht : a2.type = action_type.FUNCALL_ACTION
  · rw [if_pos ht] at h ⊢
    exact Option.some.inj h
  rw [if_neg ht] at h ⊢
  by_cases hp : a1.preference_type ≠ a2.preference_type
  · rw [if_pos hp] at h ⊢
    exact Option.some.inj h
  rw [if_neg hp] at h ⊢
  cases h1 : rhs_value_to_symbol_read a1.id with
  | none => simp [h1] at h
  | some id1 =>
    cases h2 : rhs_value_to_symbol_read a2.id with
    | none => simp [h1, h2] at h
    | some id2 =>
      rw [rhs_value_to_symbol_of_read _ _ h1, rhs_value_to_symbol_of_read _ _ h2]
      simp only [h1, h2] at h
      by_cases hr : (M.symbols_are_equal_with_bindings id1 id2 bindings).1 = true
      · simp only [hr, Bool.not_true, Bool.false_eq_true, if_false] at h ⊢
        by_cases hs : (rhs_value_is_symbol a1.attr && rhs_value_is_symbol a2.attr) = true
        · simp only [hs, if_true] at h ⊢
          cases h3 : rhs_value_to_symbol_read a1.attr with
          | none => simp [h3] at h
          | some s1 =>
            cases h4 : rhs_value_to_symbol_read a2.attr with
            | none => simp [h3, h4] at h
            | some s2 =>
              rw [rhs_value_to_symbol_of_read _ _ h3, rhs_value_to_symbol_of_read _ _ h4]
              simp only [h3, h4] at h
              by_cases hr2 : (M.symbols_are_equal_with_bindings s1 s2
                  (M.symbols_are_equal_with_bindings id1 id2 bindings).2).1 = true
              · simp only [hr2, Bool.not_true, Bool.false_eq_true, if_false] at h ⊢
                by_cases hv : (rhs_value_is_symbol a1.value && rhs_value_is_symbol a2.value)
                    = true
                · simp only [hv, if_true] at h ⊢
                  cases h5 : rhs_value_to_symbol_read a1.value with
                  | none => simp [h5] at h
                  | some v1 =>
                    cases h6 : rhs_value_to_symbol_read a2.value with
                    | none => simp [h5, h6] at h
                    | some v2 =>
                      rw [rhs_value_to_symbol_of_read _ _ h5,
                        rhs_value_to_symbol_of_read _ _ h6]
                      simp only [h5, h6] at h
                      split_ifs at h ⊢ <;> exact Option.some.inj h
                · simp only [hv, Bool.false_eq_true, if_false] at h ⊢
                  split_ifs at h ⊢ <;> exact Option.some.inj h
              · simp only [hr2, Bool.not_false, if_true] at h ⊢
                exact Option.some.inj h
        · simp only [hs, Bool.false_eq_true, if_false, Bool.not_true] at h ⊢
          by_cases hv : (rhs_value_is_symbol a1.value && rhs_value_is_symbol a2.value)
              = true
          · simp only [hv, if_true] at h ⊢
            cases h5 : rhs_value_to_symbol_read a1.value with
            | none => simp [h5] at h
            | some v1 =>
              cases h6 : rhs_value_to_symbol_read a2.value with
              | none => simp [h5, h6] at h
              | some v2 =>
                rw [rhs_value_to_symbol_of_read _ _ h5,
                  rhs_value_to_symbol_of_read _ _ h6]
                simp only [h5, h6] at h
                split_ifs at h ⊢ <;> exact Option.some.inj h
          · simp only [hv, Bool.false_eq_true, if_false] at h ⊢
            split_ifs at h ⊢ <;> exact Option.some.inj h
      · simp only [hr, Bool.not_false, if_true] at h ⊢
        exact Option.some.inj h

/-- Claim C14, the divergence: `actions_are_equal_with_bindings` does not read the type of
its first argument, so its result is the same when that type is changed.  With a
function-call action first, whose id is null, and the make-action `(1 ^2 3)` of the same
preference kind second, the function reads the id of the first action through the null
pointer and has no result, where the claim says that it returns false; and the action of
type `FUNCALL_ACTION` whose slots are those of `(1 ^2 3)` is found equal to `(1 ^2 3)`. -/
theorem funcall_action_first_is_compared (M : Matcher) (bindings : bindings_list) :
    (∀ (a1 a2 : action) (t : action_type),
        actions_are_equal_with_bindings M { a1 with type := t } a2 bindings
          = actions_are_equal_with_bindings M a1 a2 bindings)
      ∧ funcall_action_9.type = action_type.FUNCALL_ACTION
      ∧ actions_are_equal_with_bindings_read M funcall_action_9 make_action_1_2_3 bindings
          = none
      ∧ actions_are_equal_with_bindings_read same_symbol_matcher
          { make_action_1_2_3 with type := action_type.FUNCALL_ACTION } make_action_1_2_3 []
          = some (true, [])
      ∧ actions_are_equal_with_bindings same_symbol_matcher
          { make_action_1_2_3 with type := action_type.FUNCALL_ACTION } make_action_1_2_3 []
          = (true, []) :=
  ⟨fun _ _ _ => rfl, rfl, rfl, by decide, by decide⟩

/-! ## Texts longer than the buffer of the lexeme -/

/-- Claim C22, the divergence: the text `#`, the byte 255, a newline and then `(x` holds a
complete line comment before `(x`, but `get_lexeme` returns an `EOF_LEXEME` and leaves the
newline and `(x` unread, where on `(x` alone it returns an `L_PAREN_LEXEME`:
`get_next_char` puts the `char` 255 into the `int` `current_char` as -1, which is `EOF`,
and from then on delivers nothing. -/
theorem comment_with_byte_255_ends_the_input :
    (get_lexeme lp64 (setLexerInput agent0
          (some ([35, 255, 10] ++ [40, 120])))).lexeme.type = EOF_LEXEME
      ∧ (get_lexeme lp64 (setLexerInput agent0
          (some ([35, 255, 10] ++ [40, 120])))).lexer_input_string = some [10, 40, 120]
      ∧ (get_lexeme lp64 (setLexerInput agent0 (some [40, 120]))).lexeme.type
          = L_PAREN_LEXEME := by
  decide

end Soar
